import Mathlib

/-! VSL compiler back half: tree simplification, symbol resolution and code
generation

A shallow embedding of `src/tree.c` (SimplifyPass), `src/symbols.c`
(Resolver) and `src/generator.c` (CodeGen) together with theorems about them.

Conventions of the embedding

* A `node_t` is a value `Node.mk type data children symbol`.  A child slot
  always holds a node, as in the data model of the specification (an ordered
  sequence of child nodes): the tree type has no null child, so the guard
  `if (node == NULL) return NULL;` at the head of `simplify_tree` has no
  counterpart.
* `node->data` is a `void *`; it is `Data.null`, a C string `Data.str`, or a
  pointer to a 64-bit integer `Data.num`.  Reading a payload at the wrong
  shape (a string where an `int64_t` is read, and so on) is a failure.
* Functions that can abort (a failing `assert`, an out-of-bounds child read,
  a division trap) return `Option`; `none` is the abort.
* `int64_t` values are `Int`s reduced by `wrap64`.
* The process-wide state (`root`, `global_symbols`, `string_list`) is passed
  explicitly; the string list is empty when `create_tables` starts.  After
  `create_tables` the bound function bodies are read through the `node` of the
  function symbols, as `bind` and the code generator do.
* The generator functions return a `gen_result`: the state after the call, or
  the reason of the stop (`exit` after a message, a failing `assert`, a read
  through a null or out-of-bounds pointer) with the state at that moment.
* `generate_expression` loads `expression->children[1]` before it knows
  whether the expression has a second child.  A child pointer that is loaded
  but never used has no effect on the output; the two loads are listed by
  `expression_operand_loads`, and `generate_operation` is the code that
  follows them.  Using a child that does not exist is
  `gen_error.invalid_read`, raised where the code uses it.
* Quantities that the generator holds in an `int` or a `size_t` (counters,
  parameter counts, frame offsets) are unbounded integers: the model is that of
  programs whose counts stay far below `2^31`.  The byte count of a global
  array is a product of `int64_t` values and wraps.
* A bound identifier holds a copy of its symbol; the entry of the global table
  that a function symbol belongs to is found by the symbol's sequence number,
  which for a global symbol is its position in the table.
-/

namespace Vslc

/-! ## Data model -/

/-- Modelled from the spec: the node kinds (`node_type_t`), whose declaration is
not in the sources; the closed set of kinds of the specification, under the
names the sources use. -/
inductive NodeType where
  | PROGRAM | GLOBAL_LIST | GLOBAL | FUNCTION | PARAMETER_LIST
  | DECLARATION_LIST | DECLARATION | ARRAY_DECLARATION | VARIABLE_LIST
  | STATEMENT_LIST | STATEMENT | BLOCK | PRINT_LIST | PRINT_ITEM
  | ARGUMENT_LIST | EXPRESSION_LIST
  | ASSIGNMENT_STATEMENT | PRINT_STATEMENT | RETURN_STATEMENT | IF_STATEMENT
  | WHILE_STATEMENT | FOR_STATEMENT | BREAK_STATEMENT
  | EXPRESSION | RELATION | ARRAY_INDEXING
  | IDENTIFIER_DATA | NUMBER_DATA | STRING_DATA
  deriving DecidableEq, Repr

/-- Payload of a node (`void *data`). -/
inductive Data where
  | null
  | str (s : String)
  | num (v : Int)
  deriving DecidableEq, Repr

/-- Modelled from the spec: the symbol kinds, whose declaration is not in the
sources, under the names the sources use. -/
inductive SymbolType where
  | SYMBOL_GLOBAL_VAR | SYMBOL_GLOBAL_ARRAY | SYMBOL_FUNCTION
  | SYMBOL_PARAMETER | SYMBOL_LOCAL_VAR
  deriving DecidableEq, Repr

/-- Modelled from the spec: the plain fields of a `symbol_t` (its declaration is
not in the sources): name, kind and sequence number, which is what a node's
`symbol` link gives access to.  The back-reference `node` and the handle
`function_symtable` are kept in the entries of the global table
(`global_symbol_t`), the only symbols for which they are read. -/
structure Symbol where
  name : String
  type : SymbolType
  sequence_number : Nat
  deriving DecidableEq, Repr

/-- Modelled from the spec: a tree vertex (`node_t`, whose declaration is not in
the sources), with the fields the sources access: kind, payload, children,
resolved symbol. -/
inductive Node where
  | mk (type : NodeType) (data : Data) (children : List Node) (symbol : Option Symbol)

namespace Node

/-- Field `node->type`. -/
def type : Node → NodeType
  | mk t _ _ _ => t

/-- Field `node->data`. -/
def data : Node → Data
  | mk _ d _ _ => d

/-- Field `node->children` (with `n_children` its length). -/
def children : Node → List Node
  | mk _ _ cs _ => cs

/-- Field `node->symbol`. -/
def symbol : Node → Option Symbol
  | mk _ _ _ s => s

end Node

mutual
/-- Decision procedure for equality of trees. -/
def Node.decEq : (a b : Node) → Decidable (a = b)
  | .mk t d cs s, .mk t' d' cs' s' =>
    if ht : t = t' then
      if hd : d = d' then
        if hs : s = s' then
          match Node.decEqList cs cs' with
          | isTrue hc => isTrue (by rw [ht, hd, hs, hc])
          | isFalse hc => isFalse (fun h => hc (by cases h; rfl))
        else isFalse (fun h => hs (by cases h; rfl))
      else isFalse (fun h => hd (by cases h; rfl))
    else isFalse (fun h => ht (by cases h; rfl))
/-- Decision procedure for equality of lists of trees. -/
def Node.decEqList : (a b : List Node) → Decidable (a = b)
  | [], [] => isTrue rfl
  | [], _ :: _ => isFalse (fun h => by cases h)
  | _ :: _, [] => isFalse (fun h => by cases h)
  | a :: as, b :: bs =>
    match Node.decEq a b with
    | isTrue h =>
      match Node.decEqList as bs with
      | isTrue hs => isTrue (by rw [h, hs])
      | isFalse hs => isFalse (fun e => hs (by cases e; rfl))
    | isFalse h => isFalse (fun e => h (by cases e; rfl))
end

instance : DecidableEq Node := Node.decEq

mutual
/-- The predicate `p` holds at the node and at every node below it. -/
def Node.all (p : Node → Bool) : Node → Bool
  | .mk t d cs s => p (.mk t d cs s) && Node.allList p cs
/-- The predicate `p` holds at every node of every tree of the list. -/
def Node.allList (p : Node → Bool) : List Node → Bool
  | [] => true
  | c :: cs => Node.all p c && Node.allList p cs
end

/-- What `node_init` builds: a node with the given kind, payload and children
and a null symbol link. -/
def node_init (type : NodeType) (data : Data) (children : List Node) : Node :=
  Node.mk type data children none

/-! ## 64-bit arithmetic -/

/-- Reduction of an integer modulo `2^64` into the signed range. -/
def wrap64 (x : Int) : Int := (x + 2 ^ 63) % 2 ^ 64 - 2 ^ 63

/-- Membership in the range of `int64_t`. -/
def int64 (x : Int) : Prop := -(2 ^ 63) ≤ x ∧ x < 2 ^ 63

/-! ## tree.c -/

/-- Operators recognised by constant folding (`ArithmeticOperator`). -/
inductive ArithmeticOperator where
  | ADD | SUBTRACT | MULTIPLY | DIVIDE | NONE
  deriving DecidableEq, Repr

/-- `string_to_arithmetic_operator`: the argument is `none` for a null string. -/
def string_to_arithmetic_operator (string : Option String) : ArithmeticOperator :=
  match string with
  | none => .NONE
  | some s =>
    if s = "+" then .ADD
    else if s = "-" then .SUBTRACT
    else if s = "*" then .MULTIPLY
    else if s = "/" then .DIVIDE
    else .NONE

/-- Reading `node->data` as a `char *`: null stays null, an integer payload is
not a string. -/
def data_as_string : Data → Option (Option String)
  | .null => some none
  | .str s => some (some s)
  | .num _ => none

/-- Reading `*(int64_t *)node->data`. -/
def data_as_int64 (n : Node) : Option Int :=
  match n.data with
  | .num v => some v
  | _ => none

/-- `replace_with_child`: asserts a single child and returns it. -/
def replace_with_child (node : Node) : Option Node :=
  match node.children with
  | [child] => some child
  | _ => none

/-- `squash_child`: asserts at most one child; a single child takes over the
node's kind. -/
def squash_child (node : Node) : Option Node :=
  match node.children with
  | [] => some node
  | [result] => some (Node.mk node.type result.data result.children result.symbol)
  | _ => none

/-- `flatten_list`: asserts at most two children; with two children of which
the left has the node's kind, the left child's children are spliced in. -/
def flatten_list (node : Node) : Option Node :=
  match node.children with
  | [] => some node
  | [_] => some node
  | [left, right] =>
    if left.type = node.type then
      some (Node.mk node.type node.data (left.children ++ [right]) node.symbol)
    else some node
  | _ => none

/-- `all_children_are_numbers`. -/
def all_children_are_numbers (node : Node) : Bool :=
  node.children.all (fun c => decide (c.type = NodeType.NUMBER_DATA))

/-- `calculate_unary_fold`: the value written to `*result` (initially 0); the
child's payload is read for `+` and `-` only. -/
def calculate_unary_fold (node : Node) : Option Int := do
  let operator := string_to_arithmetic_operator (← data_as_string node.data)
  match node.children with
  | child :: _ =>
    match operator with
    | .ADD => data_as_int64 child
    | .SUBTRACT => do
      let child_value ← data_as_int64 child
      some (wrap64 (-child_value))
    | .MULTIPLY => some 0
    | .DIVIDE => some 0
    | .NONE => some 0
  | _ => none

/-- `calculate_binary_fold`: the value written to `*result` (initially 0); the
payloads of the two children are read for the four operators only.  Division
traps (no result) on a zero divisor and on `-2^63 / -1`. -/
def calculate_binary_fold (node : Node) : Option Int := do
  let operator := string_to_arithmetic_operator (← data_as_string node.data)
  match node.children with
  | l :: r :: _ =>
    match operator with
    | .ADD => do
      let left ← data_as_int64 l
      let right ← data_as_int64 r
      some (wrap64 (left + right))
    | .SUBTRACT => do
      let left ← data_as_int64 l
      let right ← data_as_int64 r
      some (wrap64 (left - right))
    | .MULTIPLY => do
      let left ← data_as_int64 l
      let right ← data_as_int64 r
      some (wrap64 (left * right))
    | .DIVIDE => do
      let left ← data_as_int64 l
      let right ← data_as_int64 r
      if right = 0 ∨ (left = -(2 ^ 63) ∧ right = -1) then none
      else some (Int.tdiv left right)
    | .NONE => some 0
  | _ => none

/-- `fold_expression`: asserts one or two children, computes the value and
turns the node into a childless `NUMBER_DATA`. -/
def fold_expression (node : Node) : Option Node := do
  let result ←
    match node.children with
    | [_] => calculate_unary_fold node
    | [_, _] => calculate_binary_fold node
    | _ => none
  some (Node.mk .NUMBER_DATA (.num result) [] node.symbol)

/-- `constant_fold_expression`: asserts at most two children; an operator-less
single-child wrapper is replaced by its child, an operator node with children
that are all numbers is folded, anything else is returned unchanged. -/
def constant_fold_expression (node : Node) : Option Node :=
  if node.type ≠ .EXPRESSION then none
  else if 2 < node.children.length then none
  else
    let is_operator := decide (node.data ≠ Data.null)
    if !is_operator && node.children.length == 1 then replace_with_child node
    else if is_operator && decide (0 < node.children.length) && all_children_are_numbers node then
      fold_expression node
    else some node

/-- The macro `FOR_END_VARIABLE`. -/
def FOR_END_VARIABLE : String := "__FOR_END__"

/-- The macro `DUPLICATE_VARIABLE`: a fresh childless identifier node carrying
a copy of the name (`strdup` of a payload that is not a string aborts). -/
def DUPLICATE_VARIABLE (var_node : Node) : Option Node :=
  match var_node.data with
  | .str identifier => some (node_init .IDENTIFIER_DATA (.str identifier) [])
  | _ => none

/-- `replace_for_statement`: reads the four children of a `FOR_STATEMENT` and
builds the block with the declarations, the two assignments and the while
loop. -/
def replace_for_statement (for_node : Node) : Option Node :=
  if for_node.type ≠ .FOR_STATEMENT then none
  else
    match for_node.children with
    | var_node :: start_value :: end_value :: body :: _ => do
      let end_variable := node_init .IDENTIFIER_DATA (.str FOR_END_VARIABLE) []
      let declaration := node_init .DECLARATION .null [var_node, end_variable]
      let declaration_list := node_init .DECLARATION_LIST .null [declaration]
      let var_node ← DUPLICATE_VARIABLE var_node
      let init_assignment := node_init .ASSIGNMENT_STATEMENT .null [var_node, start_value]
      let end_variable ← DUPLICATE_VARIABLE end_variable
      let end_assignment := node_init .ASSIGNMENT_STATEMENT .null [end_variable, end_value]
      let var_node ← DUPLICATE_VARIABLE var_node
      let end_variable ← DUPLICATE_VARIABLE end_variable
      let relation := node_init .RELATION (.str "<") [var_node, end_variable]
      let var_node ← DUPLICATE_VARIABLE var_node
      let one_node := node_init .NUMBER_DATA (.num 1) []
      let variable_plus_one := node_init .EXPRESSION (.str "+") [var_node, one_node]
      let var_node ← DUPLICATE_VARIABLE var_node
      let increment := node_init .ASSIGNMENT_STATEMENT .null [var_node, variable_plus_one]
      let inner_statement_list := node_init .STATEMENT_LIST .null [body, increment]
      let inner_block := node_init .BLOCK .null [inner_statement_list]
      let while_node := node_init .WHILE_STATEMENT .null [relation, inner_block]
      let result_statement_list :=
        node_init .STATEMENT_LIST .null [init_assignment, end_assignment, while_node]
      some (node_init .BLOCK .null [declaration_list, result_statement_list])
    | _ => none

/-- The `switch` of `simplify_tree`, applied to a node whose children have
already been simplified. -/
def simplify_node (node : Node) : Option Node :=
  match node.type with
  | .PROGRAM | .GLOBAL | .PRINT_ITEM | .STATEMENT => replace_with_child node
  | .VARIABLE_LIST | .PRINT_LIST | .STATEMENT_LIST | .GLOBAL_LIST
  | .DECLARATION_LIST | .EXPRESSION_LIST => flatten_list node
  | .PRINT_STATEMENT | .DECLARATION | .PARAMETER_LIST | .ARRAY_DECLARATION
  | .ARGUMENT_LIST => squash_child node
  | .EXPRESSION => constant_fold_expression node
  | .FOR_STATEMENT => replace_for_statement node
  | _ => some node

mutual
/-- `simplify_tree`: simplifies every child, left to right, then rewrites the
node according to its kind. -/
def simplify_tree : Node → Option Node
  | .mk t d cs s =>
    match simplify_children cs with
    | none => none
    | some cs' => simplify_node (.mk t d cs' s)
/-- The loop `for i: node->children[i] = simplify_tree(node->children[i])`. -/
def simplify_children : List Node → Option (List Node)
  | [] => some []
  | c :: cs =>
    match simplify_tree c with
    | none => none
    | some c' =>
      match simplify_children cs with
      | none => none
      | some cs' => some (c' :: cs')
end

/-! ## Arithmetic expression trees and their value -/

/-- The four binary operators of the language. -/
inductive BinOp where
  | add | sub | mul | div
  deriving DecidableEq, Repr

/-- Operator text carried by the `EXPRESSION` node. -/
def BinOp.text : BinOp → String
  | .add => "+"
  | .sub => "-"
  | .mul => "*"
  | .div => "/"

/-- Constant arithmetic expressions: number leaves, operator-less wrappers,
unary minus and the four binary operators. -/
inductive Arith where
  | num (a : Int)
  | paren (e : Arith)
  | neg (e : Arith)
  | bin (op : BinOp) (l r : Arith)
  deriving DecidableEq, Repr

namespace Arith

/-- The parse tree of a constant arithmetic expression. -/
def toNode : Arith → Node
  | num a => node_init .NUMBER_DATA (.num a) []
  | paren e => node_init .EXPRESSION .null [e.toNode]
  | neg e => node_init .EXPRESSION (.str "-") [e.toNode]
  | bin op l r => node_init .EXPRESSION (.str op.text) [l.toNode, r.toNode]

/-- Signed 64-bit wrapping value of an expression, as the specification words
it: `+ - *` and unary minus are taken modulo `2^64` into the signed range
(`Int.bmod`), `/` truncates toward zero. -/
def value : Arith → Int
  | num a => a
  | paren e => e.value
  | neg e => Int.bmod (-e.value) (2 ^ 64)
  | bin .add l r => Int.bmod (l.value + r.value) (2 ^ 64)
  | bin .sub l r => Int.bmod (l.value - r.value) (2 ^ 64)
  | bin .mul l r => Int.bmod (l.value * r.value) (2 ^ 64)
  | bin .div l r => Int.tdiv l.value r.value

/-- Every number leaf is a 64-bit signed integer. -/
def leaves_int64 : Arith → Prop
  | num a => int64 a
  | paren e => e.leaves_int64
  | neg e => e.leaves_int64
  | bin _ l r => l.leaves_int64 ∧ r.leaves_int64

/-- No division of the expression has a divisor of value 0, and none divides
`-2^63` by `-1`. -/
def no_trap : Arith → Prop
  | num _ => True
  | paren e => e.no_trap
  | neg e => e.no_trap
  | bin .div l r =>
    l.no_trap ∧ r.no_trap ∧ r.value ≠ 0 ∧ ¬ (l.value = -(2 ^ 63) ∧ r.value = -1)
  | bin _ l r => l.no_trap ∧ r.no_trap

end Arith

/-- A childless `NUMBER_DATA` node holding `v`. -/
def number_node (v : Int) : Node := node_init .NUMBER_DATA (.num v) []

/-! ## Shape predicates on trees -/

/-- Single-child pass-through kinds (first group of the `switch`). -/
def is_wrapper_kind : NodeType → Bool
  | .PROGRAM | .GLOBAL | .PRINT_ITEM | .STATEMENT => true
  | _ => false

/-- List kinds (second group of the `switch`). -/
def is_list_kind : NodeType → Bool
  | .VARIABLE_LIST | .PRINT_LIST | .STATEMENT_LIST | .GLOBAL_LIST
  | .DECLARATION_LIST | .EXPRESSION_LIST => true
  | _ => false

/-- Kinds that take over a single list child (third group of the `switch`). -/
def is_squash_kind : NodeType → Bool
  | .PRINT_STATEMENT | .DECLARATION | .PARAMETER_LIST | .ARRAY_DECLARATION
  | .ARGUMENT_LIST => true
  | _ => false

/-- The node is not a `FOR_STATEMENT`. -/
def not_for (n : Node) : Bool := decide (n.type ≠ NodeType.FOR_STATEMENT)

/-- No node of the tree is a `FOR_STATEMENT`. -/
def no_for_statement (n : Node) : Bool := Node.all not_for n

/-- The node is left alone by constant folding: an `EXPRESSION` with at most
two children that is neither an operator-less single-child wrapper nor an
operator over number children only. -/
def fold_stable (n : Node) : Prop :=
  n.type = .EXPRESSION ∧ n.children.length ≤ 2 ∧
    ¬ (n.data = .null ∧ n.children.length = 1) ∧
    ¬ (n.data ≠ .null ∧ 0 < n.children.length ∧ all_children_are_numbers n = true)

/-- The block that the specification gives for `ForStatement(var, start, end,
body)`: the declaration of `var` and `__FOR_END__`, the two assignments and the
while loop whose body is the original body followed by the increment.  The
first placement of the loop variable is the node `var_node` itself; every
other identifier is a fresh childless node carrying the name. -/
def for_block (var_node : Node) (name : String) (start_value end_value body : Node) : Node :=
  node_init .BLOCK .null
    [node_init .DECLARATION_LIST .null
      [node_init .DECLARATION .null
        [var_node, node_init .IDENTIFIER_DATA (.str FOR_END_VARIABLE) []]],
     node_init .STATEMENT_LIST .null
      [node_init .ASSIGNMENT_STATEMENT .null
        [node_init .IDENTIFIER_DATA (.str name) [], start_value],
       node_init .ASSIGNMENT_STATEMENT .null
        [node_init .IDENTIFIER_DATA (.str FOR_END_VARIABLE) [], end_value],
       node_init .WHILE_STATEMENT .null
        [node_init .RELATION (.str "<")
          [node_init .IDENTIFIER_DATA (.str name) [],
           node_init .IDENTIFIER_DATA (.str FOR_END_VARIABLE) []],
         node_init .BLOCK .null
          [node_init .STATEMENT_LIST .null
            [body,
             node_init .ASSIGNMENT_STATEMENT .null
              [node_init .IDENTIFIER_DATA (.str name) [],
               node_init .EXPRESSION (.str "+")
                [node_init .IDENTIFIER_DATA (.str name) [],
                 node_init .NUMBER_DATA (.num 1) []]]]]]]]

/-- A list-kind node has no child of its own kind. -/
def flat_node (n : Node) : Bool :=
  !is_list_kind n.type || n.children.all (fun c => decide (c.type ≠ n.type))

/-- No list-kind node of the tree has a child of its own kind. -/
def fully_flattened (n : Node) : Bool := Node.all flat_node n

/-- A list-kind node has at most two children and only its first child may be
a list of the same kind. -/
def left_recursive_node (n : Node) : Bool :=
  !is_list_kind n.type ||
    (decide (n.children.length ≤ 2) && n.children.tail.all (fun c => decide (c.type ≠ n.type)))

/-- Every list-kind node of the tree is left-recursive. -/
def left_recursive (n : Node) : Bool := Node.all left_recursive_node n

mutual
/-- Kind of the node that is left once the single-child pass-through wrappers
(`PROGRAM`, `GLOBAL`, `PRINT_ITEM`, `STATEMENT` and the operator-less
`EXPRESSION`) around it are removed. -/
def head_kind : Node → NodeType
  | .mk t d cs _ =>
    if is_wrapper_kind t || (decide (t = .EXPRESSION) && decide (d = .null)) then
      head_kind_single t cs
    else t
/-- The head kind of the only tree of a one-element list, else `t`. -/
def head_kind_single (t : NodeType) : List Node → NodeType
  | [c] => head_kind c
  | _ => t
end

/-- The items of a list-kind node are not lists of the node's kind, also after
unwrapping: the only child of a one-child list and the second child of a
two-child list do not unwrap to the kind of the list; and the body of a
`FOR_STATEMENT` does not unwrap to a `STATEMENT_LIST`. -/
def list_items_node (n : Node) : Bool :=
  (!is_list_kind n.type ||
    match n.children with
    | [c] => decide (head_kind c ≠ n.type)
    | [_, r] => decide (head_kind r ≠ n.type)
    | _ => true) &&
  (decide (n.type ≠ .FOR_STATEMENT) ||
    match n.children with
    | _ :: _ :: _ :: body :: _ => decide (head_kind body ≠ .STATEMENT_LIST)
    | _ => true)

/-- Every node of the tree satisfies `list_items_node`. -/
def list_items (n : Node) : Bool := Node.all list_items_node n

instance (n : Node) : Decidable (fold_stable n) := by
  unfold fold_stable; infer_instance

/-- What holds of every node of a simplified tree: it is no pass-through
wrapper, no `FOR_STATEMENT`, and if it is an `EXPRESSION` constant folding
leaves it alone. -/
def simplified_node (n : Node) : Bool :=
  !is_wrapper_kind n.type && decide (n.type ≠ .FOR_STATEMENT) &&
    (decide (n.type ≠ .EXPRESSION) || decide (fold_stable n))

/-- A node on which `squash_child` and `flatten_list` do nothing: a squash-kind
node has no child; a list-kind node has at most two children, the first of two
not being of the list's kind. -/
def rerun_stable_node (n : Node) : Bool :=
  (!is_squash_kind n.type || n.children.isEmpty) &&
  (!is_list_kind n.type ||
    match n.children with
    | [] => true
    | [_] => true
    | [l, _] => decide (l.type ≠ n.type)
    | _ => false)

/-- Every node of the tree satisfies `rerun_stable_node`. -/
def rerun_stable (n : Node) : Bool := Node.all rerun_stable_node n

/-! ## symbols.c

The functions of the symbol table module (`symbol_table_init`,
`symbol_table_insert`, `symbol_hashmap_init`, `symbol_hashmap_lookup`) are
called by `symbols.c` but defined elsewhere; they are modelled from the
specification.  A function's table holds `Symbol`s; the global table holds
`global_symbol_t` entries, which add the two fields of `symbol_t` that are read
for global symbols only (`node` and `function_symtable`).  The lookup map of a
function's table is a stack of layers, innermost first, whose outermost layer
is backed by the global map (`function_symtable->hashmap->backup =
global_symbols->hashmap`); lookups receive the global map as an argument. -/

/-- Modelled from the spec: a `symbol_table_t`, whose layout is not in the
sources: the insertion-ordered sequence of symbols and the layered lookup map
(a stack of layers, innermost first). -/
structure symbol_table_t where
  symbols : List Symbol
  hashmap : List (List Symbol)
  deriving DecidableEq, Repr

/-- An entry of the global table: the symbol with its defining node and, for a
function, the function's table. -/
structure global_symbol_t where
  symbol : Symbol
  node : Node
  function_symtable : Option symbol_table_t
  deriving DecidableEq

/-- Modelled from the spec: lookup of a name in one layer of a lookup map. -/
def layer_lookup (layer : List Symbol) (name : String) : Option Symbol :=
  layer.find? (fun s => s.name == name)

/-- Modelled from the spec: `symbol_hashmap_lookup`, which is not in the
sources: the layers are searched from the innermost to the outermost, then the
global map that backs them. -/
def symbol_hashmap_lookup (hashmap : List (List Symbol)) (global : List Symbol)
    (name : String) : Option Symbol :=
  match hashmap with
  | [] => layer_lookup global name
  | layer :: backup =>
    match layer_lookup layer name with
    | some s => some s
    | none => symbol_hashmap_lookup backup global name

/-- Modelled from the spec: `symbol_table_init`, which is not in the sources: no
symbol and one empty layer. -/
def symbol_table_init : symbol_table_t := ⟨[], [[]]⟩

/-- Modelled from the spec: `symbol_table_insert`, which is not in the sources:
a name already present in the innermost layer is an error; otherwise the symbol
receives the next sequence number of the table, is appended to the sequence and
entered in the innermost layer. -/
def symbol_table_insert (table : symbol_table_t) (symbol : Symbol) : Option symbol_table_t :=
  match table.hashmap with
  | [] => none
  | layer :: backup =>
    if (layer_lookup layer symbol.name).isSome then none
    else
      let s : Symbol := ⟨symbol.name, symbol.type, table.symbols.length⟩
      some ⟨table.symbols ++ [s], (s :: layer) :: backup⟩

/-- Modelled from the spec: `symbol_table_insert` on the global table, whose
lookup map has the single layer of all global symbols. -/
def global_symbols_insert (global_symbols : List global_symbol_t) (entry : global_symbol_t) :
    Option (List global_symbol_t) :=
  if (layer_lookup (global_symbols.map (fun e => e.symbol)) entry.symbol.name).isSome then none
  else
    some (global_symbols ++
      [⟨⟨entry.symbol.name, entry.symbol.type, global_symbols.length⟩, entry.node,
        entry.function_symtable⟩])

/-- Reading `node->data` as the name of a symbol (a null or integer payload is
not a name). -/
def data_as_name : Data → Option String
  | .str s => some s
  | _ => none

/-- The loop of `find_global_declaration` over the children of a
`DECLARATION`: each becomes a `SYMBOL_GLOBAL_VAR`. -/
def insert_global_variables (global_symbols : List global_symbol_t) :
    List Node → Option (List global_symbol_t)
  | [] => some global_symbols
  | child :: rest => do
    let name ← data_as_name child.data
    let global_symbols ← global_symbols_insert global_symbols
      ⟨⟨name, .SYMBOL_GLOBAL_VAR, 0⟩, child, none⟩
    insert_global_variables global_symbols rest

/-- `find_global_declaration`: asserts at least one child. -/
def find_global_declaration (global_symbols : List global_symbol_t) (node : Node) :
    Option (List global_symbol_t) :=
  if node.children.length = 0 then none
  else if node.type ≠ .DECLARATION then none
  else insert_global_variables global_symbols node.children

/-- `find_global_array_declaration`: asserts two children; the name is that of
the first child and the symbol's node is the declaration. -/
def find_global_array_declaration (global_symbols : List global_symbol_t) (node : Node) :
    Option (List global_symbol_t) :=
  if node.type ≠ .ARRAY_DECLARATION then none
  else
    match node.children with
    | [identifier, _] => do
      let name ← data_as_name identifier.data
      global_symbols_insert global_symbols ⟨⟨name, .SYMBOL_GLOBAL_ARRAY, 0⟩, node, none⟩
    | _ => none

/-- The loop of `find_global_function` over the parameter list: each parameter
is asserted to be an identifier and becomes a `SYMBOL_PARAMETER`. -/
def insert_parameters (function_symtable : symbol_table_t) :
    List Node → Option symbol_table_t
  | [] => some function_symtable
  | parameter :: rest =>
    if parameter.type ≠ .IDENTIFIER_DATA then none
    else do
      let name ← data_as_name parameter.data
      let function_symtable ← symbol_table_insert function_symtable
        ⟨name, .SYMBOL_PARAMETER, 0⟩
      insert_parameters function_symtable rest

/-- `find_global_function`: asserts three children, builds the function's
table with its parameters and inserts the `SYMBOL_FUNCTION`. -/
def find_global_function (global_symbols : List global_symbol_t) (node : Node) :
    Option (List global_symbol_t) :=
  if node.type ≠ .FUNCTION then none
  else
    match node.children with
    | [identifier, parameter_list, _] => do
      let function_symtable ← insert_parameters symbol_table_init parameter_list.children
      let name ← data_as_name identifier.data
      global_symbols_insert global_symbols
        ⟨⟨name, .SYMBOL_FUNCTION, 0⟩, node, some function_symtable⟩
    | _ => none

/-- The loop of `find_globals` over the children of the root. -/
def find_globals_loop (global_symbols : List global_symbol_t) :
    List Node → Option (List global_symbol_t)
  | [] => some global_symbols
  | node :: rest => do
    let global_symbols ←
      match node.type with
      | .DECLARATION => find_global_declaration global_symbols node
      | .ARRAY_DECLARATION => find_global_array_declaration global_symbols node
      | .FUNCTION => find_global_function global_symbols node
      | _ => some global_symbols
    find_globals_loop global_symbols rest

/-- `find_globals`: starts from the empty global table and visits the children
of the root in order. -/
def find_globals (root : Node) : Option (List global_symbol_t) :=
  find_globals_loop [] root.children

/-- `push_local_scope`: a new empty layer in front of the lookup map. -/
def push_local_scope (table : symbol_table_t) : symbol_table_t :=
  ⟨table.symbols, [] :: table.hashmap⟩

/-- `pop_local_scope`: the innermost layer is dropped, the sequence of symbols
stays.  (A table without a layer of its own is not modelled.) -/
def pop_local_scope (table : symbol_table_t) : Option symbol_table_t :=
  match table.hashmap with
  | [] => none
  | _ :: backup => some ⟨table.symbols, backup⟩

/-- The inner loop of `bind_block` over the identifiers of the declarations:
each is asserted to be an identifier and becomes a `SYMBOL_LOCAL_VAR`. -/
def insert_local_variables (local_symbols : symbol_table_t) :
    List Node → Option symbol_table_t
  | [] => some local_symbols
  | identifier :: rest =>
    if identifier.type ≠ .IDENTIFIER_DATA then none
    else do
      let name ← data_as_name identifier.data
      let local_symbols ← symbol_table_insert local_symbols ⟨name, .SYMBOL_LOCAL_VAR, 0⟩
      insert_local_variables local_symbols rest

/-- The two nested loops of `bind_block`: the identifiers of every declaration
of the declaration list, in order. -/
def declared_identifiers (declaration_list : Node) : List Node :=
  (declaration_list.children.map (fun declaration => declaration.children)).flatten

/-- What `bind_names` updates besides the tree: the table of the function
being bound and the global string list. -/
structure bind_state where
  local_symbols : symbol_table_t
  string_list : List Data
  deriving DecidableEq

/-- `add_string`: appends to the string list and returns the position. -/
def add_string (string_list : List Data) (string : Data) : List Data × Nat :=
  (string_list ++ [string], string_list.length)

/-- `bind_identifier`: the payload is looked up in the layered map; a miss
aborts, a hit is stored in the node. -/
def bind_identifier (global : List Symbol) (local_symbols : symbol_table_t) (node : Node) :
    Option Node := do
  let name ← data_as_name node.data
  let symbol ← symbol_hashmap_lookup local_symbols.hashmap global name
  some (Node.mk node.type node.data node.children (some symbol))

/-- `add_string_to_global_list`: the payload moves to the string list and is
replaced by its position. -/
def add_string_to_global_list (string_list : List Data) (node : Node) : List Data × Node :=
  let (string_list, position) := add_string string_list node.data
  (string_list, Node.mk node.type (.num position) node.children node.symbol)

mutual
/-- `bind_names`, with `bind_block` unfolded in the `BLOCK` case: identifiers
are bound, strings interned, a block with two children opens a scope for its
declarations around its second child, any other block passes to its first
child, every other node passes to all its children in order. -/
def bind_names (global : List Symbol) (st : bind_state) : Node → Option (bind_state × Node)
  | .mk .IDENTIFIER_DATA d cs sy =>
    match bind_identifier global st.local_symbols (.mk .IDENTIFIER_DATA d cs sy) with
    | some node => some (st, node)
    | none => none
  | .mk .STRING_DATA d cs sy =>
    let (string_list, node) := add_string_to_global_list st.string_list (.mk .STRING_DATA d cs sy)
    some (⟨st.local_symbols, string_list⟩, node)
  | .mk .BLOCK d [declaration_list, body] sy =>
    match insert_local_variables (push_local_scope st.local_symbols)
        (declared_identifiers declaration_list) with
    | none => none
    | some local_symbols =>
      match bind_names global ⟨local_symbols, st.string_list⟩ body with
      | none => none
      | some (st', body') =>
        match pop_local_scope st'.local_symbols with
        | none => none
        | some local_symbols' =>
          some (⟨local_symbols', st'.string_list⟩, .mk .BLOCK d [declaration_list, body'] sy)
  | .mk .BLOCK _ [] _ => none
  | .mk .BLOCK d (first :: rest) sy =>
    match bind_names global st first with
    | none => none
    | some (st', first') => some (st', .mk .BLOCK d (first' :: rest) sy)
  | .mk t d cs sy =>
    match bind_names_children global st cs with
    | none => none
    | some (st', cs') => some (st', .mk t d cs' sy)
/-- The loop `for i: bind_names(local_symbols, node->children[i])`. -/
def bind_names_children (global : List Symbol) (st : bind_state) :
    List Node → Option (bind_state × List Node)
  | [] => some (st, [])
  | c :: cs =>
    match bind_names global st c with
    | none => none
    | some (st', c') =>
      match bind_names_children global st' cs with
      | none => none
      | some (st'', cs') => some (st'', c' :: cs')
end

/-- The loop of `bind` over the global table: for each function symbol the
third child of its node is bound with the function's table. -/
def bind_loop (global : List Symbol) (string_list : List Data) :
    List global_symbol_t → Option (List global_symbol_t × List Data)
  | [] => some ([], string_list)
  | entry :: rest =>
    if entry.symbol.type = .SYMBOL_FUNCTION then
      match entry.node, entry.function_symtable with
      | .mk t d [identifier, parameter_list, child] sy, some function_symtable =>
        match bind_names global ⟨function_symtable, string_list⟩ child with
        | none => none
        | some (st, child') =>
          match bind_loop global st.string_list rest with
          | none => none
          | some (rest', string_list') =>
            some (⟨entry.symbol, .mk t d [identifier, parameter_list, child'] sy,
              some st.local_symbols⟩ :: rest', string_list')
      | _, _ => none
    else
      match bind_loop global string_list rest with
      | none => none
      | some (rest', string_list') => some (entry :: rest', string_list')

/-- The global state that `create_tables` leaves: the global symbol table
(whose function entries hold the bound bodies and the functions' tables) and
the string list. -/
structure tables where
  global_symbols : List global_symbol_t
  string_list : List Data
  deriving DecidableEq

/-- `bind`: all function bodies are bound against the complete global map; the
string list starts empty. -/
def bind (global_symbols : List global_symbol_t) : Option tables :=
  match bind_loop (global_symbols.map (fun e => e.symbol)) [] global_symbols with
  | none => none
  | some (global_symbols', string_list) => some ⟨global_symbols', string_list⟩

/-- `create_tables`: `find_globals` followed by `bind`. -/
def create_tables (root : Node) : Option tables :=
  match find_globals root with
  | none => none
  | some global_symbols => bind global_symbols

/-- The bodies of the functions of a global table, in table order: the third
child of the node of each `SYMBOL_FUNCTION`. -/
def function_bodies : List global_symbol_t → List Node
  | [] => []
  | entry :: rest =>
    if entry.symbol.type = .SYMBOL_FUNCTION then
      match entry.node.children with
      | [_, _, body] => body :: function_bodies rest
      | _ => function_bodies rest
    else function_bodies rest

/-! ## What the binding walk reaches -/

mutual
/-- Payloads of the `STRING_DATA` nodes that `bind_names` reaches in a tree, in
the order of the walk. -/
def visited_strings : Node → List Data
  | .mk .IDENTIFIER_DATA _ _ _ => []
  | .mk .STRING_DATA d _ _ => [d]
  | .mk .BLOCK _ [_, body] _ => visited_strings body
  | .mk .BLOCK _ [] _ => []
  | .mk .BLOCK _ (first :: _) _ => visited_strings first
  | .mk _ _ cs _ => visited_strings_list cs
/-- The visited strings of the trees of a list, in order. -/
def visited_strings_list : List Node → List Data
  | [] => []
  | c :: cs => visited_strings c ++ visited_strings_list cs
end

mutual
/-- The `IDENTIFIER_DATA` nodes that `bind_names` reaches in a tree, in the
order of the walk. -/
def visited_identifiers : Node → List Node
  | .mk .IDENTIFIER_DATA d cs sy => [.mk .IDENTIFIER_DATA d cs sy]
  | .mk .STRING_DATA _ _ _ => []
  | .mk .BLOCK _ [_, body] _ => visited_identifiers body
  | .mk .BLOCK _ [] _ => []
  | .mk .BLOCK _ (first :: _) _ => visited_identifiers first
  | .mk _ _ cs _ => visited_identifiers_list cs
/-- The visited identifiers of the trees of a list, in order. -/
def visited_identifiers_list : List Node → List Node
  | [] => []
  | c :: cs => visited_identifiers c ++ visited_identifiers_list cs
end

/-- An `IDENTIFIER_DATA` node has a symbol link, and the linked symbol's name
is the node's name (any other node passes). -/
def identifier_linked (n : Node) : Bool :=
  decide (n.type ≠ .IDENTIFIER_DATA) ||
    match n.symbol, n.data with
    | some symbol, .str name => decide (symbol.name = name)
    | _, _ => false

/-- Every `IDENTIFIER_DATA` node of the tree is linked to a symbol of its
name. -/
def all_identifiers_linked (n : Node) : Bool := Node.all identifier_linked n

mutual
/-- Every `IDENTIFIER_DATA` node of the tree that does not lie in the
declaration list of a block (the first child of a two-child `BLOCK`) is linked
to a symbol of its name. -/
def linked_outside_declarations : Node → Bool
  | .mk .BLOCK _ [_, body] _ => linked_outside_declarations body
  | .mk t d cs sy =>
    identifier_linked (.mk t d cs sy) && linked_outside_declarations_list cs
/-- The same for every tree of a list. -/
def linked_outside_declarations_list : List Node → Bool
  | [] => true
  | c :: cs => linked_outside_declarations c && linked_outside_declarations_list cs
end

/-- Shape of a node of an abstract syntax tree: identifiers and strings are
leaves, a block has one or two children. -/
def ast_shape_node (n : Node) : Bool :=
  (decide (n.type ≠ .IDENTIFIER_DATA ∧ n.type ≠ .STRING_DATA) || n.children.isEmpty) &&
  (decide (n.type ≠ .BLOCK) || decide (n.children.length = 1 ∨ n.children.length = 2))

/-- Every node of the tree has the shape `ast_shape_node`. -/
def ast_shape (n : Node) : Bool := Node.all ast_shape_node n

/-- What one call of `bind_names` guarantees: the string list grows by the
payloads of the visited strings, the visited strings of the result carry the
positions, and the visited identifiers of the result are linked. -/
def bind_post (st : bind_state) (n : Node) (st' : bind_state) (n' : Node) : Prop :=
  st'.string_list = st.string_list ++ visited_strings n ∧
  visited_strings n' =
    (List.range' st.string_list.length (visited_strings n).length).map
      (fun k => Data.num (Int.ofNat k)) ∧
  ∀ m ∈ visited_identifiers n', identifier_linked m = true

/-- The same for the loop over a list of children. -/
def bind_post_list (st : bind_state) (cs : List Node) (st' : bind_state) (cs' : List Node) :
    Prop :=
  st'.string_list = st.string_list ++ visited_strings_list cs ∧
  visited_strings_list cs' =
    (List.range' st.string_list.length (visited_strings_list cs).length).map
      (fun k => Data.num (Int.ofNat k)) ∧
  ∀ m ∈ visited_identifiers_list cs', identifier_linked m = true

/-! ## Example trees -/

/-- A childless `IDENTIFIER_DATA` node. -/
def identifier_node (name : String) : Node := node_init .IDENTIFIER_DATA (.str name) []

/-- Parse tree of `for i := 0, 3 for j := 0, 2 break`. -/
def example_nested_for : Node :=
  node_init .FOR_STATEMENT .null
    [identifier_node "i", number_node 0, number_node 3,
     node_init .STATEMENT .null
      [node_init .FOR_STATEMENT .null
        [identifier_node "j", number_node 0, number_node 2,
         node_init .STATEMENT .null [node_init .BREAK_STATEMENT .null []]]]]

/-- A one-item `VARIABLE_LIST` wrapped in a one-child `VARIABLE_LIST`. -/
def example_list_in_list : Node :=
  node_init .VARIABLE_LIST .null [node_init .VARIABLE_LIST .null [identifier_node "x"]]

/-- A two-child `STATEMENT_LIST` whose second item is a `STATEMENT` around a
`STATEMENT_LIST`. -/
def example_wrapped_list : Node :=
  node_init .STATEMENT_LIST .null
    [node_init .STATEMENT_LIST .null
      [node_init .STATEMENT .null [node_init .BREAK_STATEMENT .null []]],
     node_init .STATEMENT .null
      [node_init .STATEMENT_LIST .null
        [node_init .STATEMENT .null [node_init .BREAK_STATEMENT .null []]]]]

/-- The left-recursive chain of three statements
`STATEMENT_LIST[STATEMENT_LIST[STATEMENT_LIST[s], s], s]`. -/
def example_three_statements : Node :=
  node_init .STATEMENT_LIST .null
    [node_init .STATEMENT_LIST .null
      [node_init .STATEMENT_LIST .null
        [node_init .STATEMENT .null [node_init .BREAK_STATEMENT .null []]],
       node_init .STATEMENT .null [node_init .BREAK_STATEMENT .null []]],
     node_init .STATEMENT .null [node_init .BREAK_STATEMENT .null []]]

/-- Parse tree of the declaration `var x`. -/
def example_declaration : Node :=
  node_init .DECLARATION .null [node_init .VARIABLE_LIST .null [identifier_node "x"]]

/-- Parse tree of `def main() begin return 1 + 2 end`, from the global list
down. -/
def example_return_program : Node :=
  node_init .PROGRAM .null
    [node_init .GLOBAL_LIST .null
      [node_init .GLOBAL .null
        [node_init .FUNCTION .null
          [identifier_node "main",
           node_init .PARAMETER_LIST .null [],
           node_init .STATEMENT .null
            [node_init .BLOCK .null
              [node_init .STATEMENT_LIST .null
                [node_init .STATEMENT .null
                  [node_init .RETURN_STATEMENT .null
                    [node_init .EXPRESSION (.str "+")
                      [node_init .EXPRESSION .null [number_node 1],
                       node_init .EXPRESSION .null [number_node 2]]]]]]]]]]]

/-- The tree `simplify_tree` returns for `example_return_program`. -/
def example_return_program_simplified : Node :=
  node_init .GLOBAL_LIST .null
    [node_init .FUNCTION .null
      [identifier_node "main",
       node_init .PARAMETER_LIST .null [],
       node_init .BLOCK .null
        [node_init .STATEMENT_LIST .null
          [node_init .RETURN_STATEMENT .null [number_node 3]]]]]

/-- Simplified tree of the body of
`def f() begin var x  x := 1  print "a", x, "a" end`. -/
def example_print_body : Node :=
  node_init .BLOCK .null
    [node_init .DECLARATION_LIST .null
      [node_init .DECLARATION .null [identifier_node "x"]],
     node_init .STATEMENT_LIST .null
      [node_init .ASSIGNMENT_STATEMENT .null [identifier_node "x", number_node 1],
       node_init .PRINT_STATEMENT .null
        [node_init .STRING_DATA (.str "\"a\"") [], identifier_node "x",
         node_init .STRING_DATA (.str "\"a\"") []]]]

/-- Simplified tree of `def f() begin var x  x := 1  print "a", x, "a" end`. -/
def example_print_program : Node :=
  node_init .GLOBAL_LIST .null
    [node_init .FUNCTION .null
      [identifier_node "f", node_init .PARAMETER_LIST .null [], example_print_body]]

/-- The global table that `find_globals` builds for `example_print_program`. -/
def example_print_globals : List global_symbol_t :=
  [⟨⟨"f", .SYMBOL_FUNCTION, 0⟩,
    node_init .FUNCTION .null
      [identifier_node "f", node_init .PARAMETER_LIST .null [], example_print_body],
    some symbol_table_init⟩]

/-- The body of `f` after binding: the two uses of `x` are linked to the local
variable, the two strings carry the indices 0 and 1, the declared `x` is
untouched. -/
def example_print_body_bound : Node :=
  node_init .BLOCK .null
    [node_init .DECLARATION_LIST .null
      [node_init .DECLARATION .null [identifier_node "x"]],
     node_init .STATEMENT_LIST .null
      [node_init .ASSIGNMENT_STATEMENT .null
        [Node.mk .IDENTIFIER_DATA (.str "x") [] (some ⟨"x", .SYMBOL_LOCAL_VAR, 0⟩),
         number_node 1],
       node_init .PRINT_STATEMENT .null
        [node_init .STRING_DATA (.num 0) [],
         Node.mk .IDENTIFIER_DATA (.str "x") [] (some ⟨"x", .SYMBOL_LOCAL_VAR, 0⟩),
         node_init .STRING_DATA (.num 1) []]]]

/-- What `create_tables` leaves for `example_print_program`. -/
def example_print_tables : tables :=
  ⟨[⟨⟨"f", .SYMBOL_FUNCTION, 0⟩,
     node_init .FUNCTION .null
      [identifier_node "f", node_init .PARAMETER_LIST .null [], example_print_body_bound],
     some ⟨[⟨"x", .SYMBOL_LOCAL_VAR, 0⟩], [[]]⟩⟩],
   [.str "\"a\"", .str "\"a\""]⟩

/-! ## Scopes as the specification describes them -/

/-- The name carried by an identifier node (empty when the payload is not a
string). -/
def node_name (n : Node) : String :=
  match n.data with
  | .str s => s
  | _ => ""

/-- The symbols that a run of declared identifiers receives when the first of
them gets the sequence number `next`: one symbol of the given kind per
identifier, numbered upwards in order. -/
def declared_symbols (type : SymbolType) : Nat → List Node → List Symbol
  | _, [] => []
  | next, identifier :: rest =>
    ⟨node_name identifier, type, next⟩ :: declared_symbols type (next + 1) rest

/-- The loop shared by `insert_parameters` and `insert_local_variables`, for a
symbol kind given as argument. -/
def insert_identifiers (type : SymbolType) (table : symbol_table_t) :
    List Node → Option symbol_table_t
  | [] => some table
  | identifier :: rest =>
    if identifier.type ≠ .IDENTIFIER_DATA then none
    else do
      let name ← data_as_name identifier.data
      let table ← symbol_table_insert table ⟨name, type, 0⟩
      insert_identifiers type table rest

mutual
/-- The identifiers declared by the blocks that `bind_names` enters in a tree,
in the order in which the walk meets the declarations. -/
def walk_declarations : Node → List Node
  | .mk .IDENTIFIER_DATA _ _ _ => []
  | .mk .STRING_DATA _ _ _ => []
  | .mk .BLOCK _ [declaration_list, body] _ =>
    declared_identifiers declaration_list ++ walk_declarations body
  | .mk .BLOCK _ [] _ => []
  | .mk .BLOCK _ (first :: _) _ => walk_declarations first
  | .mk _ _ cs _ => walk_declarations_list cs
/-- The declarations met in the trees of a list, in order. -/
def walk_declarations_list : List Node → List Node
  | [] => []
  | c :: cs => walk_declarations c ++ walk_declarations_list cs
end

/-- Resolution of a name as the specification words it: the symbol of that name
declared by the innermost enclosing block that declares the name (`blocks`
lists the symbols of the enclosing blocks, innermost first); if no enclosing
block declares it, the parameter of that name; if there is none, the global
symbol of that name. -/
def scoped_symbol (blocks : List (List Symbol)) (parameters globals : List Symbol)
    (x : String) : Option Symbol :=
  match blocks.find? (fun scope => (layer_lookup scope x).isSome) with
  | some scope => layer_lookup scope x
  | none =>
    match layer_lookup parameters x with
    | some s => some s
    | none => layer_lookup globals x

mutual
/-- For each identifier occurrence that the walk reaches in a tree, in order,
the symbol that the scoping rule gives it (`none` when the name is not
visible): `blocks` holds the symbols of the enclosing blocks, innermost first,
and `next` is the sequence number that the next declared variable receives. -/
def expected_links (globals parameters : List Symbol) (blocks : List (List Symbol))
    (next : Nat) : Node → List (Option Symbol)
  | .mk .IDENTIFIER_DATA d _ _ =>
    match d with
    | .str x => [scoped_symbol blocks parameters globals x]
    | _ => [none]
  | .mk .STRING_DATA _ _ _ => []
  | .mk .BLOCK _ [declaration_list, body] _ =>
    expected_links globals parameters
      (declared_symbols .SYMBOL_LOCAL_VAR next (declared_identifiers declaration_list) :: blocks)
      (next + (declared_identifiers declaration_list).length) body
  | .mk .BLOCK _ [] _ => []
  | .mk .BLOCK _ (first :: _) _ => expected_links globals parameters blocks next first
  | .mk _ _ cs _ => expected_links_list globals parameters blocks next cs
/-- The expected links of the trees of a list, in order; the declarations of a
tree move the next sequence number for the trees after it. -/
def expected_links_list (globals parameters : List Symbol) (blocks : List (List Symbol))
    (next : Nat) : List Node → List (Option Symbol)
  | [] => []
  | c :: cs =>
    expected_links globals parameters blocks next c ++
      expected_links_list globals parameters blocks (next + (walk_declarations c).length) cs
end

/-- The identifiers are `IDENTIFIER_DATA` nodes whose payload is a name, and
their names are pairwise distinct. -/
def valid_declarations (identifiers : List Node) : Prop :=
  (∀ identifier ∈ identifiers,
    identifier.type = .IDENTIFIER_DATA ∧ identifier.data = .str (node_name identifier)) ∧
  (identifiers.map node_name).Nodup

mutual
/-- The part of a function body that the walk reaches is well formed: every
identifier occurrence carries a name, every block has a child, and the
declarations of every block with two children are valid. -/
def walk_valid : Node → Prop
  | .mk .IDENTIFIER_DATA d _ _ => ∃ x, d = .str x
  | .mk .STRING_DATA _ _ _ => True
  | .mk .BLOCK _ [declaration_list, body] _ =>
    valid_declarations (declared_identifiers declaration_list) ∧ walk_valid body
  | .mk .BLOCK _ [] _ => False
  | .mk .BLOCK _ (first :: _) _ => walk_valid first
  | .mk _ _ cs _ => walk_valid_list cs
/-- Every tree of the list is well formed for the walk. -/
def walk_valid_list : List Node → Prop
  | [] => True
  | c :: cs => walk_valid c ∧ walk_valid_list cs
end

/-- Frame of one call of `bind_names`: the layered map is restored, the
sequence of symbols grows by the variables declared on the way, numbered
upwards, the declarations of the tree are untouched, and the part of the tree
that was walked is well formed. -/
def bind_frame (st : bind_state) (n : Node) (st' : bind_state) (n' : Node) : Prop :=
  st'.local_symbols.hashmap = st.local_symbols.hashmap ∧
  st'.local_symbols.symbols =
    st.local_symbols.symbols ++
      declared_symbols .SYMBOL_LOCAL_VAR st.local_symbols.symbols.length (walk_declarations n) ∧
  walk_declarations n' = walk_declarations n ∧
  walk_valid n

/-- The same for the loop over a list of children. -/
def bind_frame_list (st : bind_state) (cs : List Node) (st' : bind_state) (cs' : List Node) :
    Prop :=
  st'.local_symbols.hashmap = st.local_symbols.hashmap ∧
  st'.local_symbols.symbols =
    st.local_symbols.symbols ++
      declared_symbols .SYMBOL_LOCAL_VAR st.local_symbols.symbols.length
        (walk_declarations_list cs) ∧
  walk_declarations_list cs' = walk_declarations_list cs ∧
  walk_valid_list cs

/-- The layered map of a table holds the scopes of the enclosing blocks,
innermost first, over the layer of the parameters (each layer lists its symbols
latest first), and no scope declares a name twice. -/
def scopes_match (hashmap : List (List Symbol)) (blocks : List (List Symbol))
    (parameters : List Symbol) : Prop :=
  hashmap = blocks.map List.reverse ++ [parameters.reverse] ∧
  (∀ scope ∈ blocks, (scope.map (fun s => s.name)).Nodup) ∧
  (parameters.map (fun s => s.name)).Nodup

/-- The nodes whose payload names the global symbols that one top-level node
declares: the children of a `DECLARATION`, the first child of an
`ARRAY_DECLARATION` with two children, the first child of a `FUNCTION` with
three children. -/
def global_declarations_of (node : Node) : List Node :=
  match node.type with
  | .DECLARATION => node.children
  | .ARRAY_DECLARATION =>
    match node.children with
    | [identifier, _] => [identifier]
    | _ => []
  | .FUNCTION =>
    match node.children with
    | [identifier, _, _] => [identifier]
    | _ => []
  | _ => []

/-- The nodes that name the global symbols of a program, in textual order. -/
def global_declarations (root : Node) : List Node :=
  (root.children.map global_declarations_of).flatten

/-- What `find_globals` leaves in the entry of a function: a node with three
children, whose parameters are valid declarations, and a table that holds the
parameters, numbered from 0, in its sequence and in its single layer. -/
def function_entry_ok (entry : global_symbol_t) : Prop :=
  entry.symbol.type = .SYMBOL_FUNCTION →
    ∃ t d identifier parameter_list body sy,
      entry.node = Node.mk t d [identifier, parameter_list, body] sy ∧
      valid_declarations parameter_list.children ∧
      entry.function_symtable =
        some ⟨declared_symbols .SYMBOL_PARAMETER 0 parameter_list.children,
          [(declared_symbols .SYMBOL_PARAMETER 0 parameter_list.children).reverse]⟩

/-- What a run of insertions adds to the global table. -/
def globals_added (g0 g : List global_symbol_t) (declared : List Node) : Prop :=
  ∃ added, g = g0 ++ added ∧
    added.map (fun e => e.symbol.name) = declared.map node_name ∧
    (∀ e ∈ added, function_entry_ok e) ∧
    ((g0.map (fun e => e.symbol.name)).Nodup → (g.map (fun e => e.symbol.name)).Nodup)


/-- How `bind` changes one entry of the global table: the entry of a function
gets the bound body and the table that the walk over the body leaves; every
other entry stays as it is. -/
def entry_bound (global : List Symbol) (e e' : global_symbol_t) : Prop :=
  (e.symbol.type = .SYMBOL_FUNCTION →
    ∃ t d a b child sy table string_list st' child',
      e.node = Node.mk t d [a, b, child] sy ∧
      e.function_symtable = some table ∧
      bind_names global ⟨table, string_list⟩ child = some (st', child') ∧
      e' = ⟨e.symbol, Node.mk t d [a, b, child'] sy, some st'.local_symbols⟩) ∧
  (e.symbol.type ≠ .SYMBOL_FUNCTION → e' = e)

/-- For the entry of a function as `find_globals` leaves it, the symbols that
the scoping rule gives to the identifier occurrences of the body, in walk
order: the parameters are numbered from 0 and no block is open at the start of
the body. -/
def function_links (globals : List Symbol) (e : global_symbol_t) : List (Option Symbol) :=
  if e.symbol.type = .SYMBOL_FUNCTION then
    match e.node.children with
    | [_, parameter_list, body] =>
      expected_links globals (declared_symbols .SYMBOL_PARAMETER 0 parameter_list.children) []
        parameter_list.children.length body
    | _ => []
  else []

/-- The entry `e'` is the entry `e` of a function after binding, and the
identifier occurrences of the bound body carry the symbols of the scoping rule
(entries that are not functions are left out). -/
def bound_by_scope (globals : List Symbol) (e e' : global_symbol_t) : Prop :=
  e.symbol.type = .SYMBOL_FUNCTION →
    ∃ t d identifier parameter_list body body' sy table',
      e.node = Node.mk t d [identifier, parameter_list, body] sy ∧
      e' = ⟨e.symbol, Node.mk t d [identifier, parameter_list, body'] sy, some table'⟩ ∧
      (visited_identifiers body').map Node.symbol = function_links globals e

/-- The bodies of the `FUNCTION` children of the root that have three
children. -/
def program_bodies (root : Node) : List Node :=
  root.children.filterMap (fun node =>
    if node.type = .FUNCTION then
      match node.children with
      | [_, _, body] => some body
      | _ => none
    else none)

mutual
/-- The scopes that `bind_names` opens in a tree, in the order of the walk:
for every block with two children that the walk enters, the identifiers that
the block declares. -/
def walked_scopes : Node → List (List Node)
  | .mk .IDENTIFIER_DATA _ _ _ => []
  | .mk .STRING_DATA _ _ _ => []
  | .mk .BLOCK _ [declaration_list, body] _ =>
    declared_identifiers declaration_list :: walked_scopes body
  | .mk .BLOCK _ [] _ => []
  | .mk .BLOCK _ (first :: _) _ => walked_scopes first
  | .mk _ _ cs _ => walked_scopes_list cs
/-- The scopes opened in the trees of a list, in order. -/
def walked_scopes_list : List Node → List (List Node)
  | [] => []
  | c :: cs => walked_scopes c ++ walked_scopes_list cs
end

/-! ## Example programs for the resolver -/

/-- Simplified tree of
`var g  def f(a, b) begin var x  x := a  begin var a, y  y := a  x := g end  b := a end`. -/
def example_scope_program : Node :=
  node_init .GLOBAL_LIST .null
    [node_init .DECLARATION .null [identifier_node "g"],
     node_init .FUNCTION .null
      [identifier_node "f",
       node_init .PARAMETER_LIST .null [identifier_node "a", identifier_node "b"],
       node_init .BLOCK .null
        [node_init .DECLARATION_LIST .null
          [node_init .DECLARATION .null [identifier_node "x"]],
         node_init .STATEMENT_LIST .null
          [node_init .ASSIGNMENT_STATEMENT .null [identifier_node "x", identifier_node "a"],
           node_init .BLOCK .null
            [node_init .DECLARATION_LIST .null
              [node_init .DECLARATION .null [identifier_node "a", identifier_node "y"]],
             node_init .STATEMENT_LIST .null
              [node_init .ASSIGNMENT_STATEMENT .null
                [identifier_node "y", identifier_node "a"],
               node_init .ASSIGNMENT_STATEMENT .null
                [identifier_node "x", identifier_node "g"]]],
           node_init .ASSIGNMENT_STATEMENT .null
            [identifier_node "b", identifier_node "a"]]]]]

/-- The global table that `find_globals` builds for `example_scope_program`. -/
def example_scope_globals : List global_symbol_t :=
  (find_globals example_scope_program).getD []

/-- What `create_tables` leaves for `example_scope_program`. -/
def example_scope_tables : tables :=
  (create_tables example_scope_program).getD ⟨[], []⟩

/-- The entry of `f` in `example_scope_tables`. -/
def example_scope_entry : global_symbol_t :=
  example_scope_tables.global_symbols.getLast?.getD
    ⟨⟨"", .SYMBOL_GLOBAL_VAR, 0⟩, number_node 0, none⟩

/-- Simplified tree of `var a, a  def main() begin return 0 end`: the name `a`
is declared twice at the top level and the body holds no identifier. -/
def example_duplicate_global : Node :=
  node_init .GLOBAL_LIST .null
    [node_init .DECLARATION .null [identifier_node "a", identifier_node "a"],
     node_init .FUNCTION .null
      [identifier_node "main",
       node_init .PARAMETER_LIST .null [],
       node_init .BLOCK .null
        [node_init .STATEMENT_LIST .null
          [node_init .RETURN_STATEMENT .null [number_node 0]]]]]

/-- Simplified tree of `def main(a, a) begin return 0 end`. -/
def example_duplicate_parameter : Node :=
  node_init .GLOBAL_LIST .null
    [node_init .FUNCTION .null
      [identifier_node "main",
       node_init .PARAMETER_LIST .null [identifier_node "a", identifier_node "a"],
       node_init .BLOCK .null
        [node_init .STATEMENT_LIST .null
          [node_init .RETURN_STATEMENT .null [number_node 0]]]]]

/-- Simplified tree of `def main() begin var x, x  return 0 end`. -/
def example_duplicate_local : Node :=
  node_init .GLOBAL_LIST .null
    [node_init .FUNCTION .null
      [identifier_node "main",
       node_init .PARAMETER_LIST .null [],
       node_init .BLOCK .null
        [node_init .DECLARATION_LIST .null
          [node_init .DECLARATION .null [identifier_node "x", identifier_node "x"]],
         node_init .STATEMENT_LIST .null
          [node_init .RETURN_STATEMENT .null [number_node 0]]]]]

/-- A table with the parameter `a`, as it is when the body of `f(a)` is
entered. -/
def example_parameter_table : symbol_table_t :=
  ⟨[⟨"a", .SYMBOL_PARAMETER, 0⟩], [[⟨"a", .SYMBOL_PARAMETER, 0⟩]]⟩

/-- Simplified tree of the block `begin var a  a := 1 end`. -/
def example_shadowing_block : Node :=
  node_init .BLOCK .null
    [node_init .DECLARATION_LIST .null [node_init .DECLARATION .null [identifier_node "a"]],
     node_init .STATEMENT_LIST .null
      [node_init .ASSIGNMENT_STATEMENT .null [identifier_node "a", number_node 1]]]

/-- The state in which `example_shadowing_block` is bound: the table of
`f(a)` and an empty string list. -/
def example_shadowing_state : bind_state := ⟨example_parameter_table, []⟩

/-- What `bind_names` returns for `example_shadowing_block` in
`example_shadowing_state` with no global symbol. -/
def example_shadowing_bound : bind_state × Node :=
  (bind_names [] example_shadowing_state example_shadowing_block).getD
    (example_shadowing_state, example_shadowing_block)

/-! ## generator.c

The macros of `emit.h` (`MOVQ`, `PUSHQ`, `LABEL`, `EMIT`, the register names
...) are not in the sources.  Each call writes one line of assembly; the model
keeps the line as a value of `Instr` instead of text, and the output sink is
the list of the lines written so far.  `while_counter` and `if_counter` are the
two static counters of the module. -/

/-- Modelled from the spec: the registers named by the macros of `emit.h`
(`RAX` is `%rax`, and so on). -/
inductive Reg where
  | RAX | RCX | RDX | RSI | RDI | RBP | RSP | RIP | R8 | R9 | R10
  deriving DecidableEq, Repr

/-- Modelled from the spec: the operand texts that the generator builds:
`$value`, `%reg`, `offset(%rbp)`, `.name(%rip)` and `(%reg)` (the macro
`MEM`). -/
inductive Operand where
  | imm (value : Int)
  | reg (r : Reg)
  | frame (offset : Int)
  | global (name : String)
  | mem (r : Reg)
  deriving DecidableEq, Repr

/-- Modelled from the spec: the label texts that the generator builds:
`.name` for a function, a stem followed by a number printed with `%d`
(`if3`, `endwhile0`), and fixed names (`main`, `safe_printf`, `putchar`). -/
inductive Label where
  | function (name : String)
  | numbered (stem : String) (number : Int)
  | plain (name : String)
  deriving DecidableEq, Repr

/-- Modelled from the spec: the symbols of the string section that `leaq`
loads: the fixed format strings and `string<index>`. -/
inductive StringSymbol where
  | strout | intout | errout
  | string (index : Int)
  deriving DecidableEq, Repr

/-- Modelled from the spec: one line of emitted assembly, in AT&T operand order
(source first).  `leaq_string s r` is `leaq s(%rip), r`; `leaq_global x r` is
`leaq .x(%rip), r`; `leaq_index b i r` is `leaq (b, i, 8), r`;
`string_section` and `bss_section` are `.section` followed by the macros
`ASM_STRING_SECTION` and `ASM_BSS_SECTION`; `asciz s text` is
`s: .asciz text`; `zero x n` is `.x: .zero n`; `declare_symbols` is the
macro `ASM_DECLARE_SYMBOLS`. -/
inductive Instr where
  | movq (src dst : Operand)
  | pushq (src : Operand)
  | popq (dst : Operand)
  | addq (src dst : Operand)
  | subq (src dst : Operand)
  | imulq (src dst : Operand)
  | andq (src dst : Operand)
  | negq (dst : Operand)
  | cqo
  | idivq (src : Operand)
  | cmpq (src dst : Operand)
  | jmp (target : Label)
  | je (target : Label)
  | jne (target : Label)
  | jge (target : Label)
  | jle (target : Label)
  | loop (target : Label)
  | call (target : Label)
  | ret
  | leaq_string (symbol : StringSymbol) (dst : Reg)
  | leaq_global (name : String) (dst : Reg)
  | leaq_index (base index dst : Reg)
  | label (l : Label)
  | directive (text : String)
  | string_section
  | bss_section
  | asciz (symbol : StringSymbol) (text : String)
  | zero (name : String) (bytes : Int)
  | declare_symbols
  deriving DecidableEq, Repr

/-- The state of the generator: the lines written so far and the two static
counters. -/
structure gen_state where
  output : List Instr
  while_counter : Int
  if_counter : Int
  deriving DecidableEq, Repr

/-- How a run of the generator can stop early: the seven `fprintf(stderr, ...);
exit(EXIT_FAILURE)` of the module, a failing `assert`, and a read through a
null or out-of-bounds pointer. -/
inductive gen_error where
  | not_a_function (name : String)
  | argument_count (name : String) (expected given : Nat)
  | function_as_variable (name : String)
  | array_as_variable (name : String)
  | not_an_array (name : String)
  | array_length_unknown (name : String)
  | no_functions
  | assertion
  | invalid_read
  deriving DecidableEq, Repr

/-- Result of a generator function: the state after it, or the error with the
state at the moment of the stop. -/
inductive gen_result where
  | ok (st : gen_state)
  | error (e : gen_error) (st : gen_state)
  deriving DecidableEq, Repr

/-- One line is written. -/
def emit (st : gen_state) (i : Instr) : gen_state :=
  ⟨st.output ++ [i], st.while_counter, st.if_counter⟩

/-- Several lines are written in order. -/
def emit_all (st : gen_state) (lines : List Instr) : gen_state :=
  ⟨st.output ++ lines, st.while_counter, st.if_counter⟩

/-- `NUM_REGISTER_PARAMS`. -/
def NUM_REGISTER_PARAMS : Nat := 6

/-- `REGISTER_PARAMS`. -/
def REGISTER_PARAMS : List Reg := [.RDI, .RSI, .RDX, .RCX, .R8, .R9]

/-- `FUNC_PARAM_COUNT(func)`: `func->node->children[1]->n_children`. -/
def FUNC_PARAM_COUNT (func : global_symbol_t) : Option Nat :=
  match func.node.children with
  | _ :: parameter_list :: _ => some parameter_list.children.length
  | _ => none

/-- The entry of the global table that a symbol link to a function points to:
the sequence number of a global symbol is its position in the table. -/
def function_entry (global_symbols : List global_symbol_t) (symbol : Symbol) :
    Option global_symbol_t :=
  global_symbols[symbol.sequence_number]?

/-- `generate_variable_access`: the operand for the variable that an
identifier is bound to. -/
def generate_variable_access (current_function : global_symbol_t) (node : Node) :
    Except gen_error Operand :=
  if node.type ≠ .IDENTIFIER_DATA then .error .assertion
  else
    match node.symbol with
    | none => .error .invalid_read
    | some symbol =>
      match symbol.type with
      | .SYMBOL_GLOBAL_VAR => .ok (.global symbol.name)
      | .SYMBOL_LOCAL_VAR =>
        match FUNC_PARAM_COUNT current_function with
        | none => .error .invalid_read
        | some parameter_count =>
          let call_frame_offset : Int := symbol.sequence_number
          let call_frame_offset : Int :=
            if parameter_count > NUM_REGISTER_PARAMS then
              call_frame_offset - (parameter_count - NUM_REGISTER_PARAMS : Nat)
            else call_frame_offset
          .ok (.frame ((-call_frame_offset - 1) * 8))
      | .SYMBOL_PARAMETER =>
        if symbol.sequence_number < NUM_REGISTER_PARAMS then
          .ok (.frame ((-(symbol.sequence_number : Int) - 1) * 8))
        else
          .ok (.frame (16 + ((symbol.sequence_number : Int) - NUM_REGISTER_PARAMS) * 8))
      | .SYMBOL_FUNCTION => .error (.function_as_variable symbol.name)
      | .SYMBOL_GLOBAL_ARRAY => .error (.array_as_variable symbol.name)

mutual
/-- `generate_expression`: code that leaves the value of the expression in
`%rax`.  A child that the node does not have is an invalid read at the point
where the code uses it: for `+` and `*` with one child after the code of the
left operand and the push of `%rax`, for `/` and the binary `-` at once (the
right operand comes first). -/
def generate_expression (global_symbols : List global_symbol_t)
    (current_function : global_symbol_t) (st : gen_state) : Node → gen_result
  | .mk .NUMBER_DATA d _ _ =>
    match d with
    | .num value => .ok (emit st (.movq (.imm value) (.reg .RAX)))
    | _ => .error .invalid_read st
  | .mk .IDENTIFIER_DATA d cs sy =>
    match generate_variable_access current_function (.mk .IDENTIFIER_DATA d cs sy) with
    | .ok operand => .ok (emit st (.movq operand (.reg .RAX)))
    | .error e => .error e st
  | .mk .ARRAY_INDEXING _ cs _ =>
    match generate_array_access_body global_symbols current_function st cs with
    | .ok st1 => .ok (emit st1 (.movq (.mem .R10) (.reg .RAX)))
    | .error e st1 => .error e st1
  | .mk .EXPRESSION d cs _ =>
    match d with
    | .str data =>
      if data = "call" then generate_function_call_body global_symbols current_function st cs
      else if data = "+" then
        match cs with
        | left :: right :: _ =>
          match generate_expression global_symbols current_function st left with
          | .ok st1 =>
            match generate_expression global_symbols current_function
                (emit st1 (.pushq (.reg .RAX))) right with
            | .ok st2 => .ok (emit (emit st2 (.popq (.reg .R10))) (.addq (.reg .R10) (.reg .RAX)))
            | .error e st2 => .error e st2
          | .error e st1 => .error e st1
        | [left] =>
          match generate_expression global_symbols current_function st left with
          | .ok st1 => .error .invalid_read (emit st1 (.pushq (.reg .RAX)))
          | .error e st1 => .error e st1
        | [] => .error .invalid_read st
      else if data = "-" then
        match cs with
        | [left] =>
          match generate_expression global_symbols current_function st left with
          | .ok st1 => .ok (emit st1 (.negq (.reg .RAX)))
          | .error e st1 => .error e st1
        | left :: right :: _ =>
          match generate_expression global_symbols current_function st right with
          | .ok st1 =>
            match generate_expression global_symbols current_function
                (emit st1 (.pushq (.reg .RAX))) left with
            | .ok st2 => .ok (emit (emit st2 (.popq (.reg .R10))) (.subq (.reg .R10) (.reg .RAX)))
            | .error e st2 => .error e st2
          | .error e st1 => .error e st1
        | [] => .error .invalid_read st
      else if data = "*" then
        match cs with
        | left :: right :: _ =>
          match generate_expression global_symbols current_function st left with
          | .ok st1 =>
            match generate_expression global_symbols current_function
                (emit st1 (.pushq (.reg .RAX))) right with
            | .ok st2 =>
              .ok (emit (emit st2 (.popq (.reg .R10))) (.imulq (.reg .R10) (.reg .RAX)))
            | .error e st2 => .error e st2
          | .error e st1 => .error e st1
        | [left] =>
          match generate_expression global_symbols current_function st left with
          | .ok st1 => .error .invalid_read (emit st1 (.pushq (.reg .RAX)))
          | .error e st1 => .error e st1
        | [] => .error .invalid_read st
      else if data = "/" then
        match cs with
        | left :: right :: _ =>
          match generate_expression global_symbols current_function st right with
          | .ok st1 =>
            match generate_expression global_symbols current_function
                (emit st1 (.pushq (.reg .RAX))) left with
            | .ok st2 =>
              .ok (emit (emit (emit st2 .cqo) (.popq (.reg .R10))) (.idivq (.reg .R10)))
            | .error e st2 => .error e st2
          | .error e st1 => .error e st1
        | _ => .error .invalid_read st
      else .error .assertion st
    | _ => .error .invalid_read st
  | _ => .error .assertion st
/-- The body of `generate_array_access`, given the children of the
`ARRAY_INDEXING` node: the index is evaluated and `%r10` is made to point at
the element. -/
def generate_array_access_body (global_symbols : List global_symbol_t)
    (current_function : global_symbol_t) (st : gen_state) : List Node → gen_result
  | [] => .error .invalid_read st
  | array :: rest =>
    match array.symbol with
    | none => .error .invalid_read st
    | some symbol =>
      if symbol.type ≠ .SYMBOL_GLOBAL_ARRAY then .error (.not_an_array symbol.name) st
      else
        match rest with
        | [] => .error .invalid_read st
        | index :: _ =>
          match generate_expression global_symbols current_function st index with
          | .ok st1 =>
            .ok (emit (emit st1 (.leaq_global symbol.name .R10)) (.leaq_index .R10 .RAX .R10))
          | .error e st1 => .error e st1
/-- The body of `generate_function_call`, given the children of the call
node. -/
def generate_function_call_body (global_symbols : List global_symbol_t)
    (current_function : global_symbol_t) (st : gen_state) : List Node → gen_result
  | [] => .error .invalid_read st
  | callee :: rest =>
    match callee.symbol with
    | none => .error .invalid_read st
    | some symbol =>
      if symbol.type ≠ .SYMBOL_FUNCTION then .error (.not_a_function symbol.name) st
      else
        match rest with
        | [] => .error .invalid_read st
        | .mk _ _ arguments _ :: _ =>
          match (function_entry global_symbols symbol).bind FUNC_PARAM_COUNT with
          | none => .error .invalid_read st
          | some parameter_count =>
            if parameter_count ≠ arguments.length then
              .error (.argument_count symbol.name parameter_count arguments.length) st
            else
              match generate_arguments global_symbols current_function st arguments with
              | .ok st1 =>
                .ok (emit_all st1
                  (((REGISTER_PARAMS.take parameter_count).map (fun r => Instr.popq (.reg r))) ++
                    [.call (.function symbol.name)] ++
                    (if parameter_count > NUM_REGISTER_PARAMS then
                      [.addq (.imm (((parameter_count - NUM_REGISTER_PARAMS : Nat) : Int) * 8))
                        (.reg .RSP)]
                    else [])))
              | .error e st1 => .error e st1
/-- The loop `for (i = parameter_count - 1; i >= 0; i--)` of
`generate_function_call`: the arguments are evaluated and pushed from the last
to the first. -/
def generate_arguments (global_symbols : List global_symbol_t)
    (current_function : global_symbol_t) (st : gen_state) : List Node → gen_result
  | [] => .ok st
  | argument :: rest =>
    match generate_arguments global_symbols current_function st rest with
    | .ok st1 =>
      match generate_expression global_symbols current_function st1 argument with
      | .ok st2 => .ok (emit st2 (.pushq (.reg .RAX)))
      | .error e st2 => .error e st2
    | .error e st1 => .error e st1
end

/-- `generate_function_call`. -/
def generate_function_call (global_symbols : List global_symbol_t)
    (current_function : global_symbol_t) (st : gen_state) (call : Node) : gen_result :=
  generate_function_call_body global_symbols current_function st call.children

/-- `generate_array_access`: asserts the node kind; on success `(%r10)` is the
element. -/
def generate_array_access (global_symbols : List global_symbol_t)
    (current_function : global_symbol_t) (st : gen_state) (node : Node) : gen_result :=
  if node.type ≠ .ARRAY_INDEXING then .error .assertion st
  else generate_array_access_body global_symbols current_function st node.children

/-- `generate_assignment_statement`. -/
def generate_assignment_statement (global_symbols : List global_symbol_t)
    (current_function : global_symbol_t) (st : gen_state) (statement : Node) : gen_result :=
  match statement.children with
  | destination :: expression :: _ =>
    match generate_expression global_symbols current_function st expression with
    | .ok st1 =>
      if destination.type = .IDENTIFIER_DATA then
        match generate_variable_access current_function destination with
        | .ok operand => .ok (emit st1 (.movq (.reg .RAX) operand))
        | .error e => .error e st1
      else
        match generate_array_access global_symbols current_function
            (emit st1 (.pushq (.reg .RAX))) destination with
        | .ok st2 =>
          .ok (emit (emit st2 (.popq (.reg .RAX))) (.movq (.reg .RAX) (.mem .R10)))
        | .error e st2 => .error e st2
    | .error e st1 => .error e st1
  | _ => .error .invalid_read st

/-- The loop of `generate_print_statement` over the items. -/
def generate_print_items (global_symbols : List global_symbol_t)
    (current_function : global_symbol_t) (st : gen_state) : List Node → gen_result
  | [] => .ok st
  | child :: rest =>
    if child.type = .STRING_DATA then
      match child.data with
      | .num index =>
        generate_print_items global_symbols current_function
          (emit_all st [.leaq_string .strout .RDI, .leaq_string (.string index) .RSI,
            .call (.plain "safe_printf")]) rest
      | _ => .error .invalid_read st
    else
      match generate_expression global_symbols current_function st child with
      | .ok st1 =>
        generate_print_items global_symbols current_function
          (emit_all st1 [.movq (.reg .RAX) (.reg .RSI), .leaq_string .intout .RDI,
            .call (.plain "safe_printf")]) rest
      | .error e st1 => .error e st1

/-- `generate_print_statement`: the items, then the newline (character 10). -/
def generate_print_statement (global_symbols : List global_symbol_t)
    (current_function : global_symbol_t) (st : gen_state) (statement : Node) : gen_result :=
  match generate_print_items global_symbols current_function st statement.children with
  | .ok st1 => .ok (emit_all st1 [.movq (.imm 10) (.reg .RDI), .call (.plain "putchar")])
  | .error e st1 => .error e st1

/-- `generate_return_statement`. -/
def generate_return_statement (global_symbols : List global_symbol_t)
    (current_function : global_symbol_t) (st : gen_state) (statement : Node) : gen_result :=
  match statement.children with
  | expression :: _ =>
    match generate_expression global_symbols current_function st expression with
    | .ok st1 =>
      .ok (emit_all st1 [.movq (.reg .RBP) (.reg .RSP), .popq (.reg .RBP), .ret])
    | .error e st1 => .error e st1
  | [] => .error .invalid_read st

/-- `generate_relation`: left operand, push, right operand, pop into `%r10`,
`cmpq %rax, %r10`. -/
def generate_relation (global_symbols : List global_symbol_t)
    (current_function : global_symbol_t) (st : gen_state) (relation : Node) : gen_result :=
  match relation.children with
  | [left, right] =>
    match generate_expression global_symbols current_function st left with
    | .ok st1 =>
      match generate_expression global_symbols current_function
          (emit st1 (.pushq (.reg .RAX))) right with
      | .ok st2 => .ok (emit (emit st2 (.popq (.reg .R10))) (.cmpq (.reg .RAX) (.reg .R10)))
      | .error e st2 => .error e st2
    | .error e st1 => .error e st1
  | _ => .error .assertion st

/-- The chain `if (is_equal_relation(data)) JNE(label) else if ...` that
`generate_if_statement` and `generate_while_statement` both hold: the jump that
leaves when the relation is false. -/
def inverse_jump (st : gen_state) (data : Data) (target : Label) : gen_result :=
  match data with
  | .str text =>
    if text = "=" then .ok (emit st (.jne target))
    else if text = "!=" then .ok (emit st (.je target))
    else if text = "<" then .ok (emit st (.jge target))
    else if text = ">" then .ok (emit st (.jle target))
    else .error .assertion st
  | _ => .error .invalid_read st

/-- `generate_break_statement`: the counter is decremented and the jump goes
to `endwhile<while_counter>`. -/
def generate_break_statement (st : gen_state) : gen_result :=
  .ok (emit ⟨st.output, st.while_counter - 1, st.if_counter⟩
    (.jmp (.numbered "endwhile" (st.while_counter - 1))))

mutual
/-- `generate_statement`: the switch over the statement kinds. -/
def generate_statement (global_symbols : List global_symbol_t)
    (current_function : global_symbol_t) (st : gen_state) : Node → gen_result
  | .mk .BLOCK _ cs _ => generate_block_statement global_symbols current_function st cs
  | .mk .ASSIGNMENT_STATEMENT d cs sy =>
    generate_assignment_statement global_symbols current_function st
      (.mk .ASSIGNMENT_STATEMENT d cs sy)
  | .mk .PRINT_STATEMENT d cs sy =>
    generate_print_statement global_symbols current_function st (.mk .PRINT_STATEMENT d cs sy)
  | .mk .RETURN_STATEMENT d cs sy =>
    generate_return_statement global_symbols current_function st (.mk .RETURN_STATEMENT d cs sy)
  | .mk .IF_STATEMENT _ cs _ => generate_if_statement global_symbols current_function st cs
  | .mk .WHILE_STATEMENT _ cs _ =>
    generate_while_statement global_symbols current_function st cs
  | .mk .BREAK_STATEMENT _ _ _ => generate_break_statement st
  | _ => .error .assertion st
/-- `generate_if_statement`, given the children of the statement: the counter
is taken and incremented, `if<N>` is written, then the relation, the inverse
jump to `else<N>`, the then-branch, the jump to `endif<N>`, `else<N>`, the
else-branch if there is one, and `endif<N>`. -/
def generate_if_statement (global_symbols : List global_symbol_t)
    (current_function : global_symbol_t) (st : gen_state) : List Node → gen_result
  | relation :: then_statement :: rest =>
    if 1 < rest.length then
      .error .assertion (emit ⟨st.output, st.while_counter, st.if_counter + 1⟩
        (.label (.numbered "if" st.if_counter)))
    else
      match generate_relation global_symbols current_function
          (emit ⟨st.output, st.while_counter, st.if_counter + 1⟩
            (.label (.numbered "if" st.if_counter))) relation with
      | .ok st1 =>
        match inverse_jump st1 relation.data (.numbered "else" st.if_counter) with
        | .ok st2 =>
          match generate_statement global_symbols current_function st2 then_statement with
          | .ok st3 =>
            generate_else global_symbols current_function
              (emit (emit st3 (.jmp (.numbered "endif" st.if_counter)))
                (.label (.numbered "else" st.if_counter))) st.if_counter rest
          | .error e st3 => .error e st3
        | .error e st2 => .error e st2
      | .error e st1 => .error e st1
  | _ =>
    .error .assertion (emit ⟨st.output, st.while_counter, st.if_counter + 1⟩
      (.label (.numbered "if" st.if_counter)))
/-- The end of `generate_if_statement`, given the children after the
then-branch: the else-branch if the statement has a third child, then
`endif<N>`. -/
def generate_else (global_symbols : List global_symbol_t)
    (current_function : global_symbol_t) (st : gen_state) (local_counter : Int) :
    List Node → gen_result
  | [] => .ok (emit st (.label (.numbered "endif" local_counter)))
  | else_statement :: _ =>
    match generate_statement global_symbols current_function st else_statement with
    | .ok st1 => .ok (emit st1 (.label (.numbered "endif" local_counter)))
    | .error e st1 => .error e st1
/-- `generate_while_statement`, given the children of the statement: the
counter is taken and incremented, `while<N>` is written, then the relation,
the inverse jump to `endwhile<N>`, the block (through
`generate_block_statement`), the jump back and `endwhile<N>`. -/
def generate_while_statement (global_symbols : List global_symbol_t)
    (current_function : global_symbol_t) (st : gen_state) : List Node → gen_result
  | [relation, .mk _ _ block_children _] =>
    match generate_relation global_symbols current_function
        (emit ⟨st.output, st.while_counter + 1, st.if_counter⟩
          (.label (.numbered "while" st.while_counter))) relation with
    | .ok st1 =>
      match inverse_jump st1 relation.data (.numbered "endwhile" st.while_counter) with
      | .ok st2 =>
        match generate_block_statement global_symbols current_function st2 block_children with
        | .ok st3 =>
          .ok (emit (emit st3 (.jmp (.numbered "while" st.while_counter)))
            (.label (.numbered "endwhile" st.while_counter)))
        | .error e st3 => .error e st3
      | .error e st2 => .error e st2
    | .error e st1 => .error e st1
  | _ =>
    .error .assertion (emit ⟨st.output, st.while_counter + 1, st.if_counter⟩
      (.label (.numbered "while" st.while_counter)))
/-- `generate_block_statement`, given the children of the node: the
statements of the last child are generated in order. -/
def generate_block_statement (global_symbols : List global_symbol_t)
    (current_function : global_symbol_t) (st : gen_state) : List Node → gen_result
  | [] => .error .invalid_read st
  | [.mk _ _ statements _] =>
    generate_statement_list global_symbols current_function st statements
  | _ :: rest => generate_block_statement global_symbols current_function st rest
/-- The loop of `generate_block_statement` over the statements. -/
def generate_statement_list (global_symbols : List global_symbol_t)
    (current_function : global_symbol_t) (st : gen_state) : List Node → gen_result
  | [] => .ok st
  | statement :: rest =>
    match generate_statement global_symbols current_function st statement with
    | .ok st1 => generate_statement_list global_symbols current_function st1 rest
    | .error e st1 => .error e st1
end

/-- The number of `SYMBOL_LOCAL_VAR` symbols of a table. -/
def local_variable_count (table : symbol_table_t) : Nat :=
  (table.symbols.filter (fun symbol => symbol.type = .SYMBOL_LOCAL_VAR)).length

/-- The lines that `generate_function` writes before the body: the label, the
frame set-up, one push per register parameter and one `pushq $0` per local
variable of the table. -/
def function_prologue (name : String) (parameter_count : Nat) (table : symbol_table_t) :
    List Instr :=
  [.label (.function name), .pushq (.reg .RBP), .movq (.reg .RSP) (.reg .RBP)] ++
    (REGISTER_PARAMS.take parameter_count).map (fun r => Instr.pushq (.reg r)) ++
    (table.symbols.filter (fun symbol => symbol.type = .SYMBOL_LOCAL_VAR)).map
      (fun _ => Instr.pushq (.imm 0))

/-- `generate_function`: prologue, body (the third child of the node),
epilogue; the function is the `current_function` of its body. -/
def generate_function (global_symbols : List global_symbol_t) (st : gen_state)
    (function : global_symbol_t) : gen_result :=
  match FUNC_PARAM_COUNT function, function.function_symtable with
  | some parameter_count, some table =>
    match function.node.children with
    | _ :: _ :: function_body :: _ =>
      match generate_statement global_symbols function
          (emit_all st (function_prologue function.symbol.name parameter_count table))
          function_body with
      | .ok st1 =>
        .ok (emit_all st1 [.movq (.imm 0) (.reg .RAX), .movq (.reg .RBP) (.reg .RSP),
          .popq (.reg .RBP), .ret, .directive ""])
      | .error e st1 => .error e st1
    | _ => .error .invalid_read st
  | _, _ => .error .invalid_read st

/-- The loop of `generate_string_table` over the string list: entry `i` is
written as `string<i>: .asciz <lexeme>`. -/
def generate_string_entries (st : gen_state) : Nat → List Data → gen_result
  | _, [] => .ok st
  | index, .str text :: rest =>
    generate_string_entries (emit st (.asciz (.string index) text)) (index + 1) rest
  | _, _ :: _ => .error .invalid_read st

/-- `generate_string_table`: the section directive, the three fixed strings
(written with their quotes), the entries of the string list and an empty
line. -/
def generate_string_table (string_list : List Data) (st : gen_state) : gen_result :=
  match generate_string_entries
      (emit_all st [.string_section, .asciz .intout "\"%ld \"", .asciz .strout "\"%s \"",
        .asciz .errout "\"Wrong number of arguments\""]) 0 string_list with
  | .ok st1 => .ok (emit st1 (.directive ""))
  | .error e st1 => .error e st1

/-- The loop of `generate_global_variables` over the global table: 8 bytes per
`SYMBOL_GLOBAL_VAR`, `length * 8` bytes per `SYMBOL_GLOBAL_ARRAY` whose second
child is a `NUMBER_DATA`.  The product is that of two `int64_t` and is printed
with `%ld`: it wraps modulo `2^64`. -/
def generate_global_entries (st : gen_state) : List global_symbol_t → gen_result
  | [] => .ok st
  | symbol :: rest =>
    if symbol.symbol.type = .SYMBOL_GLOBAL_VAR then
      generate_global_entries (emit st (.zero symbol.symbol.name 8)) rest
    else if symbol.symbol.type = .SYMBOL_GLOBAL_ARRAY then
      match symbol.node.children with
      | _ :: child :: _ =>
        if child.type ≠ .NUMBER_DATA then
          .error (.array_length_unknown symbol.symbol.name) st
        else
          match child.data with
          | .num length =>
            generate_global_entries (emit st (.zero symbol.symbol.name (wrap64 (length * 8))))
              rest
          | _ => .error .invalid_read st
      | _ => .error .invalid_read st
    else generate_global_entries st rest

/-- `generate_global_variables`: the section directive, `.align 8`, the
entries and an empty line. -/
def generate_global_variables (global_symbols : List global_symbol_t) (st : gen_state) :
    gen_result :=
  match generate_global_entries (emit_all st [.bss_section, .directive ".align 8"])
      global_symbols with
  | .ok st1 => .ok (emit st1 (.directive ""))
  | .error e st1 => .error e st1

/-- The loop of `get_topmost_function` over the global table: every
`SYMBOL_FUNCTION` is generated, in table order. -/
def generate_functions (global_symbols : List global_symbol_t) (st : gen_state) :
    List global_symbol_t → gen_result
  | [] => .ok st
  | symbol :: rest =>
    if symbol.symbol.type ≠ .SYMBOL_FUNCTION then generate_functions global_symbols st rest
    else
      match generate_function global_symbols st symbol with
      | .ok st1 => generate_functions global_symbols st1 rest
      | .error e st1 => .error e st1

/-- The value that `get_topmost_function` returns: the first
`SYMBOL_FUNCTION` of the global table. -/
def first_function (global_symbols : List global_symbol_t) : Option global_symbol_t :=
  global_symbols.find? (fun symbol => symbol.symbol.type = .SYMBOL_FUNCTION)

/-- `get_topmost_function`, as far as the output goes: all functions are
generated, then a table without a function is an error. -/
def get_topmost_function (global_symbols : List global_symbol_t) (st : gen_state) :
    gen_result :=
  match generate_functions global_symbols st global_symbols with
  | .ok st1 =>
    match first_function global_symbols with
    | none => .error .no_functions st1
    | some _ => .ok st1
  | .error e st1 => .error e st1

/-- The lines of `generate_safe_printf`. -/
def safe_printf_code : List Instr :=
  [.label (.plain "safe_printf"), .pushq (.reg .RBP), .movq (.reg .RSP) (.reg .RBP),
    .andq (.imm (-16)) (.reg .RSP), .call (.plain "printf"),
    .movq (.reg .RBP) (.reg .RSP), .popq (.reg .RBP), .ret]

/-- The lines of `generate_main` for a first function `name` that takes
`expected_args` parameters: `argc - 1` is compared with `expected_args`, the
arguments are parsed with `strtol` and pushed, up to six are popped into the
parameter registers, and `.name` is called. -/
def main_code (name : String) (expected_args : Nat) : List Instr :=
  [.label (.plain "main"), .pushq (.reg .RBP), .movq (.reg .RSP) (.reg .RBP),
    .subq (.imm 1) (.reg .RDI), .cmpq (.imm expected_args) (.reg .RDI),
    .jne (.plain "ABORT")] ++
  (if expected_args = 0 then []
   else
    [.addq (.imm ((expected_args : Int) * 8)) (.reg .RSI), .movq (.reg .RDI) (.reg .RCX),
      .label (.plain "PARSE_ARGV"), .pushq (.reg .RSI), .pushq (.reg .RCX),
      .movq (.mem .RSI) (.reg .RDI), .movq (.imm 0) (.reg .RSI), .movq (.imm 10) (.reg .RDX),
      .call (.plain "strtol"), .popq (.reg .RCX), .popq (.reg .RSI), .pushq (.reg .RAX),
      .subq (.imm 8) (.reg .RSI), .loop (.plain "PARSE_ARGV")] ++
    (REGISTER_PARAMS.take expected_args).map (fun r => Instr.popq (.reg r))) ++
  [.call (.function name), .movq (.reg .RAX) (.reg .RDI), .call (.plain "exit"),
    .label (.plain "ABORT"), .leaq_string .errout .RDI, .call (.plain "puts"),
    .movq (.imm 1) (.reg .RDI), .call (.plain "exit")] ++
  safe_printf_code ++ [.declare_symbols]

/-- `generate_main`. -/
def generate_main (first : global_symbol_t) (st : gen_state) : gen_result :=
  match FUNC_PARAM_COUNT first with
  | some expected_args => .ok (emit_all st (main_code first.symbol.name expected_args))
  | none => .error .invalid_read st

/-- `generate_program`, run on the tables that `create_tables` left, with both
counters at 0 and nothing written yet. -/
def generate_program (t : tables) : gen_result :=
  match generate_string_table t.string_list ⟨[], 0, 0⟩ with
  | .ok st1 =>
    match generate_global_variables t.global_symbols st1 with
    | .ok st2 =>
      match get_topmost_function t.global_symbols (emit st2 (.directive ".text")) with
      | .ok st3 =>
        match first_function t.global_symbols with
        | some first => generate_main first st3
        | none => .error .no_functions st3
      | .error e st3 => .error e st3
    | .error e st2 => .error e st2
  | .error e st1 => .error e st1

/-! ## A machine for straight-line code

The meaning of the arithmetic instructions that the generator emits, on a
machine that has the data registers, a stack of quadwords and the outcome of
the last comparison.  Values are signed 64-bit integers.  Memory operands, the
stack and frame pointers and control transfers are outside this model. -/

/-- State of the machine: the register contents, the stack (top first) and the
operands `(destination, source)` of the last `cmpq`, if the flags still stem
from it. -/
structure machine where
  regs : Reg → Int
  stack : List Int
  compared : Option (Int × Int)

/-- The registers that hold data in this model. -/
def Reg.is_data : Reg → Bool
  | .RSP | .RBP | .RIP => false
  | _ => true

/-- The machine after register `r` received `v` (the flags stay). -/
def machine.set (m : machine) (r : Reg) (v : Int) : machine :=
  ⟨fun x => if x = r then v else m.regs x, m.stack, m.compared⟩

/-- The machine after an arithmetic instruction wrote `v` to `r`: the flags no
longer stem from a comparison. -/
def machine.compute (m : machine) (r : Reg) (v : Int) : machine :=
  ⟨fun x => if x = r then v else m.regs x, m.stack, none⟩

/-- The value of a source operand: an immediate or a data register. -/
def machine.read (m : machine) : Operand → Option Int
  | .imm value => some value
  | .reg r => if r.is_data then some (m.regs r) else none
  | _ => none

/-- One instruction.  `none` is a trap (`idivq` by zero or with a quotient
outside the signed 64-bit range, `popq` from the empty stack) or an instruction
outside the model.  Arithmetic wraps modulo `2^64`; `cqo` fills `%rdx` with the
sign of `%rax`; `idivq` divides the 128-bit value `%rdx:%rax`, truncating
toward zero; `cmpq src, dst` records `(dst, src)`. -/
def execute (m : machine) : Instr → Option machine
  | .movq src (.reg r) =>
    if r.is_data then (m.read src).map (fun v => m.set r v) else none
  | .pushq src => (m.read src).map (fun v => ⟨m.regs, v :: m.stack, m.compared⟩)
  | .popq (.reg r) =>
    match m.stack with
    | v :: rest => if r.is_data then some ⟨(m.set r v).regs, rest, m.compared⟩ else none
    | [] => none
  | .addq src (.reg r) =>
    if r.is_data then (m.read src).map (fun v => m.compute r (wrap64 (m.regs r + v))) else none
  | .subq src (.reg r) =>
    if r.is_data then (m.read src).map (fun v => m.compute r (wrap64 (m.regs r - v))) else none
  | .imulq src (.reg r) =>
    if r.is_data then (m.read src).map (fun v => m.compute r (wrap64 (m.regs r * v))) else none
  | .negq (.reg r) =>
    if r.is_data then some (m.compute r (wrap64 (-m.regs r))) else none
  | .cqo => some (m.set .RDX (if m.regs .RAX < 0 then -1 else 0))
  | .idivq src =>
    match m.read src with
    | some v =>
      let dividend := m.regs .RDX * 2 ^ 64 + m.regs .RAX % 2 ^ 64
      if v = 0 then none
      else if -(2 ^ 63) ≤ Int.tdiv dividend v ∧ Int.tdiv dividend v < 2 ^ 63 then
        some ((m.compute .RAX (Int.tdiv dividend v)).compute .RDX (Int.tmod dividend v))
      else none
    | none => none
  | .cmpq src (.reg r) =>
    if r.is_data then (m.read src).map (fun v => ⟨m.regs, m.stack, some (m.regs r, v)⟩)
    else none
  | _ => none

/-- A sequence of instructions, executed in order. -/
def run (m : machine) : List Instr → Option machine
  | [] => some m
  | i :: rest =>
    match execute m i with
    | some m1 => run m1 rest
    | none => none

/-- Whether a jump is taken, after `cmpq src, dst` under signed comparison:
`je` when `dst = src`, `jne` when they differ, `jge` when `dst ≥ src`, `jle`
when `dst ≤ src`; `jmp` always.  `none`: the flags do not stem from a
comparison, or the instruction is no jump. -/
def jump_taken (m : machine) : Instr → Option Bool
  | .jmp _ => some true
  | .je _ => m.compared.map (fun c => decide (c.1 = c.2))
  | .jne _ => m.compared.map (fun c => decide (c.1 ≠ c.2))
  | .jge _ => m.compared.map (fun c => decide (c.2 ≤ c.1))
  | .jle _ => m.compared.map (fun c => decide (c.1 ≤ c.2))
  | _ => none

/-- The four relations of the language on signed integers. -/
def relation_holds (text : String) (a b : Int) : Option Bool :=
  if text = "=" then some (decide (a = b))
  else if text = "!=" then some (decide (a ≠ b))
  else if text = "<" then some (decide (a < b))
  else if text = ">" then some (decide (b < a))
  else none

/-- The expression has an operator at every inner node: it is built from
number leaves, unary minus and the four binary operators. -/
def Arith.operators_only : Arith → Prop
  | .num _ => True
  | .paren _ => False
  | .neg e => e.operators_only
  | .bin _ l r => l.operators_only ∧ r.operators_only

/-- No division of the expression has a divisor of value 0. -/
def Arith.no_zero_divisor : Arith → Prop
  | .num _ => True
  | .paren e => e.no_zero_divisor
  | .neg e => e.no_zero_divisor
  | .bin .div l r => l.no_zero_divisor ∧ r.no_zero_divisor ∧ r.value ≠ 0
  | .bin _ l r => l.no_zero_divisor ∧ r.no_zero_divisor

/-- The code of an expression under the single-accumulator stack discipline, as
the specification words it: a number is loaded into `%rax`; for `+` and `*`
the left operand is computed and pushed, the right one computed, the left one
popped into `%r10`; for `-` and `/` the right operand is computed first, so
that the left one ends in `%rax`; `/` sign-extends `%rax` before dividing. -/
def Arith.code : Arith → List Instr
  | .num a => [.movq (.imm a) (.reg .RAX)]
  | .paren e => e.code
  | .neg e => e.code ++ [.negq (.reg .RAX)]
  | .bin .add l r =>
    l.code ++ [.pushq (.reg .RAX)] ++ r.code ++ [.popq (.reg .R10), .addq (.reg .R10) (.reg .RAX)]
  | .bin .sub l r =>
    r.code ++ [.pushq (.reg .RAX)] ++ l.code ++ [.popq (.reg .R10), .subq (.reg .R10) (.reg .RAX)]
  | .bin .mul l r =>
    l.code ++ [.pushq (.reg .RAX)] ++ r.code ++
      [.popq (.reg .R10), .imulq (.reg .R10) (.reg .RAX)]
  | .bin .div l r =>
    r.code ++ [.pushq (.reg .RAX)] ++ l.code ++ [.cqo, .popq (.reg .R10), .idivq (.reg .R10)]

/-! ## Example inputs for the generator -/

/-- The expression `(0 - 9223372036854775807 - 1) / (0 - 1)`, whose dividend
has the value `-2^63` and whose divisor has the value `-1`. -/
def example_overflowing_division : Arith :=
  .bin .div (.bin .sub (.bin .sub (.num 0) (.num 9223372036854775807)) (.num 1))
    (.bin .sub (.num 0) (.num 1))

/-- The expression `(7 - 1) / -2`. -/
def example_division : Arith :=
  .bin .div (.bin .sub (.num 7) (.num 1)) (.neg (.num 2))

/-- A machine with zero in every register and an empty stack. -/
def example_machine : machine := ⟨fun _ => 0, [], none⟩

/-- A generator state with no output and both counters at 0. -/
def example_gen_state : gen_state := ⟨[], 0, 0⟩

/-- A `RELATION` node `1 < 2`. -/
def example_relation : Node :=
  node_init .RELATION (.str "<") [number_node 1, number_node 2]

/-- Simplified tree of
`while 1 < 2 begin while 1 < 2 begin print 1 end  break end`: the `break`
follows a completed inner loop. -/
def example_break_after_loop : Node :=
  node_init .WHILE_STATEMENT .null
    [example_relation,
     node_init .BLOCK .null
      [node_init .STATEMENT_LIST .null
        [node_init .WHILE_STATEMENT .null
          [example_relation,
           node_init .BLOCK .null
            [node_init .STATEMENT_LIST .null
              [node_init .PRINT_STATEMENT .null [number_node 1]]]],
         node_init .BREAK_STATEMENT .null []]]]

/-- Simplified tree of
`while 1 < 2 begin if 1 < 2 then break  break end`: two `break`s in one
loop. -/
def example_two_breaks : Node :=
  node_init .WHILE_STATEMENT .null
    [example_relation,
     node_init .BLOCK .null
      [node_init .STATEMENT_LIST .null
        [node_init .IF_STATEMENT .null
          [example_relation, node_init .BREAK_STATEMENT .null []],
         node_init .BREAK_STATEMENT .null []]]]

/-- The table of `f` in `example_scope_tables`: two parameters and three local
variables. -/
def example_scope_table : symbol_table_t :=
  ⟨[⟨"a", .SYMBOL_PARAMETER, 0⟩, ⟨"b", .SYMBOL_PARAMETER, 1⟩, ⟨"x", .SYMBOL_LOCAL_VAR, 2⟩,
      ⟨"a", .SYMBOL_LOCAL_VAR, 3⟩, ⟨"y", .SYMBOL_LOCAL_VAR, 4⟩],
    [[⟨"b", .SYMBOL_PARAMETER, 1⟩, ⟨"a", .SYMBOL_PARAMETER, 0⟩]]⟩

/-- The code of a relation with constant operands, as the specification words
it: left operand, push, right operand, pop of the left one into `%r10`,
compare of `%rax` with `%r10`. -/
def relation_code (l r : Arith) : List Instr :=
  l.code ++ [.pushq (.reg .RAX)] ++ r.code ++
    [.popq (.reg .R10), .cmpq (.reg .RAX) (.reg .R10)]

/-- The inverse-jump mapping of the specification: `=` gives jump-not-equal,
`!=` jump-equal, `<` jump-greater-or-equal, `>` jump-less-or-equal, each to the
given target. -/
def is_inverse_jump (text : String) (target : Label) (j : Instr) : Prop :=
  (text = "=" ∧ j = .jne target) ∨ (text = "!=" ∧ j = .je target) ∨
    (text = "<" ∧ j = .jge target) ∨ (text = ">" ∧ j = .jle target)

/-- Simplified tree of `if 1 < 2 then print 1`. -/
def example_if_statement : Node :=
  node_init .IF_STATEMENT .null
    [example_relation, node_init .PRINT_STATEMENT .null [number_node 1]]

/-- The left-recursive chain `K[K[...K[x1], x2...], xn]` that the parser builds
for a list of kind `K` with the items `x1, x2, ..., xn` (`rest` holds
`x2 ... xn`). -/
def left_chain (K : NodeType) (x1 : Node) (rest : List Node) : Node :=
  rest.foldl (fun acc x => node_init K .null [acc, x]) (node_init K .null [x1])

/-- The chain `STATEMENT_LIST[STATEMENT_LIST[STATEMENT_LIST[s1], s2], s3]` whose
items are the statements `STATEMENT[RETURN_STATEMENT[k]]` for `k = 1, 2, 3`. -/
def example_statement_chain : Node :=
  left_chain .STATEMENT_LIST
    (node_init .STATEMENT .null [node_init .RETURN_STATEMENT .null [number_node 1]])
    [node_init .STATEMENT .null [node_init .RETURN_STATEMENT .null [number_node 2]],
     node_init .STATEMENT .null [node_init .RETURN_STATEMENT .null [number_node 3]]]

/-! ## The shape of expression code -/

/-- What follows the pushes of the arguments in the code of a call of `name`
with `n` arguments: up to six pops into the parameter registers, the call,
and the release of the arguments that stay on the stack. -/
def call_tail (name : String) (n : Nat) : List Instr :=
  (REGISTER_PARAMS.take n).map (fun r => Instr.popq (.reg r)) ++
    [.call (.function name)] ++
    (if n > NUM_REGISTER_PARAMS then
      [.addq (.imm (((n - NUM_REGISTER_PARAMS : Nat) : Int) * 8)) (.reg .RSP)]
    else [])

/-- The two kinds of code that the expression generator writes: code that
leaves a value in `%rax`, and code that evaluates and pushes `n` arguments. -/
inductive CodeKind where
  | value
  | arguments (n : Nat)
  deriving DecidableEq, Repr

/-- The instruction sequences that the expression generator can write, by
kind: a load into `%rax`; an array element (index code, address in `%r10`,
load); a negation; a binary operation (first operand, push, second operand,
pop into `%r10`, operation); a division; the arguments of a call, the code of
the later ones first, each followed by a push of `%rax`; a call. -/
inductive Code : CodeKind → List Instr → Prop where
  | load (src : Operand) : Code .value [.movq src (.reg .RAX)]
  | element (name : String) {c : List Instr} : Code .value c →
      Code .value (c ++ [.leaq_global name .R10, .leaq_index .R10 .RAX .R10,
        .movq (.mem .R10) (.reg .RAX)])
  | negate {c : List Instr} : Code .value c → Code .value (c ++ [.negq (.reg .RAX)])
  | binary (op : Instr) {c1 c2 : List Instr} :
      op = .addq (.reg .R10) (.reg .RAX) ∨ op = .subq (.reg .R10) (.reg .RAX) ∨
        op = .imulq (.reg .R10) (.reg .RAX) →
      Code .value c1 → Code .value c2 →
      Code .value (c1 ++ [.pushq (.reg .RAX)] ++ c2 ++ [.popq (.reg .R10), op])
  | divide {c1 c2 : List Instr} : Code .value c1 → Code .value c2 →
      Code .value (c1 ++ [.pushq (.reg .RAX)] ++ c2 ++
        [.cqo, .popq (.reg .R10), .idivq (.reg .R10)])
  | no_argument : Code (.arguments 0) []
  | argument {n : Nat} {later c : List Instr} : Code (.arguments n) later → Code .value c →
      Code (.arguments (n + 1)) (later ++ c ++ [.pushq (.reg .RAX)])
  | call (name : String) {n : Nat} {c : List Instr} : Code (.arguments n) c →
      Code .value (c ++ call_tail name n)

/-- Whenever `generate_expression` succeeds on the node, what it writes is a
value code that does not depend on the state: from every state the same code
is appended. -/
def writes_value_code (G : List global_symbol_t) (cf : global_symbol_t) (e : Node) : Prop :=
  ∀ st st', generate_expression G cf st e = .ok st' →
    ∃ c, Code .value c ∧ ∀ st2, generate_expression G cf st2 e = .ok (emit_all st2 c)

/-! ## Stack use of emitted code -/

/-- The bytes that an instruction adds to the stack, as the specification
counts them: 8 for a push, -8 for a pop, `-k` for `addq $k, %rsp`; a `call`
counts as 0 (the return address is pushed and popped by the call and its
return). -/
def stack_change : Instr → Int
  | .pushq _ => 8
  | .popq _ => -8
  | .addq (.imm k) (.reg .RSP) => -k
  | _ => 0

/-- The number of bytes on the stack after the instructions, counted from
`depth` bytes at the start; `none` when at some point more bytes have been
released than were there. -/
def stack_trace (depth : Int) : List Instr → Option Int
  | [] => some depth
  | i :: rest =>
    if depth + stack_change i < 0 then none
    else stack_trace (depth + stack_change i) rest

/-- The bytes that code of a kind leaves on the stack: none for a value, 8
per argument for the arguments of a call. -/
def CodeKind.pushed : CodeKind → Int
  | .value => 0
  | .arguments n => 8 * (n : Int)

/-- The code that evaluates and pushes the arguments of a call, given the code
of each argument in the order of the argument list: the code of the last
argument and a push of `%rax` first, the code of the first argument and its
push last. -/
def arguments_code (codes : List (List Instr)) : List Instr :=
  (codes.reverse.map (fun c => c ++ [Instr.pushq (.reg .RAX)])).flatten

/-- The quadword that `offset(%rbp)` names, in a stack given as the list of
its quadwords, top first, when the frame pointer was set while the stack held
`frame` quadwords (so that `0(%rbp)` is the quadword then on top): positive
offsets name older quadwords, negative ones newer quadwords. -/
def read_frame (stack : List Int) (frame : Nat) (offset : Int) : Option Int :=
  if offset % 8 = 0 ∧ 0 ≤ (frame : Int) - 1 - offset / 8 then
    stack.reverse[((frame : Int) - 1 - offset / 8).toNat]?
  else none

/-- The quadword that lies `offset` bytes above the stack pointer, in a stack
given as the list of its quadwords, top first. -/
def read_stack (stack : List Int) (offset : Int) : Option Int :=
  if offset % 8 = 0 ∧ 0 ≤ offset then stack[(offset / 8).toNat]? else none

/-- The stack after a `call` and the first two lines of the callee's prologue
(`pushq %rbp; movq %rsp, %rbp`): the return address and the saved frame
pointer lie on top, and the frame pointer points at the latter. -/
def enter_function (stack : List Int) (return_address saved_rbp : Int) : List Int × Nat :=
  (saved_rbp :: return_address :: stack, stack.length + 2)

/-! ## Example: a call with seven arguments -/

/-- Simplified tree of
`def f(a, b, c, d, e, f, g) begin return g end
 def main(x) begin print f(1, 2, 3, 4, 5, 6, x) end`. -/
def example_seven_program : Node :=
  node_init .GLOBAL_LIST .null
    [node_init .FUNCTION .null
      [identifier_node "f",
       node_init .PARAMETER_LIST .null
        [identifier_node "a", identifier_node "b", identifier_node "c", identifier_node "d",
         identifier_node "e", identifier_node "f", identifier_node "g"],
       node_init .BLOCK .null
        [node_init .STATEMENT_LIST .null
          [node_init .RETURN_STATEMENT .null [identifier_node "g"]]]],
     node_init .FUNCTION .null
      [identifier_node "main",
       node_init .PARAMETER_LIST .null [identifier_node "x"],
       node_init .BLOCK .null
        [node_init .STATEMENT_LIST .null
          [node_init .PRINT_STATEMENT .null
            [node_init .EXPRESSION (.str "call")
              [identifier_node "f",
               node_init .ARGUMENT_LIST .null
                [number_node 1, number_node 2, number_node 3, number_node 4, number_node 5,
                 number_node 6, identifier_node "x"]]]]]]]

/-- What `create_tables` leaves for `example_seven_program`. -/
def example_seven_tables : tables :=
  (create_tables example_seven_program).getD ⟨[], []⟩

/-- The entry of `f` in `example_seven_tables`. -/
def example_seven_callee : global_symbol_t :=
  example_seven_tables.global_symbols.head?.getD
    ⟨⟨"", .SYMBOL_GLOBAL_VAR, 0⟩, number_node 0, none⟩

/-- The entry of `main` in `example_seven_tables`. -/
def example_seven_main : global_symbol_t :=
  example_seven_tables.global_symbols.getLast?.getD
    ⟨⟨"", .SYMBOL_GLOBAL_VAR, 0⟩, number_node 0, none⟩

/-- The callee identifier of the call `f(1, 2, 3, 4, 5, 6, x)` after binding. -/
def example_seven_identifier : Node :=
  .mk .IDENTIFIER_DATA (.str "f") [] (some ⟨"f", .SYMBOL_FUNCTION, 0⟩)

/-- The argument list of the call `f(1, 2, 3, 4, 5, 6, x)` after binding. -/
def example_seven_arguments : Node :=
  node_init .ARGUMENT_LIST .null
    [number_node 1, number_node 2, number_node 3, number_node 4, number_node 5,
     number_node 6,
     .mk .IDENTIFIER_DATA (.str "x") [] (some ⟨"x", .SYMBOL_PARAMETER, 0⟩)]

/-- The call `f(1, 2, 3, 4, 5, 6, x)` in the body of `main` after binding. -/
def example_seven_call : Node :=
  node_init .EXPRESSION (.str "call") [example_seven_identifier, example_seven_arguments]

/-- The code of each argument of `example_seven_call`, in the order of the
argument list. -/
def example_seven_codes : List (List Instr) :=
  [[.movq (.imm 1) (.reg .RAX)], [.movq (.imm 2) (.reg .RAX)], [.movq (.imm 3) (.reg .RAX)],
   [.movq (.imm 4) (.reg .RAX)], [.movq (.imm 5) (.reg .RAX)], [.movq (.imm 6) (.reg .RAX)],
   [.movq (.frame (-8)) (.reg .RAX)]]

/-! ## Example: a function passed as an argument -/

/-- Simplified tree of `def f(a) begin return f(f) end`. -/
def example_self_argument_program : Node :=
  node_init .GLOBAL_LIST .null
    [node_init .FUNCTION .null
      [identifier_node "f",
       node_init .PARAMETER_LIST .null [identifier_node "a"],
       node_init .BLOCK .null
        [node_init .STATEMENT_LIST .null
          [node_init .RETURN_STATEMENT .null
            [node_init .EXPRESSION (.str "call")
              [identifier_node "f",
               node_init .ARGUMENT_LIST .null [identifier_node "f"]]]]]]]

/-- What `create_tables` leaves for `example_self_argument_program`. -/
def example_self_argument_tables : tables :=
  (create_tables example_self_argument_program).getD ⟨[], []⟩

/-- The entry of `f` in `example_self_argument_tables`. -/
def example_self_argument_entry : global_symbol_t :=
  example_self_argument_tables.global_symbols.head?.getD
    ⟨⟨"", .SYMBOL_GLOBAL_VAR, 0⟩, number_node 0, none⟩

/-- The identifier `f` after binding, as callee and as argument. -/
def example_function_identifier : Node :=
  .mk .IDENTIFIER_DATA (.str "f") [] (some ⟨"f", .SYMBOL_FUNCTION, 0⟩)

/-- The call `f(f)` in the body of `f` after binding. -/
def example_self_argument_call : Node :=
  node_init .EXPRESSION (.str "call")
    [example_function_identifier,
     node_init .ARGUMENT_LIST .null [example_function_identifier]]

/-- The call `x(1)` where `x` is bound to a parameter. -/
def example_parameter_call : Node :=
  node_init .EXPRESSION (.str "call")
    [.mk .IDENTIFIER_DATA (.str "x") [] (some ⟨"x", .SYMBOL_PARAMETER, 0⟩),
     node_init .ARGUMENT_LIST .null [number_node 1]]

/-- A machine whose stack holds the values of the arguments of
`f(1, 2, 3, 4, 5, 6, 99)`, first argument on top. -/
def example_call_machine : machine := ⟨fun _ => 0, [1, 2, 3, 4, 5, 6, 99], none⟩

/-! ## The data section -/

/-- The line that the specification asks for an entry of the global table: 8
zero bytes under `.name` for a global variable, `8 * length` zero bytes for a
global array whose length child is the number `length`, nothing for a
function. -/
def global_line (entry : global_symbol_t) : List Instr :=
  match entry.symbol.type with
  | .SYMBOL_GLOBAL_VAR => [.zero entry.symbol.name 8]
  | .SYMBOL_GLOBAL_ARRAY =>
    match entry.node.children with
    | _ :: child :: _ =>
      match child.data with
      | .num length => [.zero entry.symbol.name (8 * length)]
      | _ => []
    | _ => []
  | _ => []

/-- The entry is no global array, or its length child is a `NUMBER_DATA`. -/
def array_length_known (entry : global_symbol_t) : Bool :=
  decide (entry.symbol.type ≠ .SYMBOL_GLOBAL_ARRAY) ||
    match entry.node.children with
    | _ :: child :: _ => decide (child.type = .NUMBER_DATA)
    | _ => false

/-- The node of a global array has its two children, and a `NUMBER_DATA`
length child holds a number (entries that are no arrays pass). -/
def array_entry_shaped (entry : global_symbol_t) : Prop :=
  entry.symbol.type = .SYMBOL_GLOBAL_ARRAY →
    ∃ identifier child, entry.node.children = [identifier, child] ∧
      (child.type = .NUMBER_DATA → ∃ length, child.data = .num length)

/-- The line as the code prints it: the byte count of a `.zero` line is an
`int64_t` (the product `length * 8` of two `int64_t`, printed with `%ld`). -/
def Instr.wrap_bytes : Instr → Instr
  | .zero name bytes => .zero name (wrap64 bytes)
  | i => i

/-- The entry is no global array with a number for its length, or the product
`8 * length` lies in the signed 64-bit range (`-2^60 ≤ length < 2^60`). -/
def array_length_fits (entry : global_symbol_t) : Bool :=
  match entry.symbol.type with
  | .SYMBOL_GLOBAL_ARRAY =>
    match entry.node.children with
    | _ :: child :: _ =>
      match child.data with
      | .num length => decide (-(2 ^ 60) ≤ length ∧ length < 2 ^ 60)
      | _ => true
    | _ => true
  | _ => true

/-- Simplified tree of `var a[1152921504606846976]`: the length is `2^60`. -/
def example_huge_array : Node :=
  node_init .GLOBAL_LIST .null
    [node_init .ARRAY_DECLARATION .null
      [identifier_node "a", number_node 1152921504606846976]]

/-- The global table of `var a[1152921504606846976]` after resolution. -/
def example_huge_array_globals : List global_symbol_t :=
  ((create_tables example_huge_array).getD ⟨[], []⟩).global_symbols

/-- Parse tree of `var x  var a[2 + 3]  var b[n]`: the length of `a` is a
constant expression, that of `b` is not. -/
def example_arrays_parse : Node :=
  left_chain .GLOBAL_LIST
    (node_init .DECLARATION .null [node_init .VARIABLE_LIST .null [identifier_node "x"]])
    [node_init .ARRAY_DECLARATION .null
      [node_init .ARRAY_INDEXING .null
        [identifier_node "a",
         node_init .EXPRESSION (.str "+") [number_node 2, number_node 3]]],
     node_init .ARRAY_DECLARATION .null
      [node_init .ARRAY_INDEXING .null [identifier_node "b", identifier_node "n"]]]

/-- Parse tree of `var x  var a[2 + 3]`. -/
def example_array_parse : Node :=
  left_chain .GLOBAL_LIST
    (node_init .DECLARATION .null [node_init .VARIABLE_LIST .null [identifier_node "x"]])
    [node_init .ARRAY_DECLARATION .null
      [node_init .ARRAY_INDEXING .null
        [identifier_node "a",
         node_init .EXPRESSION (.str "+") [number_node 2, number_node 3]]]]

/-- The global table of `var x  var a[2 + 3]` after simplification and
resolution. -/
def example_array_globals : List global_symbol_t :=
  (((simplify_tree example_array_parse).bind create_tables).getD ⟨[], []⟩).global_symbols

/-- The tables of `var x  var a[2 + 3]  var b[n]` after simplification and
resolution. -/
def example_arrays_tables : tables :=
  ((simplify_tree example_arrays_parse).bind create_tables).getD ⟨[], []⟩

/-- Simplified tree of
`begin while 1 < 2 begin break end  while 1 < 2 begin print 1 end end`: a loop
that follows a loop containing a `break`. -/
def example_loop_after_break : Node :=
  node_init .BLOCK .null
    [node_init .STATEMENT_LIST .null
      [node_init .WHILE_STATEMENT .null
        [example_relation,
         node_init .BLOCK .null
          [node_init .STATEMENT_LIST .null [node_init .BREAK_STATEMENT .null []]]],
       node_init .WHILE_STATEMENT .null
        [example_relation,
         node_init .BLOCK .null
          [node_init .STATEMENT_LIST .null
            [node_init .PRINT_STATEMENT .null [number_node 1]]]]]]

/-- The output of a generator result, whether it ended in an error or not. -/
def gen_result.output : gen_result → List Instr
  | .ok st => st.output
  | .error _ st => st.output

/-! ## Labels of if statements and loads of strings in emitted code -/

/-- The stems of the three labels of an if statement. -/
def if_stems : List String := ["if", "else", "endif"]

/-- The number `N` when the line loads the address of `string<N>`. -/
def Instr.loaded_string : Instr → Option Int
  | .leaq_string (.string index) _ => some index
  | _ => none

/-- The numbers of the `string<N>` labels that the lines load, in order. -/
def loaded_strings (code : List Instr) : List Int :=
  code.filterMap Instr.loaded_string

/-- A line that defines a label or loads the address of a `string<N>`. -/
def Instr.is_marked : Instr → Bool
  | .label _ => true
  | .leaq_string (.string _) _ => true
  | _ => false

/-- No line of the code defines a label or loads a `string<N>`. -/
def unmarked (code : List Instr) : Prop :=
  ∀ i ∈ code, Instr.is_marked i = false

/-- The number `k` when the line defines the label `if<k>`. -/
def Instr.if_number : Instr → Option Int
  | .label (.numbered stem k) => if stem = "if" then some k else none
  | _ => none

/-- The numbers of the labels `if<k>` that the lines define, in the order of
the lines. -/
def if_numbers (code : List Instr) : List Int :=
  code.filterMap Instr.if_number

/-- The `count` integers `first`, `first + 1`, ... in increasing order. -/
def int_range (first : Int) (count : Nat) : List Int :=
  (List.range count).map (fun (i : Nat) => first + Int.ofNat i)

/-- A line that neither defines a numbered label nor loads the address of a
`string<N>`. -/
def Instr.is_free : Instr → Bool
  | .label (.numbered _ _) => false
  | .leaq_string (.string _) _ => false
  | _ => true

/-- No line of the code defines a numbered label or loads a `string<N>`. -/
def free_code (code : List Instr) : Prop :=
  ∀ i ∈ code, Instr.is_free i = true

/-- In the lines, each of `if<k>`, `else<k>` and `endif<k>` is defined exactly
once for the `count` numbers `first`, `first + 1`, ..., and never for another
number; the labels `if<k>` stand in the order of their numbers. -/
def if_labels_numbered (code : List Instr) (first : Int) (count : Nat) : Prop :=
  (∀ stem ∈ if_stems, ∀ k : Int,
    code.count (.label (.numbered stem k)) = if first ≤ k ∧ k < first + count then 1 else 0) ∧
  if_numbers code = int_range first count

/-- What a successful run of a statement generator from `st` to `st'` has
done: lines were appended, the if-counter went up by the number of if
statements entered, the labels of these if statements carry the numbers from
the old counter value on, once each, and every `string<N>` loaded is one of the
`allowed` ones. -/
def statement_post (st st' : gen_state) (allowed : Int → Prop) : Prop :=
  ∃ (code : List Instr) (count : Nat),
    st'.output = st.output ++ code ∧
    st'.if_counter = st.if_counter + count ∧
    if_labels_numbered code st.if_counter count ∧
    ∀ k ∈ loaded_strings code, allowed k

/-- Shape of a node as simplification leaves it for a parsed program, as far
as `generate_block_statement` and `bind_names` depend on it: a `BLOCK` is
`[statement list]` or `[declarations, statement list]`, and the body of a
`WHILE_STATEMENT` is a `BLOCK`. -/
def block_shaped : Node → Bool
  | .mk .BLOCK _ [list] _ => list.type = .STATEMENT_LIST
  | .mk .BLOCK _ [_, list] _ => list.type = .STATEMENT_LIST
  | .mk .BLOCK _ _ _ => false
  | .mk .WHILE_STATEMENT _ [_, body] _ => body.type = .BLOCK
  | .mk .WHILE_STATEMENT _ _ _ => false
  | _ => true

/-- Whenever `generate_statement` succeeds on the node, `statement_post`
holds of the two states, the strings allowed being those that `bind_names`
visits in the node (when every node below it is `block_shaped`). -/
def generates_post (G : List global_symbol_t) (cf : global_symbol_t) (n : Node) : Prop :=
  ∀ st st', generate_statement G cf st n = .ok st' →
    statement_post st st'
      (fun k => Node.all block_shaped n = true → Data.num k ∈ visited_strings n)

/-! ## The string section as the specification describes it -/

/-- What the specification asks after the fixed strings: one line
`string<i>: .asciz <lexeme>` per interned literal, numbered from `index` on. -/
def string_lines : Nat → List String → List Instr
  | _, [] => []
  | index, text :: rest => .asciz (.string index) text :: string_lines (index + 1) rest

/-- The string section that the specification asks for: the section
directive, the three fixed format strings under their labels, one line per
interned literal, an empty line. -/
def string_section_code (texts : List String) : List Instr :=
  [.string_section, .asciz .intout "\"%ld \"", .asciz .strout "\"%s \"",
    .asciz .errout "\"Wrong number of arguments\""] ++ string_lines 0 texts ++
    [.directive ""]

/-- The line defines the label `string<k>`. -/
def Instr.defines_string (k : Int) : Instr → Bool
  | .asciz (.string index) _ => decide (index = k)
  | _ => false

/-- Simplified tree of
`def f() begin
   if 1 < 2 then begin if 1 < 2 then print "a" else print "b" end
   if 1 < 2 then print "a"
 end`. -/
def example_branches_program : Node :=
  node_init .GLOBAL_LIST .null
    [node_init .FUNCTION .null
      [identifier_node "f",
       node_init .PARAMETER_LIST .null [],
       node_init .BLOCK .null
        [node_init .STATEMENT_LIST .null
          [node_init .IF_STATEMENT .null
            [example_relation,
             node_init .BLOCK .null
              [node_init .STATEMENT_LIST .null
                [node_init .IF_STATEMENT .null
                  [example_relation,
                   node_init .PRINT_STATEMENT .null
                    [node_init .STRING_DATA (.str "\"a\"") []],
                   node_init .PRINT_STATEMENT .null
                    [node_init .STRING_DATA (.str "\"b\"") []]]]]],
           node_init .IF_STATEMENT .null
            [example_relation,
             node_init .PRINT_STATEMENT .null
              [node_init .STRING_DATA (.str "\"a\"") []]]]]]]

/-- The global table that `find_globals` builds for
`example_branches_program`. -/
def example_branches_globals : List global_symbol_t :=
  (find_globals example_branches_program).getD []

/-- What `create_tables` leaves for `example_branches_program`. -/
def example_branches_tables : tables :=
  (create_tables example_branches_program).getD ⟨[], []⟩

/-- The state in which `generate_program` ends on `example_branches_tables`. -/
def example_branches_result : gen_state :=
  match generate_program example_branches_tables with
  | .ok st => st
  | .error _ st => st

/-! ## The functions of a program -/

/-- The result is the error `program contained no functions`. -/
def gen_result.is_no_functions : gen_result → Bool
  | .error .no_functions _ => true
  | _ => false

/-- What the specification asks of the functions: the code of each entry of
the list is generated once, in the order of the list; the first failure ends
the run. -/
def generate_each (global_symbols : List global_symbol_t) (st : gen_state) :
    List global_symbol_t → gen_result
  | [] => .ok st
  | function :: rest =>
    match generate_function global_symbols st function with
    | .ok st1 => generate_each global_symbols st1 rest
    | .error e st1 => .error e st1

/-- The function definitions of a program, in textual order: the children of
the root of kind `FUNCTION`. -/
def function_definitions (root : Node) : List Node :=
  root.children.filter (fun n => n.type = .FUNCTION)

/-- The name that a function definition declares: that of its first child. -/
def definition_name (definition : Node) : String :=
  match definition.children with
  | identifier :: _ => node_name identifier
  | [] => ""

/-- The `SYMBOL_FUNCTION` entries of a global table, in table order. -/
def function_symbols (global_symbols : List global_symbol_t) : List global_symbol_t :=
  global_symbols.filter (fun e => e.symbol.type = .SYMBOL_FUNCTION)

/-- Tree of `x + (1 + 2)`. -/
def example_sum_with_variable : Node :=
  node_init .EXPRESSION (.str "+")
    [identifier_node "x", node_init .EXPRESSION (.str "+") [number_node 1, number_node 2]]

/-! ## The child loads of the `EXPRESSION` case -/

/-- The two loads with which the `EXPRESSION` case of `generate_expression`
starts, before it looks at the operator: `left = expression->children[0]` and
`right = expression->children[1]`.  For each the child that is loaded, or
`none` when the array of `n_children` pointers has no entry of that index, so
that the load reads past the end of the array. -/
def expression_operand_loads (expression : Node) : List (Option Node) :=
  [expression.children[0]?, expression.children[1]?]

/-- The call `generate_expression(operand)` on a value loaded from the array
of children: a value loaded from past the end of the array is no node, and
passing it on is an invalid read. -/
def generate_operand (global_symbols : List global_symbol_t)
    (current_function : global_symbol_t) (st : gen_state) : Option Node → gen_result
  | some node => generate_expression global_symbols current_function st node
  | none => .error .invalid_read st

/-- The `EXPRESSION` case of `generate_expression` after its two loads, for an
operator other than `call`: `left` and `right` are the values loaded from
`children[0]` and `children[1]`, and `n_children` is read only under `-`. -/
def generate_operation (global_symbols : List global_symbol_t)
    (current_function : global_symbol_t) (st : gen_state) (data : String) (n_children : Nat)
    (left right : Option Node) : gen_result :=
  if data = "+" then
    match generate_operand global_symbols current_function st left with
    | .ok st1 =>
      match generate_operand global_symbols current_function
          (emit st1 (.pushq (.reg .RAX))) right with
      | .ok st2 => .ok (emit (emit st2 (.popq (.reg .R10))) (.addq (.reg .R10) (.reg .RAX)))
      | .error e st2 => .error e st2
    | .error e st1 => .error e st1
  else if data = "-" then
    if n_children = 1 then
      match generate_operand global_symbols current_function st left with
      | .ok st1 => .ok (emit st1 (.negq (.reg .RAX)))
      | .error e st1 => .error e st1
    else
      match generate_operand global_symbols current_function st right with
      | .ok st1 =>
        match generate_operand global_symbols current_function
            (emit st1 (.pushq (.reg .RAX))) left with
        | .ok st2 => .ok (emit (emit st2 (.popq (.reg .R10))) (.subq (.reg .R10) (.reg .RAX)))
        | .error e st2 => .error e st2
      | .error e st1 => .error e st1
  else if data = "*" then
    match generate_operand global_symbols current_function st left with
    | .ok st1 =>
      match generate_operand global_symbols current_function
          (emit st1 (.pushq (.reg .RAX))) right with
      | .ok st2 => .ok (emit (emit st2 (.popq (.reg .R10))) (.imulq (.reg .R10) (.reg .RAX)))
      | .error e st2 => .error e st2
    | .error e st1 => .error e st1
  else if data = "/" then
    match generate_operand global_symbols current_function st right with
    | .ok st1 =>
      match generate_operand global_symbols current_function
          (emit st1 (.pushq (.reg .RAX))) left with
      | .ok st2 => .ok (emit (emit (emit st2 .cqo) (.popq (.reg .R10))) (.idivq (.reg .R10)))
      | .error e st2 => .error e st2
    | .error e st1 => .error e st1
  else .error .assertion st

/-- The parameter `x` of a function, as an identifier that has been bound. -/
def example_bound_parameter : Node :=
  .mk .IDENTIFIER_DATA (.str "x") [] (some ⟨"x", .SYMBOL_PARAMETER, 0⟩)

/-- Tree of `-x`, `x` being bound to the first parameter. -/
def example_negated_parameter : Node :=
  node_init .EXPRESSION (.str "-") [example_bound_parameter]

/-- Tree of `+x`, `x` being bound to the first parameter. -/
def example_unary_plus : Node :=
  node_init .EXPRESSION (.str "+") [example_bound_parameter]

/-! ## node_print -/

/-- The eight bytes of a 64-bit integer in memory, lowest byte first (x86-64
is little-endian). -/
def int64_bytes (v : Int) : List Nat :=
  (List.range 8).map (fun k => (v % 2 ^ 64).toNat / 256 ^ k % 256)

/-- The bytes of the object that `node->data` points to: nothing for a null
pointer; the characters of a string, one byte each (the lexemes are ASCII),
and the terminating 0; the eight bytes of an integer. -/
def payload_bytes : Data → Option (List Nat)
  | .null => none
  | .str s => some (s.toList.map Char.toNat ++ [0])
  | .num v => some (int64_bytes v)

/-- `*(int64_t *)data` on the bytes that `data` points to: the first eight
bytes as a signed little-endian integer; no value when the object is shorter
(the read passes its end). -/
def read_int64 (bytes : List Nat) : Option Int :=
  if bytes.length < 8 then none
  else some (wrap64 (Int.ofNat ((bytes.take 8).foldr (fun b acc => b + 256 * acc) 0)))

/-- What `%s` writes for `(char *)data` on the bytes that `data` points to: the
bytes before the first 0, each as the character of that code; no value when
the object holds no 0 (the read passes its end). -/
def read_c_string (bytes : List Nat) : Option String :=
  if 0 ∈ bytes then some (String.mk ((bytes.takeWhile (fun b => b ≠ 0)).map Char.ofNat))
  else none

/-- The names that `node_print` gives to the kinds of symbols. -/
def symbol_kind_name : SymbolType → String
  | .SYMBOL_GLOBAL_VAR => "GLOBAL_VAR"
  | .SYMBOL_GLOBAL_ARRAY => "GLOBAL_ARRAY"
  | .SYMBOL_FUNCTION => "FUNCTION"
  | .SYMBOL_PARAMETER => "PARAMETER"
  | .SYMBOL_LOCAL_VAR => "LOCAL_VAR"

/-- The payload part of a line of `node_print`, for a node of kind `type` with
payload `data`: `(%s)` for identifiers, expressions and relations, `(%ld)` for
numbers; for a `STRING_DATA`, `(#%ld)` when `data` is not null and the first
byte it points to is not the double quote (code 34), else `(%s)`; nothing for
the other kinds.  There is no result where the C code passes a null pointer to
`%s` or reads past the end of the payload. -/
def node_print_payload (type : NodeType) (data : Data) : Option String :=
  if type = .IDENTIFIER_DATA ∨ type = .EXPRESSION ∨ type = .RELATION then
    ((payload_bytes data).bind read_c_string).map (fun s => "(" ++ s ++ ")")
  else if type = .NUMBER_DATA then
    ((payload_bytes data).bind read_int64).map (fun v => "(" ++ toString v ++ ")")
  else if type = .STRING_DATA then
    match payload_bytes data with
    | some bytes =>
      if bytes.head? ≠ some 34 then
        (read_int64 bytes).map (fun v => "(#" ++ toString v ++ ")")
      else (read_c_string bytes).map (fun s => "(" ++ s ++ ")")
    | none => none
  else some ""

/-- The symbol part of a line of `node_print`: the kind and the sequence
number of the symbol, if the node has one. -/
def node_print_symbol : Option Symbol → String
  | none => ""
  | some symbol =>
    " " ++ symbol_kind_name symbol.type ++ "(" ++ toString symbol.sequence_number ++ ")"

mutual
/-- `node_print`: the indented dump of a tree, one line per node.
`node_strings` is the table of the names of the node kinds, which is defined in
a header outside the sources and is an argument here.  (Null children do not
occur in this model of trees.) -/
def node_print (node_strings : NodeType → String) (nesting : Nat) : Node → Option String
  | .mk t d cs sy =>
    match node_print_payload t d with
    | none => none
    | some payload =>
      match node_print_children node_strings (nesting + 1) cs with
      | none => none
      | some below =>
        some (String.mk (List.replicate nesting ' ') ++ node_strings t ++ payload ++
          node_print_symbol sy ++ "\n" ++ below)
/-- The loop of `node_print` over the children. -/
def node_print_children (node_strings : NodeType → String) (nesting : Nat) :
    List Node → Option String
  | [] => some ""
  | c :: cs =>
    match node_print node_strings nesting c with
    | none => none
    | some first =>
      match node_print_children node_strings nesting cs with
      | none => none
      | some rest => some (first ++ rest)
end

/-- Tree of `def f() begin print "a", ..., "a" end` with 35 strings. -/
def example_many_strings_program : Node :=
  node_init .GLOBAL_LIST .null
    [node_init .FUNCTION .null
      [identifier_node "f", node_init .PARAMETER_LIST .null [],
       node_init .BLOCK .null
        [node_init .STATEMENT_LIST .null
          [node_init .PRINT_STATEMENT .null
            (List.replicate 35 (node_init .STRING_DATA (.str "\"a\"") []))]]]]

/-! ## Resolution and the order of the top-level definitions -/

/-- What one child of the root declares at the top level: the name and the
kind of symbol of each declared name, in textual order. -/
def global_kinds_of (node : Node) : List (String × SymbolType) :=
  match node.type with
  | .DECLARATION => node.children.map (fun c => (node_name c, SymbolType.SYMBOL_GLOBAL_VAR))
  | .ARRAY_DECLARATION =>
    match node.children with
    | [identifier, _] => [(node_name identifier, .SYMBOL_GLOBAL_ARRAY)]
    | _ => []
  | .FUNCTION =>
    match node.children with
    | [identifier, _, _] => [(node_name identifier, .SYMBOL_FUNCTION)]
    | _ => []
  | _ => []

/-- A child of the root that `find_globals` can process when its names are
new: a declaration with at least one child, all named; an array declaration
with two children, the first named; a function with three children, a name and
parameters that can be entered in a table. -/
def global_well_formed (node : Node) : Bool :=
  match node.type with
  | .DECLARATION =>
    !node.children.isEmpty && node.children.all (fun c => (data_as_name c.data).isSome)
  | .ARRAY_DECLARATION =>
    match node.children with
    | [identifier, _] => (data_as_name identifier.data).isSome
    | _ => false
  | .FUNCTION =>
    match node.children with
    | [identifier, parameter_list, _] =>
      (insert_parameters symbol_table_init parameter_list.children).isSome &&
        (data_as_name identifier.data).isSome
    | _ => false
  | _ => true

/-- Two links are the same binding for two global tables: they are equal, or
each is a symbol of its table and the two have the same name and the same
kind (the sequence number of a global symbol is its position in the table). -/
def same_binding (G G' : List Symbol) (o o' : Option Symbol) : Prop :=
  o = o' ∨ ∃ s s', o = some s ∧ o' = some s' ∧ s ∈ G ∧ s' ∈ G' ∧
    s.name = s'.name ∧ s.type = s'.type

/-- Simplified tree of `def f(p) begin v := h(p) + a[0] end`, a function whose
body names a global variable, a function and a global array. -/
def example_order_function : Node :=
  node_init .FUNCTION .null
    [identifier_node "f",
     node_init .PARAMETER_LIST .null [identifier_node "p"],
     node_init .BLOCK .null
      [node_init .STATEMENT_LIST .null
        [node_init .ASSIGNMENT_STATEMENT .null
          [identifier_node "v",
           node_init .EXPRESSION (.str "+")
            [node_init .EXPRESSION (.str "call")
              [identifier_node "h", node_init .ARGUMENT_LIST .null [identifier_node "p"]],
             node_init .ARRAY_INDEXING .null [identifier_node "a", number_node 0]]]]]]

/-- Simplified trees of `var v`, `var a[3]` and `def h(q) begin return q end`. -/
def example_order_definitions : List Node :=
  [node_init .DECLARATION .null [identifier_node "v"],
   node_init .ARRAY_DECLARATION .null [identifier_node "a", number_node 3],
   node_init .FUNCTION .null
    [identifier_node "h",
     node_init .PARAMETER_LIST .null [identifier_node "q"],
     node_init .BLOCK .null
      [node_init .STATEMENT_LIST .null
        [node_init .RETURN_STATEMENT .null [identifier_node "q"]]]]]

/-- The program in which `f` stands before the definitions of `v`, `a` and `h`
that its body names. -/
def example_use_before_definition : Node :=
  node_init .GLOBAL_LIST .null (example_order_function :: example_order_definitions)

/-- The program in which `f` stands after them. -/
def example_use_after_definition : Node :=
  node_init .GLOBAL_LIST .null (example_order_definitions ++ [example_order_function])

/-- The global table that `find_globals` builds for
`example_use_before_definition`. -/
def example_use_before_globals : List global_symbol_t :=
  (find_globals example_use_before_definition).getD []

/-- What `create_tables` leaves for `example_use_before_definition`. -/
def example_use_before_tables : tables :=
  (create_tables example_use_before_definition).getD ⟨[], []⟩

/-- The links of the identifier occurrences of the bound bodies of the
functions of a table, in table order. -/
def bound_links (t : tables) : List (List (Option Symbol)) :=
  (function_bodies t.global_symbols).map
    (fun body => (visited_identifiers body).map Node.symbol)

/-! ## A machine for the call protocol

The machine for straight-line code, extended by what a call and the prologue
of the callee do to the stack and to the frame pointer: `call` pushes the
return address (the code that runs next is the code at the label called),
`pushq %rbp` saves the frame pointer, `movq %rsp, %rbp` sets it to the top of
the stack, and `movq offset(%rbp), reg` reads the quadword that lies `offset`
bytes from it.  A label is no instruction. -/

/-- State of the machine for calls: the machine for straight-line code, and
the frame pointer `%rbp` given as the number of quadwords that the stack held
when it was set (so that `0(%rbp)` is the quadword then on top). -/
structure call_machine where
  core : machine
  frame : Nat

/-- One instruction of the call protocol; every other instruction is that of
the machine for straight-line code and leaves the frame pointer as it is. -/
def call_step (return_address : Int) (m : call_machine) : Instr → Option call_machine
  | .label _ => some m
  | .call _ =>
    some ⟨⟨m.core.regs, return_address :: m.core.stack, m.core.compared⟩, m.frame⟩
  | .pushq (.reg .RBP) =>
    some ⟨⟨m.core.regs, (m.frame : Int) :: m.core.stack, m.core.compared⟩, m.frame⟩
  | .movq (.reg .RSP) (.reg .RBP) => some ⟨m.core, m.core.stack.length⟩
  | .movq (.frame offset) (.reg r) =>
    if r.is_data then
      (read_frame m.core.stack m.frame offset).map (fun v => ⟨m.core.set r v, m.frame⟩)
    else none
  | i => (execute m.core i).map (fun core => ⟨core, m.frame⟩)

/-- A sequence of instructions of the call protocol, executed in order. -/
def call_run (return_address : Int) (m : call_machine) : List Instr → Option call_machine
  | [] => some m
  | i :: rest =>
    match call_step return_address m i with
    | some m1 => call_run return_address m1 rest
    | none => none

/-- The argument list of the call `f(1, 2, 3, 4, 5, 6, 99)`. -/
def example_seven_constants : Node :=
  node_init .ARGUMENT_LIST .null
    [number_node 1, number_node 2, number_node 3, number_node 4, number_node 5,
     number_node 6, number_node 99]

/-- The table of `f` in `example_seven_tables`. -/
def example_seven_table : symbol_table_t :=
  example_seven_callee.function_symtable.getD symbol_table_init

/-- A machine with an empty stack. -/
def example_empty_machine : call_machine := ⟨⟨fun _ => 0, [], none⟩, 0⟩

/-- The code that `generate_function_call` writes for the arguments of
`f(1, 2, 3, 4, 5, 6, 99)`: last argument first, each followed by a push. -/
def example_seven_pushes : List Instr :=
  [.movq (.imm 99) (.reg .RAX), .pushq (.reg .RAX), .movq (.imm 6) (.reg .RAX),
   .pushq (.reg .RAX), .movq (.imm 5) (.reg .RAX), .pushq (.reg .RAX),
   .movq (.imm 4) (.reg .RAX), .pushq (.reg .RAX), .movq (.imm 3) (.reg .RAX),
   .pushq (.reg .RAX), .movq (.imm 2) (.reg .RAX), .pushq (.reg .RAX),
   .movq (.imm 1) (.reg .RAX), .pushq (.reg .RAX)]

/-! ## Field projections -/

@[simp] theorem Node.type_mk (t : NodeType) (d : Data) (cs : List Node) (s : Option Symbol) :
    (Node.mk t d cs s).type = t := rfl

@[simp] theorem Node.data_mk (t : NodeType) (d : Data) (cs : List Node) (s : Option Symbol) :
    (Node.mk t d cs s).data = d := rfl

@[simp] theorem Node.children_mk (t : NodeType) (d : Data) (cs : List Node)
    (s : Option Symbol) : (Node.mk t d cs s).children = cs := rfl

@[simp] theorem Node.symbol_mk (t : NodeType) (d : Data) (cs : List Node)
    (s : Option Symbol) : (Node.mk t d cs s).symbol = s := rfl

theorem Node.eta (n : Node) : Node.mk n.type n.data n.children n.symbol = n := by
  cases n; rfl

/-! ## Unfolding lemmas for the simplifier -/

theorem simplify_tree_mk (t : NodeType) (d : Data) (cs : List Node) (s : Option Symbol) :
    simplify_tree (.mk t d cs s) =
      (simplify_children cs).bind (fun cs' => simplify_node (.mk t d cs' s)) := by
  rw [simplify_tree]; cases simplify_children cs <;> rfl

theorem simplify_children_nil : simplify_children [] = some [] := by
  rw [simplify_children]

theorem simplify_children_cons (c : Node) (cs : List Node) :
    simplify_children (c :: cs) =
      (simplify_tree c).bind
        (fun c' => (simplify_children cs).bind (fun cs' => some (c' :: cs'))) := by
  rw [simplify_children]; cases simplify_tree c <;> simp
  cases simplify_children cs <;> rfl

/-! ## 64-bit arithmetic -/

theorem wrap64_eq_bmod (x : Int) : wrap64 x = Int.bmod x (2 ^ 64) := by
  unfold wrap64 Int.bmod
  have h : ((2 ^ 64 : Nat) : Int) = 18446744073709551616 := by norm_num
  simp only [h]
  split <;> omega

theorem int64_wrap64 (x : Int) : int64 (wrap64 x) := by
  unfold int64 wrap64
  constructor <;> omega

theorem wrap64_modeq (x : Int) : (wrap64 x - x) % 2 ^ 64 = 0 := by
  unfold wrap64
  omega

theorem int64_tdiv (a b : Int) (ha : int64 a) (hb : int64 b)
    (h : ¬ (a = -(2 ^ 63) ∧ b = -1)) : int64 (Int.tdiv a b) := by
  unfold int64 at *
  by_cases hb1 : b = 1
  · subst hb1; simpa using ha
  by_cases hb2 : b = -1
  · subst hb2
    have e : a.tdiv (-1) = -a := by rw [Int.tdiv_neg, Int.tdiv_one]
    rw [e]; omega
  by_cases hb0 : b = 0
  · subst hb0; simp
  have h1 : (a.tdiv b).natAbs = a.natAbs / b.natAbs := Int.natAbs_tdiv a b
  have h2 : a.natAbs / b.natAbs ≤ a.natAbs / 2 :=
    Nat.div_le_div_left (by omega) (by norm_num)
  omega


/-! ## Constant folding -/

theorem simplify_number_node (v : Int) :
    simplify_tree (number_node v) = some (number_node v) := by
  simp [number_node, node_init, simplify_tree_mk, simplify_children_nil, simplify_node]

theorem simplify_arith (e : Arith) (hr : e.leaves_int64) (ht : e.no_trap) :
    simplify_tree e.toNode = some (number_node e.value) ∧ int64 e.value := by
  induction e with
  | num a => exact ⟨simplify_number_node a, hr⟩
  | paren e ih =>
    obtain ⟨h1, h2⟩ := ih hr ht
    refine ⟨?_, h2⟩
    simp [Arith.toNode, node_init, simplify_tree_mk, simplify_children_cons,
      simplify_children_nil, h1, simplify_node, constant_fold_expression, Node.type,
      Node.children, Node.data, replace_with_child, Arith.value]
  | neg e ih =>
    obtain ⟨h1, h2⟩ := ih hr ht
    refine ⟨?_, ?_⟩
    · simp [Arith.toNode, node_init, simplify_tree_mk, simplify_children_cons,
        simplify_children_nil, h1, simplify_node, constant_fold_expression,
        all_children_are_numbers, number_node, fold_expression, calculate_unary_fold,
        data_as_string, data_as_int64, string_to_arithmetic_operator, Arith.value,
        wrap64_eq_bmod]
    · simp only [Arith.value, ← wrap64_eq_bmod]; exact int64_wrap64 _
  | bin op l r ihl ihr =>
    obtain ⟨hl1, hl2⟩ := ihl hr.1 (by cases op <;> exact ht.1)
    obtain ⟨hr1, hr2⟩ := ihr hr.2 (by cases op <;> first | exact ht.2.1 | exact ht.2)
    cases op
    case div =>
      obtain ⟨-, -, h0, hm⟩ := ht
      refine ⟨?_, int64_tdiv _ _ hl2 hr2 hm⟩
      have hm' : ¬ (l.value = -9223372036854775808 ∧ r.value = -1) := by
        intro h; exact hm (by simpa using h)
      simp [Arith.toNode, node_init, simplify_tree_mk, simplify_children_cons,
        simplify_children_nil, hl1, hr1, simplify_node, constant_fold_expression,
        all_children_are_numbers, number_node, fold_expression, calculate_binary_fold,
        data_as_string, data_as_int64, string_to_arithmetic_operator, Arith.value,
        BinOp.text, h0, hm']
    all_goals
      refine ⟨?_, ?_⟩
      · simp [Arith.toNode, node_init, simplify_tree_mk, simplify_children_cons,
          simplify_children_nil, hl1, hr1, simplify_node, constant_fold_expression,
          all_children_are_numbers, number_node, fold_expression, calculate_binary_fold,
          data_as_string, data_as_int64, string_to_arithmetic_operator, Arith.value,
          BinOp.text, wrap64_eq_bmod]
      · simp only [Arith.value, ← wrap64_eq_bmod]; exact int64_wrap64 _

/-- C1: for every expression tree built from 64-bit number leaves, operator-less
single-child wrappers, unary minus and binary `+ - * /`, in which no division
has a divisor of value 0 or divides `-2^63` by `-1`, `simplify_tree` returns a
single `NUMBER_DATA` node without children whose payload is the signed 64-bit
wrapping value of the tree (and that value is in the 64-bit range). -/
theorem simplify_tree_constant_expression (e : Arith)
    (hr : e.leaves_int64) (ht : e.no_trap) :
    simplify_tree e.toNode = some (Node.mk .NUMBER_DATA (.num e.value) [] none) ∧
      int64 e.value :=
  simplify_arith e hr ht

/-- C1, at `1 + 2 * 3`: the tree becomes the number 7. -/
theorem simplify_tree_constant_expression_witness :
    simplify_tree
        (node_init .EXPRESSION (.str "+")
          [node_init .NUMBER_DATA (.num 1) [],
           node_init .EXPRESSION (.str "*")
             [node_init .NUMBER_DATA (.num 2) [], node_init .NUMBER_DATA (.num 3) []]]) =
      some (Node.mk .NUMBER_DATA (.num 7) [] none) :=
  (simplify_tree_constant_expression (.bin .add (.num 1) (.bin .mul (.num 2) (.num 3)))
    ⟨by unfold Arith.leaves_int64 int64; decide,
      by unfold Arith.leaves_int64 int64; decide, by unfold Arith.leaves_int64 int64; decide⟩
    ⟨trivial, trivial, trivial⟩).1

/-- C2: for 64-bit `a` and `b`, simplifying `Expression(op, [a, b])` gives a
number node whose value is in the signed 64-bit range and congruent to
`a op b` modulo `2^64` for `op` among `+ - *`; for `/`, when `b` is not 0 and
the division is not `-2^63 / -1`, it gives the quotient truncated toward
zero. -/
theorem simplify_tree_binary_fold (a b : Int) (ha : int64 a) (hb : int64 b) :
    (∃ r, simplify_tree (node_init .EXPRESSION (.str "+") [number_node a, number_node b])
          = some (number_node r) ∧ int64 r ∧ (r - (a + b)) % 2 ^ 64 = 0) ∧
    (∃ r, simplify_tree (node_init .EXPRESSION (.str "-") [number_node a, number_node b])
          = some (number_node r) ∧ int64 r ∧ (r - (a - b)) % 2 ^ 64 = 0) ∧
    (∃ r, simplify_tree (node_init .EXPRESSION (.str "*") [number_node a, number_node b])
          = some (number_node r) ∧ int64 r ∧ (r - a * b) % 2 ^ 64 = 0) ∧
    (b ≠ 0 → ¬ (a = -(2 ^ 63) ∧ b = -1) →
      simplify_tree (node_init .EXPRESSION (.str "/") [number_node a, number_node b])
          = some (number_node (Int.tdiv a b)) ∧ int64 (Int.tdiv a b)) := by
  refine ⟨⟨wrap64 (a + b), ?_, int64_wrap64 _, wrap64_modeq _⟩,
    ⟨wrap64 (a - b), ?_, int64_wrap64 _, wrap64_modeq _⟩,
    ⟨wrap64 (a * b), ?_, int64_wrap64 _, wrap64_modeq _⟩, ?_⟩
  · simp [node_init, simplify_tree_mk, simplify_children_cons,
      simplify_children_nil, simplify_node, constant_fold_expression,
      all_children_are_numbers, number_node, fold_expression, calculate_binary_fold,
      data_as_string, data_as_int64, string_to_arithmetic_operator]
  · simp [node_init, simplify_tree_mk, simplify_children_cons,
      simplify_children_nil, simplify_node, constant_fold_expression,
      all_children_are_numbers, number_node, fold_expression, calculate_binary_fold,
      data_as_string, data_as_int64, string_to_arithmetic_operator]
  · simp [node_init, simplify_tree_mk, simplify_children_cons,
      simplify_children_nil, simplify_node, constant_fold_expression,
      all_children_are_numbers, number_node, fold_expression, calculate_binary_fold,
      data_as_string, data_as_int64, string_to_arithmetic_operator]
  · intro h0 hm
    refine ⟨?_, int64_tdiv a b ha hb hm⟩
    have hm' : ¬ (a = -9223372036854775808 ∧ b = -1) := by
      intro h; exact hm (by simpa using h)
    simp [node_init, simplify_tree_mk, simplify_children_cons,
      simplify_children_nil, simplify_node, constant_fold_expression,
      all_children_are_numbers, number_node, fold_expression, calculate_binary_fold,
      data_as_string, data_as_int64, string_to_arithmetic_operator, h0, hm']

/-- C2, at `-7 / 2`: the quotient is `-3` (truncation toward zero). -/
theorem simplify_tree_binary_fold_witness :
    simplify_tree (node_init .EXPRESSION (.str "/") [number_node (-7), number_node 2])
      = some (number_node (-3)) :=
  ((simplify_tree_binary_fold (-7) 2 (by unfold int64; decide) (by unfold int64; decide)).2.2.2
    (by decide) (by decide)).1

/-- C3: for 64-bit `a`, simplifying the one-child `Expression(op, [a])` gives
the number `-a` reduced modulo `2^64` into the signed range for `-`, the number
`a` for `+`, and the number 0 for `*` and for `/`. -/
theorem simplify_tree_unary_fold (a : Int) (ha : int64 a) :
    (∃ r, simplify_tree (node_init .EXPRESSION (.str "-") [number_node a])
          = some (number_node r) ∧ int64 r ∧ (r + a) % 2 ^ 64 = 0) ∧
    simplify_tree (node_init .EXPRESSION (.str "+") [number_node a]) = some (number_node a) ∧
    simplify_tree (node_init .EXPRESSION (.str "*") [number_node a]) = some (number_node 0) ∧
    simplify_tree (node_init .EXPRESSION (.str "/") [number_node a]) = some (number_node 0) := by
  have _ := ha
  refine ⟨⟨wrap64 (-a), ?_, int64_wrap64 _, ?_⟩, ?_, ?_, ?_⟩
  · simp [node_init, simplify_tree_mk, simplify_children_cons,
      simplify_children_nil, simplify_node, constant_fold_expression,
      all_children_are_numbers, number_node, fold_expression, calculate_unary_fold,
      data_as_string, data_as_int64, string_to_arithmetic_operator]
  · have := wrap64_modeq (-a)
    omega
  all_goals
    simp [node_init, simplify_tree_mk, simplify_children_cons,
      simplify_children_nil, simplify_node, constant_fold_expression,
      all_children_are_numbers, number_node, fold_expression, calculate_unary_fold,
      data_as_string, data_as_int64, string_to_arithmetic_operator]

/-- C3, at the least 64-bit integer: unary minus wraps back to `-2^63`. -/
theorem simplify_tree_unary_fold_witness :
    ∃ r, simplify_tree (node_init .EXPRESSION (.str "-") [number_node (-(2 ^ 63))])
          = some (number_node r) ∧ int64 r ∧ (r + -(2 ^ 63)) % 2 ^ 64 = 0 :=
  (simplify_tree_unary_fold (-(2 ^ 63)) (by unfold int64; decide)).1

/-! ## Induction over trees -/

theorem Node.induction {P : Node → Prop}
    (h : ∀ t d cs s, (∀ c ∈ cs, P c) → P (.mk t d cs s)) : ∀ n, P n := by
  intro n
  refine @Node.rec P (fun cs => ∀ c ∈ cs, P c) ?_ ?_ ?_ n
  · intro t d cs s ih; exact h t d cs s ih
  · intro c hc; cases hc
  · intro c cs h1 h2 x hx
    rcases List.mem_cons.1 hx with rfl | hx
    · exact h1
    · exact h2 x hx

theorem Node.allList_iff (p : Node → Bool) (cs : List Node) :
    Node.allList p cs = true ↔ ∀ c ∈ cs, Node.all p c = true := by
  induction cs with
  | nil => simp [Node.allList]
  | cons c cs ih => simp [Node.allList, ih]

theorem Node.all_mk (p : Node → Bool) (t : NodeType) (d : Data) (cs : List Node)
    (s : Option Symbol) :
    Node.all p (.mk t d cs s) = true ↔
      p (.mk t d cs s) = true ∧ ∀ c ∈ cs, Node.all p c = true := by
  rw [Node.all, Bool.and_eq_true, Node.allList_iff]

theorem Node.all_children {p : Node → Bool} {n : Node} (h : Node.all p n = true) :
    ∀ c ∈ n.children, Node.all p c = true := by
  cases n with
  | mk t d cs s => exact ((Node.all_mk p t d cs s).1 h).2

theorem Node.all_self {p : Node → Bool} {n : Node} (h : Node.all p n = true) :
    p n = true := by
  cases n with
  | mk t d cs s => exact ((Node.all_mk p t d cs s).1 h).1

theorem simplify_children_eq_some (cs cs' : List Node) :
    simplify_children cs = some cs' ↔
      List.Forall₂ (fun c c' => simplify_tree c = some c') cs cs' := by
  induction cs generalizing cs' with
  | nil =>
    rw [simplify_children_nil]
    constructor
    · intro h; cases h; exact List.Forall₂.nil
    · intro h; cases h; rfl
  | cons c cs ih =>
    rw [simplify_children_cons]
    constructor
    · intro h
      cases hc : simplify_tree c with
      | none => simp [hc] at h
      | some c' =>
        cases hcs : simplify_children cs with
        | none => simp [hc, hcs] at h
        | some cs'' =>
          simp [hc, hcs] at h
          subst h
          exact List.Forall₂.cons hc ((ih cs'').1 hcs)
    · intro h
      cases h with
      | cons h1 h2 =>
        rw [h1, (ih _).2 h2]; rfl

theorem simplify_children_mem {cs cs' : List Node} (h : simplify_children cs = some cs')
    {c' : Node} (hc' : c' ∈ cs') : ∃ c ∈ cs, simplify_tree c = some c' := by
  have hf := (simplify_children_eq_some cs cs').1 h
  clear h
  induction hf with
  | nil => cases hc'
  | cons h1 _ ih =>
    rcases List.mem_cons.1 hc' with rfl | hm
    · exact ⟨_, List.mem_cons_self _ _, h1⟩
    · obtain ⟨c, hc, hcc⟩ := ih hm
      exact ⟨c, List.mem_cons_of_mem _ hc, hcc⟩

/-- Invariants of single nodes carry over to whole simplified trees. -/
theorem simplify_tree_all (p : Node → Bool)
    (hp : ∀ n s, (∀ c ∈ n.children, Node.all p c = true) → simplify_node n = some s →
      Node.all p s = true) :
    ∀ t s, simplify_tree t = some s → Node.all p s = true := by
  intro t
  induction t using Node.induction with
  | h t d cs sy ih =>
    intro s hs
    rw [simplify_tree_mk] at hs
    cases hcs : simplify_children cs with
    | none => simp [hcs] at hs
    | some cs' =>
      simp [hcs] at hs
      refine hp _ s ?_ hs
      intro c' hc'
      simp only [Node.children_mk] at hc'
      obtain ⟨c, hc, hcc⟩ := simplify_children_mem hcs hc'
      exact ih c hc c' hcc

/-! ## Characterisation of the rewrite of one node -/

theorem simplify_node_eq (n : Node) :
    simplify_node n =
      if is_wrapper_kind n.type then replace_with_child n
      else if is_list_kind n.type then flatten_list n
      else if is_squash_kind n.type then squash_child n
      else if n.type = .EXPRESSION then constant_fold_expression n
      else if n.type = .FOR_STATEMENT then replace_for_statement n
      else some n := by
  obtain ⟨t, d, cs, sy⟩ := n
  cases t <;> rfl

theorem replace_with_child_eq_some {n s : Node} :
    replace_with_child n = some s ↔ n.children = [s] := by
  unfold replace_with_child
  rcases n.children with _ | ⟨c, _ | ⟨c2, cs⟩⟩ <;> simp

theorem squash_child_eq_some {n s : Node} :
    squash_child n = some s ↔
      (n.children = [] ∧ n = s) ∨
      (∃ c, n.children = [c] ∧ Node.mk n.type c.data c.children c.symbol = s) := by
  unfold squash_child
  rcases n.children with _ | ⟨c, _ | ⟨c2, cs⟩⟩ <;> simp

theorem flatten_list_eq_some {n s : Node} :
    flatten_list n = some s ↔
      (n.children.length ≤ 1 ∧ n = s) ∨
      (∃ l r, n.children = [l, r] ∧ l.type ≠ n.type ∧ n = s) ∨
      (∃ l r, n.children = [l, r] ∧ l.type = n.type ∧
        Node.mk n.type n.data (l.children ++ [r]) n.symbol = s) := by
  unfold flatten_list
  rcases n.children with _ | ⟨c, _ | ⟨c2, _ | ⟨c3, cs⟩⟩⟩
  · simp
  · simp
  · by_cases h : c.type = n.type
    · simp only [h, if_true, Option.some.injEq]
      constructor
      · intro hs; exact Or.inr (Or.inr ⟨c, c2, rfl, h, hs⟩)
      · rintro (⟨hl, -⟩ | ⟨l, r, hlr, hne, -⟩ | ⟨l, r, hlr, -, hs⟩)
        · simp at hl
        · simp only [List.cons.injEq, and_true] at hlr
          obtain ⟨rfl, rfl⟩ := hlr
          exact absurd h hne
        · simp only [List.cons.injEq, and_true] at hlr
          obtain ⟨rfl, rfl⟩ := hlr
          exact hs
    · simp [h]
  · simp

theorem fold_expression_eq_some {n s : Node} (h : fold_expression n = some s) :
    ∃ v, Node.mk .NUMBER_DATA (.num v) [] n.symbol = s := by
  unfold fold_expression at h
  split at h <;> simp [Option.bind_eq_some] at h <;>
    (obtain ⟨v, -, hv⟩ := h; exact ⟨v, hv⟩)

theorem constant_fold_expression_eq_some {n s : Node} :
    constant_fold_expression n = some s ↔
      n.type = .EXPRESSION ∧ n.children.length ≤ 2 ∧
      ((n.data = .null ∧ n.children = [s]) ∨
       (n.data ≠ .null ∧ 0 < n.children.length ∧ all_children_are_numbers n = true ∧
          fold_expression n = some s) ∨
       (fold_stable n ∧ n = s)) := by
  unfold constant_fold_expression fold_stable
  by_cases ht : n.type = .EXPRESSION
  · by_cases hl : 2 < n.children.length
    · simp [ht, hl]
    · have hl' : n.children.length ≤ 2 := by omega
      by_cases hd : n.data = .null
      · by_cases h1 : n.children.length = 1
        · simp [ht, hl, hl', hd, h1, replace_with_child_eq_some]
        · simp [ht, hl, hl', hd, h1]
          intro h; rw [h] at h1; simp at h1
      · by_cases ha : (0 < n.children.length ∧ all_children_are_numbers n = true)
        · simp [ht, hl, hl', hd, ha]
        · simp [ht, hl, hl', hd, ha]
          intro h1 h2; exact absurd ⟨h1, h2⟩ ha
  · simp [ht]


theorem replace_for_statement_eq_some {n s : Node} (h : replace_for_statement n = some s) :
    ∃ v a b c rest name, n.children = v :: a :: b :: c :: rest ∧ v.data = .str name ∧
      s = for_block v name a b c := by
  unfold replace_for_statement at h
  split at h
  · cases h
  · split at h
    · rename_i v a b c rest hcs
      cases hd : v.data with
      | str name =>
        refine ⟨v, a, b, c, rest, name, hcs, hd, ?_⟩
        simp [DUPLICATE_VARIABLE, hd, node_init] at h
        simp only [for_block, node_init]
        exact h.symm
      | null => simp [DUPLICATE_VARIABLE, hd] at h
      | num x => simp [DUPLICATE_VARIABLE, hd] at h
    · cases h


/-! ## Elimination of for statements -/

theorem all_not_for_mk (t : NodeType) (d : Data) (cs : List Node) (s : Option Symbol) :
    Node.all not_for (.mk t d cs s) = true ↔
      t ≠ .FOR_STATEMENT ∧ ∀ c ∈ cs, Node.all not_for c = true := by
  rw [Node.all_mk]; simp [not_for]

theorem simplify_node_no_for (n s : Node)
    (hc : ∀ c ∈ n.children, Node.all not_for c = true) (h : simplify_node n = some s) :
    Node.all not_for s = true := by
  rw [simplify_node_eq] at h
  obtain ⟨t, d, cs, sy⟩ := n
  simp only [Node.children_mk, Node.type_mk] at hc h
  split at h
  · rw [replace_with_child_eq_some] at h
    simp only [Node.children_mk] at h
    subst h; exact hc s (by simp)
  split at h
  · rename_i hw hl
    have htf : t ≠ .FOR_STATEMENT := by rintro rfl; simp [is_list_kind] at hl
    rw [flatten_list_eq_some] at h
    simp only [Node.children_mk, Node.type_mk, Node.data_mk, Node.symbol_mk] at h
    rcases h with ⟨-, rfl⟩ | ⟨l, r, -, -, rfl⟩ | ⟨l, r, hlr, -, rfl⟩
    · exact (all_not_for_mk _ _ _ _).2 ⟨htf, hc⟩
    · exact (all_not_for_mk _ _ _ _).2 ⟨htf, hc⟩
    · subst hlr
      refine (all_not_for_mk _ _ _ _).2 ⟨htf, ?_⟩
      intro c hcm
      rcases List.mem_append.1 hcm with h1 | h1
      · exact Node.all_children (hc l (by simp)) c h1
      · simp only [List.mem_singleton] at h1
        subst h1; exact hc c (by simp)
  split at h
  · rename_i hw hl hq
    have htf : t ≠ .FOR_STATEMENT := by rintro rfl; simp [is_squash_kind] at hq
    rw [squash_child_eq_some] at h
    simp only [Node.children_mk, Node.type_mk] at h
    rcases h with ⟨-, rfl⟩ | ⟨c, hcs, rfl⟩
    · exact (all_not_for_mk _ _ _ _).2 ⟨htf, hc⟩
    · subst hcs
      exact (all_not_for_mk _ _ _ _).2 ⟨htf, Node.all_children (hc c (by simp))⟩
  split at h
  · rename_i hw hl hq he
    subst he
    rw [constant_fold_expression_eq_some] at h
    simp only [Node.children_mk, Node.type_mk, Node.data_mk] at h
    obtain ⟨-, -, h⟩ := h
    rcases h with ⟨-, hcs⟩ | ⟨-, -, -, hf⟩ | ⟨-, rfl⟩
    · subst hcs; exact hc s (by simp)
    · obtain ⟨v, rfl⟩ := fold_expression_eq_some hf
      exact (all_not_for_mk _ _ _ _).2 ⟨by decide, by simp⟩
    · exact (all_not_for_mk _ _ _ _).2 ⟨by decide, hc⟩
  split at h
  · obtain ⟨v, a, b, c, rest, name, hcs, -, rfl⟩ := replace_for_statement_eq_some h
    simp only [Node.children_mk] at hcs
    subst hcs
    have hv := hc v (by simp)
    have ha := hc a (by simp)
    have hb := hc b (by simp)
    have hcc := hc c (by simp)
    simp [for_block, node_init, all_not_for_mk, hv, ha, hb, hcc]
  · rename_i hw hl hq he hf
    simp only [Option.some.injEq] at h
    subst h
    exact (all_not_for_mk _ _ _ _).2 ⟨hf, hc⟩

/-- C4: whenever `simplify_tree` returns a tree, no node of that tree has kind
`FOR_STATEMENT`, at any depth (a `FOR_STATEMENT` with fewer than four children
makes `simplify_tree` fail, so every for statement of the input has its four
children). -/
theorem simplify_tree_no_for_statement (t s : Node) (h : simplify_tree t = some s) :
    no_for_statement s = true :=
  simplify_tree_all not_for simplify_node_no_for t s h

/-- C4, at a for loop nested in the body of another for loop. -/
theorem simplify_tree_no_for_statement_witness :
    simplify_tree example_nested_for =
      some (for_block (identifier_node "i") "i" (number_node 0) (number_node 3)
        (for_block (identifier_node "j") "j" (number_node 0) (number_node 2)
          (node_init .BREAK_STATEMENT .null []))) ∧
    no_for_statement
        (for_block (identifier_node "i") "i" (number_node 0) (number_node 3)
          (for_block (identifier_node "j") "j" (number_node 0) (number_node 2)
            (node_init .BREAK_STATEMENT .null []))) = true :=
  ⟨by decide, simplify_tree_no_for_statement example_nested_for _ (by decide)⟩

/-- C5: a `FOR_STATEMENT` over the identifier `name` whose start, end and body
simplify to `start'`, `end'` and `body'` is rewritten to exactly the block
`for_block`: declaration of `name` and `__FOR_END__`, the two assignments,
and the while loop over `name < __FOR_END__` whose block holds `body'` followed
by `name := name + 1`, every identifier being a node of its own. -/
theorem simplify_tree_for_statement (d : Data) (sy : Option Symbol) (name : String)
    (start_value end_value body start' end' body' : Node)
    (hs : simplify_tree start_value = some start')
    (he : simplify_tree end_value = some end')
    (hb : simplify_tree body = some body') :
    simplify_tree
        (Node.mk .FOR_STATEMENT d
          [identifier_node name, start_value, end_value, body] sy) =
      some (for_block (identifier_node name) name start' end' body') := by
  simp [simplify_tree_mk, simplify_children_cons, simplify_children_nil, hs, he, hb,
    node_init, identifier_node, simplify_node, replace_for_statement, DUPLICATE_VARIABLE,
    for_block]

/-- C5, at `for i := 0, 3` with a print statement as body. -/
theorem simplify_tree_for_statement_witness :
    simplify_tree
        (Node.mk .FOR_STATEMENT .null
          [identifier_node "i",
           node_init .EXPRESSION .null [number_node 0],
           node_init .EXPRESSION .null [number_node 3],
           node_init .STATEMENT .null
            [node_init .PRINT_STATEMENT .null
              [node_init .PRINT_LIST .null
                [node_init .PRINT_ITEM .null [identifier_node "i"]]]]]
          none) =
      some (for_block (identifier_node "i") "i" (number_node 0)
        (number_node 3)
        (node_init .PRINT_STATEMENT .null [identifier_node "i"])) :=
  simplify_tree_for_statement .null none "i" _ _ _ _ _ _ (by decide) (by decide) (by decide)

/-! ## Flattening of lists -/

theorem simplify_children_eq_nil {cs : List Node} (h : simplify_children cs = some []) :
    cs = [] := by
  cases (simplify_children_eq_some cs []).1 h; rfl

theorem simplify_children_eq_cons {cs : List Node} {x : Node} {xs : List Node}
    (h : simplify_children cs = some (x :: xs)) :
    ∃ c cs0, cs = c :: cs0 ∧ simplify_tree c = some x ∧ simplify_children cs0 = some xs := by
  cases (simplify_children_eq_some cs (x :: xs)).1 h with
  | cons h1 h2 => exact ⟨_, _, rfl, h1, (simplify_children_eq_some _ _).2 h2⟩

theorem head_kind_mk (t : NodeType) (d : Data) (cs : List Node) (sy : Option Symbol) :
    head_kind (.mk t d cs sy) =
      if is_wrapper_kind t = true ∨ (t = .EXPRESSION ∧ d = .null) then
        (match cs with
          | [c] => head_kind c
          | _ => t)
      else t := by
  rw [head_kind]
  by_cases h : is_wrapper_kind t = true ∨ (t = .EXPRESSION ∧ d = .null)
  · have h' : (is_wrapper_kind t || (decide (t = .EXPRESSION) && decide (d = .null))) = true := by
      simpa using h
    rw [if_pos h', if_pos h]
    rcases cs with _ | ⟨c, _ | ⟨c2, cs⟩⟩ <;> simp [head_kind_single]
  · have h' : ¬ (is_wrapper_kind t || (decide (t = .EXPRESSION) && decide (d = .null))) = true := by
      simpa using h
    rw [if_neg h', if_neg h]

theorem all_flat_mk (t : NodeType) (d : Data) (cs : List Node) (s : Option Symbol) :
    Node.all flat_node (.mk t d cs s) = true ↔
      (is_list_kind t = true → ∀ c ∈ cs, c.type ≠ t) ∧
        ∀ c ∈ cs, Node.all flat_node c = true := by
  rw [Node.all_mk]
  simp only [flat_node, Node.type_mk, Node.children_mk, Bool.or_eq_true, Bool.not_eq_true',
    List.all_eq_true, decide_eq_true_eq]
  constructor
  · rintro ⟨h1, h2⟩
    refine ⟨fun hl => ?_, h2⟩
    rcases h1 with h1 | h1
    · rw [hl] at h1; cases h1
    · exact h1
  · rintro ⟨h1, h2⟩
    refine ⟨?_, h2⟩
    cases hl : is_list_kind t
    · exact Or.inl rfl
    · exact Or.inr (h1 hl)

theorem is_list_kind_not_wrapper {t : NodeType} (d : Data) (h : is_list_kind t = true) :
    ¬ (is_wrapper_kind t = true ∨ (t = .EXPRESSION ∧ d = Data.null)) := by
  cases t <;> simp [is_list_kind, is_wrapper_kind] at h ⊢

theorem head_kind_of_list_kind {t : NodeType} (d : Data) (cs : List Node)
    (sy : Option Symbol) (h : is_list_kind t = true) : head_kind (.mk t d cs sy) = t := by
  rw [head_kind_mk, if_neg (is_list_kind_not_wrapper d h)]

/-- One step of the flattening invariant: the rewritten node is fully flattened
and, when it is a list, has the head kind of the node it came from. -/
theorem simplify_node_flat (t : NodeType) (d : Data) (cs cs' : List Node)
    (sy : Option Symbol) (s : Node)
    (hn : list_items_node (.mk t d cs sy) = true)
    (hcs : simplify_children cs = some cs')
    (ih : ∀ c ∈ cs, ∀ c', simplify_tree c = some c' →
      Node.all flat_node c' = true ∧ (is_list_kind c'.type = true → c'.type = head_kind c))
    (h : simplify_node (.mk t d cs' sy) = some s) :
    Node.all flat_node s = true ∧
      (is_list_kind s.type = true → s.type = head_kind (.mk t d cs sy)) := by
  have hall : ∀ c' ∈ cs', Node.all flat_node c' = true := by
    intro c' hc'
    obtain ⟨c, hc, hcc⟩ := simplify_children_mem hcs hc'
    exact (ih c hc c' hcc).1
  rw [simplify_node_eq] at h
  simp only [Node.type_mk] at h
  split at h
  · -- pass-through wrappers
    rename_i hw
    rw [replace_with_child_eq_some] at h
    simp only [Node.children_mk] at h
    subst h
    obtain ⟨c, cs0, rfl, hc, h0⟩ := simplify_children_eq_cons hcs
    have := simplify_children_eq_nil h0
    subst this
    have hh : head_kind (.mk t d [c] sy) = head_kind c := by
      rw [head_kind_mk, if_pos (Or.inl hw)]
    rw [hh]
    exact ih c (by simp) s hc
  split at h
  · -- lists
    rename_i hw hl
    rw [head_kind_of_list_kind d cs sy hl]
    rw [flatten_list_eq_some] at h
    simp only [Node.children_mk, Node.type_mk, Node.data_mk, Node.symbol_mk] at h
    rcases h with ⟨hlen, rfl⟩ | ⟨l', r', hlr, hne, rfl⟩ | ⟨l', r', hlr, hty, rfl⟩
    · refine ⟨(all_flat_mk _ _ _ _).2 ⟨fun _ => ?_, hall⟩, fun _ => rfl⟩
      rcases cs' with _ | ⟨x, _ | ⟨y, cs'⟩⟩
      · simp
      · obtain ⟨c, cs0, rfl, hc, h0⟩ := simplify_children_eq_cons hcs
        have := simplify_children_eq_nil h0
        subst this
        intro x' hx'
        simp only [List.mem_singleton] at hx'
        subst hx'
        intro hxt
        have h1 := (ih c (by simp) x' hc).2 (by rw [hxt]; exact hl)
        simp [list_items_node, hl] at hn
        exact hn (by rw [← h1, hxt])
      · simp at hlen
    · subst hlr
      obtain ⟨l, cs0, rfl, hlc, h0⟩ := simplify_children_eq_cons hcs
      obtain ⟨r, cs1, rfl, hrc, h1⟩ := simplify_children_eq_cons h0
      have := simplify_children_eq_nil h1
      subst this
      refine ⟨(all_flat_mk _ _ _ _).2 ⟨fun _ => ?_, hall⟩, fun _ => rfl⟩
      intro x hx
      simp only [List.mem_cons, List.mem_singleton, List.not_mem_nil, or_false] at hx
      rcases hx with rfl | rfl
      · exact hne
      · intro hxt
        have h2 := (ih r (by simp) x hrc).2 (by rw [hxt]; exact hl)
        simp [list_items_node, hl] at hn
        exact hn (by rw [← h2, hxt])
    · subst hlr
      obtain ⟨l, cs0, rfl, hlc, h0⟩ := simplify_children_eq_cons hcs
      obtain ⟨r, cs1, rfl, hrc, h1⟩ := simplify_children_eq_cons h0
      have := simplify_children_eq_nil h1
      subst this
      have hl' := hall l' (by simp)
      have hr' := hall r' (by simp)
      obtain ⟨tl, dl, csl, syl⟩ := l'
      simp only [Node.type_mk] at hty
      subst hty
      have hfl := (all_flat_mk _ _ _ _).1 hl'
      simp only [Node.children_mk]
      refine ⟨(all_flat_mk _ _ _ _).2 ⟨fun _ => ?_, ?_⟩, fun _ => rfl⟩
      · intro x hx
        rcases List.mem_append.1 hx with hx | hx
        · exact hfl.1 hl x hx
        · simp only [List.mem_singleton] at hx
          subst hx
          intro hxt
          have h2 := (ih r (by simp) x hrc).2 (by rw [hxt]; exact hl)
          simp [list_items_node, hl] at hn
          exact hn (by rw [← h2, hxt])
      · intro x hx
        rcases List.mem_append.1 hx with hx | hx
        · exact hfl.2 x hx
        · simp only [List.mem_singleton] at hx
          subst hx; exact hr'
  split at h
  · -- kinds that take over a single child
    rename_i hw hl hq
    have hnl : is_list_kind t = false := by simpa using hl
    rw [squash_child_eq_some] at h
    simp only [Node.children_mk, Node.type_mk] at h
    rcases h with ⟨-, rfl⟩ | ⟨c, hc, rfl⟩
    · exact ⟨(all_flat_mk _ _ _ _).2 ⟨fun hl' => (by rw [hnl] at hl'; cases hl'), hall⟩,
        fun hl' => by rw [Node.type_mk, hnl] at hl'; cases hl'⟩
    · subst hc
      have hc' := hall c (by simp)
      obtain ⟨tc, dc, csc, syc⟩ := c
      exact ⟨(all_flat_mk _ _ _ _).2 ⟨fun hl' => (by rw [hnl] at hl'; cases hl'),
          ((all_flat_mk _ _ _ _).1 hc').2⟩,
        fun hl' => by rw [Node.type_mk, hnl] at hl'; cases hl'⟩
  split at h
  · -- expressions
    rename_i hw hl hq he
    subst he
    rw [constant_fold_expression_eq_some] at h
    simp only [Node.children_mk, Node.type_mk, Node.data_mk] at h
    obtain ⟨-, -, h⟩ := h
    rcases h with ⟨hd, hc⟩ | ⟨-, -, -, hf⟩ | ⟨-, rfl⟩
    · subst hc
      obtain ⟨c, cs0, rfl, hc, h0⟩ := simplify_children_eq_cons hcs
      have := simplify_children_eq_nil h0
      subst this
      have hh : head_kind (.mk .EXPRESSION d [c] sy) = head_kind c := by
        rw [head_kind_mk, if_pos (Or.inr ⟨rfl, hd⟩)]
      rw [hh]
      exact ih c (by simp) s hc
    · obtain ⟨v, rfl⟩ := fold_expression_eq_some hf
      exact ⟨(all_flat_mk _ _ _ _).2 ⟨fun hl' => (by cases hl'), by simp⟩,
        fun hl' => by simp [is_list_kind] at hl'⟩
    · exact ⟨(all_flat_mk _ _ _ _).2 ⟨fun hl' => (by cases hl'), hall⟩,
        fun hl' => by simp [is_list_kind] at hl'⟩
  split at h
  · -- for statements
    rename_i hw hl hq he hf
    subst hf
    obtain ⟨v', a', b', c', rest', name, hcs', -, rfl⟩ := replace_for_statement_eq_some h
    simp only [Node.children_mk] at hcs'
    subst hcs'
    obtain ⟨v, cs0, rfl, hvc, h0⟩ := simplify_children_eq_cons hcs
    obtain ⟨a, cs1, rfl, hac, h1⟩ := simplify_children_eq_cons h0
    obtain ⟨b, cs2, rfl, hbc, h2⟩ := simplify_children_eq_cons h1
    obtain ⟨c, cs3, rfl, hcc, h3⟩ := simplify_children_eq_cons h2
    have hv := hall v' (by simp)
    have ha := hall a' (by simp)
    have hb := hall b' (by simp)
    have hc := hall c' (by simp)
    have hbody : c'.type ≠ .STATEMENT_LIST := by
      intro hxt
      have h4 := (ih c (by simp) c' hcc).2 (by rw [hxt]; rfl)
      simp [list_items_node, is_list_kind] at hn
      exact hn (by rw [← h4, hxt])
    refine ⟨?_, fun hl' => by simp [for_block, node_init, is_list_kind] at hl'⟩
    simp [for_block, node_init, all_flat_mk, hv, ha, hb, hc, hbody, is_list_kind]
  · -- every other kind
    rename_i hw hl hq he hf
    have hnl : is_list_kind t = false := by simpa using hl
    simp only [Option.some.injEq] at h
    subst h
    exact ⟨(all_flat_mk _ _ _ _).2 ⟨fun hl' => (by rw [hnl] at hl'; cases hl'), hall⟩,
      fun hl' => by rw [Node.type_mk, hnl] at hl'; cases hl'⟩

theorem simplify_tree_flat (t : Node) :
    list_items t = true → ∀ s, simplify_tree t = some s →
      Node.all flat_node s = true ∧ (is_list_kind s.type = true → s.type = head_kind t) := by
  induction t using Node.induction with
  | h t d cs sy ih =>
    intro hi s hs
    have hi' := (Node.all_mk _ _ _ _ _).1 hi
    rw [simplify_tree_mk] at hs
    cases hcs : simplify_children cs with
    | none => simp [hcs] at hs
    | some cs' =>
      simp only [hcs, Option.some_bind] at hs
      exact simplify_node_flat t d cs cs' sy s hi'.1 hcs
        (fun c hc c' hcc => ih c hc (hi'.2 c hc) c' hcc) hs


/-- C6, as stated, fails: two trees whose list nodes have at most two children
and only a first child of the same kind, and whose simplified tree has a list
node with a child of its own kind: a one-child list around a list of the same
kind (returned unchanged), and a two-child list whose second item is a
`STATEMENT` around a `STATEMENT_LIST`. -/
theorem left_recursive_not_fully_flattened :
    (left_recursive example_list_in_list = true ∧
      simplify_tree example_list_in_list = some example_list_in_list ∧
      fully_flattened example_list_in_list = false) ∧
    (left_recursive example_wrapped_list = true ∧
      simplify_tree example_wrapped_list =
        some (node_init .STATEMENT_LIST .null
          [node_init .BREAK_STATEMENT .null [],
           node_init .STATEMENT_LIST .null [node_init .BREAK_STATEMENT .null []]]) ∧
      fully_flattened (node_init .STATEMENT_LIST .null
          [node_init .BREAK_STATEMENT .null [],
           node_init .STATEMENT_LIST .null [node_init .BREAK_STATEMENT .null []]]) = false) := by
  decide

/-- C6, amended: when in the parse tree no item of a list node (the only child
of a one-child list, the second child of a two-child list) unwraps to a list of
the node's kind, and no for-loop body unwraps to a `STATEMENT_LIST`, then in
the tree returned by `simplify_tree` no list-kind node has a child of its own
kind. -/
theorem simplify_tree_fully_flattened (t s : Node) (hi : list_items t = true)
    (h : simplify_tree t = some s) : fully_flattened s = true :=
  (simplify_tree_flat t hi s h).1

/-- C6 amended, at the left-recursive chain of three statements. -/
theorem simplify_tree_fully_flattened_witness :
    list_items example_three_statements = true ∧
    simplify_tree example_three_statements =
      some (node_init .STATEMENT_LIST .null
        [node_init .BREAK_STATEMENT .null [], node_init .BREAK_STATEMENT .null [],
         node_init .BREAK_STATEMENT .null []]) ∧
    fully_flattened (node_init .STATEMENT_LIST .null
        [node_init .BREAK_STATEMENT .null [], node_init .BREAK_STATEMENT .null [],
         node_init .BREAK_STATEMENT .null []]) = true :=
  ⟨by decide, by decide,
    simplify_tree_fully_flattened example_three_statements _ (by decide) (by decide)⟩

/-! ## A second run of the simplifier -/

theorem all_simplified_mk (t : NodeType) (d : Data) (cs : List Node) (s : Option Symbol) :
    Node.all simplified_node (.mk t d cs s) = true ↔
      (is_wrapper_kind t = false ∧ t ≠ .FOR_STATEMENT ∧
        (t = .EXPRESSION → fold_stable (.mk t d cs s))) ∧
        ∀ c ∈ cs, Node.all simplified_node c = true := by
  rw [Node.all_mk]
  simp only [simplified_node, Node.type_mk, Bool.and_eq_true, Bool.not_eq_true',
    decide_eq_true_eq, Bool.or_eq_true, and_assoc]
  constructor
  · rintro ⟨h1, h2, h3, h4⟩
    exact ⟨h1, h2, fun he => h3.resolve_left (fun hne => hne he), h4⟩
  · rintro ⟨h1, h2, h3, h4⟩
    refine ⟨h1, h2, ?_, h4⟩
    by_cases he : t = .EXPRESSION
    · exact Or.inr (h3 he)
    · exact Or.inl he

theorem simplify_node_simplified (n s : Node)
    (hc : ∀ c ∈ n.children, Node.all simplified_node c = true)
    (h : simplify_node n = some s) : Node.all simplified_node s = true := by
  rw [simplify_node_eq] at h
  obtain ⟨t, d, cs, sy⟩ := n
  simp only [Node.children_mk, Node.type_mk] at hc h
  split at h
  · rw [replace_with_child_eq_some] at h
    simp only [Node.children_mk] at h
    subst h; exact hc s (by simp)
  split at h
  · rename_i hw hl
    have h1 : is_wrapper_kind t = false := by simpa using hw
    have h2 : t ≠ .FOR_STATEMENT := by rintro rfl; simp [is_list_kind] at hl
    have h3 : t ≠ .EXPRESSION := by rintro rfl; simp [is_list_kind] at hl
    rw [flatten_list_eq_some] at h
    simp only [Node.children_mk, Node.type_mk, Node.data_mk, Node.symbol_mk] at h
    rcases h with ⟨-, rfl⟩ | ⟨l, r, -, -, rfl⟩ | ⟨l, r, hlr, -, rfl⟩
    · exact (all_simplified_mk _ _ _ _).2 ⟨⟨h1, h2, fun he => absurd he h3⟩, hc⟩
    · exact (all_simplified_mk _ _ _ _).2 ⟨⟨h1, h2, fun he => absurd he h3⟩, hc⟩
    · subst hlr
      refine (all_simplified_mk _ _ _ _).2 ⟨⟨h1, h2, fun he => absurd he h3⟩, ?_⟩
      intro c hcm
      rcases List.mem_append.1 hcm with h4 | h4
      · exact Node.all_children (hc l (by simp)) c h4
      · simp only [List.mem_singleton] at h4
        subst h4; exact hc c (by simp)
  split at h
  · rename_i hw hl hq
    have h1 : is_wrapper_kind t = false := by simpa using hw
    have h2 : t ≠ .FOR_STATEMENT := by rintro rfl; simp [is_squash_kind] at hq
    have h3 : t ≠ .EXPRESSION := by rintro rfl; simp [is_squash_kind] at hq
    rw [squash_child_eq_some] at h
    simp only [Node.children_mk, Node.type_mk] at h
    rcases h with ⟨-, rfl⟩ | ⟨c, hcs, rfl⟩
    · exact (all_simplified_mk _ _ _ _).2 ⟨⟨h1, h2, fun he => absurd he h3⟩, hc⟩
    · subst hcs
      exact (all_simplified_mk _ _ _ _).2
        ⟨⟨h1, h2, fun he => absurd he h3⟩, Node.all_children (hc c (by simp))⟩
  split at h
  · rename_i hw hl hq he
    subst he
    rw [constant_fold_expression_eq_some] at h
    simp only [Node.children_mk, Node.type_mk, Node.data_mk] at h
    obtain ⟨-, -, h⟩ := h
    rcases h with ⟨-, hcs⟩ | ⟨-, -, -, hf⟩ | ⟨hst, rfl⟩
    · subst hcs; exact hc s (by simp)
    · obtain ⟨v, rfl⟩ := fold_expression_eq_some hf
      exact (all_simplified_mk _ _ _ _).2
        ⟨⟨rfl, by decide, fun he => by cases he⟩, by simp⟩
    · exact (all_simplified_mk _ _ _ _).2 ⟨⟨rfl, by decide, fun _ => hst⟩, hc⟩
  split at h
  · obtain ⟨v, a, b, c, rest, name, hcs, -, rfl⟩ := replace_for_statement_eq_some h
    simp only [Node.children_mk] at hcs
    subst hcs
    have hv := hc v (by simp)
    have ha := hc a (by simp)
    have hb := hc b (by simp)
    have hcc := hc c (by simp)
    simp [for_block, node_init, all_simplified_mk, hv, ha, hb, hcc, is_wrapper_kind,
      fold_stable, all_children_are_numbers]
  · rename_i hw hl hq he hf
    have h1 : is_wrapper_kind t = false := by simpa using hw
    simp only [Option.some.injEq] at h
    subst h
    exact (all_simplified_mk _ _ _ _).2 ⟨⟨h1, hf, fun h => absurd h he⟩, hc⟩

theorem simplify_children_self (cs : List Node)
    (h : ∀ c ∈ cs, simplify_tree c = some c) : simplify_children cs = some cs := by
  induction cs with
  | nil => exact simplify_children_nil
  | cons c cs ih =>
    rw [simplify_children_cons, h c (by simp), ih (fun x hx => h x (by simp [hx]))]
    rfl

theorem simplify_tree_fixed (s : Node) :
    Node.all simplified_node s = true → Node.all rerun_stable_node s = true →
      simplify_tree s = some s := by
  induction s using Node.induction with
  | h t d cs sy ih =>
    intro h1 h2
    obtain ⟨⟨hw, hf, he⟩, hcs⟩ := (all_simplified_mk _ _ _ _).1 h1
    obtain ⟨hr, hrs⟩ := (Node.all_mk _ _ _ _ _).1 h2
    rw [simplify_tree_mk,
      simplify_children_self cs (fun c hc => ih c hc (hcs c hc) (hrs c hc))]
    simp only [Option.some_bind]
    rw [simplify_node_eq]
    simp only [Node.type_mk, hw, Bool.false_eq_true, if_false]
    simp only [rerun_stable_node, Node.type_mk, Node.children_mk, Bool.and_eq_true,
      Bool.or_eq_true, Bool.not_eq_true'] at hr
    obtain ⟨hr1, hr2⟩ := hr
    split
    · rename_i hl
      rw [flatten_list_eq_some]
      simp only [Node.children_mk, Node.type_mk]
      rw [hl] at hr2
      simp only [Bool.true_eq_false, false_or] at hr2
      rcases cs with _ | ⟨x, _ | ⟨y, _ | ⟨z, cs⟩⟩⟩
      · exact Or.inl ⟨by simp, trivial⟩
      · exact Or.inl ⟨by simp, trivial⟩
      · simp only [decide_eq_true_eq] at hr2
        exact Or.inr (Or.inl ⟨x, y, rfl, hr2, trivial⟩)
      · simp at hr2
    split
    · rename_i hl hq
      rw [hq] at hr1
      simp only [Bool.true_eq_false, false_or, List.isEmpty_iff] at hr1
      rw [squash_child_eq_some]
      exact Or.inl ⟨hr1, rfl⟩
    split
    · rename_i hl hq hex
      have hst := he hex
      rw [constant_fold_expression_eq_some]
      exact ⟨hst.1, hst.2.1, Or.inr (Or.inr ⟨hst, rfl⟩)⟩
    · rfl


/-- C7, as stated, fails: the chain of three statements simplifies to a
`STATEMENT_LIST` with three children, on which a second run aborts (the
assertion of `flatten_list`); and `var x` simplifies to `DECLARATION[x]`, which
a second run turns into a childless `DECLARATION` carrying the name. -/
theorem simplify_tree_not_idempotent :
    (simplify_tree example_three_statements =
        some (node_init .STATEMENT_LIST .null
          [node_init .BREAK_STATEMENT .null [], node_init .BREAK_STATEMENT .null [],
           node_init .BREAK_STATEMENT .null []]) ∧
      simplify_tree (node_init .STATEMENT_LIST .null
          [node_init .BREAK_STATEMENT .null [], node_init .BREAK_STATEMENT .null [],
           node_init .BREAK_STATEMENT .null []]) = none) ∧
    (simplify_tree example_declaration =
        some (node_init .DECLARATION .null [identifier_node "x"]) ∧
      simplify_tree (node_init .DECLARATION .null [identifier_node "x"]) =
        some (node_init .DECLARATION (.str "x") [])) := by
  decide

/-- C7, amended: when `simplify_tree` succeeds on `t` with result `s`, and in
`s` no `PRINT_STATEMENT`, `DECLARATION`, `PARAMETER_LIST`, `ARRAY_DECLARATION`
or `ARGUMENT_LIST` node has a child and every list-kind node has at most two
children, the first of two not being of the list's kind, then a second run
succeeds and returns `s` itself. -/
theorem simplify_tree_idempotent_of_rerun_stable (t s : Node)
    (h : simplify_tree t = some s) (hs : rerun_stable s = true) :
    simplify_tree s = some s :=
  simplify_tree_fixed s (simplify_tree_all simplified_node simplify_node_simplified t s h) hs

/-- C7 amended, at `def main() begin return 1 + 2 end`. -/
theorem simplify_tree_idempotent_of_rerun_stable_witness :
    simplify_tree example_return_program = some example_return_program_simplified ∧
    rerun_stable example_return_program_simplified = true ∧
    simplify_tree example_return_program_simplified =
      some example_return_program_simplified :=
  ⟨by decide, by decide,
    simplify_tree_idempotent_of_rerun_stable example_return_program
      example_return_program_simplified (by decide) (by decide)⟩

/-! ## The binding walk, case by case -/

theorem walk_cases (t : NodeType) (cs : List Node) :
    t = .IDENTIFIER_DATA ∨ t = .STRING_DATA ∨
      (t = .BLOCK ∧ ∃ dl body, cs = [dl, body]) ∨
      (t = .BLOCK ∧ cs = []) ∨
      (t = .BLOCK ∧ ∃ first rest, cs = first :: rest ∧ rest.length ≠ 1) ∨
      (t ≠ .IDENTIFIER_DATA ∧ t ≠ .STRING_DATA ∧ t ≠ .BLOCK) := by
  by_cases h1 : t = .IDENTIFIER_DATA
  · exact Or.inl h1
  by_cases h2 : t = .STRING_DATA
  · exact Or.inr (Or.inl h2)
  by_cases h3 : t = .BLOCK
  · rcases cs with _ | ⟨a, _ | ⟨b, _ | ⟨c, cs⟩⟩⟩
    · exact Or.inr (Or.inr (Or.inr (Or.inl ⟨h3, rfl⟩)))
    · exact Or.inr (Or.inr (Or.inr (Or.inr (Or.inl ⟨h3, a, [], rfl, by simp⟩))))
    · exact Or.inr (Or.inr (Or.inl ⟨h3, a, b, rfl⟩))
    · exact Or.inr (Or.inr (Or.inr (Or.inr (Or.inl ⟨h3, a, b :: c :: cs, rfl, by simp⟩))))
  · exact Or.inr (Or.inr (Or.inr (Or.inr (Or.inr ⟨h1, h2, h3⟩))))

theorem bind_names_block1 (g : List Symbol) (st : bind_state) (d : Data) (first : Node)
    (rest : List Node) (sy : Option Symbol) (h : rest.length ≠ 1) :
    bind_names g st (.mk .BLOCK d (first :: rest) sy) =
      match bind_names g st first with
      | none => none
      | some (st', first') => some (st', .mk .BLOCK d (first' :: rest) sy) := by
  rcases rest with _ | ⟨b, _ | ⟨c, rest⟩⟩
  · rw [bind_names]; simp
  · simp at h
  · rw [bind_names]; simp

theorem bind_names_other (g : List Symbol) (st : bind_state) (t : NodeType) (d : Data)
    (cs : List Node) (sy : Option Symbol)
    (h1 : t ≠ .IDENTIFIER_DATA) (h2 : t ≠ .STRING_DATA) (h3 : t ≠ .BLOCK) :
    bind_names g st (.mk t d cs sy) =
      match bind_names_children g st cs with
      | none => none
      | some (st', cs') => some (st', .mk t d cs' sy) := by
  rw [bind_names]
  all_goals simp_all

theorem visited_strings_block1 (d : Data) (first : Node) (rest : List Node)
    (sy : Option Symbol) (h : rest.length ≠ 1) :
    visited_strings (.mk .BLOCK d (first :: rest) sy) = visited_strings first := by
  rcases rest with _ | ⟨b, _ | ⟨c, rest⟩⟩
  · rw [visited_strings]; simp
  · simp at h
  · rw [visited_strings]; simp

theorem visited_strings_other (t : NodeType) (d : Data) (cs : List Node) (sy : Option Symbol)
    (h1 : t ≠ .IDENTIFIER_DATA) (h2 : t ≠ .STRING_DATA) (h3 : t ≠ .BLOCK) :
    visited_strings (.mk t d cs sy) = visited_strings_list cs := by
  rw [visited_strings]
  all_goals simp_all

theorem visited_identifiers_block1 (d : Data) (first : Node) (rest : List Node)
    (sy : Option Symbol) (h : rest.length ≠ 1) :
    visited_identifiers (.mk .BLOCK d (first :: rest) sy) = visited_identifiers first := by
  rcases rest with _ | ⟨b, _ | ⟨c, rest⟩⟩
  · rw [visited_identifiers]; simp
  · simp at h
  · rw [visited_identifiers]; simp

theorem visited_identifiers_other (t : NodeType) (d : Data) (cs : List Node)
    (sy : Option Symbol)
    (h1 : t ≠ .IDENTIFIER_DATA) (h2 : t ≠ .STRING_DATA) (h3 : t ≠ .BLOCK) :
    visited_identifiers (.mk t d cs sy) = visited_identifiers_list cs := by
  rw [visited_identifiers]
  all_goals simp_all

theorem layer_lookup_name {layer : List Symbol} {name : String} {s : Symbol}
    (h : layer_lookup layer name = some s) : s.name = name := by
  unfold layer_lookup at h
  simpa using List.find?_some h

theorem symbol_hashmap_lookup_name {hashmap : List (List Symbol)} {g : List Symbol}
    {name : String} {s : Symbol} (h : symbol_hashmap_lookup hashmap g name = some s) :
    s.name = name := by
  induction hashmap with
  | nil => exact layer_lookup_name (by simpa [symbol_hashmap_lookup] using h)
  | cons layer backup ih =>
    rw [symbol_hashmap_lookup] at h
    cases hl : layer_lookup layer name with
    | some x =>
      simp only [hl, Option.some.injEq] at h
      subst h; exact layer_lookup_name hl
    | none =>
      simp only [hl] at h
      exact ih h

theorem bind_post_list_cons (st st1 : bind_state) {st' : bind_state} {c c' : Node}
    {cs cs' : List Node}
    (h1 : bind_post st c st1 c') (h2 : bind_post_list st1 cs st' cs') :
    bind_post_list st (c :: cs) st' (c' :: cs') := by
  obtain ⟨a1, a2, a3⟩ := h1
  obtain ⟨b1, b2, b3⟩ := h2
  refine ⟨?_, ?_, ?_⟩
  · rw [b1, a1, visited_strings_list, List.append_assoc]
  · rw [visited_strings_list, visited_strings_list, a2, b2, a1, List.length_append,
      List.length_append, ← List.map_append]
    congr 1
    have := List.range'_append st.string_list.length (visited_strings c).length
      (visited_strings_list cs).length 1
    rw [Nat.one_mul] at this
    rw [this, Nat.add_comm]
  · intro m hm
    rw [visited_identifiers_list] at hm
    rcases List.mem_append.1 hm with hm | hm
    · exact a3 m hm
    · exact b3 m hm

theorem bind_names_children_post (g : List Symbol) (cs : List Node)
    (ih : ∀ c ∈ cs, ∀ st st' c', bind_names g st c = some (st', c') → bind_post st c st' c') :
    ∀ st st' cs', bind_names_children g st cs = some (st', cs') →
      bind_post_list st cs st' cs' := by
  induction cs with
  | nil =>
    intro st st' cs' h
    rw [bind_names_children] at h
    simp only [Option.some.injEq, Prod.mk.injEq] at h
    obtain ⟨rfl, rfl⟩ := h
    exact ⟨by simp [visited_strings_list], by simp [visited_strings_list],
      by simp [visited_identifiers_list]⟩
  | cons c cs ihl =>
    intro st st' cs' h
    rw [bind_names_children] at h
    cases h1 : bind_names g st c with
    | none => simp [h1] at h
    | some r1 =>
      obtain ⟨st1, c'⟩ := r1
      simp only [h1] at h
      cases h2 : bind_names_children g st1 cs with
      | none => simp [h2] at h
      | some r2 =>
        obtain ⟨st2, cs2⟩ := r2
        simp only [h2, Option.some.injEq, Prod.mk.injEq] at h
        obtain ⟨rfl, rfl⟩ := h
        exact bind_post_list_cons st st1 (ih c (by simp) st st1 c' h1)
          (ihl (fun x hx => ih x (by simp [hx])) st1 st2 cs2 h2)

theorem bind_names_post (g : List Symbol) (n : Node) :
    ∀ st st' n', bind_names g st n = some (st', n') → bind_post st n st' n' := by
  induction n using Node.induction with
  | h t d cs sy ih =>
    intro st st' n' h
    rcases walk_cases t cs with rfl | rfl | ⟨rfl, dl, body, rfl⟩ | ⟨rfl, rfl⟩ |
      ⟨rfl, first, rest, rfl, hrest⟩ | ⟨h1, h2, h3⟩
    · -- identifier
      rw [bind_names] at h
      cases hb : bind_identifier g st.local_symbols (.mk .IDENTIFIER_DATA d cs sy) with
      | none => simp [hb] at h
      | some node =>
        simp only [hb, Option.some.injEq, Prod.mk.injEq] at h
        obtain ⟨rfl, rfl⟩ := h
        unfold bind_identifier at hb
        simp only [Option.bind_eq_bind, Option.bind_eq_some, Node.data_mk, Node.type_mk,
          Node.children_mk, Option.some.injEq] at hb
        obtain ⟨name, hname, sym, hsym, rfl⟩ := hb
        have hd : d = .str name := by
          cases d <;> simp [data_as_name] at hname
          exact congrArg _ hname
        subst hd
        refine ⟨by simp [visited_strings], by simp [visited_strings], ?_⟩
        intro m hm
        rw [visited_identifiers] at hm
        simp only [List.mem_singleton] at hm
        subst hm
        simp [identifier_linked, symbol_hashmap_lookup_name hsym]
    · -- string
      rw [bind_names] at h
      simp only [add_string_to_global_list, add_string, Node.data_mk, Node.type_mk,
        Node.children_mk, Node.symbol_mk, Option.some.injEq, Prod.mk.injEq] at h
      obtain ⟨rfl, rfl⟩ := h
      exact ⟨by simp [visited_strings], by simp [visited_strings],
        by simp [visited_identifiers]⟩
    · -- block with declarations
      rw [bind_names] at h
      cases h1 : insert_local_variables (push_local_scope st.local_symbols)
          (declared_identifiers dl) with
      | none => simp [h1] at h
      | some ls =>
        simp only [h1] at h
        cases h2 : bind_names g ⟨ls, st.string_list⟩ body with
        | none => simp [h2] at h
        | some r =>
          obtain ⟨st1, body'⟩ := r
          simp only [h2] at h
          cases h3 : pop_local_scope st1.local_symbols with
          | none => simp [h3] at h
          | some ls' =>
            simp only [h3, Option.some.injEq, Prod.mk.injEq] at h
            obtain ⟨rfl, rfl⟩ := h
            obtain ⟨a1, a2, a3⟩ := ih body (by simp) _ _ _ h2
            refine ⟨?_, ?_, ?_⟩
            · rw [visited_strings]; exact a1
            · rw [visited_strings, visited_strings]; exact a2
            · rw [visited_identifiers]; exact a3
    · -- block without child
      rw [bind_names] at h
      cases h
    · -- any other block
      rw [bind_names_block1 _ _ _ _ _ _ hrest] at h
      cases h1 : bind_names g st first with
      | none => simp [h1] at h
      | some r =>
        obtain ⟨st1, first'⟩ := r
        simp only [h1, Option.some.injEq, Prod.mk.injEq] at h
        obtain ⟨rfl, rfl⟩ := h
        obtain ⟨a1, a2, a3⟩ := ih first (by simp) _ _ _ h1
        refine ⟨?_, ?_, ?_⟩
        · rw [visited_strings_block1 _ _ _ _ hrest]; exact a1
        · rw [visited_strings_block1 _ _ _ _ hrest, visited_strings_block1 _ _ _ _ hrest]
          exact a2
        · rw [visited_identifiers_block1 _ _ _ _ hrest]; exact a3
    · -- every other kind
      rw [bind_names_other _ _ _ _ _ _ h1 h2 h3] at h
      cases hc : bind_names_children g st cs with
      | none => simp [hc] at h
      | some r =>
        obtain ⟨st1, cs'⟩ := r
        simp only [hc, Option.some.injEq, Prod.mk.injEq] at h
        obtain ⟨rfl, rfl⟩ := h
        obtain ⟨a1, a2, a3⟩ := bind_names_children_post g cs ih _ _ _ hc
        refine ⟨?_, ?_, ?_⟩
        · rw [visited_strings_other _ _ _ _ h1 h2 h3]; exact a1
        · rw [visited_strings_other _ _ _ _ h1 h2 h3, visited_strings_other _ _ _ _ h1 h2 h3]
          exact a2
        · rw [visited_identifiers_other _ _ _ _ h1 h2 h3]; exact a3


/-! ## Binding of whole programs -/

theorem function_bodies_cons_function (entry : global_symbol_t) {rest : List global_symbol_t}
    {a b body : Node} (h1 : entry.symbol.type = .SYMBOL_FUNCTION)
    (h2 : entry.node.children = [a, b, body]) :
    function_bodies (entry :: rest) = body :: function_bodies rest := by
  rw [function_bodies, if_pos h1, h2]

theorem function_bodies_cons_other {entry : global_symbol_t} {rest : List global_symbol_t}
    (h1 : entry.symbol.type ≠ .SYMBOL_FUNCTION) :
    function_bodies (entry :: rest) = function_bodies rest := by
  rw [function_bodies, if_neg h1]

theorem bind_loop_post (g : List Symbol) (entries : List global_symbol_t) :
    ∀ (ls ls' : symbol_table_t) (sl sl' : List Data) (entries' : List global_symbol_t),
      bind_loop g sl entries = some (entries', sl') →
      bind_post_list ⟨ls, sl⟩ (function_bodies entries) ⟨ls', sl'⟩ (function_bodies entries') := by
  induction entries with
  | nil =>
    intro ls ls' sl sl' entries' h
    rw [bind_loop] at h
    simp only [Option.some.injEq, Prod.mk.injEq] at h
    obtain ⟨rfl, rfl⟩ := h
    exact ⟨by simp [function_bodies, visited_strings_list],
      by simp [function_bodies, visited_strings_list],
      by simp [function_bodies, visited_identifiers_list]⟩
  | cons entry rest ih =>
    intro ls ls' sl sl' entries' h
    rw [bind_loop] at h
    by_cases hf : entry.symbol.type = .SYMBOL_FUNCTION
    · rw [if_pos hf] at h
      obtain ⟨sym, node, tbl⟩ := entry
      simp only at hf h
      obtain ⟨t, d, cs, sy⟩ := node
      rcases cs with _ | ⟨a, _ | ⟨b, _ | ⟨child, _ | ⟨x, cs⟩⟩⟩⟩ <;>
        try (simp at h)
      cases tbl with
      | none => simp at h
      | some function_symtable =>
        simp only at h
        cases h1 : bind_names g ⟨function_symtable, sl⟩ child with
        | none => simp [h1] at h
        | some r =>
          obtain ⟨st1, child'⟩ := r
          simp only [h1] at h
          cases h2 : bind_loop g st1.string_list rest with
          | none => simp [h2] at h
          | some r2 =>
            obtain ⟨rest', sl2⟩ := r2
            simp only [h2, Option.some.injEq, Prod.mk.injEq] at h
            obtain ⟨rfl, rfl⟩ := h
            rw [function_bodies_cons_function
                ⟨sym, .mk t d [a, b, child] sy, some function_symtable⟩ hf rfl,
              function_bodies_cons_function
                ⟨sym, .mk t d [a, b, child'] sy, some st1.local_symbols⟩ hf rfl]
            have p1 := bind_names_post g child _ _ _ h1
            have p2 := ih st1.local_symbols ls' st1.string_list sl2 rest' h2
            exact bind_post_list_cons ⟨ls, sl⟩ st1 p1 p2
    · rw [if_neg hf] at h
      cases h2 : bind_loop g sl rest with
      | none => simp [h2] at h
      | some r2 =>
        obtain ⟨rest', sl2⟩ := r2
        simp only [h2, Option.some.injEq, Prod.mk.injEq] at h
        obtain ⟨rfl, rfl⟩ := h
        rw [function_bodies_cons_other hf, function_bodies_cons_other hf]
        exact ih ls ls' sl sl2 rest' h2

/-- What `create_tables` leaves behind, in terms of the binding walk over the
function bodies found by `find_globals`. -/
theorem create_tables_post (root : Node) (g : List global_symbol_t) (st : tables)
    (hg : find_globals root = some g) (h : create_tables root = some st) :
    st.string_list = visited_strings_list (function_bodies g) ∧
    visited_strings_list (function_bodies st.global_symbols) =
      (List.range st.string_list.length).map (fun k => Data.num (Int.ofNat k)) ∧
    ∀ m ∈ visited_identifiers_list (function_bodies st.global_symbols),
      identifier_linked m = true := by
  unfold create_tables at h
  simp only [hg] at h
  unfold bind at h
  cases hb : bind_loop (g.map (fun e => e.symbol)) [] g with
  | none => simp [hb] at h
  | some r =>
    obtain ⟨g', sl⟩ := r
    simp only [hb, Option.some.injEq] at h
    subst h
    obtain ⟨a1, a2, a3⟩ := bind_loop_post _ g symbol_table_init symbol_table_init [] sl g' hb
    simp only [List.nil_append, List.length_nil] at a1 a2
    refine ⟨a1, ?_, a3⟩
    rw [a2, a1, List.range_eq_range']


/-! ## Identifier links -/

theorem linked_outside_declarations_block2 (d : Data) (dl body : Node) (sy : Option Symbol) :
    linked_outside_declarations (.mk .BLOCK d [dl, body] sy) =
      linked_outside_declarations body := by
  rw [linked_outside_declarations]

theorem linked_outside_declarations_other (t : NodeType) (d : Data) (cs : List Node)
    (sy : Option Symbol) (h : ¬ (t = .BLOCK ∧ ∃ dl body, cs = [dl, body])) :
    linked_outside_declarations (.mk t d cs sy) =
      (identifier_linked (.mk t d cs sy) && linked_outside_declarations_list cs) := by
  rw [linked_outside_declarations]
  intro dl body ht hcs
  exact h ⟨ht, dl, body, hcs⟩

theorem linked_outside_declarations_list_iff (cs : List Node) :
    linked_outside_declarations_list cs = true ↔
      ∀ c ∈ cs, linked_outside_declarations c = true := by
  induction cs with
  | nil => simp [linked_outside_declarations_list]
  | cons c cs ih => simp [linked_outside_declarations_list, ih]

theorem mem_visited_identifiers_list {cs : List Node} {c m : Node} (hc : c ∈ cs)
    (hm : m ∈ visited_identifiers c) : m ∈ visited_identifiers_list cs := by
  induction cs with
  | nil => cases hc
  | cons x xs ih =>
    rw [visited_identifiers_list]
    rcases List.mem_cons.1 hc with rfl | hc
    · exact List.mem_append_left _ hm
    · exact List.mem_append_right _ (ih hc)

theorem all_ast_shape_mk (t : NodeType) (d : Data) (cs : List Node) (s : Option Symbol) :
    Node.all ast_shape_node (.mk t d cs s) = true ↔
      ((t = .IDENTIFIER_DATA ∨ t = .STRING_DATA → cs = []) ∧
        (t = .BLOCK → cs.length = 1 ∨ cs.length = 2)) ∧
        ∀ c ∈ cs, Node.all ast_shape_node c = true := by
  rw [Node.all_mk]
  simp only [ast_shape_node, Node.type_mk, Node.children_mk, Bool.and_eq_true,
    Bool.or_eq_true, decide_eq_true_eq, List.isEmpty_iff]
  constructor
  · rintro ⟨⟨h1, h2⟩, h3⟩
    refine ⟨⟨fun h => ?_, fun h => ?_⟩, h3⟩
    · rcases h1 with h1 | h1
      · rcases h with h | h
        · exact absurd h h1.1
        · exact absurd h h1.2
      · exact h1
    · rcases h2 with h2 | h2
      · exact absurd h h2
      · exact h2
  · rintro ⟨⟨h1, h2⟩, h3⟩
    refine ⟨⟨?_, ?_⟩, h3⟩
    · by_cases h : t = .IDENTIFIER_DATA ∨ t = .STRING_DATA
      · exact Or.inr (h1 h)
      · exact Or.inl ⟨fun e => h (Or.inl e), fun e => h (Or.inr e)⟩
    · by_cases h : t = .BLOCK
      · exact Or.inr (h2 h)
      · exact Or.inl h

/-- On a tree of the shape of an abstract syntax tree, the identifiers the walk
reaches are all the identifiers outside the declaration lists of blocks. -/
theorem linked_outside_of_visited (n : Node) :
    ast_shape n = true → (∀ m ∈ visited_identifiers n, identifier_linked m = true) →
      linked_outside_declarations n = true := by
  induction n using Node.induction with
  | h t d cs sy ih =>
    intro hs hv
    obtain ⟨⟨hs1, hs2⟩, hs3⟩ := (all_ast_shape_mk _ _ _ _).1 hs
    rcases walk_cases t cs with rfl | rfl | ⟨rfl, dl, body, rfl⟩ | ⟨rfl, rfl⟩ |
      ⟨rfl, first, rest, rfl, hrest⟩ | ⟨h1, h2, h3⟩
    · have := hs1 (Or.inl rfl)
      subst this
      rw [linked_outside_declarations_other _ _ _ _ (by simp)]
      rw [visited_identifiers] at hv
      simp [hv, linked_outside_declarations_list]
    · have := hs1 (Or.inr rfl)
      subst this
      rw [linked_outside_declarations_other _ _ _ _ (by simp)]
      simp [identifier_linked, linked_outside_declarations_list]
    · rw [linked_outside_declarations_block2]
      rw [visited_identifiers] at hv
      exact ih body (by simp) (hs3 body (by simp)) hv
    · simp at hs2
    · have hlen := hs2 rfl
      have hr : rest = [] := by
        rcases rest with _ | ⟨b, _ | ⟨c, rest⟩⟩
        · rfl
        · simp at hrest
        · simp at hlen
      subst hr
      rw [linked_outside_declarations_other _ _ _ _ (by simp)]
      rw [visited_identifiers_block1 _ _ _ _ hrest] at hv
      have := ih first (by simp) (hs3 first (by simp)) hv
      simp [identifier_linked, linked_outside_declarations_list, this]
    · rw [linked_outside_declarations_other _ _ _ _ (fun h => h3 h.1)]
      rw [visited_identifiers_other _ _ _ _ h1 h2 h3] at hv
      have hl : linked_outside_declarations_list cs = true := by
        rw [linked_outside_declarations_list_iff]
        intro c hc
        exact ih c hc (hs3 c hc) (fun m hm => hv m (mem_visited_identifiers_list hc hm))
      simp [identifier_linked, h1, hl]


theorem find_globals_of_create_tables {root : Node} {st : tables}
    (h : create_tables root = some st) : ∃ g, find_globals root = some g := by
  unfold create_tables at h
  cases hg : find_globals root with
  | none => simp [hg] at h
  | some g => exact ⟨g, rfl⟩

/-- C8, as stated, fails: after `create_tables` succeeds on
`def f() begin var x  x := 1  print "a", x, "a" end`, the body of `f` holds an
`IDENTIFIER_DATA` node without a symbol link: the `x` of the declaration list
of the block. -/
theorem declared_identifier_not_linked :
    (create_tables example_print_program).map
        (fun st => (function_bodies st.global_symbols).map all_identifiers_linked) =
      some [false] := by
  decide

/-- C8, amended: after `create_tables` succeeds, in every function body that has
the shape of an abstract syntax tree (identifiers and strings are leaves, blocks
have one or two children), every `IDENTIFIER_DATA` node outside the declaration
lists of blocks has a symbol link, and the linked symbol's name is the node's
name. -/
theorem create_tables_links_identifiers (root : Node) (st : tables)
    (h : create_tables root = some st) (body : Node)
    (hb : body ∈ function_bodies st.global_symbols) (hs : ast_shape body = true) :
    linked_outside_declarations body = true := by
  obtain ⟨g, hg⟩ := find_globals_of_create_tables h
  have hv := (create_tables_post root g st hg h).2.2
  exact linked_outside_of_visited body hs
    (fun m hm => hv m (mem_visited_identifiers_list hb hm))

/-- C8 amended, at `def f() begin var x  x := 1  print "a", x, "a" end`. -/
theorem create_tables_links_identifiers_witness :
    create_tables example_print_program = some example_print_tables ∧
    linked_outside_declarations example_print_body_bound = true :=
  ⟨by decide,
    create_tables_links_identifiers example_print_program example_print_tables (by decide)
      example_print_body_bound (by decide) (by decide)⟩

/-- C9, as stated, fails: the two `STRING_DATA` nodes of
`print "a", x, "a"` carry the same lexeme before `create_tables` and the
different indices 0 and 1 after it. -/
theorem equal_lexemes_distinct_indices :
    (find_globals example_print_program).map
        (fun g => visited_strings_list (function_bodies g)) =
      some [.str "\"a\"", .str "\"a\""] ∧
    (create_tables example_print_program).map
        (fun st => visited_strings_list (function_bodies st.global_symbols)) =
      some [.num 0, .num 1] := by
  decide

/-- C9, amended: the `i`-th and the `j`-th `STRING_DATA` node visited, `i ≠ j`,
receive the indices `i` and `j`, which differ whether or not the two lexemes are
equal; the string list holds at each of the two indices the lexeme of the node,
so equal lexemes give equal entries at different indices. -/
theorem create_tables_string_indices_distinct (root : Node) (g : List global_symbol_t)
    (st : tables) (hg : find_globals root = some g) (h : create_tables root = some st)
    (i j : Nat) (hi : i < (visited_strings_list (function_bodies g)).length)
    (hj : j < (visited_strings_list (function_bodies g)).length) (hij : i ≠ j) :
    (visited_strings_list (function_bodies st.global_symbols))[i]? =
        some (Data.num (Int.ofNat i)) ∧
    (visited_strings_list (function_bodies st.global_symbols))[j]? =
        some (Data.num (Int.ofNat j)) ∧
    Data.num (Int.ofNat i) ≠ Data.num (Int.ofNat j) ∧
    st.string_list[i]? = (visited_strings_list (function_bodies g))[i]? ∧
    st.string_list[j]? = (visited_strings_list (function_bodies g))[j]? := by
  obtain ⟨a1, a2, -⟩ := create_tables_post root g st hg h
  rw [a2, a1]
  refine ⟨?_, ?_, ?_, rfl, rfl⟩
  · simp [List.getElem?_map, List.getElem?_range hi]
  · simp [List.getElem?_map, List.getElem?_range hj]
  · intro e
    simp only [Data.num.injEq, Int.ofNat_eq_coe, Nat.cast_inj] at e
    exact hij e

/-- C9 amended, at the two strings of `print "a", x, "a"`. -/
theorem create_tables_string_indices_distinct_witness :
    (visited_strings_list (function_bodies example_print_tables.global_symbols))[0]? =
        some (Data.num (Int.ofNat 0)) ∧
    (visited_strings_list (function_bodies example_print_tables.global_symbols))[1]? =
        some (Data.num (Int.ofNat 1)) ∧
    Data.num (Int.ofNat 0) ≠ Data.num (Int.ofNat 1) ∧
    example_print_tables.string_list[0]? =
      (visited_strings_list (function_bodies example_print_globals))[0]? ∧
    example_print_tables.string_list[1]? =
      (visited_strings_list (function_bodies example_print_globals))[1]? :=
  create_tables_string_indices_distinct example_print_program example_print_globals
    example_print_tables (by decide) (by decide) 0 1 (by decide) (by decide) (by decide)

/-- C10: after `create_tables`, the string list is the sequence of the payloads
of the `STRING_DATA` nodes visited (functions in global-table order, each body
in walk order); the `k`-th visited node carries the index `k`; hence the length
of the list is the number of nodes visited and no index is given twice. -/
theorem create_tables_interns_in_visit_order (root : Node) (g : List global_symbol_t)
    (st : tables) (hg : find_globals root = some g) (h : create_tables root = some st) :
    st.string_list = visited_strings_list (function_bodies g) ∧
    visited_strings_list (function_bodies st.global_symbols) =
      (List.range st.string_list.length).map (fun k => Data.num (Int.ofNat k)) ∧
    (visited_strings_list (function_bodies st.global_symbols)).Nodup := by
  obtain ⟨a1, a2, -⟩ := create_tables_post root g st hg h
  refine ⟨a1, a2, ?_⟩
  rw [a2]
  refine List.Nodup.map ?_ (List.nodup_range _)
  intro x y e
  simp only [Data.num.injEq, Int.ofNat_eq_coe, Nat.cast_inj] at e
  exact e

/-- C10, at `def f() begin var x  x := 1  print "a", x, "a" end`. -/
theorem create_tables_interns_in_visit_order_witness :
    example_print_tables.string_list =
      visited_strings_list (function_bodies example_print_globals) ∧
    visited_strings_list (function_bodies example_print_tables.global_symbols) =
      (List.range example_print_tables.string_list.length).map
        (fun k => Data.num (Int.ofNat k)) ∧
    (visited_strings_list (function_bodies example_print_tables.global_symbols)).Nodup :=
  create_tables_interns_in_visit_order example_print_program example_print_globals
    example_print_tables (by decide) (by decide)

/-! ## Insertion of declared identifiers -/

theorem insert_parameters_eq (table : symbol_table_t) (ids : List Node) :
    insert_parameters table ids = insert_identifiers .SYMBOL_PARAMETER table ids := by
  induction ids generalizing table with
  | nil => rfl
  | cons c cs ih =>
    rw [insert_parameters, insert_identifiers]
    simp only [ih]

theorem insert_local_variables_eq (table : symbol_table_t) (ids : List Node) :
    insert_local_variables table ids = insert_identifiers .SYMBOL_LOCAL_VAR table ids := by
  induction ids generalizing table with
  | nil => rfl
  | cons c cs ih =>
    rw [insert_local_variables, insert_identifiers]
    simp only [ih]

theorem layer_lookup_eq_none {layer : List Symbol} {x : String} :
    layer_lookup layer x = none ↔ x ∉ layer.map (fun s => s.name) := by
  unfold layer_lookup
  rw [List.find?_eq_none]
  simp only [beq_iff_eq, List.mem_map, not_exists, not_and]

theorem data_as_name_eq_some {n : Node} {x : String} :
    data_as_name n.data = some x ↔ n.data = .str x := by
  cases h : n.data <;> simp [data_as_name]

theorem node_name_of_data {n : Node} {x : String} (h : n.data = .str x) : node_name n = x := by
  simp [node_name, h]

theorem declared_symbols_length (type : SymbolType) (next : Nat) (ids : List Node) :
    (declared_symbols type next ids).length = ids.length := by
  induction ids generalizing next with
  | nil => rfl
  | cons c cs ih => simp [declared_symbols, ih]

theorem declared_symbols_names (type : SymbolType) (next : Nat) (ids : List Node) :
    (declared_symbols type next ids).map (fun s => s.name) = ids.map node_name := by
  induction ids generalizing next with
  | nil => rfl
  | cons c cs ih => simp [declared_symbols, ih]

theorem declared_symbols_append (type : SymbolType) (next : Nat) (xs ys : List Node) :
    declared_symbols type next (xs ++ ys) =
      declared_symbols type next xs ++ declared_symbols type (next + xs.length) ys := by
  induction xs generalizing next with
  | nil => simp [declared_symbols]
  | cons c cs ih =>
    have e : next + (cs.length + 1) = next + 1 + cs.length := by omega
    simp only [List.cons_append, declared_symbols, List.length_cons, e]
    exact congrArg _ (ih (next + 1))

theorem symbol_table_insert_eq (S layer : List Symbol) (backup : List (List Symbol))
    (x : String) (type : SymbolType) (k : Nat) :
    symbol_table_insert ⟨S, layer :: backup⟩ ⟨x, type, k⟩ =
      if x ∈ layer.map (fun s => s.name) then none
      else some ⟨S ++ [⟨x, type, S.length⟩], (⟨x, type, S.length⟩ :: layer) :: backup⟩ := by
  unfold symbol_table_insert
  by_cases hx : x ∈ layer.map (fun s => s.name)
  · have : layer_lookup layer x ≠ none := fun h => layer_lookup_eq_none.1 h hx
    cases hl : layer_lookup layer x with
    | none => exact absurd hl this
    | some s => simp [hx, hl]
  · simp [layer_lookup_eq_none.2 hx, hx]

theorem insert_identifiers_cons (type : SymbolType) (c : Node) (cs : List Node)
    (S layer : List Symbol) (backup : List (List Symbol)) (table' : symbol_table_t) :
    insert_identifiers type ⟨S, layer :: backup⟩ (c :: cs) = some table' ↔
      c.type = .IDENTIFIER_DATA ∧ c.data = .str (node_name c) ∧
      node_name c ∉ layer.map (fun s => s.name) ∧
      insert_identifiers type
        ⟨S ++ [⟨node_name c, type, S.length⟩], (⟨node_name c, type, S.length⟩ :: layer) :: backup⟩
        cs = some table' := by
  rw [insert_identifiers]
  by_cases ht : c.type = .IDENTIFIER_DATA
  · cases hd : c.data with
    | str x =>
      have hn : node_name c = x := node_name_of_data hd
      simp only [ht, ne_eq, not_true_eq_false, if_false, data_as_name, Option.bind_eq_bind,
        Option.some_bind, symbol_table_insert_eq, hn, true_and]
      by_cases hx : x ∈ layer.map (fun s => s.name)
      · simp [hx]
      · simp [hx]
    | null => simp [ht, data_as_name, node_name, hd]
    | num v => simp [ht, data_as_name, node_name, hd]
  · simp [ht]

/-- Inserting a run of identifiers into a table succeeds exactly when they are
identifiers carrying pairwise distinct names that are not yet in the innermost
layer; the symbols are then appended to the sequence, numbered upwards, and
entered in the innermost layer. -/
theorem insert_identifiers_iff (type : SymbolType) (ids : List Node) :
    ∀ (S layer : List Symbol) (backup : List (List Symbol)) (table' : symbol_table_t),
      insert_identifiers type ⟨S, layer :: backup⟩ ids = some table' ↔
        valid_declarations ids ∧
        (∀ id ∈ ids, node_name id ∉ layer.map (fun s => s.name)) ∧
        table' = ⟨S ++ declared_symbols type S.length ids,
          ((declared_symbols type S.length ids).reverse ++ layer) :: backup⟩ := by
  induction ids with
  | nil =>
    intro S layer backup table'
    simp only [insert_identifiers, valid_declarations, declared_symbols, List.not_mem_nil,
      false_implies, implies_true, List.map_nil, List.nodup_nil, and_self, true_and,
      List.append_nil, List.reverse_nil, List.nil_append, Option.some.injEq]
    exact eq_comm
  | cons c cs ih =>
    intro S layer backup table'
    rw [insert_identifiers_cons, ih]
    have e1 : S ++ [(⟨node_name c, type, S.length⟩ : Symbol)] ++
        declared_symbols type (S ++ [(⟨node_name c, type, S.length⟩ : Symbol)]).length cs =
        S ++ declared_symbols type S.length (c :: cs) := by
      simp [declared_symbols]
    have e2 : (declared_symbols type (S ++ [(⟨node_name c, type, S.length⟩ : Symbol)]).length
        cs).reverse ++ (⟨node_name c, type, S.length⟩ : Symbol) :: layer =
        (declared_symbols type S.length (c :: cs)).reverse ++ layer := by
      simp [declared_symbols]
    rw [e1, e2]
    constructor
    · rintro ⟨h1, h2, h3, ⟨h4, h5⟩, h6, h7⟩
      refine ⟨⟨?_, ?_⟩, ?_, h7⟩
      · intro id hid
        rcases List.mem_cons.1 hid with rfl | hid
        · exact ⟨h1, h2⟩
        · exact h4 id hid
      · rw [List.map_cons, List.nodup_cons]
        refine ⟨?_, h5⟩
        intro hm
        obtain ⟨y, hy, hyx⟩ := List.mem_map.1 hm
        exact h6 y hy (by rw [List.map_cons, hyx]; exact List.mem_cons_self _ _)
      · intro id hid
        rcases List.mem_cons.1 hid with rfl | hid
        · exact h3
        · intro hm
          exact h6 id hid (by rw [List.map_cons]; exact List.mem_cons_of_mem _ hm)
    · rintro ⟨⟨h4, h5⟩, h6, h7⟩
      rw [List.map_cons, List.nodup_cons] at h5
      refine ⟨(h4 c (List.mem_cons_self _ _)).1, (h4 c (List.mem_cons_self _ _)).2,
        h6 c (List.mem_cons_self _ _),
        ⟨fun id hid => h4 id (List.mem_cons_of_mem _ hid), h5.2⟩, ?_, h7⟩
      intro id hid hm
      rw [List.map_cons] at hm
      rcases List.mem_cons.1 hm with e | hm
      · have e' : node_name id = node_name c := e
        exact h5.1 (by rw [← e']; exact List.mem_map_of_mem _ hid)
      · exact h6 id (List.mem_cons_of_mem _ hid) hm


/-! ## Frame of the binding walk -/

theorem walk_declarations_block1 (d : Data) (first : Node) (rest : List Node)
    (sy : Option Symbol) (h : rest.length ≠ 1) :
    walk_declarations (.mk .BLOCK d (first :: rest) sy) = walk_declarations first := by
  rcases rest with _ | ⟨b, _ | ⟨c, rest⟩⟩
  · rw [walk_declarations]; simp
  · simp at h
  · rw [walk_declarations]; simp

theorem walk_declarations_other (t : NodeType) (d : Data) (cs : List Node) (sy : Option Symbol)
    (h1 : t ≠ .IDENTIFIER_DATA) (h2 : t ≠ .STRING_DATA) (h3 : t ≠ .BLOCK) :
    walk_declarations (.mk t d cs sy) = walk_declarations_list cs := by
  rw [walk_declarations]
  all_goals simp_all

theorem walk_valid_block1 (d : Data) (first : Node) (rest : List Node)
    (sy : Option Symbol) (h : rest.length ≠ 1) :
    walk_valid (.mk .BLOCK d (first :: rest) sy) = walk_valid first := by
  rcases rest with _ | ⟨b, _ | ⟨c, rest⟩⟩
  · rw [walk_valid]; simp
  · simp at h
  · rw [walk_valid]; simp

theorem walk_valid_other (t : NodeType) (d : Data) (cs : List Node) (sy : Option Symbol)
    (h1 : t ≠ .IDENTIFIER_DATA) (h2 : t ≠ .STRING_DATA) (h3 : t ≠ .BLOCK) :
    walk_valid (.mk t d cs sy) = walk_valid_list cs := by
  rw [walk_valid]
  all_goals simp_all

theorem bind_frame_list_cons (st st1 : bind_state) {st' : bind_state} {c c' : Node}
    {cs cs' : List Node}
    (h1 : bind_frame st c st1 c') (h2 : bind_frame_list st1 cs st' cs') :
    bind_frame_list st (c :: cs) st' (c' :: cs') := by
  obtain ⟨a1, a2, a3, a4⟩ := h1
  obtain ⟨b1, b2, b3, b4⟩ := h2
  refine ⟨b1.trans a1, ?_, ?_, ?_⟩
  · rw [b2, a2, walk_declarations_list, declared_symbols_append, List.length_append,
      declared_symbols_length, List.append_assoc]
  · rw [walk_declarations_list, walk_declarations_list, a3, b3]
  · rw [walk_valid_list]; exact ⟨a4, b4⟩

theorem bind_names_children_frame (g : List Symbol) (cs : List Node)
    (ih : ∀ c ∈ cs, ∀ st st' c', bind_names g st c = some (st', c') → bind_frame st c st' c') :
    ∀ st st' cs', bind_names_children g st cs = some (st', cs') →
      bind_frame_list st cs st' cs' := by
  induction cs with
  | nil =>
    intro st st' cs' h
    rw [bind_names_children] at h
    simp only [Option.some.injEq, Prod.mk.injEq] at h
    obtain ⟨rfl, rfl⟩ := h
    exact ⟨rfl, by simp [walk_declarations_list, declared_symbols], rfl,
      by simp [walk_valid_list]⟩
  | cons c cs ihl =>
    intro st st' cs' h
    rw [bind_names_children] at h
    cases h1 : bind_names g st c with
    | none => simp [h1] at h
    | some r1 =>
      obtain ⟨st1, c'⟩ := r1
      simp only [h1] at h
      cases h2 : bind_names_children g st1 cs with
      | none => simp [h2] at h
      | some r2 =>
        obtain ⟨st2, cs2⟩ := r2
        simp only [h2, Option.some.injEq, Prod.mk.injEq] at h
        obtain ⟨rfl, rfl⟩ := h
        exact bind_frame_list_cons st st1 (ih c (by simp) st st1 c' h1)
          (ihl (fun x hx => ih x (by simp [hx])) st1 st2 cs2 h2)

theorem bind_names_frame (g : List Symbol) (n : Node) :
    ∀ st st' n', bind_names g st n = some (st', n') → bind_frame st n st' n' := by
  induction n using Node.induction with
  | h t d cs sy ih =>
    intro st st' n' h
    rcases walk_cases t cs with rfl | rfl | ⟨rfl, dl, body, rfl⟩ | ⟨rfl, rfl⟩ |
      ⟨rfl, first, rest, rfl, hrest⟩ | ⟨h1, h2, h3⟩
    · -- identifier
      rw [bind_names] at h
      cases hb : bind_identifier g st.local_symbols (.mk .IDENTIFIER_DATA d cs sy) with
      | none => simp [hb] at h
      | some node =>
        simp only [hb, Option.some.injEq, Prod.mk.injEq] at h
        obtain ⟨rfl, rfl⟩ := h
        unfold bind_identifier at hb
        simp only [Option.bind_eq_bind, Option.bind_eq_some, Node.data_mk, Node.type_mk,
          Node.children_mk, Option.some.injEq] at hb
        obtain ⟨name, hname, sym, hsym, rfl⟩ := hb
        have hd : d = .str name := by
          cases d <;> simp [data_as_name] at hname
          exact congrArg _ hname
        refine ⟨rfl, by simp [walk_declarations, declared_symbols],
          by simp [walk_declarations], ?_⟩
        rw [walk_valid]; exact ⟨name, hd⟩
    · -- string
      rw [bind_names] at h
      simp only [add_string_to_global_list, add_string, Node.data_mk, Node.type_mk,
        Node.children_mk, Node.symbol_mk, Option.some.injEq, Prod.mk.injEq] at h
      obtain ⟨rfl, rfl⟩ := h
      exact ⟨rfl, by simp [walk_declarations, declared_symbols], by simp [walk_declarations],
        by simp [walk_valid]⟩
    · -- block with declarations
      rw [bind_names] at h
      cases h1 : insert_local_variables (push_local_scope st.local_symbols)
          (declared_identifiers dl) with
      | none => simp [h1] at h
      | some ls =>
        simp only [h1] at h
        cases h2 : bind_names g ⟨ls, st.string_list⟩ body with
        | none => simp [h2] at h
        | some r =>
          obtain ⟨st1, body'⟩ := r
          simp only [h2] at h
          cases h3 : pop_local_scope st1.local_symbols with
          | none => simp [h3] at h
          | some ls' =>
            simp only [h3, Option.some.injEq, Prod.mk.injEq] at h
            obtain ⟨rfl, rfl⟩ := h
            obtain ⟨a1, a2, a3, a4⟩ := ih body (by simp) _ _ _ h2
            rw [insert_local_variables_eq, push_local_scope, insert_identifiers_iff] at h1
            obtain ⟨hv, -, rfl⟩ := h1
            simp only at a1 a2
            unfold pop_local_scope at h3
            rw [a1] at h3
            simp only [Option.some.injEq] at h3
            subst h3
            refine ⟨rfl, ?_, ?_, ?_⟩
            · simp only
              rw [a2, walk_declarations, declared_symbols_append, List.length_append,
                declared_symbols_length, List.append_assoc]
            · rw [walk_declarations, walk_declarations, a3]
            · rw [walk_valid]; exact ⟨hv, a4⟩
    · -- block without child
      rw [bind_names] at h
      cases h
    · -- any other block
      rw [bind_names_block1 _ _ _ _ _ _ hrest] at h
      cases h1 : bind_names g st first with
      | none => simp [h1] at h
      | some r =>
        obtain ⟨st1, first'⟩ := r
        simp only [h1, Option.some.injEq, Prod.mk.injEq] at h
        obtain ⟨rfl, rfl⟩ := h
        obtain ⟨a1, a2, a3, a4⟩ := ih first (by simp) _ _ _ h1
        refine ⟨a1, ?_, ?_, ?_⟩
        · rw [walk_declarations_block1 _ _ _ _ hrest]; exact a2
        · rw [walk_declarations_block1 _ _ _ _ hrest, walk_declarations_block1 _ _ _ _ hrest]
          exact a3
        · rw [walk_valid_block1 _ _ _ _ hrest]; exact a4
    · -- every other kind
      rw [bind_names_other _ _ _ _ _ _ h1 h2 h3] at h
      cases hc : bind_names_children g st cs with
      | none => simp [hc] at h
      | some r =>
        obtain ⟨st1, cs'⟩ := r
        simp only [hc, Option.some.injEq, Prod.mk.injEq] at h
        obtain ⟨rfl, rfl⟩ := h
        obtain ⟨a1, a2, a3, a4⟩ := bind_names_children_frame g cs ih _ _ _ hc
        refine ⟨a1, ?_, ?_, ?_⟩
        · rw [walk_declarations_other _ _ _ _ h1 h2 h3]; exact a2
        · rw [walk_declarations_other _ _ _ _ h1 h2 h3,
            walk_declarations_other _ _ _ _ h1 h2 h3]
          exact a3
        · rw [walk_valid_other _ _ _ _ h1 h2 h3]; exact a4


/-! ## Links given by the binding walk -/

theorem layer_lookup_mem {layer : List Symbol} {x : String} {s : Symbol}
    (h : layer_lookup layer x = some s) : s ∈ layer :=
  List.mem_of_find?_eq_some h

theorem layer_lookup_reverse {layer : List Symbol} (x : String)
    (hn : (layer.map (fun s => s.name)).Nodup) :
    layer_lookup layer.reverse x = layer_lookup layer x := by
  cases h : layer_lookup layer x with
  | none =>
    rw [layer_lookup_eq_none] at h ⊢
    simpa using h
  | some s =>
    cases h' : layer_lookup layer.reverse x with
    | none =>
      rw [layer_lookup_eq_none] at h'
      exact absurd (List.mem_map.2 ⟨s, List.mem_reverse.2 (layer_lookup_mem h),
        layer_lookup_name h⟩) h'
    | some s' =>
      have e : s'.name = s.name := (layer_lookup_name h').trans (layer_lookup_name h).symm
      have := List.inj_on_of_nodup_map hn (List.mem_reverse.1 (layer_lookup_mem h'))
        (layer_lookup_mem h) e
      rw [this]

theorem scoped_symbol_nil (parameters globals : List Symbol) (x : String) :
    scoped_symbol [] parameters globals x =
      match layer_lookup parameters x with
      | some s => some s
      | none => layer_lookup globals x := by
  simp [scoped_symbol]

theorem scoped_symbol_cons (scope : List Symbol) (blocks : List (List Symbol))
    (parameters globals : List Symbol) (x : String) :
    scoped_symbol (scope :: blocks) parameters globals x =
      match layer_lookup scope x with
      | some s => some s
      | none => scoped_symbol blocks parameters globals x := by
  unfold scoped_symbol
  rw [List.find?_cons]
  cases h : layer_lookup scope x with
  | none => simp
  | some s => simp [h]

/-- The lookup in the layered map of the table is the scoping rule of the
specification on the scopes the map holds. -/
theorem symbol_hashmap_lookup_scoped {hashmap blocks : List (List Symbol)}
    {parameters : List Symbol} (globals : List Symbol) (x : String)
    (h : scopes_match hashmap blocks parameters) :
    symbol_hashmap_lookup hashmap globals x = scoped_symbol blocks parameters globals x := by
  obtain ⟨rfl, h2, h3⟩ := h
  induction blocks with
  | nil =>
    simp only [List.map_nil, List.nil_append, symbol_hashmap_lookup, scoped_symbol_nil,
      layer_lookup_reverse x h3]
  | cons scope blocks ih =>
    simp only [List.map_cons, List.cons_append, symbol_hashmap_lookup, scoped_symbol_cons,
      layer_lookup_reverse x (h2 scope (List.mem_cons_self _ _))]
    have e := ih (fun s hs => h2 s (List.mem_cons_of_mem _ hs))
    cases layer_lookup scope x with
    | some s => rfl
    | none => exact e

theorem expected_links_block1 (g P : List Symbol) (E : List (List Symbol)) (next : Nat)
    (d : Data) (first : Node) (rest : List Node) (sy : Option Symbol) (h : rest.length ≠ 1) :
    expected_links g P E next (.mk .BLOCK d (first :: rest) sy) =
      expected_links g P E next first := by
  rcases rest with _ | ⟨b, _ | ⟨c, rest⟩⟩
  · rw [expected_links]; simp
  · simp at h
  · rw [expected_links]; simp

theorem expected_links_other (g P : List Symbol) (E : List (List Symbol)) (next : Nat)
    (t : NodeType) (d : Data) (cs : List Node) (sy : Option Symbol)
    (h1 : t ≠ .IDENTIFIER_DATA) (h2 : t ≠ .STRING_DATA) (h3 : t ≠ .BLOCK) :
    expected_links g P E next (.mk t d cs sy) = expected_links_list g P E next cs := by
  rw [expected_links]
  all_goals simp_all

theorem visited_identifiers_list_cons (c : Node) (cs : List Node) :
    visited_identifiers_list (c :: cs) = visited_identifiers c ++ visited_identifiers_list cs := by
  rw [visited_identifiers_list]

theorem bind_frame_length {st st' : bind_state} {n n' : Node} (h : bind_frame st n st' n') :
    st'.local_symbols.symbols.length =
      st.local_symbols.symbols.length + (walk_declarations n).length := by
  rw [h.2.1, List.length_append, declared_symbols_length]

theorem bind_names_children_links (g P : List Symbol) (cs : List Node)
    (ih : ∀ c ∈ cs, ∀ E st st' c', scopes_match st.local_symbols.hashmap E P →
      bind_names g st c = some (st', c') →
      (visited_identifiers c').map Node.symbol =
        expected_links g P E st.local_symbols.symbols.length c) :
    ∀ E st st' cs', scopes_match st.local_symbols.hashmap E P →
      bind_names_children g st cs = some (st', cs') →
      (visited_identifiers_list cs').map Node.symbol =
        expected_links_list g P E st.local_symbols.symbols.length cs := by
  induction cs with
  | nil =>
    intro E st st' cs' _ h
    rw [bind_names_children] at h
    simp only [Option.some.injEq, Prod.mk.injEq] at h
    obtain ⟨rfl, rfl⟩ := h
    simp [visited_identifiers_list, expected_links_list]
  | cons c cs ihl =>
    intro E st st' cs' hm h
    rw [bind_names_children] at h
    cases h1 : bind_names g st c with
    | none => simp [h1] at h
    | some r1 =>
      obtain ⟨st1, c'⟩ := r1
      simp only [h1] at h
      cases h2 : bind_names_children g st1 cs with
      | none => simp [h2] at h
      | some r2 =>
        obtain ⟨st2, cs2⟩ := r2
        simp only [h2, Option.some.injEq, Prod.mk.injEq] at h
        obtain ⟨rfl, rfl⟩ := h
        have hf := bind_names_frame g c st st1 c' h1
        have hm1 : scopes_match st1.local_symbols.hashmap E P := by rw [hf.1]; exact hm
        rw [visited_identifiers_list_cons, List.map_append, expected_links_list,
          ih c (by simp) E st st1 c' hm h1,
          ihl (fun x hx => ih x (by simp [hx])) E st1 st2 cs2 hm1 h2, bind_frame_length hf]

/-- After a successful call of `bind_names`, the identifier occurrences reached
carry, in order, the symbols that the scoping rule of the specification gives
them. -/
theorem bind_names_links (g P : List Symbol) (n : Node) :
    ∀ E st st' n', scopes_match st.local_symbols.hashmap E P →
      bind_names g st n = some (st', n') →
      (visited_identifiers n').map Node.symbol =
        expected_links g P E st.local_symbols.symbols.length n := by
  induction n using Node.induction with
  | h t d cs sy ih =>
    intro E st st' n' hm h
    rcases walk_cases t cs with rfl | rfl | ⟨rfl, dl, body, rfl⟩ | ⟨rfl, rfl⟩ |
      ⟨rfl, first, rest, rfl, hrest⟩ | ⟨h1, h2, h3⟩
    · -- identifier
      rw [bind_names] at h
      cases hb : bind_identifier g st.local_symbols (.mk .IDENTIFIER_DATA d cs sy) with
      | none => simp [hb] at h
      | some node =>
        simp only [hb, Option.some.injEq, Prod.mk.injEq] at h
        obtain ⟨rfl, rfl⟩ := h
        unfold bind_identifier at hb
        simp only [Option.bind_eq_bind, Option.bind_eq_some, Node.data_mk, Node.type_mk,
          Node.children_mk, Option.some.injEq] at hb
        obtain ⟨name, hname, sym, hsym, rfl⟩ := hb
        have hd : d = .str name := by
          cases d <;> simp [data_as_name] at hname
          exact congrArg _ hname
        subst hd
        rw [visited_identifiers, expected_links]
        simp only [List.map_cons, List.map_nil, Node.symbol_mk]
        rw [← symbol_hashmap_lookup_scoped g name hm, hsym]
    · -- string
      rw [bind_names] at h
      simp only [add_string_to_global_list, add_string, Node.data_mk, Node.type_mk,
        Node.children_mk, Node.symbol_mk, Option.some.injEq, Prod.mk.injEq] at h
      obtain ⟨rfl, rfl⟩ := h
      simp [visited_identifiers, expected_links]
    · -- block with declarations
      rw [bind_names] at h
      cases h1 : insert_local_variables (push_local_scope st.local_symbols)
          (declared_identifiers dl) with
      | none => simp [h1] at h
      | some ls =>
        simp only [h1] at h
        cases h2 : bind_names g ⟨ls, st.string_list⟩ body with
        | none => simp [h2] at h
        | some r =>
          obtain ⟨st1, body'⟩ := r
          simp only [h2] at h
          cases h3 : pop_local_scope st1.local_symbols with
          | none => simp [h3] at h
          | some ls' =>
            simp only [h3, Option.some.injEq, Prod.mk.injEq] at h
            obtain ⟨rfl, rfl⟩ := h
            rw [insert_local_variables_eq, push_local_scope, insert_identifiers_iff] at h1
            obtain ⟨hv, -, rfl⟩ := h1
            have hm' : scopes_match
                (((declared_symbols .SYMBOL_LOCAL_VAR st.local_symbols.symbols.length
                  (declared_identifiers dl)).reverse ++ []) :: st.local_symbols.hashmap)
                (declared_symbols .SYMBOL_LOCAL_VAR st.local_symbols.symbols.length
                  (declared_identifiers dl) :: E) P := by
              obtain ⟨m1, m2, m3⟩ := hm
              refine ⟨by rw [m1]; simp, ?_, m3⟩
              intro scope hs
              rcases List.mem_cons.1 hs with rfl | hs
              · rw [declared_symbols_names]; exact hv.2
              · exact m2 scope hs
            have := ih body (by simp) _ _ _ _ hm' h2
            rw [visited_identifiers, expected_links, this]
            simp [declared_symbols_length]
    · -- block without child
      rw [bind_names] at h
      cases h
    · -- any other block
      rw [bind_names_block1 _ _ _ _ _ _ hrest] at h
      cases h1 : bind_names g st first with
      | none => simp [h1] at h
      | some r =>
        obtain ⟨st1, first'⟩ := r
        simp only [h1, Option.some.injEq, Prod.mk.injEq] at h
        obtain ⟨rfl, rfl⟩ := h
        rw [visited_identifiers_block1 _ _ _ _ hrest, expected_links_block1 _ _ _ _ _ _ _ _ hrest]
        exact ih first (by simp) _ _ _ _ hm h1
    · -- every other kind
      rw [bind_names_other _ _ _ _ _ _ h1 h2 h3] at h
      cases hc : bind_names_children g st cs with
      | none => simp [hc] at h
      | some r =>
        obtain ⟨st1, cs'⟩ := r
        simp only [hc, Option.some.injEq, Prod.mk.injEq] at h
        obtain ⟨rfl, rfl⟩ := h
        rw [visited_identifiers_other _ _ _ _ h1 h2 h3, expected_links_other _ _ _ _ _ _ _ _ h1 h2 h3]
        exact bind_names_children_links g P cs ih _ _ _ _ hm hc


/-! ## When the binding walk succeeds -/

theorem bind_names_children_succeeds (g P : List Symbol) (cs : List Node)
    (ih : ∀ c ∈ cs, ∀ E st, scopes_match st.local_symbols.hashmap E P → walk_valid c →
      (∀ o ∈ expected_links g P E st.local_symbols.symbols.length c, o ≠ none) →
      ∃ st' c', bind_names g st c = some (st', c')) :
    ∀ E st, scopes_match st.local_symbols.hashmap E P → walk_valid_list cs →
      (∀ o ∈ expected_links_list g P E st.local_symbols.symbols.length cs, o ≠ none) →
      ∃ st' cs', bind_names_children g st cs = some (st', cs') := by
  induction cs with
  | nil =>
    intro E st _ _ _
    exact ⟨st, [], by rw [bind_names_children]⟩
  | cons c cs ihl =>
    intro E st hm hv hl
    rw [walk_valid_list] at hv
    rw [expected_links_list] at hl
    obtain ⟨st1, c', h1⟩ := ih c (by simp) E st hm hv.1
      (fun o ho => hl o (List.mem_append_left _ ho))
    have hf := bind_names_frame g c st st1 c' h1
    have hm1 : scopes_match st1.local_symbols.hashmap E P := by rw [hf.1]; exact hm
    obtain ⟨st2, cs', h2⟩ := ihl (fun x hx => ih x (by simp [hx])) E st1 hm1 hv.2
      (fun o ho => hl o (List.mem_append_right _ (by rw [← bind_frame_length hf]; exact ho)))
    exact ⟨st2, c' :: cs', by rw [bind_names_children, h1]; simp only [h2]⟩

/-- The binding walk succeeds on a well-formed tree in which every identifier
occurrence names something visible. -/
theorem bind_names_succeeds (g P : List Symbol) (n : Node) :
    ∀ E st, scopes_match st.local_symbols.hashmap E P → walk_valid n →
      (∀ o ∈ expected_links g P E st.local_symbols.symbols.length n, o ≠ none) →
      ∃ st' n', bind_names g st n = some (st', n') := by
  induction n using Node.induction with
  | h t d cs sy ih =>
    intro E st hm hv hl
    rcases walk_cases t cs with rfl | rfl | ⟨rfl, dl, body, rfl⟩ | ⟨rfl, rfl⟩ |
      ⟨rfl, first, rest, rfl, hrest⟩ | ⟨h1, h2, h3⟩
    · -- identifier
      rw [walk_valid] at hv
      obtain ⟨x, rfl⟩ := hv
      rw [expected_links] at hl
      have hs := hl _ (List.mem_singleton.2 rfl)
      rw [← symbol_hashmap_lookup_scoped g x hm] at hs
      cases hlk : symbol_hashmap_lookup st.local_symbols.hashmap g x with
      | none => exact absurd hlk hs
      | some sym =>
        refine ⟨st, Node.mk .IDENTIFIER_DATA (.str x) cs (some sym), ?_⟩
        rw [bind_names]
        simp [bind_identifier, data_as_name, hlk]
    · -- string
      rw [bind_names]
      exact ⟨_, _, rfl⟩
    · -- block with declarations
      rw [walk_valid] at hv
      rw [expected_links] at hl
      have h1 : insert_local_variables (push_local_scope st.local_symbols)
          (declared_identifiers dl) =
          some ⟨st.local_symbols.symbols ++
              declared_symbols .SYMBOL_LOCAL_VAR st.local_symbols.symbols.length
                (declared_identifiers dl),
            ((declared_symbols .SYMBOL_LOCAL_VAR st.local_symbols.symbols.length
                (declared_identifiers dl)).reverse ++ []) :: st.local_symbols.hashmap⟩ := by
        rw [insert_local_variables_eq, push_local_scope, insert_identifiers_iff]
        exact ⟨hv.1, by simp, rfl⟩
      have hm' : scopes_match
          (((declared_symbols .SYMBOL_LOCAL_VAR st.local_symbols.symbols.length
            (declared_identifiers dl)).reverse ++ []) :: st.local_symbols.hashmap)
          (declared_symbols .SYMBOL_LOCAL_VAR st.local_symbols.symbols.length
            (declared_identifiers dl) :: E) P := by
        obtain ⟨m1, m2, m3⟩ := hm
        refine ⟨by rw [m1]; simp, ?_, m3⟩
        intro scope hs
        rcases List.mem_cons.1 hs with rfl | hs
        · rw [declared_symbols_names]; exact hv.1.2
        · exact m2 scope hs
      obtain ⟨st1, body', h2⟩ := ih body (by simp) _
        ⟨⟨st.local_symbols.symbols ++
              declared_symbols .SYMBOL_LOCAL_VAR st.local_symbols.symbols.length
                (declared_identifiers dl),
            ((declared_symbols .SYMBOL_LOCAL_VAR st.local_symbols.symbols.length
                (declared_identifiers dl)).reverse ++ []) :: st.local_symbols.hashmap⟩,
          st.string_list⟩ hm' hv.2
        (by simpa [declared_symbols_length] using hl)
      have hf := bind_names_frame g body _ st1 body' h2
      have h3 : pop_local_scope st1.local_symbols =
          some ⟨st1.local_symbols.symbols, st.local_symbols.hashmap⟩ := by
        unfold pop_local_scope
        rw [hf.1]
      refine ⟨⟨⟨st1.local_symbols.symbols, st.local_symbols.hashmap⟩, st1.string_list⟩,
        Node.mk .BLOCK d [dl, body'] sy, ?_⟩
      rw [bind_names, h1]
      simp only [h2, h3]
    · -- block without child
      rw [walk_valid] at hv
      exact absurd hv id
    · -- any other block
      rw [walk_valid_block1 _ _ _ _ hrest] at hv
      rw [expected_links_block1 _ _ _ _ _ _ _ _ hrest] at hl
      obtain ⟨st1, first', h1⟩ := ih first (by simp) E st hm hv hl
      refine ⟨st1, Node.mk .BLOCK d (first' :: rest) sy, ?_⟩
      rw [bind_names_block1 _ _ _ _ _ _ hrest, h1]
    · -- every other kind
      rw [walk_valid_other _ _ _ _ h1 h2 h3] at hv
      rw [expected_links_other _ _ _ _ _ _ _ _ h1 h2 h3] at hl
      obtain ⟨st1, cs', hc⟩ := bind_names_children_succeeds g P cs ih E st hm hv hl
      refine ⟨st1, Node.mk t d cs' sy, ?_⟩
      rw [bind_names_other _ _ _ _ _ _ h1 h2 h3, hc]


/-! ## Discovery of the global symbols -/

theorem global_symbols_insert_iff (g0 g : List global_symbol_t) (e : global_symbol_t) :
    global_symbols_insert g0 e = some g ↔
      e.symbol.name ∉ g0.map (fun e => e.symbol.name) ∧
      g = g0 ++ [⟨⟨e.symbol.name, e.symbol.type, g0.length⟩, e.node, e.function_symtable⟩] := by
  unfold global_symbols_insert
  have hm : (g0.map (fun e => e.symbol)).map (fun s => s.name) =
      g0.map (fun e => e.symbol.name) := by simp
  by_cases hx : e.symbol.name ∈ g0.map (fun e => e.symbol.name)
  · have : layer_lookup (g0.map (fun e => e.symbol)) e.symbol.name ≠ none :=
      fun h => (layer_lookup_eq_none.1 h) (by rw [hm]; exact hx)
    cases hl : layer_lookup (g0.map (fun e => e.symbol)) e.symbol.name with
    | none => exact absurd hl this
    | some s => simp [hx]
  · have hl : layer_lookup (g0.map (fun e => e.symbol)) e.symbol.name = none :=
      layer_lookup_eq_none.2 (by rw [hm]; exact hx)
    simp only [hl, Option.isSome_none, Bool.false_eq_true, if_false, Option.some.injEq, hx,
      not_false_eq_true, true_and]
    exact eq_comm

theorem globals_added_refl (g : List global_symbol_t) : globals_added g g [] :=
  ⟨[], by simp, rfl, by simp, id⟩

theorem globals_added_trans {g0 g1 g2 : List global_symbol_t} {d1 d2 : List Node}
    (h1 : globals_added g0 g1 d1) (h2 : globals_added g1 g2 d2) :
    globals_added g0 g2 (d1 ++ d2) := by
  obtain ⟨a1, rfl, n1, o1, u1⟩ := h1
  obtain ⟨a2, rfl, n2, o2, u2⟩ := h2
  refine ⟨a1 ++ a2, by simp, by simp [n1, n2], ?_, fun h => u2 (u1 h)⟩
  intro e he
  rcases List.mem_append.1 he with he | he
  · exact o1 e he
  · exact o2 e he

theorem globals_added_insert {g0 g : List global_symbol_t} {e : global_symbol_t} {c : Node}
    (h : global_symbols_insert g0 e = some g) (hc : node_name c = e.symbol.name)
    (hok : function_entry_ok
      ⟨⟨e.symbol.name, e.symbol.type, g0.length⟩, e.node, e.function_symtable⟩) :
    globals_added g0 g [c] := by
  rw [global_symbols_insert_iff] at h
  obtain ⟨hx, rfl⟩ := h
  refine ⟨_, rfl, by simp [hc], ?_, ?_⟩
  · intro x hx'
    rw [List.mem_singleton] at hx'
    subst hx'; exact hok
  · intro hn
    rw [List.map_append, List.nodup_append]
    refine ⟨hn, by simp, ?_⟩
    intro a ha1 ha2
    simp only [List.map_cons, List.map_nil, List.mem_singleton] at ha2
    subst ha2
    exact hx ha1

theorem insert_global_variables_added (cs : List Node) :
    ∀ g0 g, insert_global_variables g0 cs = some g → globals_added g0 g cs := by
  induction cs with
  | nil =>
    intro g0 g h
    rw [insert_global_variables] at h
    simp only [Option.some.injEq] at h
    subst h; exact globals_added_refl _
  | cons c cs ih =>
    intro g0 g h
    rw [insert_global_variables] at h
    simp only [Option.bind_eq_bind, Option.bind_eq_some] at h
    obtain ⟨name, hname, g1, h1, h2⟩ := h
    have hn : node_name c = name := node_name_of_data (data_as_name_eq_some.1 hname)
    have a1 : globals_added g0 g1 [c] :=
      globals_added_insert h1 hn (fun hf => by cases hf)
    exact globals_added_trans a1 (ih g1 g h2)

theorem find_global_declaration_added {g0 g : List global_symbol_t} {node : Node}
    (ht : node.type = .DECLARATION) (h : find_global_declaration g0 node = some g) :
    globals_added g0 g (global_declarations_of node) := by
  unfold find_global_declaration at h
  split at h
  · cases h
  · split at h
    · cases h
    · have : global_declarations_of node = node.children := by
        simp [global_declarations_of, ht]
      rw [this]
      exact insert_global_variables_added _ _ _ h

theorem find_global_array_declaration_added {g0 g : List global_symbol_t} {node : Node}
    (ht : node.type = .ARRAY_DECLARATION) (h : find_global_array_declaration g0 node = some g) :
    globals_added g0 g (global_declarations_of node) := by
  unfold find_global_array_declaration at h
  split at h
  · cases h
  · split at h
    · rename_i identifier x hcs
      simp only [Option.bind_eq_bind, Option.bind_eq_some] at h
      obtain ⟨name, hname, h1⟩ := h
      have hn : node_name identifier = name :=
        node_name_of_data (data_as_name_eq_some.1 hname)
      have : global_declarations_of node = [identifier] := by
        simp [global_declarations_of, ht, hcs]
      rw [this]
      exact globals_added_insert h1 hn (fun hf => by cases hf)
    · cases h

theorem find_global_function_added {g0 g : List global_symbol_t} {node : Node}
    (ht : node.type = .FUNCTION) (h : find_global_function g0 node = some g) :
    globals_added g0 g (global_declarations_of node) := by
  unfold find_global_function at h
  split at h
  · cases h
  · split at h
    · rename_i identifier parameter_list body hcs
      simp only [Option.bind_eq_bind, Option.bind_eq_some] at h
      obtain ⟨tbl, htbl, name, hname, h1⟩ := h
      have hn : node_name identifier = name :=
        node_name_of_data (data_as_name_eq_some.1 hname)
      have : global_declarations_of node = [identifier] := by
        simp [global_declarations_of, ht, hcs]
      rw [this]
      refine globals_added_insert h1 hn ?_
      intro _
      rw [insert_parameters_eq, symbol_table_init, insert_identifiers_iff] at htbl
      obtain ⟨hv, -, rfl⟩ := htbl
      obtain ⟨t, d, cs, sy⟩ := node
      simp only [Node.children_mk] at hcs
      subst hcs
      exact ⟨t, d, identifier, parameter_list, body, sy, rfl, hv, by simp⟩
    · cases h

theorem find_globals_loop_added (nodes : List Node) :
    ∀ g0 g, find_globals_loop g0 nodes = some g →
      globals_added g0 g (nodes.map global_declarations_of).flatten := by
  induction nodes with
  | nil =>
    intro g0 g h
    rw [find_globals_loop] at h
    simp only [Option.some.injEq] at h
    subst h; exact globals_added_refl _
  | cons node nodes ih =>
    intro g0 g h
    rw [find_globals_loop] at h
    rw [List.map_cons, List.flatten_cons]
    by_cases hd : node.type = .DECLARATION
    · simp only [hd, Option.bind_eq_bind, Option.bind_eq_some] at h
      obtain ⟨g1, h1, h2⟩ := h
      exact globals_added_trans (find_global_declaration_added hd h1) (ih g1 g h2)
    by_cases ha : node.type = .ARRAY_DECLARATION
    · simp only [ha, Option.bind_eq_bind, Option.bind_eq_some] at h
      obtain ⟨g1, h1, h2⟩ := h
      exact globals_added_trans (find_global_array_declaration_added ha h1) (ih g1 g h2)
    by_cases hf : node.type = .FUNCTION
    · simp only [hf, Option.bind_eq_bind, Option.bind_eq_some] at h
      obtain ⟨g1, h1, h2⟩ := h
      exact globals_added_trans (find_global_function_added hf h1) (ih g1 g h2)
    · have e : global_declarations_of node = [] := by
        unfold global_declarations_of
        split <;> simp_all
      have h2 : find_globals_loop g0 nodes = some g := by
        split at h <;> simp_all
      rw [e]
      exact globals_added_trans (globals_added_refl _) (ih g0 g h2)

/-- What `find_globals` builds: one symbol per declared global name, in textual
order, no name twice; the entry of every function is as `function_entry_ok`
says. -/
theorem find_globals_spec {root : Node} {g : List global_symbol_t}
    (h : find_globals root = some g) :
    g.map (fun e => e.symbol.name) = (global_declarations root).map node_name ∧
    (g.map (fun e => e.symbol.name)).Nodup ∧
    ∀ e ∈ g, function_entry_ok e := by
  obtain ⟨added, hg, h1, h2, h3⟩ := find_globals_loop_added _ _ _ h
  rw [List.nil_append] at hg
  subst hg
  exact ⟨h1, h3 (by simp), h2⟩


/-! ## Binding of the function bodies, entry by entry -/

theorem bind_loop_entries (G : List Symbol) (g : List global_symbol_t) :
    ∀ sl g' sl', bind_loop G sl g = some (g', sl') → List.Forall₂ (entry_bound G) g g' := by
  induction g with
  | nil =>
    intro sl g' sl' h
    rw [bind_loop] at h
    simp only [Option.some.injEq, Prod.mk.injEq] at h
    obtain ⟨rfl, rfl⟩ := h
    exact List.Forall₂.nil
  | cons entry rest ih =>
    intro sl g' sl' h
    rw [bind_loop] at h
    by_cases hf : entry.symbol.type = .SYMBOL_FUNCTION
    · rw [if_pos hf] at h
      obtain ⟨sym, node, tbl⟩ := entry
      simp only at hf h
      obtain ⟨t, d, cs, sy⟩ := node
      rcases cs with _ | ⟨a, _ | ⟨b, _ | ⟨child, _ | ⟨x, cs⟩⟩⟩⟩ <;>
        try (simp at h)
      cases tbl with
      | none => simp at h
      | some function_symtable =>
        simp only at h
        cases h1 : bind_names G ⟨function_symtable, sl⟩ child with
        | none => simp [h1] at h
        | some r =>
          obtain ⟨st1, child'⟩ := r
          simp only [h1] at h
          cases h2 : bind_loop G st1.string_list rest with
          | none => simp [h2] at h
          | some r2 =>
            obtain ⟨rest', sl2⟩ := r2
            simp only [h2, Option.some.injEq, Prod.mk.injEq] at h
            obtain ⟨rfl, rfl⟩ := h
            refine List.Forall₂.cons ⟨fun _ => ?_, fun hne => absurd hf hne⟩ (ih _ _ _ h2)
            exact ⟨t, d, a, b, child, sy, function_symtable, sl, st1, child', rfl, rfl, h1, rfl⟩
    · rw [if_neg hf] at h
      cases h2 : bind_loop G sl rest with
      | none => simp [h2] at h
      | some r2 =>
        obtain ⟨rest', sl2⟩ := r2
        simp only [h2, Option.some.injEq, Prod.mk.injEq] at h
        obtain ⟨rfl, rfl⟩ := h
        exact List.Forall₂.cons ⟨fun hf' => absurd hf' hf, fun _ => rfl⟩ (ih _ _ _ h2)

theorem create_tables_entries {root : Node} {g : List global_symbol_t} {st : tables}
    (hg : find_globals root = some g) (h : create_tables root = some st) :
    List.Forall₂ (entry_bound (g.map (fun e => e.symbol))) g st.global_symbols := by
  unfold create_tables at h
  simp only [hg] at h
  unfold bind at h
  cases hb : bind_loop (g.map (fun e => e.symbol)) [] g with
  | none => simp [hb] at h
  | some r =>
    obtain ⟨g', sl⟩ := r
    simp only [hb, Option.some.injEq] at h
    subst h
    exact bind_loop_entries _ g _ _ _ hb

theorem scopes_match_parameters {P : List Symbol}
    (h : (P.map (fun s => s.name)).Nodup) : scopes_match [P.reverse] [] P :=
  ⟨by simp, by simp, h⟩

theorem bind_loop_succeeds (G : List Symbol) (g : List global_symbol_t)
    (hok : ∀ e ∈ g, function_entry_ok e)
    (hv : ∀ body ∈ function_bodies g, walk_valid body)
    (hl : ∀ e ∈ g, ∀ o ∈ function_links G e, o ≠ none) :
    ∀ sl, ∃ r, bind_loop G sl g = some r := by
  induction g with
  | nil => intro sl; exact ⟨_, by rw [bind_loop]⟩
  | cons entry rest ih =>
    intro sl
    rw [bind_loop]
    by_cases hf : entry.symbol.type = .SYMBOL_FUNCTION
    · rw [if_pos hf]
      obtain ⟨t, d, a, pl, child, sy, hnode, hvp, htbl⟩ := hok entry (by simp) hf
      have hbody : child ∈ function_bodies (entry :: rest) := by
        rw [function_bodies_cons_function entry hf (by rw [hnode]; rfl)]
        exact List.mem_cons_self _ _
      have hlinks := hl entry (by simp)
      unfold function_links at hlinks
      rw [if_pos hf, hnode] at hlinks
      simp only [Node.children_mk] at hlinks
      have hm := scopes_match_parameters
        (P := declared_symbols .SYMBOL_PARAMETER 0 pl.children)
        (by rw [declared_symbols_names]; exact hvp.2)
      obtain ⟨st1, child', h1⟩ := bind_names_succeeds G
        (declared_symbols .SYMBOL_PARAMETER 0 pl.children) child []
        ⟨⟨declared_symbols .SYMBOL_PARAMETER 0 pl.children,
          [(declared_symbols .SYMBOL_PARAMETER 0 pl.children).reverse]⟩, sl⟩ hm
        (hv child hbody) (by simpa [declared_symbols_length] using hlinks)
      obtain ⟨r, h2⟩ := ih (fun e he => hok e (by simp [he]))
        (fun body hb => hv body (by
          rw [function_bodies_cons_function entry hf (by rw [hnode]; rfl)]
          exact List.mem_cons_of_mem _ hb))
        (fun e he => hl e (by simp [he])) st1.string_list
      rw [hnode, htbl]
      simp only [h1, h2]
      exact ⟨_, rfl⟩
    · rw [if_neg hf]
      obtain ⟨r, h2⟩ := ih (fun e he => hok e (by simp [he]))
        (fun body hb => hv body (by rw [function_bodies_cons_other hf]; exact hb))
        (fun e he => hl e (by simp [he])) sl
      simp only [h2]
      exact ⟨_, rfl⟩


/-! ## The tables of the functions after binding -/

theorem declared_symbols_sequence_numbers (type : SymbolType) (next : Nat) (ids : List Node) :
    (declared_symbols type next ids).map (fun s => s.sequence_number) =
      List.range' next ids.length := by
  induction ids generalizing next with
  | nil => rfl
  | cons c cs ih => simp [declared_symbols, ih, List.range'_succ]

theorem declared_symbols_mem {type : SymbolType} {next : Nat} {ids : List Node} {s : Symbol}
    (h : s ∈ declared_symbols type next ids) :
    s.type = type ∧ next ≤ s.sequence_number ∧ s.sequence_number < next + ids.length := by
  induction ids generalizing next with
  | nil => simp [declared_symbols] at h
  | cons c cs ih =>
    rw [declared_symbols] at h
    rcases List.mem_cons.1 h with rfl | h
    · simp
    · obtain ⟨h1, h2, h3⟩ := ih h
      simp only [List.length_cons]
      exact ⟨h1, by omega, by omega⟩

theorem forall₂_mem_right {α β : Type} {R : α → β → Prop} {l : List α} {l' : List β}
    (h : List.Forall₂ R l l') {b : β} (hb : b ∈ l') : ∃ a ∈ l, R a b := by
  induction h with
  | nil => cases hb
  | cons h1 _ ih =>
    rcases List.mem_cons.1 hb with rfl | hm
    · exact ⟨_, List.mem_cons_self _ _, h1⟩
    · obtain ⟨a, ha, hab⟩ := ih hm
      exact ⟨a, List.mem_cons_of_mem _ ha, hab⟩

/-- What binding makes of the entry of a function that `find_globals` built. -/
theorem entry_bound_function {G : List Symbol} {e e' : global_symbol_t}
    (hok : function_entry_ok e) (hb : entry_bound G e e')
    (hf : e.symbol.type = .SYMBOL_FUNCTION) :
    ∃ t d identifier parameter_list body body' sy table',
      e.node = Node.mk t d [identifier, parameter_list, body] sy ∧
      e' = ⟨e.symbol, Node.mk t d [identifier, parameter_list, body'] sy, some table'⟩ ∧
      valid_declarations parameter_list.children ∧
      table'.symbols =
        declared_symbols .SYMBOL_PARAMETER 0 parameter_list.children ++
          declared_symbols .SYMBOL_LOCAL_VAR parameter_list.children.length
            (walk_declarations body) ∧
      table'.hashmap = [(declared_symbols .SYMBOL_PARAMETER 0 parameter_list.children).reverse] ∧
      walk_declarations body' = walk_declarations body ∧
      walk_valid body ∧
      (visited_identifiers body').map Node.symbol = function_links G e ∧
      ∀ m ∈ visited_identifiers body', identifier_linked m = true := by
  obtain ⟨t, d, a, pl, child, sy, hnode, hvp, htbl⟩ := hok hf
  obtain ⟨t', d', a', b', child0, sy', tbl, sl, st', child', hnode', htbl', hbind, rfl⟩ :=
    hb.1 hf
  rw [hnode] at hnode'
  simp only [Node.mk.injEq, List.cons.injEq, and_true] at hnode'
  obtain ⟨rfl, rfl, ⟨rfl, rfl, rfl⟩, rfl⟩ := hnode'
  rw [htbl] at htbl'
  simp only [Option.some.injEq] at htbl'
  subst htbl'
  have hfr := bind_names_frame G child _ _ _ hbind
  have hm := scopes_match_parameters
    (P := declared_symbols .SYMBOL_PARAMETER 0 pl.children)
    (by rw [declared_symbols_names]; exact hvp.2)
  have hlk := bind_names_links G (declared_symbols .SYMBOL_PARAMETER 0 pl.children) child []
    _ _ _ hm hbind
  refine ⟨t, d, a, pl, child, child', sy, st'.local_symbols, hnode, rfl, hvp, ?_, hfr.1,
    hfr.2.2.1, hfr.2.2.2, ?_, (bind_names_post G child _ _ _ hbind).2.2⟩
  · have := hfr.2.1
    simpa [declared_symbols_length] using this
  · unfold function_links
    rw [if_pos hf, hnode]
    simpa [declared_symbols_length] using hlk

/-! ## Sequence numbers and scoping (C11, C12) -/

theorem entry_bound_type {G : List Symbol} {e e' : global_symbol_t} (hb : entry_bound G e e') :
    e'.symbol = e.symbol := by
  by_cases hf : e.symbol.type = .SYMBOL_FUNCTION
  · obtain ⟨t, d, a, b, child, sy, table, sl, st', child', -, -, -, he⟩ := hb.1 hf
    rw [he]
  · rw [hb.2 hf]

theorem forall₂_imp_mem {α β : Type} {R S : α → β → Prop} {l : List α} {l' : List β}
    (h : List.Forall₂ R l l') (hi : ∀ a ∈ l, ∀ b, R a b → S a b) : List.Forall₂ S l l' := by
  induction h with
  | nil => exact List.Forall₂.nil
  | cons h1 _ ih =>
    exact List.Forall₂.cons (hi _ (List.mem_cons_self _ _) _ h1)
      (ih (fun a ha b hab => hi a (List.mem_cons_of_mem _ ha) b hab))

/-- C11: after `create_tables`, the table of every function holds first its
parameters, in the order of the parameter list, as `SYMBOL_PARAMETER`s
numbered from 0, then the variables declared in the body, in the order in
which the walk meets their declarations across all nested blocks, as
`SYMBOL_LOCAL_VAR`s numbered from the number of parameters on; the sequence
numbers in table order are `0, 1, ..., n-1`, and every local's number is
greater than every parameter's. -/
theorem create_tables_sequence_numbers (root : Node) (st : tables)
    (h : create_tables root = some st) (e : global_symbol_t) (he : e ∈ st.global_symbols)
    (hf : e.symbol.type = .SYMBOL_FUNCTION) :
    ∃ identifier parameter_list body table,
      e.node.children = [identifier, parameter_list, body] ∧
      e.function_symtable = some table ∧
      table.symbols =
        declared_symbols .SYMBOL_PARAMETER 0 parameter_list.children ++
          declared_symbols .SYMBOL_LOCAL_VAR parameter_list.children.length
            (walk_declarations body) ∧
      table.symbols.map (fun s => s.sequence_number) = List.range table.symbols.length ∧
      ∀ p ∈ table.symbols, ∀ l ∈ table.symbols,
        p.type = .SYMBOL_PARAMETER → l.type = .SYMBOL_LOCAL_VAR →
          p.sequence_number < l.sequence_number := by
  obtain ⟨g, hg⟩ := find_globals_of_create_tables h
  obtain ⟨e0, he0, hb⟩ := forall₂_mem_right (create_tables_entries hg h) he
  have hf0 : e0.symbol.type = .SYMBOL_FUNCTION := by rw [← entry_bound_type hb]; exact hf
  obtain ⟨t, d, identifier, pl, body, body', sy, table', -, he', -, hsym, -, hwd, -, -, -⟩ :=
    entry_bound_function ((find_globals_spec hg).2.2 e0 he0) hb hf0
  subst he'
  refine ⟨identifier, pl, body', table', rfl, rfl, by rw [hwd]; exact hsym, ?_, ?_⟩
  · rw [hsym, List.map_append, declared_symbols_sequence_numbers,
      declared_symbols_sequence_numbers, List.length_append, declared_symbols_length,
      declared_symbols_length, List.range_eq_range']
    have := List.range'_append 0 pl.children.length (walk_declarations body).length 1
    simp only [one_mul, zero_add] at this
    rw [this, Nat.add_comm]
  · intro p hp l hl hpt hlt
    rw [hsym] at hp hl
    have hp' : p ∈ declared_symbols .SYMBOL_PARAMETER 0 pl.children := by
      rcases List.mem_append.1 hp with hp | hp
      · exact hp
      · rw [(declared_symbols_mem hp).1] at hpt; cases hpt
    have hl' : l ∈ declared_symbols .SYMBOL_LOCAL_VAR pl.children.length
        (walk_declarations body) := by
      rcases List.mem_append.1 hl with hl | hl
      · rw [(declared_symbols_mem hl).1] at hlt; cases hlt
      · exact hl
    have a := (declared_symbols_mem hp').2.2
    have b := (declared_symbols_mem hl').2.1
    omega

/-- C11, at the function `f(a, b)` of `example_scope_program`, whose body
declares `x` and, in a nested block, `a` and `y`. -/
theorem create_tables_sequence_numbers_witness :
    create_tables example_scope_program = some example_scope_tables ∧
    example_scope_entry ∈ example_scope_tables.global_symbols ∧
    example_scope_entry.symbol.type = .SYMBOL_FUNCTION ∧
    example_scope_entry.function_symtable.map (fun table => table.symbols) =
      some [⟨"a", .SYMBOL_PARAMETER, 0⟩, ⟨"b", .SYMBOL_PARAMETER, 1⟩,
        ⟨"x", .SYMBOL_LOCAL_VAR, 2⟩, ⟨"a", .SYMBOL_LOCAL_VAR, 3⟩,
        ⟨"y", .SYMBOL_LOCAL_VAR, 4⟩] ∧
    ∃ identifier parameter_list body table,
      example_scope_entry.node.children = [identifier, parameter_list, body] ∧
      example_scope_entry.function_symtable = some table ∧
      table.symbols =
        declared_symbols .SYMBOL_PARAMETER 0 parameter_list.children ++
          declared_symbols .SYMBOL_LOCAL_VAR parameter_list.children.length
            (walk_declarations body) ∧
      table.symbols.map (fun s => s.sequence_number) = List.range table.symbols.length ∧
      ∀ p ∈ table.symbols, ∀ l ∈ table.symbols,
        p.type = .SYMBOL_PARAMETER → l.type = .SYMBOL_LOCAL_VAR →
          p.sequence_number < l.sequence_number :=
  ⟨by decide, by decide, by decide, by decide,
    create_tables_sequence_numbers example_scope_program example_scope_tables (by decide)
      example_scope_entry (by decide) (by decide)⟩

/-- C12: after `create_tables`, the identifier occurrences in the statements
and expressions of every function body carry, in walk order, the symbols of
the scoping rule `function_links`: the variable declared by the innermost
enclosing block that declares the name; if no enclosing block declares it, the
function's parameter of that name; if there is none, the global symbol of
that name. -/
theorem create_tables_binds_by_scope (root : Node) (g : List global_symbol_t) (st : tables)
    (hg : find_globals root = some g) (h : create_tables root = some st) :
    List.Forall₂ (bound_by_scope (g.map (fun e => e.symbol))) g st.global_symbols := by
  refine forall₂_imp_mem (create_tables_entries hg h) ?_
  intro e he e' hb hf
  obtain ⟨t, d, identifier, pl, body, body', sy, table', h1, h2, -, -, -, -, -, h3, -⟩ :=
    entry_bound_function ((find_globals_spec hg).2.2 e he) hb hf
  exact ⟨t, d, identifier, pl, body, body', sy, table', h1, h2, h3⟩

/-- C12, at `example_scope_program`: in the body of `f(a, b)` the `a` of the
inner block is the local 3 declared there, the `a` outside it is parameter 0,
`x` is the local 2 of the outer block and `g` is the global variable. -/
theorem create_tables_binds_by_scope_witness :
    find_globals example_scope_program = some example_scope_globals ∧
    create_tables example_scope_program = some example_scope_tables ∧
    example_scope_globals.map
        (function_links (example_scope_globals.map (fun e => e.symbol))) =
      [[], [some ⟨"x", .SYMBOL_LOCAL_VAR, 2⟩, some ⟨"a", .SYMBOL_PARAMETER, 0⟩,
        some ⟨"y", .SYMBOL_LOCAL_VAR, 4⟩, some ⟨"a", .SYMBOL_LOCAL_VAR, 3⟩,
        some ⟨"x", .SYMBOL_LOCAL_VAR, 2⟩, some ⟨"g", .SYMBOL_GLOBAL_VAR, 0⟩,
        some ⟨"b", .SYMBOL_PARAMETER, 1⟩, some ⟨"a", .SYMBOL_PARAMETER, 0⟩]] ∧
    List.Forall₂ (bound_by_scope (example_scope_globals.map (fun e => e.symbol)))
      example_scope_globals example_scope_tables.global_symbols :=
  ⟨by decide, by decide, by decide,
    create_tables_binds_by_scope example_scope_program example_scope_globals
      example_scope_tables (by decide) (by decide)⟩

/-! ## Scopes are restored when a block is left (C13) -/

theorem walk_declarations_block2 (d : Data) (dl body : Node) (sy : Option Symbol) :
    walk_declarations (.mk .BLOCK d [dl, body] sy) =
      declared_identifiers dl ++ walk_declarations body := by
  rw [walk_declarations]

/-- C13: when `bind_names` returns from a `BLOCK` with a declaration list, the
layered map of the table is the one it was before the block (so every name
resolves as before), while the sequence of symbols has grown by the variables
of the block, numbered from the former length on, followed by those of the
blocks nested in it; the symbols that the block inserted, as they stood when
its body was entered, are a prefix of the final sequence.  A `BLOCK` with one
child binds that child in the table as it is, no layer being pushed, and the
layered map after it is again the one before. -/
theorem bind_block_restores_scopes (G : List Symbol) (st st' : bind_state) (d : Data)
    (dl body : Node) (sy : Option Symbol) (n' : Node)
    (h : bind_names G st (.mk .BLOCK d [dl, body] sy) = some (st', n')) :
    st'.local_symbols.hashmap = st.local_symbols.hashmap ∧
    (∀ x, symbol_hashmap_lookup st'.local_symbols.hashmap G x =
      symbol_hashmap_lookup st.local_symbols.hashmap G x) ∧
    st'.local_symbols.symbols =
      st.local_symbols.symbols ++
        declared_symbols .SYMBOL_LOCAL_VAR st.local_symbols.symbols.length
          (declared_identifiers dl) ++
        declared_symbols .SYMBOL_LOCAL_VAR
          (st.local_symbols.symbols.length + (declared_identifiers dl).length)
          (walk_declarations body) ∧
    (∃ inner, insert_local_variables (push_local_scope st.local_symbols)
        (declared_identifiers dl) = some inner ∧
      inner.symbols = st.local_symbols.symbols ++
        declared_symbols .SYMBOL_LOCAL_VAR st.local_symbols.symbols.length
          (declared_identifiers dl) ∧
      inner.hashmap =
        (declared_symbols .SYMBOL_LOCAL_VAR st.local_symbols.symbols.length
          (declared_identifiers dl)).reverse :: st.local_symbols.hashmap ∧
      inner.symbols <+: st'.local_symbols.symbols) ∧
    ∀ first st1 n1, bind_names G st (.mk .BLOCK d [first] sy) = some (st1, n1) →
      ∃ first', bind_names G st first = some (st1, first') ∧
        n1 = .mk .BLOCK d [first'] sy ∧
        st1.local_symbols.hashmap = st.local_symbols.hashmap := by
  obtain ⟨f1, f2, -, -⟩ := bind_names_frame G _ _ _ _ h
  rw [walk_declarations_block2, declared_symbols_append, ← List.append_assoc] at f2
  refine ⟨f1, fun x => by rw [f1], f2, ?_, ?_⟩
  · rw [bind_names] at h
    cases hi : insert_local_variables (push_local_scope st.local_symbols)
        (declared_identifiers dl) with
    | none => simp [hi] at h
    | some inner =>
      have hi' := hi
      rw [insert_local_variables_eq] at hi'
      obtain ⟨-, -, rfl⟩ := (insert_identifiers_iff .SYMBOL_LOCAL_VAR _ _ _ _ _).1 hi'
      refine ⟨_, rfl, rfl, by simp, ?_⟩
      rw [f2]
      exact List.prefix_append _ _
  · intro first st1 n1 h1
    rw [bind_names_block1 G st d first [] sy (by simp)] at h1
    cases hb : bind_names G st first with
    | none => simp [hb] at h1
    | some r =>
      obtain ⟨st2, first'⟩ := r
      simp only [hb, Option.some.injEq, Prod.mk.injEq] at h1
      obtain ⟨rfl, rfl⟩ := h1
      exact ⟨first', rfl, rfl, (bind_names_frame G _ _ _ _ hb).1⟩

/-- C13, at the block `begin var a  a := 1 end` bound in the table of `f(a)`:
inside the block `a` is the local 1, after it the layered map holds the
parameter `a` alone again and the local 1 is still in the sequence. -/
theorem bind_block_restores_scopes_witness :
    bind_names [] example_shadowing_state example_shadowing_block =
      some example_shadowing_bound ∧
    (visited_identifiers example_shadowing_bound.2).map Node.symbol =
      [some ⟨"a", .SYMBOL_LOCAL_VAR, 1⟩] ∧
    example_shadowing_bound.1.local_symbols =
      ⟨[⟨"a", .SYMBOL_PARAMETER, 0⟩, ⟨"a", .SYMBOL_LOCAL_VAR, 1⟩],
        [[⟨"a", .SYMBOL_PARAMETER, 0⟩]]⟩ ∧
    example_shadowing_bound.1.local_symbols.hashmap =
      example_shadowing_state.local_symbols.hashmap ∧
    ∀ x, symbol_hashmap_lookup example_shadowing_bound.1.local_symbols.hashmap [] x =
      symbol_hashmap_lookup example_shadowing_state.local_symbols.hashmap [] x :=
  ⟨by decide, by decide, by decide,
    (bind_block_restores_scopes [] example_shadowing_state example_shadowing_bound.1 .null
      (node_init .DECLARATION_LIST .null [node_init .DECLARATION .null [identifier_node "a"]])
      (node_init .STATEMENT_LIST .null
        [node_init .ASSIGNMENT_STATEMENT .null [identifier_node "a", number_node 1]])
      none example_shadowing_bound.2 (by decide)).1,
    (bind_block_restores_scopes [] example_shadowing_state example_shadowing_bound.1 .null
      (node_init .DECLARATION_LIST .null [node_init .DECLARATION .null [identifier_node "a"]])
      (node_init .STATEMENT_LIST .null
        [node_init .ASSIGNMENT_STATEMENT .null [identifier_node "a", number_node 1]])
      none example_shadowing_bound.2 (by decide)).2.1⟩

/-! ## When resolution succeeds (C14) -/

theorem visited_identifiers_type (n : Node) :
    ∀ m ∈ visited_identifiers n, m.type = .IDENTIFIER_DATA := by
  induction n using Node.induction with
  | h t d cs sy ih =>
    rcases walk_cases t cs with rfl | rfl | ⟨rfl, dl, body, rfl⟩ | ⟨rfl, rfl⟩ |
      ⟨rfl, first, rest, rfl, hrest⟩ | ⟨h1, h2, h3⟩
    · intro m hm
      rw [visited_identifiers] at hm
      rw [List.mem_singleton.1 hm]; rfl
    · intro m hm
      rw [visited_identifiers] at hm
      cases hm
    · intro m hm
      rw [visited_identifiers] at hm
      exact ih body (by simp) m hm
    · intro m hm
      rw [visited_identifiers] at hm
      cases hm
    · intro m hm
      rw [visited_identifiers_block1 d first rest sy hrest] at hm
      exact ih first (by simp) m hm
    · intro m hm
      rw [visited_identifiers_other t d cs sy h1 h2 h3] at hm
      clear h1 h2 h3
      induction cs with
      | nil => rw [visited_identifiers_list] at hm; cases hm
      | cons c cs ihc =>
        rw [visited_identifiers_list] at hm
        rcases List.mem_append.1 hm with hm | hm
        · exact ih c (by simp) m hm
        · exact ihc (fun c hc => ih c (List.mem_cons_of_mem _ hc)) hm

theorem identifier_linked_symbol {m : Node} (ht : m.type = .IDENTIFIER_DATA)
    (h : identifier_linked m = true) : m.symbol ≠ none := by
  intro hs
  unfold identifier_linked at h
  rw [hs] at h
  simp [ht] at h

theorem forall₂_mem_left {α β : Type} {R : α → β → Prop} {l : List α} {l' : List β}
    (h : List.Forall₂ R l l') {a : α} (ha : a ∈ l) : ∃ b ∈ l', R a b := by
  induction h with
  | nil => cases ha
  | cons h1 _ ih =>
    rcases List.mem_cons.1 ha with rfl | hm
    · exact ⟨_, List.mem_cons_self _ _, h1⟩
    · obtain ⟨b, hb, hab⟩ := ih hm
      exact ⟨b, List.mem_cons_of_mem _ hb, hab⟩

theorem create_tables_eq_some_iff {root : Node} {g : List global_symbol_t}
    (hg : find_globals root = some g) :
    (∃ st, create_tables root = some st) ↔
      ∃ r, bind_loop (g.map (fun e => e.symbol)) [] g = some r := by
  unfold create_tables
  simp only [hg]
  unfold bind
  cases hb : bind_loop (g.map (fun e => e.symbol)) [] g with
  | none => simp
  | some r => obtain ⟨g', sl⟩ := r; simp

/-- The links that a successful run leaves are all present. -/
theorem create_tables_links_present {root : Node} {g : List global_symbol_t} {st : tables}
    (hg : find_globals root = some g) (h : create_tables root = some st) :
    ∀ e ∈ g, ∀ o ∈ function_links (g.map (fun e => e.symbol)) e, o ≠ none := by
  intro e he o ho
  by_cases hf : e.symbol.type = .SYMBOL_FUNCTION
  · obtain ⟨e', -, hb⟩ := forall₂_mem_left (create_tables_entries hg h) he
    obtain ⟨t, d, identifier, pl, body, body', sy, table', -, -, -, -, -, -, -, h3, h4⟩ :=
      entry_bound_function ((find_globals_spec hg).2.2 e he) hb hf
    rw [← h3] at ho
    obtain ⟨m, hm, rfl⟩ := List.mem_map.1 ho
    exact identifier_linked_symbol (visited_identifiers_type body' m hm) (h4 m hm)
  · rw [function_links, if_neg hf] at ho
    cases ho

/-- In the model `var a, a  def main() begin return 0 end`, which holds no
identifier occurrence in a statement or expression of a function body, is
refused: the second declaration of `a` is an error of the modelled insertion
(`symbols.c` itself does not test for a duplicate).  Programs whose
declarations cannot be entered are therefore left out of the statement about
identifier occurrences below. -/
theorem create_tables_fails_without_identifier :
    create_tables example_duplicate_global = none ∧
    visited_identifiers_list (program_bodies example_duplicate_global) = [] := by
  decide

theorem walked_scopes_block1 (d : Data) (first : Node) (rest : List Node)
    (sy : Option Symbol) (h : rest.length ≠ 1) :
    walked_scopes (.mk .BLOCK d (first :: rest) sy) = walked_scopes first := by
  rcases rest with _ | ⟨b, _ | ⟨c, rest⟩⟩
  · rw [walked_scopes]; simp
  · simp at h
  · rw [walked_scopes]; simp

theorem walked_scopes_other (t : NodeType) (d : Data) (cs : List Node) (sy : Option Symbol)
    (h1 : t ≠ .IDENTIFIER_DATA) (h2 : t ≠ .STRING_DATA) (h3 : t ≠ .BLOCK) :
    walked_scopes (.mk t d cs sy) = walked_scopes_list cs := by
  rw [walked_scopes]
  all_goals simp_all

theorem walk_valid_scopes (n : Node) :
    walk_valid n → ∀ ids ∈ walked_scopes n, valid_declarations ids := by
  induction n using Node.induction with
  | h t d cs sy ih =>
    rcases walk_cases t cs with rfl | rfl | ⟨rfl, dl, body, rfl⟩ | ⟨rfl, rfl⟩ |
      ⟨rfl, first, rest, rfl, hrest⟩ | ⟨h1, h2, h3⟩
    · intro _ ids hm
      rw [walked_scopes] at hm
      cases hm
    · intro _ ids hm
      rw [walked_scopes] at hm
      cases hm
    · intro hv ids hm
      rw [walk_valid] at hv
      rw [walked_scopes] at hm
      rcases List.mem_cons.1 hm with rfl | hm
      · exact hv.1
      · exact ih body (by simp) hv.2 ids hm
    · intro hv
      rw [walk_valid] at hv
      exact hv.elim
    · intro hv ids hm
      rw [walk_valid_block1 d first rest sy hrest] at hv
      rw [walked_scopes_block1 d first rest sy hrest] at hm
      exact ih first (by simp) hv ids hm
    · intro hv ids hm
      rw [walk_valid_other t d cs sy h1 h2 h3] at hv
      rw [walked_scopes_other t d cs sy h1 h2 h3] at hm
      clear h1 h2 h3
      induction cs with
      | nil => rw [walked_scopes_list] at hm; cases hm
      | cons c cs ihc =>
        rw [walk_valid_list] at hv
        rw [walked_scopes_list] at hm
        rcases List.mem_append.1 hm with hm | hm
        · exact ih c (by simp) hv.1 ids hm
        · exact ihc (fun c hc => ih c (List.mem_cons_of_mem _ hc)) hv.2 hm

theorem function_bodies_mem {g : List global_symbol_t} {body : Node}
    (h : body ∈ function_bodies g) :
    ∃ e ∈ g, e.symbol.type = .SYMBOL_FUNCTION ∧ ∃ a b, e.node.children = [a, b, body] := by
  induction g with
  | nil => rw [function_bodies] at h; cases h
  | cons entry rest ih =>
    rw [function_bodies] at h
    by_cases hf : entry.symbol.type = .SYMBOL_FUNCTION
    · rw [if_pos hf] at h
      split at h
      · rename_i a b body0 hcs
        rcases List.mem_cons.1 h with rfl | h
        · exact ⟨entry, List.mem_cons_self _ _, hf, a, b, hcs⟩
        · obtain ⟨e, he, r⟩ := ih h
          exact ⟨e, List.mem_cons_of_mem _ he, r⟩
      · obtain ⟨e, he, r⟩ := ih h
        exact ⟨e, List.mem_cons_of_mem _ he, r⟩
    · rw [if_neg hf] at h
      obtain ⟨e, he, r⟩ := ih h
      exact ⟨e, List.mem_cons_of_mem _ he, r⟩

/-- After a successful run, the walked part of every function body was well
formed. -/
theorem create_tables_bodies_valid {root : Node} {g : List global_symbol_t} {st : tables}
    (hg : find_globals root = some g) (h : create_tables root = some st) :
    ∀ body ∈ function_bodies g, walk_valid body := by
  intro body hbody
  obtain ⟨e, he, hf, a, b, hcs⟩ := function_bodies_mem hbody
  obtain ⟨e', -, hb⟩ := forall₂_mem_left (create_tables_entries hg h) he
  obtain ⟨t, d, identifier, pl, body0, body', sy, table', h1, -, -, -, -, -, hv, -, -⟩ :=
    entry_bound_function ((find_globals_spec hg).2.2 e he) hb hf
  rw [h1] at hcs
  simp only [Node.children_mk, List.cons.injEq, and_true] at hcs
  rw [← hcs.2.2]
  exact hv

theorem insert_parameters_duplicate {ids : List Node}
    (h : ¬ (ids.map node_name).Nodup) : insert_parameters symbol_table_init ids = none := by
  cases hi : insert_parameters symbol_table_init ids with
  | none => rfl
  | some table =>
    rw [insert_parameters_eq] at hi
    exact absurd ((insert_identifiers_iff .SYMBOL_PARAMETER ids [] [] [] table).1 hi).1.2 h

theorem find_globals_loop_none {node : Node} {nodes : List Node} (hm : node ∈ nodes)
    (ht : node.type = .FUNCTION) (hf : ∀ g0, find_global_function g0 node = none) :
    ∀ g0, find_globals_loop g0 nodes = none := by
  induction nodes with
  | nil => cases hm
  | cons c cs ih =>
    intro g0
    rw [find_globals_loop]
    rcases List.mem_cons.1 hm with rfl | hm
    · simp [ht, hf]
    · have hn := ih hm
      split <;> simp [Option.bind_eq_none, hn]

theorem layer_lookup_of_mem {layer : List Symbol} {s : Symbol} (hs : s ∈ layer)
    (hn : (layer.map (fun s => s.name)).Nodup) : layer_lookup layer s.name = some s := by
  cases h : layer_lookup layer s.name with
  | none =>
    rw [layer_lookup_eq_none] at h
    exact absurd (List.mem_map_of_mem _ hs) h
  | some s' =>
    have h1 := layer_lookup_mem h
    have h2 := layer_lookup_name h
    have := List.inj_on_of_nodup_map hn h1 hs h2
    rw [this]

/-- C15: a name declared twice at one level makes resolution fail: two global
declarations of one name, two parameters of one function, and two variables
declared by one block that the walk of a function body enters all make
`create_tables` fail (the block itself makes `bind_names` fail, whatever the
table); whereas the declarations of a block whose names are distinct are
inserted whatever the outer layers hold, and each declared name then resolves
to the new variable. -/
theorem duplicate_declaration_fails_shadowing_succeeds :
    (∀ root, ¬ ((global_declarations root).map node_name).Nodup →
      create_tables root = none) ∧
    (∀ root t d identifier parameter_list body sy,
      Node.mk t d [identifier, parameter_list, body] sy ∈ root.children → t = .FUNCTION →
      ¬ (parameter_list.children.map node_name).Nodup → create_tables root = none) ∧
    (∀ root g body ids, find_globals root = some g → body ∈ function_bodies g →
      ids ∈ walked_scopes body → ¬ (ids.map node_name).Nodup → create_tables root = none) ∧
    (∀ G st d declaration_list body sy,
      ¬ ((declared_identifiers declaration_list).map node_name).Nodup →
      bind_names G st (.mk .BLOCK d [declaration_list, body] sy) = none) ∧
    (∀ table ids G, valid_declarations ids →
      ∃ inner, insert_local_variables (push_local_scope table) ids = some inner ∧
        ∀ s ∈ declared_symbols .SYMBOL_LOCAL_VAR table.symbols.length ids,
          symbol_hashmap_lookup inner.hashmap G s.name = some s) := by
  refine ⟨?_, ?_, ?_, ?_, ?_⟩
  · intro root hd
    unfold create_tables
    cases hg : find_globals root with
    | none => rfl
    | some g =>
      obtain ⟨h1, h2, -⟩ := find_globals_spec hg
      rw [h1] at h2
      exact absurd h2 hd
  · intro root t d identifier pl body sy hm ht hd
    have hf : ∀ g0, find_global_function g0 (Node.mk t d [identifier, pl, body] sy) = none := by
      intro g0
      unfold find_global_function
      simp [ht, insert_parameters_duplicate hd]
    have hg : find_globals root = none := by
      unfold find_globals
      exact find_globals_loop_none hm (by rw [Node.type_mk]; exact ht) hf []
    unfold create_tables
    rw [hg]
  · intro root g body ids hg hb hi hd
    cases hc : create_tables root with
    | none => rfl
    | some st =>
      exact absurd (walk_valid_scopes body (create_tables_bodies_valid hg hc body hb) ids hi).2 hd
  · intro G st d dl body sy hd
    cases h : bind_names G st (.mk .BLOCK d [dl, body] sy) with
    | none => rfl
    | some r =>
      obtain ⟨st', n'⟩ := r
      have hv := (bind_names_frame G _ _ _ _ h).2.2.2
      rw [walk_valid] at hv
      exact absurd hv.1.2 hd
  · intro table ids G hv
    have hi := (insert_identifiers_iff .SYMBOL_LOCAL_VAR ids table.symbols [] table.hashmap
      ⟨table.symbols ++ declared_symbols .SYMBOL_LOCAL_VAR table.symbols.length ids,
        ((declared_symbols .SYMBOL_LOCAL_VAR table.symbols.length ids).reverse ++ []) ::
          table.hashmap⟩).2 ⟨hv, by simp, rfl⟩
    refine ⟨_, by rw [insert_local_variables_eq]; exact hi, ?_⟩
    intro s hs
    have hn : ((declared_symbols .SYMBOL_LOCAL_VAR table.symbols.length ids).map
        (fun s => s.name)).Nodup := by
      rw [declared_symbols_names]; exact hv.2
    simp only [List.append_nil, symbol_hashmap_lookup, layer_lookup_reverse _ hn,
      layer_lookup_of_mem hs hn]

/-- C15, at `var a, a ...`, at `def main(a, a) ...`, at
`def main() begin var x, x ... end`, and at a block that declares `a` inside
the function `f(a)`. -/
theorem duplicate_declaration_fails_shadowing_succeeds_witness :
    create_tables example_duplicate_global = none ∧
    create_tables example_duplicate_parameter = none ∧
    create_tables example_duplicate_local = none ∧
    ∃ inner, insert_local_variables (push_local_scope example_parameter_table)
        [identifier_node "a"] = some inner ∧
      ∀ s ∈ declared_symbols .SYMBOL_LOCAL_VAR example_parameter_table.symbols.length
          [identifier_node "a"],
        symbol_hashmap_lookup inner.hashmap [] s.name = some s :=
  ⟨duplicate_declaration_fails_shadowing_succeeds.1 example_duplicate_global (by decide),
    duplicate_declaration_fails_shadowing_succeeds.2.1 example_duplicate_parameter
      .FUNCTION .null (identifier_node "main")
      (node_init .PARAMETER_LIST .null [identifier_node "a", identifier_node "a"])
      (node_init .BLOCK .null
        [node_init .STATEMENT_LIST .null
          [node_init .RETURN_STATEMENT .null [number_node 0]]])
      none (by decide) rfl (by decide),
    duplicate_declaration_fails_shadowing_succeeds.2.2.1 example_duplicate_local
      ((find_globals example_duplicate_local).getD [])
      (node_init .BLOCK .null
        [node_init .DECLARATION_LIST .null
          [node_init .DECLARATION .null [identifier_node "x", identifier_node "x"]],
         node_init .STATEMENT_LIST .null
          [node_init .RETURN_STATEMENT .null [number_node 0]]])
      [identifier_node "x", identifier_node "x"]
      (by decide) (by decide) (by decide) (by decide),
    duplicate_declaration_fails_shadowing_succeeds.2.2.2.2 example_parameter_table
      [identifier_node "a"] [] (by unfold valid_declarations; decide)⟩

/-! ## The generator state -/

theorem emit_eq_emit_all (st : gen_state) (i : Instr) : emit st i = emit_all st [i] := rfl

theorem emit_all_emit_all (st : gen_state) (a b : List Instr) :
    emit_all (emit_all st a) b = emit_all st (a ++ b) := by
  simp [emit_all, List.append_assoc]

theorem emit_all_nil (st : gen_state) : emit_all st [] = st := by
  simp [emit_all]

/-! ## Running straight-line code -/

theorem run_append (a b : List Instr) (m : machine) :
    run m (a ++ b) = (run m a).bind (fun m1 => run m1 b) := by
  induction a generalizing m with
  | nil => rfl
  | cons i a ih =>
    simp only [List.cons_append, run]
    cases execute m i with
    | none => rfl
    | some m1 => exact ih m1

theorem run_append_some {a b : List Instr} {m m1 : machine} (h : run m a = some m1) :
    run m (a ++ b) = run m1 b := by
  rw [run_append, h]; rfl

theorem sign_extended_dividend (a : Int) (h : int64 a) :
    (if a < 0 then (-1 : Int) else 0) * 2 ^ 64 + a % 2 ^ 64 = a := by
  unfold int64 at h
  have e63 : (2 : Int) ^ 63 = 9223372036854775808 := by norm_num
  have e64 : (2 : Int) ^ 64 = 18446744073709551616 := by norm_num
  rw [e63] at h
  rw [e64]
  split <;> omega

/-- The four arithmetic steps on `%r10` and `%rax`. -/
theorem execute_binary (m : machine) (a b : Int) (h10 : m.regs .R10 = b)
    (hax : m.regs .RAX = a) :
    (∃ m1, execute m (.addq (.reg .R10) (.reg .RAX)) = some m1 ∧
      m1.regs .RAX = wrap64 (a + b) ∧ m1.stack = m.stack) ∧
    (∃ m1, execute m (.subq (.reg .R10) (.reg .RAX)) = some m1 ∧
      m1.regs .RAX = wrap64 (a - b) ∧ m1.stack = m.stack) ∧
    (∃ m1, execute m (.imulq (.reg .R10) (.reg .RAX)) = some m1 ∧
      m1.regs .RAX = wrap64 (a * b) ∧ m1.stack = m.stack) := by
  refine ⟨⟨_, rfl, ?_, rfl⟩, ⟨_, rfl, ?_, rfl⟩, ⟨_, rfl, ?_, rfl⟩⟩ <;>
    simp [machine.compute, machine.read, Reg.is_data, h10, hax]

/-- The code of an operand pair ends with the second operand in `%rax` and the
first on top of the stack. -/
theorem run_operands {c1 c2 : List Instr} {v1 v2 : Int}
    (h1 : ∀ m : machine, ∃ m1, run m c1 = some m1 ∧ m1.regs .RAX = v1 ∧ m1.stack = m.stack)
    (h2 : ∀ m : machine, ∃ m1, run m c2 = some m1 ∧ m1.regs .RAX = v2 ∧ m1.stack = m.stack)
    (m : machine) :
    ∃ m2, run m (c1 ++ [.pushq (.reg .RAX)] ++ c2) = some m2 ∧ m2.regs .RAX = v2 ∧
      m2.stack = v1 :: m.stack := by
  obtain ⟨m1, r1, a1, s1⟩ := h1 m
  obtain ⟨m2, r2, a2, s2⟩ := h2 ⟨m1.regs, m1.regs .RAX :: m1.stack, m1.compared⟩
  refine ⟨m2, ?_, a2, ?_⟩
  · rw [List.append_assoc, run_append_some r1]
    simp only [List.singleton_append, run, execute, machine.read, Reg.is_data, if_true,
      Option.map_some']
    exact r2
  · rw [s2, a1, s1]

/-! ## Code of constant expressions -/

theorem generate_arith (G : List global_symbol_t) (cf : global_symbol_t) (e : Arith)
    (ho : e.operators_only) :
    ∀ st, generate_expression G cf st e.toNode = .ok (emit_all st e.code) := by
  induction e with
  | num a =>
    intro st
    simp [Arith.toNode, node_init, generate_expression, Arith.code, emit_eq_emit_all]
  | paren e _ => exact ho.elim
  | neg e ih =>
    intro st
    simp [Arith.toNode, node_init, generate_expression, Arith.code, emit_eq_emit_all,
      emit_all_emit_all, ih ho]
  | bin op l r ihl ihr =>
    intro st
    cases op <;>
      simp [Arith.toNode, node_init, generate_expression, Arith.code, emit_eq_emit_all,
        emit_all_emit_all, ihl ho.1, ihr ho.2, BinOp.text]

theorem arith_int64 (e : Arith) (hr : e.leaves_int64) (ht : e.no_trap) : int64 e.value :=
  (simplify_arith e hr ht).2

/-- The end of the code of a binary operation: the first operand is popped
into `%r10` and combined with `%rax`. -/
theorem run_pop_binary (m : machine) (a b : Int) (s : List Int)
    (hax : m.regs .RAX = a) (hs : m.stack = b :: s) :
    (∃ m1, run m [.popq (.reg .R10), .addq (.reg .R10) (.reg .RAX)] = some m1 ∧
      m1.regs .RAX = wrap64 (a + b) ∧ m1.stack = s) ∧
    (∃ m1, run m [.popq (.reg .R10), .subq (.reg .R10) (.reg .RAX)] = some m1 ∧
      m1.regs .RAX = wrap64 (a - b) ∧ m1.stack = s) ∧
    (∃ m1, run m [.popq (.reg .R10), .imulq (.reg .R10) (.reg .RAX)] = some m1 ∧
      m1.regs .RAX = wrap64 (a * b) ∧ m1.stack = s) := by
  refine ⟨?_, ?_, ?_⟩ <;>
    simp [run, execute, hs, hax, Reg.is_data, machine.read, machine.set, machine.compute]

/-- The end of the code of a division: sign extension, pop of the divisor,
`idivq`. -/
theorem run_pop_divide (m : machine) (a b : Int) (s : List Int)
    (hax : m.regs .RAX = a) (hs : m.stack = b :: s) (ha : int64 a) (hb : b ≠ 0)
    (hq : int64 (Int.tdiv a b)) :
    ∃ m1, run m [.cqo, .popq (.reg .R10), .idivq (.reg .R10)] = some m1 ∧
      m1.regs .RAX = Int.tdiv a b ∧ m1.stack = s := by
  have hd : (if a < 0 then (-18446744073709551616 : Int) else 0) + a % 18446744073709551616 =
      a := by
    have := sign_extended_dividend a ha
    norm_num at this
    exact this
  have hq1 : (-9223372036854775808 : Int) ≤ Int.tdiv a b := by
    have := hq.1
    norm_num at this
    exact this
  have hq2 : Int.tdiv a b < 9223372036854775808 := by
    have := hq.2
    norm_num at this
    exact this
  simp [run, execute, hs, hax, Reg.is_data, machine.read, machine.set, machine.compute, hd, hb,
    hq1, hq2]

theorem run_arith (e : Arith) (hr : e.leaves_int64) (ht : e.no_trap) :
    ∀ m : machine, ∃ m1, run m e.code = some m1 ∧ m1.regs .RAX = e.value ∧
      m1.stack = m.stack := by
  induction e with
  | num a =>
    intro m
    exact ⟨_, rfl, by simp [machine.set, Arith.value], rfl⟩
  | paren e ih => exact ih hr ht
  | neg e ih =>
    intro m
    obtain ⟨m1, r1, a1, s1⟩ := ih hr ht m
    refine ⟨m1.compute .RAX (wrap64 (-m1.regs .RAX)), ?_, ?_, s1⟩
    · rw [Arith.code, run_append_some r1]; rfl
    · simp [machine.compute, Arith.value, a1, wrap64_eq_bmod]
  | bin op l r ihl ihr =>
    intro m
    have htl : l.no_trap := by cases op <;> exact ht.1
    have htr : r.no_trap := by cases op <;> first | exact ht.2.1 | exact ht.2
    have hl := ihl hr.1 htl
    have hrr := ihr hr.2 htr
    cases op
    case add =>
      obtain ⟨m2, r2, a2, s2⟩ := run_operands hl hrr m
      obtain ⟨m3, e3, a3, s3⟩ := (run_pop_binary m2 _ _ _ a2 s2).1
      refine ⟨m3, ?_, ?_, s3⟩
      · rw [Arith.code, run_append_some r2, e3]
      · rw [a3, Arith.value, wrap64_eq_bmod, Int.add_comm]
    case sub =>
      obtain ⟨m2, r2, a2, s2⟩ := run_operands hrr hl m
      obtain ⟨m3, e3, a3, s3⟩ := (run_pop_binary m2 _ _ _ a2 s2).2.1
      refine ⟨m3, ?_, ?_, s3⟩
      · rw [Arith.code, run_append_some r2, e3]
      · rw [a3, Arith.value, wrap64_eq_bmod]
    case mul =>
      obtain ⟨m2, r2, a2, s2⟩ := run_operands hl hrr m
      obtain ⟨m3, e3, a3, s3⟩ := (run_pop_binary m2 _ _ _ a2 s2).2.2
      refine ⟨m3, ?_, ?_, s3⟩
      · rw [Arith.code, run_append_some r2, e3]
      · rw [a3, Arith.value, wrap64_eq_bmod, Int.mul_comm]
    case div =>
      obtain ⟨m2, r2, a2, s2⟩ := run_operands hrr hl m
      obtain ⟨m3, e3, a3, s3⟩ := run_pop_divide m2 _ _ _ a2 s2 (arith_int64 l hr.1 htl)
        ht.2.2.1 (int64_tdiv _ _ (arith_int64 l hr.1 htl) (arith_int64 r hr.2 htr) ht.2.2.2)
      refine ⟨m3, ?_, ?_, s3⟩
      · rw [Arith.code, run_append_some r2, e3]
      · rw [a3, Arith.value]

/-! ## Value of the emitted expression code (C16) -/

theorem example_overflowing_division_operands :
    (Arith.bin .sub (.bin .sub (.num 0) (.num 9223372036854775807)) (.num 1)).value =
      -9223372036854775808 ∧
    (Arith.bin .sub (.num 0) (.num 1)).value = -1 := by
  constructor <;> simp [Arith.value]

/-- C16, as stated, fails: `(0 - 9223372036854775807 - 1) / (0 - 1)` is built
from 64-bit number leaves with binary `-` and `/`, no divisor has the value
0, `generate_expression` emits its code, and on every machine state that code
stops in the trap of `idivq` (the quotient `2^63` does not fit), so that no
final `%rax` exists. -/
theorem generate_expression_division_overflow_traps :
    example_overflowing_division.operators_only ∧
    example_overflowing_division.leaves_int64 ∧
    example_overflowing_division.no_zero_divisor ∧
    (∀ G cf st, generate_expression G cf st example_overflowing_division.toNode =
      .ok (emit_all st example_overflowing_division.code)) ∧
    ∀ m : machine, run m example_overflowing_division.code = none := by
  have ho : example_overflowing_division.operators_only := by
    simp [example_overflowing_division, Arith.operators_only]
  have hr : example_overflowing_division.leaves_int64 := by
    simp only [example_overflowing_division, Arith.leaves_int64, int64]
    decide
  obtain ⟨v1, v2⟩ := example_overflowing_division_operands
  refine ⟨ho, hr, ?_, fun G cf st => generate_arith G cf _ ho st, ?_⟩
  · simp only [example_overflowing_division, Arith.no_zero_divisor, v2]
    decide
  · intro m
    obtain ⟨m2, r2, a2, s2⟩ := run_operands
      (run_arith (.bin .sub (.num 0) (.num 1)) hr.2 ⟨trivial, trivial⟩)
      (run_arith (.bin .sub (.bin .sub (.num 0) (.num 9223372036854775807)) (.num 1)) hr.1
        ⟨⟨trivial, trivial⟩, trivial⟩) m
    rw [v1] at a2
    rw [v2] at s2
    rw [example_overflowing_division, Arith.code, run_append_some r2]
    simp [run, execute, s2, a2, Reg.is_data, machine.read, machine.set, machine.compute]

/-- C16, amended: for every expression built from 64-bit number leaves with
binary `+ - * /` and unary `-`, in which no division has a divisor of value 0
and none divides `-2^63` by `-1`, `generate_expression` appends the code of the
expression to the output, and running that code from any machine state ends
with `%rax` equal to the signed 64-bit value of the expression (left - right,
left / right truncated toward zero) and with the stack as it was. -/
theorem generate_expression_computes_value (e : Arith) (ho : e.operators_only)
    (hr : e.leaves_int64) (ht : e.no_trap) (G : List global_symbol_t) (cf : global_symbol_t)
    (st : gen_state) :
    generate_expression G cf st e.toNode = .ok (emit_all st e.code) ∧
    ∀ m : machine, ∃ m1, run m e.code = some m1 ∧ m1.regs .RAX = e.value ∧
      m1.stack = m.stack :=
  ⟨generate_arith G cf e ho st, run_arith e hr ht⟩

/-- C16, amended, at `(7 - 1) / -2`: the code ends with `-3` in `%rax`. -/
theorem generate_expression_computes_value_witness :
    example_division.value = -3 ∧
    generate_expression [] example_scope_entry example_gen_state example_division.toNode =
      .ok (emit_all example_gen_state example_division.code) ∧
    ∀ m : machine, ∃ m1, run m example_division.code = some m1 ∧
      m1.regs .RAX = example_division.value ∧ m1.stack = m.stack :=
  ⟨by decide,
    generate_expression_computes_value example_division
      ⟨⟨trivial, trivial⟩, trivial⟩
      (by simp [example_division, Arith.leaves_int64, int64])
      ⟨⟨trivial, trivial⟩, trivial, by decide, by decide⟩
      [] example_scope_entry example_gen_state⟩

/-! ## Frame offsets (C17, C18) -/

/-- C17: for an identifier bound to a `SYMBOL_PARAMETER` with sequence number
`s`, `generate_variable_access` returns the operand `offset(%rbp)` with offset
`-(s+1)*8` when `s < 6` and `16 + (s-6)*8` when `s ≥ 6`. -/
theorem generate_variable_access_parameter (current_function : global_symbol_t) (d : Data)
    (cs : List Node) (name : String) (s : Nat) :
    generate_variable_access current_function
        (.mk .IDENTIFIER_DATA d cs (some ⟨name, .SYMBOL_PARAMETER, s⟩)) =
      .ok (.frame (if s < 6 then -((s : Int) + 1) * 8 else 16 + ((s : Int) - 6) * 8)) := by
  unfold generate_variable_access
  simp only [Node.type_mk, ne_eq, not_true_eq_false, if_false, Node.symbol_mk,
    NUM_REGISTER_PARAMS]
  split
  · congr 2; ring
  · congr 2

theorem take_register_params (p : Nat) :
    REGISTER_PARAMS.take p = REGISTER_PARAMS.take (min p 6) := by
  by_cases h : p ≤ 6
  · rw [Nat.min_eq_left h]
  · rw [Nat.min_eq_right (by omega), List.take_of_length_le (by simp [REGISTER_PARAMS]; omega),
      List.take_of_length_le (by simp [REGISTER_PARAMS])]

theorem filter_declared_symbols_same (type : SymbolType) (next : Nat) (ids : List Node) :
    (declared_symbols type next ids).filter (fun symbol => symbol.type = type) =
      declared_symbols type next ids := by
  induction ids generalizing next with
  | nil => rfl
  | cons c cs ih => simp [declared_symbols, ih]

theorem filter_declared_symbols_other {type other : SymbolType} (h : type ≠ other) (next : Nat)
    (ids : List Node) :
    (declared_symbols type next ids).filter (fun symbol => symbol.type = other) = [] := by
  induction ids generalizing next with
  | nil => rfl
  | cons c cs ih => simp [declared_symbols, ih, h]

theorem local_variable_count_declared (parameters locals : List Node)
    (hashmap : List (List Symbol)) :
    local_variable_count
        ⟨declared_symbols .SYMBOL_PARAMETER 0 parameters ++
          declared_symbols .SYMBOL_LOCAL_VAR parameters.length locals, hashmap⟩ =
      locals.length := by
  unfold local_variable_count
  simp only [List.filter_append]
  rw [filter_declared_symbols_other (by decide), filter_declared_symbols_same,
    List.nil_append, declared_symbols_length]

theorem local_offset (p k : Nat) :
    (-((if p > 6 then ((p + k : Nat) : Int) - ((p - 6 : Nat) : Int) else ((p + k : Nat) : Int)))
        - 1) * 8 = -(((min p 6 + k + 1 : Nat) : Int)) * 8 := by
  by_cases h : p > 6
  · rw [if_pos h, Nat.min_eq_right (by omega)]
    omega
  · rw [if_neg h, Nat.min_eq_left (by omega)]
    omega

/-- C18: for a function with `p` parameters whose table holds `L` local
variables, the prologue is the label and the frame set-up, then the pushes of
the first `min(p, 6)` parameter registers in the order `rdi, rsi, rdx, rcx, r8,
r9`, then `L` times `pushq $0`; `generate_function` writes it before the code
of the body; the operand for a local with sequence number `p + k` is
`offset(%rbp)` with offset `-(seq - max(0, p-6) + 1)*8 = -(min(p,6)+k+1)*8`;
these offsets are pairwise distinct and, for `k < L`, name a quadword pushed
after the register parameters and among the `min(p,6) + L` pushed ones.  In a
table made of the parameters followed by the declared locals, `L` is the
number of declared locals. -/
theorem function_prologue_and_local_offsets (G : List global_symbol_t)
    (function : global_symbol_t) (p : Nat) (table : symbol_table_t)
    (hp : FUNC_PARAM_COUNT function = some p) (ht : function.function_symtable = some table) :
    function_prologue function.symbol.name p table =
      [.label (.function function.symbol.name), .pushq (.reg .RBP),
          .movq (.reg .RSP) (.reg .RBP)] ++
        (REGISTER_PARAMS.take (min p 6)).map (fun r => Instr.pushq (.reg r)) ++
        List.replicate (local_variable_count table) (Instr.pushq (.imm 0)) ∧
    (∀ st st', generate_function G st function = .ok st' →
      ∃ identifier parameter_list body rest st1,
        function.node.children = identifier :: parameter_list :: body :: rest ∧
        generate_statement G function
          (emit_all st (function_prologue function.symbol.name p table)) body = .ok st1 ∧
        st' = emit_all st1 [.movq (.imm 0) (.reg .RAX), .movq (.reg .RBP) (.reg .RSP),
          .popq (.reg .RBP), .ret, .directive ""]) ∧
    (∀ k d cs name,
      generate_variable_access function
          (.mk .IDENTIFIER_DATA d cs (some ⟨name, .SYMBOL_LOCAL_VAR, p + k⟩)) =
        .ok (.frame (-((min p 6 + k + 1 : Nat) : Int) * 8)) ∧
      -((min p 6 + k + 1 : Nat) : Int) * 8 =
        -((((p + k : Nat) : Int) - max 0 ((p : Int) - 6)) + 1) * 8) ∧
    (∀ k k', k ≠ k' →
      -((min p 6 + k + 1 : Nat) : Int) * 8 ≠ -((min p 6 + k' + 1 : Nat) : Int) * 8) ∧
    (∀ k, k < local_variable_count table →
      min p 6 < min p 6 + k + 1 ∧ min p 6 + k + 1 ≤ min p 6 + local_variable_count table) ∧
    (∀ parameters locals hashmap,
      table = ⟨declared_symbols .SYMBOL_PARAMETER 0 parameters ++
        declared_symbols .SYMBOL_LOCAL_VAR parameters.length locals, hashmap⟩ →
      local_variable_count table = locals.length) := by
  refine ⟨?_, ?_, ?_, ?_, ?_, ?_⟩
  · unfold function_prologue local_variable_count
    rw [take_register_params, List.map_const']
  · intro st st' h
    unfold generate_function at h
    simp only [hp, ht] at h
    split at h
    · rename_i identifier parameter_list body rest hcs
      cases hb : generate_statement G function
          (emit_all st (function_prologue function.symbol.name p table)) body with
      | ok st1 =>
        rw [hb] at h
        simp only [gen_result.ok.injEq] at h
        exact ⟨identifier, parameter_list, body, rest, st1, hcs, hb, h.symm⟩
      | error e st1 => rw [hb] at h; cases h
    · cases h
  · intro k d cs name
    constructor
    · unfold generate_variable_access
      simp only [Node.type_mk, ne_eq, not_true_eq_false, if_false, Node.symbol_mk, hp,
        NUM_REGISTER_PARAMS]
      rw [local_offset]
    · by_cases h : p > 6
      · rw [Nat.min_eq_right (by omega)]; omega
      · rw [Nat.min_eq_left (by omega)]; omega
  · intro k k' hk
    omega
  · intro k hk
    omega
  · rintro parameters locals hashmap rfl
    exact local_variable_count_declared _ _ _

/-- C18, at the function `f(a, b)` of `example_scope_program` with its three
locals: two register pushes, three zero pushes, and the local with sequence
number 2 at `-24(%rbp)`. -/
theorem function_prologue_and_local_offsets_witness :
    function_prologue "f" 2 example_scope_table =
      [.label (.function "f"), .pushq (.reg .RBP), .movq (.reg .RSP) (.reg .RBP),
        .pushq (.reg .RDI), .pushq (.reg .RSI),
        .pushq (.imm 0), .pushq (.imm 0), .pushq (.imm 0)] ∧
    generate_variable_access example_scope_entry
        (.mk .IDENTIFIER_DATA (.str "x") [] (some ⟨"x", .SYMBOL_LOCAL_VAR, 2 + 0⟩)) =
      .ok (.frame (-24)) :=
  ⟨(function_prologue_and_local_offsets example_scope_tables.global_symbols
      example_scope_entry 2 example_scope_table (by decide) (by decide)).1,
    ((function_prologue_and_local_offsets example_scope_tables.global_symbols
      example_scope_entry 2 example_scope_table (by decide) (by decide)).2.2.1
        0 (.str "x") [] "x").1⟩

/-! ## The jump after a relation (C19) -/

theorem decide_le_eq_not_lt (a b : Int) : decide (a ≤ b) = !decide (b < a) := by
  by_cases h : a ≤ b
  · simp [h, not_lt.2 h]
  · simp [h, not_le.1 h]

theorem inverse_jump_spec {st st' : gen_state} {text : String} {target : Label}
    (h : inverse_jump st (.str text) target = .ok st') :
    ∃ j, st' = emit st j ∧
      ((text = "=" ∧ j = .jne target) ∨ (text = "!=" ∧ j = .je target) ∨
        (text = "<" ∧ j = .jge target) ∨ (text = ">" ∧ j = .jle target)) ∧
      ∀ m : machine,
        (execute m (.cmpq (.reg .RAX) (.reg .R10))).bind (fun m1 => jump_taken m1 j) =
          (relation_holds text (m.regs .R10) (m.regs .RAX)).map (fun holds => !holds) ∧
        (relation_holds text (m.regs .R10) (m.regs .RAX)).isSome = true := by
  unfold inverse_jump at h
  simp only at h
  split_ifs at h with h1 h2 h3 h4
  · subst h1
    simp only [gen_result.ok.injEq] at h
    refine ⟨_, h.symm, Or.inl ⟨rfl, rfl⟩, fun m => ?_⟩
    simp [execute, jump_taken, relation_holds, Reg.is_data, machine.read]
  · subst h2
    simp only [gen_result.ok.injEq] at h
    refine ⟨_, h.symm, Or.inr (Or.inl ⟨rfl, rfl⟩), fun m => ?_⟩
    simp [execute, jump_taken, relation_holds, Reg.is_data, machine.read]
  · subst h3
    simp only [gen_result.ok.injEq] at h
    refine ⟨_, h.symm, Or.inr (Or.inr (Or.inl ⟨rfl, rfl⟩)), fun m => ?_⟩
    simp [execute, jump_taken, relation_holds, Reg.is_data, machine.read, decide_le_eq_not_lt]
  · subst h4
    simp only [gen_result.ok.injEq] at h
    refine ⟨_, h.symm, Or.inr (Or.inr (Or.inr ⟨rfl, rfl⟩)), fun m => ?_⟩
    simp [execute, jump_taken, relation_holds, Reg.is_data, machine.read, decide_le_eq_not_lt]

theorem generate_relation_spec {G : List global_symbol_t} {cf : global_symbol_t}
    {st st' : gen_state} {t : NodeType} {d : Data} {left right : Node} {sy : Option Symbol}
    (h : generate_relation G cf st (.mk t d [left, right] sy) = .ok st') :
    ∃ st1 st2, generate_expression G cf st left = .ok st1 ∧
      generate_expression G cf (emit st1 (.pushq (.reg .RAX))) right = .ok st2 ∧
      st' = emit (emit st2 (.popq (.reg .R10))) (.cmpq (.reg .RAX) (.reg .R10)) := by
  unfold generate_relation at h
  simp only [Node.children_mk] at h
  cases h1 : generate_expression G cf st left with
  | error e st1 => rw [h1] at h; cases h
  | ok st1 =>
    rw [h1] at h
    simp only at h
    cases h2 : generate_expression G cf (emit st1 (.pushq (.reg .RAX))) right with
    | error e st2 => rw [h2] at h; cases h
    | ok st2 =>
      rw [h2] at h
      simp only [gen_result.ok.injEq] at h
      exact ⟨st1, st2, rfl, h2, h.symm⟩

theorem generate_relation_arith (G : List global_symbol_t) (cf : global_symbol_t)
    (st : gen_state) (text : String) (l r : Arith) (hol : l.operators_only)
    (hor : r.operators_only) :
    generate_relation G cf st (node_init .RELATION (.str text) [l.toNode, r.toNode]) =
      .ok (emit_all st (relation_code l r)) := by
  unfold generate_relation
  simp [node_init, generate_arith G cf l hol, generate_arith G cf r hor, emit_eq_emit_all,
    emit_all_emit_all, relation_code]

theorem run_relation_code (l r : Arith) (hrl : l.leaves_int64) (htl : l.no_trap)
    (hrr : r.leaves_int64) (htr : r.no_trap) (m : machine) :
    ∃ m1, run m (l.code ++ [.pushq (.reg .RAX)] ++ r.code ++ [.popq (.reg .R10)]) = some m1 ∧
      m1.regs .R10 = l.value ∧ m1.regs .RAX = r.value ∧ m1.stack = m.stack := by
  obtain ⟨m2, r2, a2, s2⟩ := run_operands (run_arith l hrl htl) (run_arith r hrr htr) m
  rw [run_append_some r2]
  simp [run, execute, s2, a2, Reg.is_data, machine.set]

theorem inverse_jump_eq_ok {st st' : gen_state} {data : Data} {target : Label}
    (h : inverse_jump st data target = .ok st') :
    ∃ text j, data = .str text ∧ is_inverse_jump text target j ∧ st' = emit st j := by
  cases data with
  | str text =>
    obtain ⟨j, h1, h2, -⟩ := inverse_jump_spec h
    exact ⟨text, j, rfl, h2, h1⟩
  | null => cases h
  | num v => cases h

theorem is_inverse_jump_taken {text : String} {target : Label} {j : Instr}
    (h : is_inverse_jump text target j) (m : machine) :
    ∀ a b, m.compared = some (a, b) →
      jump_taken m j = (relation_holds text a b).map (fun holds => !holds) ∧
      (relation_holds text a b).isSome = true := by
  intro a b hab
  rcases h with ⟨rfl, rfl⟩ | ⟨rfl, rfl⟩ | ⟨rfl, rfl⟩ | ⟨rfl, rfl⟩ <;>
    simp [jump_taken, relation_holds, hab, decide_le_eq_not_lt]

theorem generate_if_statement_spec {G : List global_symbol_t} {cf : global_symbol_t}
    {st st' : gen_state} {d : Data} {relation then_statement : Node} {rest : List Node}
    {sy : Option Symbol}
    (h : generate_statement G cf st
      (.mk .IF_STATEMENT d (relation :: then_statement :: rest) sy) = .ok st') :
    ∃ st1 st2 st3,
      generate_relation G cf
        (emit ⟨st.output, st.while_counter, st.if_counter + 1⟩
          (.label (.numbered "if" st.if_counter))) relation = .ok st1 ∧
      inverse_jump st1 relation.data (.numbered "else" st.if_counter) = .ok st2 ∧
      generate_statement G cf st2 then_statement = .ok st3 ∧
      generate_else G cf
        (emit (emit st3 (.jmp (.numbered "endif" st.if_counter)))
          (.label (.numbered "else" st.if_counter))) st.if_counter rest = .ok st' := by
  rw [generate_statement, generate_if_statement] at h
  split_ifs at h with hlen
  cases h1 : generate_relation G cf
      (emit ⟨st.output, st.while_counter, st.if_counter + 1⟩
        (.label (.numbered "if" st.if_counter))) relation with
  | error e st1 => rw [h1] at h; cases h
  | ok st1 =>
    rw [h1] at h
    simp only at h
    cases h2 : inverse_jump st1 relation.data (.numbered "else" st.if_counter) with
    | error e st2 => rw [h2] at h; cases h
    | ok st2 =>
      rw [h2] at h
      simp only at h
      cases h3 : generate_statement G cf st2 then_statement with
      | error e st3 => rw [h3] at h; cases h
      | ok st3 =>
        rw [h3] at h
        exact ⟨st1, st2, st3, rfl, h2, h3, h⟩

theorem generate_while_statement_spec {G : List global_symbol_t} {cf : global_symbol_t}
    {st st' : gen_state} {d : Data} {relation block : Node} {sy : Option Symbol}
    (h : generate_statement G cf st (.mk .WHILE_STATEMENT d [relation, block] sy) = .ok st') :
    ∃ st1 st2 st3,
      generate_relation G cf
        (emit ⟨st.output, st.while_counter + 1, st.if_counter⟩
          (.label (.numbered "while" st.while_counter))) relation = .ok st1 ∧
      inverse_jump st1 relation.data (.numbered "endwhile" st.while_counter) = .ok st2 ∧
      generate_block_statement G cf st2 block.children = .ok st3 ∧
      st' = emit (emit st3 (.jmp (.numbered "while" st.while_counter)))
        (.label (.numbered "endwhile" st.while_counter)) := by
  obtain ⟨bt, bd, bcs, bsy⟩ := block
  rw [generate_statement, generate_while_statement] at h
  cases h1 : generate_relation G cf
      (emit ⟨st.output, st.while_counter + 1, st.if_counter⟩
        (.label (.numbered "while" st.while_counter))) relation with
  | error e st1 => rw [h1] at h; cases h
  | ok st1 =>
    rw [h1] at h
    simp only at h
    cases h2 : inverse_jump st1 relation.data (.numbered "endwhile" st.while_counter) with
    | error e st2 => rw [h2] at h; cases h
    | ok st2 =>
      rw [h2] at h
      simp only at h
      cases h3 : generate_block_statement G cf st2 bcs with
      | error e st3 => rw [h3] at h; cases h
      | ok st3 =>
        rw [h3] at h
        simp only [gen_result.ok.injEq] at h
        exact ⟨st1, st2, st3, rfl, h2, h3, h.symm⟩

/-! ## The target of a break (C20) -/

/-- C20 does not hold of the code: in
`while 1 < 2 begin while 1 < 2 begin print 1 end  break end` the outer loop
gets the label number 0 and the inner one the number 1; the `break` stands in
the outer loop only, after the inner loop is complete, and the jump written
for it (the fourth line from the end) goes to `endwhile1`, the end of the inner
loop, not to `endwhile0`.  In `while 1 < 2 begin if 1 < 2 then break  break end`
the second `break` of the loop numbered 0 jumps to `endwhile-1`, a label that
no loop defines.  In both cases the counter is left below the number of loops
generated. -/
theorem generate_break_decrements_counter (G : List global_symbol_t) (cf : global_symbol_t) :
    generate_statement G cf example_gen_state example_break_after_loop =
      .ok ⟨[.label (.numbered "while" 0),
          .movq (.imm 1) (.reg .RAX), .pushq (.reg .RAX), .movq (.imm 2) (.reg .RAX),
          .popq (.reg .R10), .cmpq (.reg .RAX) (.reg .R10),
          .jge (.numbered "endwhile" 0),
          .label (.numbered "while" 1),
          .movq (.imm 1) (.reg .RAX), .pushq (.reg .RAX), .movq (.imm 2) (.reg .RAX),
          .popq (.reg .R10), .cmpq (.reg .RAX) (.reg .R10),
          .jge (.numbered "endwhile" 1),
          .movq (.imm 1) (.reg .RAX), .movq (.reg .RAX) (.reg .RSI),
          .leaq_string .intout .RDI, .call (.plain "safe_printf"),
          .movq (.imm 10) (.reg .RDI), .call (.plain "putchar"),
          .jmp (.numbered "while" 1),
          .label (.numbered "endwhile" 1),
          .jmp (.numbered "endwhile" 1),
          .jmp (.numbered "while" 0),
          .label (.numbered "endwhile" 0)], 1, 0⟩ ∧
    generate_statement G cf example_gen_state example_two_breaks =
      .ok ⟨[.label (.numbered "while" 0),
          .movq (.imm 1) (.reg .RAX), .pushq (.reg .RAX), .movq (.imm 2) (.reg .RAX),
          .popq (.reg .R10), .cmpq (.reg .RAX) (.reg .R10),
          .jge (.numbered "endwhile" 0),
          .label (.numbered "if" 0),
          .movq (.imm 1) (.reg .RAX), .pushq (.reg .RAX), .movq (.imm 2) (.reg .RAX),
          .popq (.reg .R10), .cmpq (.reg .RAX) (.reg .R10),
          .jge (.numbered "else" 0),
          .jmp (.numbered "endwhile" 0),
          .jmp (.numbered "endif" 0),
          .label (.numbered "else" 0),
          .label (.numbered "endif" 0),
          .jmp (.numbered "endwhile" (-1)),
          .jmp (.numbered "while" 0),
          .label (.numbered "endwhile" 0)], -1, 1⟩ := by
  constructor <;> rfl

/-! ## Left-recursive list chains (C26) -/

theorem simplify_node_list_kind {K : NodeType} (hK : is_list_kind K = true) (d : Data)
    (cs : List Node) (sy : Option Symbol) :
    simplify_node (.mk K d cs sy) = flatten_list (.mk K d cs sy) := by
  cases K <;> simp [is_list_kind] at hK <;> rfl

theorem simplify_tree_chain_step {K : NodeType} (hK : is_list_kind K = true) (acc x s : Node)
    (items : List Node) (h1 : simplify_tree acc = some (Node.mk K .null items none))
    (h2 : simplify_tree x = some s) :
    simplify_tree (node_init K .null [acc, x]) = some (Node.mk K .null (items ++ [s]) none) := by
  simp [node_init, simplify_tree_mk, simplify_children_cons, simplify_children_nil, h1, h2,
    simplify_node_list_kind hK, flatten_list]

theorem simplify_tree_chain_none (K : NodeType) (rest : List Node) :
    ∀ acc : Node, simplify_tree acc = none →
      simplify_tree (rest.foldl (fun acc x => node_init K .null [acc, x]) acc) = none := by
  induction rest with
  | nil => intro acc h; exact h
  | cons x rest ih =>
    intro acc h
    rw [List.foldl_cons]
    apply ih
    simp [node_init, simplify_tree_mk, simplify_children_cons, h]

theorem simplify_tree_chain_fold {K : NodeType} (hK : is_list_kind K = true)
    (rest : List Node) :
    ∀ (acc : Node) (items : List Node),
      simplify_tree acc = some (Node.mk K .null items none) →
      simplify_tree (rest.foldl (fun acc x => node_init K .null [acc, x]) acc) =
        (simplify_children rest).map (fun ss => Node.mk K .null (items ++ ss) none) := by
  induction rest with
  | nil => intro acc items h; simp [simplify_children_nil, h]
  | cons x rest ih =>
    intro acc items h
    rw [List.foldl_cons]
    cases hx : simplify_tree x with
    | none =>
      rw [simplify_tree_chain_none K rest _ (by
        simp [node_init, simplify_tree_mk, simplify_children_cons, h, hx])]
      simp [simplify_children_cons, hx]
    | some s =>
      rw [ih _ _ (simplify_tree_chain_step hK acc x s items h hx)]
      simp [simplify_children_cons, hx]
      cases simplify_children rest <;> simp

/-- C26: for a list kind `K`, `simplify_tree` turns the left-recursive chain
`K[K[...K[x1], x2...], xn]` into a single `K` node whose children are the
simplified `x1, ..., xn` in their order: the result exists exactly when every
item can be simplified, it has exactly `n` children, and its `i`-th child is
the result of simplifying `xi`. -/
theorem simplify_tree_left_chain (K : NodeType) (hK : is_list_kind K = true) (x1 : Node)
    (rest : List Node) :
    simplify_tree (left_chain K x1 rest) =
      (simplify_children (x1 :: rest)).map (fun ss => Node.mk K .null ss none) ∧
    ∀ ss, simplify_children (x1 :: rest) = some ss →
      ss.length = rest.length + 1 ∧
      List.Forall₂ (fun x s => simplify_tree x = some s) (x1 :: rest) ss := by
  constructor
  · unfold left_chain
    cases h1 : simplify_tree x1 with
    | none =>
      rw [simplify_tree_chain_none K rest _ (by
        simp [node_init, simplify_tree_mk, simplify_children_cons, h1])]
      simp [simplify_children_cons, h1]
    | some s1 =>
      have hb : simplify_tree (node_init K .null [x1]) = some (Node.mk K .null [s1] none) := by
        simp [node_init, simplify_tree_mk, simplify_children_cons, simplify_children_nil, h1,
          simplify_node_list_kind hK, flatten_list]
      rw [simplify_tree_chain_fold hK rest _ _ hb]
      simp [simplify_children_cons, h1]
      cases simplify_children rest <;> simp
  · intro ss h
    have hf := (simplify_children_eq_some _ _).1 h
    exact ⟨by have := hf.length_eq; simp at this; omega, hf⟩

/-- C26, at the chain of three statements `return 1`, `return 2`, `return 3`:
one `STATEMENT_LIST` with the three simplified statements in order. -/
theorem simplify_tree_left_chain_witness :
    simplify_tree example_statement_chain =
      some (Node.mk .STATEMENT_LIST .null
        [node_init .RETURN_STATEMENT .null [number_node 1],
         node_init .RETURN_STATEMENT .null [number_node 2],
         node_init .RETURN_STATEMENT .null [number_node 3]] none) ∧
    simplify_tree example_statement_chain =
      (simplify_children
        [node_init .STATEMENT .null [node_init .RETURN_STATEMENT .null [number_node 1]],
         node_init .STATEMENT .null [node_init .RETURN_STATEMENT .null [number_node 2]],
         node_init .STATEMENT .null [node_init .RETURN_STATEMENT .null [number_node 3]]]).map
        (fun ss => Node.mk .STATEMENT_LIST .null ss none) :=
  ⟨by decide,
    (simplify_tree_left_chain .STATEMENT_LIST (by decide)
      (node_init .STATEMENT .null [node_init .RETURN_STATEMENT .null [number_node 1]])
      [node_init .STATEMENT .null [node_init .RETURN_STATEMENT .null [number_node 2]],
       node_init .STATEMENT .null [node_init .RETURN_STATEMENT .null [number_node 3]]]).1⟩

/-! ## The code of expressions -/

theorem generate_expression_other (G : List global_symbol_t) (cf : global_symbol_t)
    (st : gen_state) (t : NodeType) (d : Data) (cs : List Node) (sy : Option Symbol)
    (h1 : t ≠ .NUMBER_DATA) (h2 : t ≠ .IDENTIFIER_DATA) (h3 : t ≠ .ARRAY_INDEXING)
    (h4 : t ≠ .EXPRESSION) :
    generate_expression G cf st (.mk t d cs sy) = .error .assertion st := by
  rw [generate_expression]
  all_goals simp_all

theorem generate_arguments_code (G : List global_symbol_t) (cf : global_symbol_t)
    (arguments : List Node)
    (ih : ∀ a ∈ arguments, ∀ st st', generate_expression G cf st a = .ok st' →
      ∃ c, Code .value c ∧ ∀ st2, generate_expression G cf st2 a = .ok (emit_all st2 c)) :
    ∀ st st', generate_arguments G cf st arguments = .ok st' →
      ∃ c, Code (.arguments arguments.length) c ∧
        ∀ st2, generate_arguments G cf st2 arguments = .ok (emit_all st2 c) := by
  induction arguments with
  | nil =>
    intro st st' _
    exact ⟨[], Code.no_argument, fun st2 => by rw [generate_arguments, emit_all_nil]⟩
  | cons a rest ihr =>
    intro st st' h
    rw [generate_arguments] at h
    cases h1 : generate_arguments G cf st rest with
    | error e st1 => rw [h1] at h; cases h
    | ok st1 =>
      rw [h1] at h
      simp only at h
      cases h2 : generate_expression G cf st1 a with
      | error e st2 => rw [h2] at h; cases h
      | ok st2 =>
        obtain ⟨cr, hcr, er⟩ := ihr (fun a ha => ih a (List.mem_cons_of_mem _ ha)) st st1 h1
        obtain ⟨ca, hca, ea⟩ := ih a (List.mem_cons_self _ _) st1 st2 h2
        refine ⟨cr ++ ca ++ [.pushq (.reg .RAX)], ?_, fun st3 => ?_⟩
        · show Code (.arguments (rest.length + 1)) _
          exact Code.argument hcr hca
        rw [generate_arguments, er st3]
        simp only
        rw [ea]
        simp [emit_eq_emit_all, emit_all_emit_all]

theorem generate_function_call_body_code (G : List global_symbol_t) (cf : global_symbol_t)
    (cs : List Node)
    (ih : ∀ c ∈ cs, ∀ a ∈ c.children, ∀ st st', generate_expression G cf st a = .ok st' →
      ∃ c, Code .value c ∧ ∀ st2, generate_expression G cf st2 a = .ok (emit_all st2 c)) :
    ∀ st st', generate_function_call_body G cf st cs = .ok st' →
      ∃ c, Code .value c ∧
        ∀ st2, generate_function_call_body G cf st2 cs = .ok (emit_all st2 c) := by
  intro st st' h
  rcases cs with _ | ⟨callee, _ | ⟨⟨at_, ad, arguments, asy⟩, tail⟩⟩
  · rw [generate_function_call_body] at h; cases h
  · rw [generate_function_call_body] at h
    cases hs : callee.symbol with
    | none => simp [hs] at h
    | some symbol =>
      simp only [hs] at h
      by_cases hf : symbol.type ≠ .SYMBOL_FUNCTION
      · rw [if_pos hf] at h; cases h
      · rw [if_neg hf] at h; cases h
  · rw [generate_function_call_body] at h
    cases hs : callee.symbol with
    | none => simp [hs] at h
    | some symbol =>
      simp only [hs] at h
      by_cases hf : symbol.type ≠ .SYMBOL_FUNCTION
      · rw [if_pos hf] at h; cases h
      rw [if_neg hf] at h
      cases hp : (function_entry G symbol).bind FUNC_PARAM_COUNT with
      | none => simp [hp] at h
      | some parameter_count =>
        simp only [hp] at h
        by_cases hn : parameter_count ≠ arguments.length
        · rw [if_pos hn] at h; cases h
        rw [if_neg hn] at h
        cases ha : generate_arguments G cf st arguments with
        | error e st1 => rw [ha] at h; cases h
        | ok st1 =>
          obtain ⟨c, hc, ec⟩ := generate_arguments_code G cf arguments
            (fun a ha => ih (Node.mk at_ ad arguments asy) (by simp) a ha) st st1 ha
          have hn' : parameter_count = arguments.length := by
            by_contra hne; exact hn hne
          refine ⟨c ++ call_tail symbol.name arguments.length, Code.call symbol.name hc,
            fun st2 => ?_⟩
          rw [generate_function_call_body]
          simp only [hs, hp]
          rw [if_neg hf, if_neg hn, ec st2]
          simp [emit_all_emit_all, call_tail, hn']

theorem generate_array_access_body_code (G : List global_symbol_t) (cf : global_symbol_t)
    (cs : List Node)
    (ih : ∀ a ∈ cs, ∀ st st', generate_expression G cf st a = .ok st' →
      ∃ c, Code .value c ∧ ∀ st2, generate_expression G cf st2 a = .ok (emit_all st2 c)) :
    ∀ st st', generate_array_access_body G cf st cs = .ok st' →
      ∃ c name, Code .value c ∧
        ∀ st2, generate_array_access_body G cf st2 cs =
          .ok (emit_all st2 (c ++ [.leaq_global name .R10, .leaq_index .R10 .RAX .R10])) := by
  intro st st' h
  rcases cs with _ | ⟨array, rest⟩
  · rw [generate_array_access_body] at h; cases h
  · rw [generate_array_access_body] at h
    cases hs : array.symbol with
    | none => simp [hs] at h
    | some symbol =>
      simp only [hs] at h
      by_cases hf : symbol.type ≠ .SYMBOL_GLOBAL_ARRAY
      · rw [if_pos hf] at h; cases h
      rw [if_neg hf] at h
      rcases rest with _ | ⟨index, tail⟩
      · cases h
      · dsimp only at h
        cases hi : generate_expression G cf st index with
        | error e st1 => rw [hi] at h; cases h
        | ok st1 =>
          obtain ⟨c, hc, ec⟩ := ih index (by simp) st st1 hi
          refine ⟨c, symbol.name, hc, fun st2 => ?_⟩
          rw [generate_array_access_body]
          simp only [hs]
          rw [if_neg hf]
          rw [ec st2]
          simp [emit_eq_emit_all, emit_all_emit_all]

theorem binary_code {G : List global_symbol_t} {cf : global_symbol_t} {a b : Node}
    (ha : writes_value_code G cf a) (hb : writes_value_code G cf b) {st st1 st2 : gen_state}
    (h1 : generate_expression G cf st a = .ok st1)
    (h2 : generate_expression G cf (emit st1 (.pushq (.reg .RAX))) b = .ok st2) :
    ∃ ca cb, Code .value ca ∧ Code .value cb ∧
      (∀ s, generate_expression G cf s a = .ok (emit_all s ca)) ∧
      (∀ s, generate_expression G cf s b = .ok (emit_all s cb)) := by
  obtain ⟨ca, hca, ea⟩ := ha st st1 h1
  obtain ⟨cb, hcb, eb⟩ := hb _ st2 h2
  exact ⟨ca, cb, hca, hcb, ea, eb⟩

theorem generate_expression_code_aux (G : List global_symbol_t) (cf : global_symbol_t)
    (e : Node) : writes_value_code G cf e ∧ ∀ c ∈ e.children, writes_value_code G cf c := by
  induction e using Node.induction with
  | h t d cs sy ih =>
    refine ⟨?_, fun c hc => (ih c hc).1⟩
    intro st st' h
    by_cases h1 : t = .NUMBER_DATA
    · subst h1
      cases d with
      | num value =>
        exact ⟨_, Code.load (.imm value), fun st2 => by
          rw [generate_expression, emit_eq_emit_all]⟩
      | null => simp [generate_expression] at h
      | str s => simp [generate_expression] at h
    by_cases h2 : t = .IDENTIFIER_DATA
    · subst h2
      rw [generate_expression] at h
      cases hv : generate_variable_access cf (.mk .IDENTIFIER_DATA d cs sy) with
      | error e => rw [hv] at h; cases h
      | ok operand =>
        exact ⟨_, Code.load operand, fun st2 => by
          rw [generate_expression, hv]; rfl⟩
    by_cases h3 : t = .ARRAY_INDEXING
    · subst h3
      rw [generate_expression] at h
      cases ha : generate_array_access_body G cf st cs with
      | error e st1 => rw [ha] at h; cases h
      | ok st1 =>
        obtain ⟨c, name, hc, ec⟩ :=
          generate_array_access_body_code G cf cs (fun a ha => (ih a ha).1) st st1 ha
        refine ⟨_, Code.element name hc, fun st2 => ?_⟩
        rw [generate_expression, ec st2]
        simp [emit_eq_emit_all, emit_all_emit_all]
    by_cases h4 : t = .EXPRESSION
    · subst h4
      cases d with
      | null => simp [generate_expression] at h
      | num v => simp [generate_expression] at h
      | str data =>
        by_cases c1 : data = "call"
        · subst c1
          have hcall : ∀ s, generate_expression G cf s (.mk .EXPRESSION (.str "call") cs sy) =
              generate_function_call_body G cf s cs := by
            intro s
            rcases cs with _ | ⟨l, _ | ⟨r, tail⟩⟩ <;> simp [generate_expression]
          rw [hcall] at h
          obtain ⟨c, hc, ec⟩ := generate_function_call_body_code G cf cs
            (fun c hc a ha => (ih c hc).2 a ha) st st' h
          exact ⟨c, hc, fun s => by rw [hcall, ec s]⟩
        rcases cs with _ | ⟨l, _ | ⟨r, tail⟩⟩
        · simp [generate_expression, c1] at h
          split_ifs at h
        · rw [generate_expression] at h
          rw [if_neg c1] at h
          by_cases c2 : data = "+"
          · rw [if_pos c2] at h
            cases hl : generate_expression G cf st l <;> rw [hl] at h <;> cases h
          rw [if_neg c2] at h
          by_cases c3 : data = "-"
          · rw [if_pos c3] at h
            subst c3
            cases hl : generate_expression G cf st l with
            | error e st1 => rw [hl] at h; cases h
            | ok st1 =>
              obtain ⟨c, hc, ec⟩ := (ih l (by simp)).1 st st1 hl
              refine ⟨_, Code.negate hc, fun s => ?_⟩
              rw [generate_expression]
              simp [ec s, emit_eq_emit_all, emit_all_emit_all]
          rw [if_neg c3] at h
          split_ifs at h
          cases hl : generate_expression G cf st l <;> rw [hl] at h <;> cases h
        · rw [generate_expression] at h
          rw [if_neg c1] at h
          have hl := (ih l (by simp)).1
          have hr := (ih r (by simp)).1
          by_cases c2 : data = "+"
          · rw [if_pos c2] at h
            subst c2
            cases e1 : generate_expression G cf st l with
            | error e st1 => rw [e1] at h; cases h
            | ok st1 =>
              rw [e1] at h
              dsimp only at h
              cases e2 : generate_expression G cf (emit st1 (.pushq (.reg .RAX))) r with
              | error e st2 => rw [e2] at h; cases h
              | ok st2 =>
                obtain ⟨ca, cb, hca, hcb, ea, eb⟩ := binary_code hl hr e1 e2
                refine ⟨_, Code.binary (.addq (.reg .R10) (.reg .RAX)) (Or.inl rfl) hca hcb,
                  fun s => ?_⟩
                rw [generate_expression]
                simp [ea s, eb, emit_eq_emit_all, emit_all_emit_all]
          rw [if_neg c2] at h
          by_cases c3 : data = "-"
          · rw [if_pos c3] at h
            subst c3
            cases e1 : generate_expression G cf st r with
            | error e st1 => rw [e1] at h; cases h
            | ok st1 =>
              rw [e1] at h
              dsimp only at h
              cases e2 : generate_expression G cf (emit st1 (.pushq (.reg .RAX))) l with
              | error e st2 => rw [e2] at h; cases h
              | ok st2 =>
                obtain ⟨ca, cb, hca, hcb, ea, eb⟩ := binary_code hr hl e1 e2
                refine ⟨_, Code.binary (.subq (.reg .R10) (.reg .RAX)) (Or.inr (Or.inl rfl))
                  hca hcb, fun s => ?_⟩
                rw [generate_expression]
                simp [ea s, eb, emit_eq_emit_all, emit_all_emit_all]
          rw [if_neg c3] at h
          by_cases c4 : data = "*"
          · rw [if_pos c4] at h
            subst c4
            cases e1 : generate_expression G cf st l with
            | error e st1 => rw [e1] at h; cases h
            | ok st1 =>
              rw [e1] at h
              dsimp only at h
              cases e2 : generate_expression G cf (emit st1 (.pushq (.reg .RAX))) r with
              | error e st2 => rw [e2] at h; cases h
              | ok st2 =>
                obtain ⟨ca, cb, hca, hcb, ea, eb⟩ := binary_code hl hr e1 e2
                refine ⟨_, Code.binary (.imulq (.reg .R10) (.reg .RAX)) (Or.inr (Or.inr rfl))
                  hca hcb, fun s => ?_⟩
                rw [generate_expression]
                simp [ea s, eb, emit_eq_emit_all, emit_all_emit_all]
          rw [if_neg c4] at h
          by_cases c5 : data = "/"
          · rw [if_pos c5] at h
            subst c5
            cases e1 : generate_expression G cf st r with
            | error e st1 => rw [e1] at h; cases h
            | ok st1 =>
              rw [e1] at h
              dsimp only at h
              cases e2 : generate_expression G cf (emit st1 (.pushq (.reg .RAX))) l with
              | error e st2 => rw [e2] at h; cases h
              | ok st2 =>
                obtain ⟨ca, cb, hca, hcb, ea, eb⟩ := binary_code hr hl e1 e2
                refine ⟨_, Code.divide hca hcb, fun s => ?_⟩
                rw [generate_expression]
                simp [ea s, eb, emit_eq_emit_all, emit_all_emit_all]
          rw [if_neg c5] at h
          cases h
    · rw [generate_expression_other G cf st t d cs sy h1 h2 h3 h4] at h
      cases h

theorem generate_expression_code (G : List global_symbol_t) (cf : global_symbol_t) (e : Node) :
    writes_value_code G cf e :=
  (generate_expression_code_aux G cf e).1

/-! ## Expression code is stack-neutral (C29) -/

theorem stack_trace_append (a b : List Instr) (d : Int) :
    stack_trace d (a ++ b) = (stack_trace d a).bind (fun d1 => stack_trace d1 b) := by
  induction a generalizing d with
  | nil => rfl
  | cons i a ih =>
    simp only [List.cons_append, stack_trace]
    split
    · rfl
    · exact ih _

theorem stack_trace_append_some {a b : List Instr} {d d1 : Int} (h : stack_trace d a = some d1) :
    stack_trace d (a ++ b) = stack_trace d1 b := by
  rw [stack_trace_append, h]; rfl

theorem stack_trace_pops (regs : List Reg) (d : Int) (hd : 0 ≤ d) :
    stack_trace (d + 8 * regs.length) (regs.map (fun r => Instr.popq (.reg r))) = some d := by
  induction regs with
  | nil => simp [stack_trace]
  | cons r regs ih =>
    simp only [List.map_cons, stack_trace, stack_change, List.length_cons]
    rw [if_neg (by push_cast; omega)]
    have e : d + 8 * ((regs.length + 1 : Nat) : Int) + -8 = d + 8 * (regs.length : Int) := by
      push_cast; ring
    rw [e]
    exact ih

theorem stack_trace_call_tail (name : String) (n : Nat) (d : Int) (hd : 0 ≤ d) :
    stack_trace (d + 8 * n) (call_tail name n) = some d := by
  unfold call_tail
  have hlen : (REGISTER_PARAMS.take n).length = min n 6 := by
    simp [REGISTER_PARAMS]
  by_cases h : n > NUM_REGISTER_PARAMS
  · have h6 : n > 6 := h
    rw [if_pos h]
    have e : d + 8 * (n : Int) =
        (d + 8 * ((n - 6 : Nat) : Int)) + 8 * ((REGISTER_PARAMS.take n).length : Nat) := by
      rw [hlen, Nat.min_eq_right (by omega)]
      push_cast [Nat.cast_sub (by omega : 6 ≤ n)]
      ring
    rw [e, List.append_assoc,
      stack_trace_append_some (stack_trace_pops _ _ (by positivity))]
    simp only [List.singleton_append, stack_trace, stack_change, NUM_REGISTER_PARAMS]
    rw [if_neg (by omega), if_neg (by omega)]
    congr 1
    omega
  · have h6 : n ≤ 6 := Nat.le_of_not_gt h
    rw [if_neg h]
    have e : d + 8 * (n : Int) = d + 8 * ((REGISTER_PARAMS.take n).length : Nat) := by
      rw [hlen, Nat.min_eq_left h6]
    rw [e, List.append_assoc, stack_trace_append_some (stack_trace_pops _ _ hd)]
    simp [stack_trace, stack_change, hd]

theorem stack_trace_push_between {c1 c2 : List Instr} {d : Int} (hd : 0 ≤ d)
    (s1 : stack_trace d c1 = some d) (s2 : stack_trace (d + 8) c2 = some (d + 8)) :
    stack_trace d (c1 ++ [Instr.pushq (.reg .RAX)] ++ c2) = some (d + 8) := by
  rw [List.append_assoc, stack_trace_append_some s1]
  simp only [List.singleton_append, stack_trace, stack_change]
  rw [if_neg (by omega)]
  exact s2

theorem stack_trace_code {k : CodeKind} {c : List Instr} (h : Code k c) :
    ∀ d : Int, 0 ≤ d → stack_trace d c = some (d + k.pushed) := by
  induction h with
  | load src => intro d hd; simp [stack_trace, stack_change, hd, CodeKind.pushed]
  | element name _ ih =>
    intro d hd
    rw [stack_trace_append_some (ih d hd)]
    simp [stack_trace, stack_change, hd, CodeKind.pushed]
  | negate _ ih =>
    intro d hd
    rw [stack_trace_append_some (ih d hd)]
    simp [stack_trace, stack_change, hd, CodeKind.pushed]
  | binary op hop _ _ ih1 ih2 =>
    intro d hd
    have s1 := ih1 d hd
    have s2 := ih2 (d + 8) (by omega)
    simp only [CodeKind.pushed, add_zero] at s1 s2
    rw [stack_trace_append_some (stack_trace_push_between hd s1 s2)]
    rcases hop with rfl | rfl | rfl <;> simp [stack_trace, stack_change, hd, CodeKind.pushed]
  | divide _ _ ih1 ih2 =>
    intro d hd
    have s1 := ih1 d hd
    have s2 := ih2 (d + 8) (by omega)
    simp only [CodeKind.pushed, add_zero] at s1 s2
    rw [stack_trace_append_some (stack_trace_push_between hd s1 s2)]
    have h8 : 0 ≤ d + 8 := by omega
    simp [stack_trace, stack_change, hd, h8, CodeKind.pushed]
  | no_argument => intro d hd; simp [stack_trace, CodeKind.pushed]
  | @argument n later c _ _ ih1 ih2 =>
    intro d hd
    have s1 := ih1 d hd
    have s2 := ih2 (d + 8 * (n : Int)) (by positivity)
    simp only [CodeKind.pushed, add_zero] at s1 s2
    rw [List.append_assoc, stack_trace_append_some s1, stack_trace_append_some s2]
    simp only [stack_trace, stack_change, CodeKind.pushed]
    rw [if_neg (by omega)]
    congr 1
    push_cast
    ring
  | @call name n c _ ih =>
    intro d hd
    rw [stack_trace_append_some (ih d hd)]
    simp only [CodeKind.pushed, add_zero]
    exact stack_trace_call_tail name n d hd

/-- C29: whenever `generate_expression` succeeds on a node (numbers,
identifiers, array elements, operators, calls with any number of arguments),
what it appends to the output is stack-neutral: counting 8 bytes for each
`pushq`, -8 for each `popq` and `-k` for `addq $k, %rsp`, the count returns to
its start at the end of the code and is never below its start before (from
any start `d ≥ 0`, in particular from 0). -/
theorem generate_expression_stack_neutral (G : List global_symbol_t) (cf : global_symbol_t)
    (st st' : gen_state) (e : Node) (h : generate_expression G cf st e = .ok st') :
    ∃ code, st' = emit_all st code ∧ stack_trace 0 code = some 0 ∧
      ∀ d : Int, 0 ≤ d → stack_trace d code = some d := by
  obtain ⟨c, hc, ec⟩ := generate_expression_code G cf e st st' h
  have e1 := ec st
  rw [h] at e1
  simp only [gen_result.ok.injEq] at e1
  have ht := stack_trace_code hc
  simp only [CodeKind.pushed, add_zero] at ht
  exact ⟨c, e1, ht 0 (le_refl 0), ht⟩

/-- C29, at the call `f(1, 2, 3, 4, 5, 6, x)`: seven pushes, six pops and
`addq $8, %rsp`. -/
theorem generate_expression_stack_neutral_witness :
    generate_expression example_seven_tables.global_symbols example_seven_main
        example_gen_state example_seven_call =
      .ok (emit_all example_gen_state (arguments_code example_seven_codes ++ call_tail "f" 7)) ∧
    ∃ code, emit_all example_gen_state (arguments_code example_seven_codes ++ call_tail "f" 7) =
        emit_all example_gen_state code ∧ stack_trace 0 code = some 0 ∧
      ∀ d : Int, 0 ≤ d → stack_trace d code = some d :=
  ⟨by decide,
    generate_expression_stack_neutral example_seven_tables.global_symbols example_seven_main
      example_gen_state _ example_seven_call (by decide)⟩

/-! ## The code of a call (C21) -/

theorem arguments_code_cons (c : List Instr) (codes : List (List Instr)) :
    arguments_code (c :: codes) = arguments_code codes ++ c ++ [Instr.pushq (.reg .RAX)] := by
  simp [arguments_code]

theorem generate_arguments_codes (G : List global_symbol_t) (cf : global_symbol_t)
    {arguments : List Node} {codes : List (List Instr)}
    (h : List.Forall₂ (fun a c => ∀ s, generate_expression G cf s a = .ok (emit_all s c))
      arguments codes) :
    ∀ st, generate_arguments G cf st arguments = .ok (emit_all st (arguments_code codes)) := by
  induction h with
  | nil => intro st; rw [generate_arguments]; simp [arguments_code, emit_all_nil]
  | cons h1 _ ih =>
    intro st
    rw [generate_arguments, ih st]
    dsimp only
    rw [h1]
    simp [arguments_code_cons, emit_eq_emit_all, emit_all_emit_all]

theorem generate_arguments_codes_exist (G : List global_symbol_t) (cf : global_symbol_t)
    (arguments : List Node) :
    ∀ st st', generate_arguments G cf st arguments = .ok st' →
      ∃ codes, List.Forall₂
        (fun a c => ∀ s, generate_expression G cf s a = .ok (emit_all s c)) arguments codes := by
  induction arguments with
  | nil => intro st st' _; exact ⟨[], List.Forall₂.nil⟩
  | cons a rest ih =>
    intro st st' h
    rw [generate_arguments] at h
    cases h1 : generate_arguments G cf st rest with
    | error e st1 => rw [h1] at h; cases h
    | ok st1 =>
      rw [h1] at h
      dsimp only at h
      cases h2 : generate_expression G cf st1 a with
      | error e st2 => rw [h2] at h; cases h
      | ok st2 =>
        obtain ⟨codes, hc⟩ := ih st st1 h1
        obtain ⟨c, -, ec⟩ := generate_expression_code G cf a st1 st2 h2
        exact ⟨c :: codes, List.Forall₂.cons ec hc⟩

theorem run_pops (regs : List Reg) :
    ∀ (vs : List Int) (m : machine) (below : List Int),
      (∀ r ∈ regs, r.is_data = true) → regs.Nodup → vs.length = regs.length →
      m.stack = vs ++ below →
      ∃ m1, run m (regs.map (fun r => Instr.popq (.reg r))) = some m1 ∧ m1.stack = below ∧
        (∀ p ∈ regs.zip vs, m1.regs p.1 = p.2) ∧ ∀ r, r ∉ regs → m1.regs r = m.regs r := by
  induction regs with
  | nil =>
    intro vs m below _ _ hl hs
    have : vs = [] := List.length_eq_zero.1 (by simpa using hl)
    subst this
    exact ⟨m, rfl, by simpa using hs, by simp, fun _ _ => rfl⟩
  | cons r regs ih =>
    intro vs m below hd hn hl hs
    rcases vs with _ | ⟨v, vs⟩
    · simp at hl
    have hr : r.is_data = true := hd r (by simp)
    obtain ⟨m1, r1, s1, z1, o1⟩ := ih vs ⟨(m.set r v).regs, vs ++ below, m.compared⟩ below
      (fun x hx => hd x (List.mem_cons_of_mem _ hx)) (List.nodup_cons.1 hn).2
      (by simpa using hl) rfl
    refine ⟨m1, ?_, s1, ?_, ?_⟩
    · simp only [List.map_cons, run, execute, hs, List.cons_append, hr, if_true]
      exact r1
    · intro p hp
      simp only [List.zip_cons_cons, List.mem_cons] at hp
      rcases hp with rfl | hp
      · rw [o1 r (List.nodup_cons.1 hn).1]
        simp [machine.set]
      · exact z1 p hp
    · intro x hx
      simp only [List.mem_cons, not_or] at hx
      rw [o1 x hx.2]
      simp [machine.set, hx.1]

theorem generate_function_call_unfold (G : List global_symbol_t) (cf : global_symbol_t)
    (st : gen_state) (callee arguments_node : Node) (tail : List Node) (d : Data)
    (sy : Option Symbol) (symbol : Symbol) (entry : global_symbol_t) (n : Nat)
    (hs : callee.symbol = some symbol) (hf : symbol.type = .SYMBOL_FUNCTION)
    (he : function_entry G symbol = some entry) (hp : FUNC_PARAM_COUNT entry = some n)
    (hn : arguments_node.children.length = n) :
    generate_function_call G cf st (.mk .EXPRESSION d (callee :: arguments_node :: tail) sy) =
      match generate_arguments G cf st arguments_node.children with
      | .ok st1 => .ok (emit_all st1 (call_tail symbol.name n))
      | .error e st1 => .error e st1 := by
  obtain ⟨at_, ad, arguments, asy⟩ := arguments_node
  rw [Node.children_mk] at hn
  unfold generate_function_call
  rw [Node.children_mk, generate_function_call_body]
  simp only [hs, he, hp, Option.some_bind, Node.children_mk]
  rw [if_neg (by simp [hf]), if_neg (by simp [hn])]
  rfl

theorem register_params_data : ∀ r ∈ REGISTER_PARAMS, r.is_data = true := by decide

/-- C21: for a call whose callee is bound to a function with `n` parameters
and which has `n` arguments, `generate_function_call` writes, given the code
of each argument: the code of the last argument and a push of `%rax`, and so
on down to the code of the first argument and its push; then the pops of the
first `min(n, 6)` of `rdi, rsi, rdx, rcx, r8, r9`, in this order; then
`call .name`; then, exactly when `n > 6`, `addq $(n-6)*8, %rsp`.  Whenever the
call is generated without error its output has this form.  Run on a stack that
holds the arguments in order, first argument on top, the pops leave argument
`i` in the `i`-th parameter register for `i < 6`. -/
theorem generate_function_call_emits (G : List global_symbol_t) (cf : global_symbol_t)
    (st : gen_state) (callee arguments_node : Node) (tail : List Node) (d : Data)
    (sy : Option Symbol) (symbol : Symbol) (entry : global_symbol_t) (n : Nat)
    (hs : callee.symbol = some symbol) (hf : symbol.type = .SYMBOL_FUNCTION)
    (he : function_entry G symbol = some entry) (hp : FUNC_PARAM_COUNT entry = some n)
    (hn : arguments_node.children.length = n) :
    (∀ codes,
      List.Forall₂ (fun a c => ∀ s, generate_expression G cf s a = .ok (emit_all s c))
        arguments_node.children codes →
      generate_function_call G cf st
          (.mk .EXPRESSION d (callee :: arguments_node :: tail) sy) =
        .ok (emit_all st (arguments_code codes ++ call_tail symbol.name n))) ∧
    (∀ st', generate_function_call G cf st
          (.mk .EXPRESSION d (callee :: arguments_node :: tail) sy) = .ok st' →
      ∃ codes,
        List.Forall₂ (fun a c => ∀ s, generate_expression G cf s a = .ok (emit_all s c))
          arguments_node.children codes ∧
        st' = emit_all st (arguments_code codes ++ call_tail symbol.name n)) ∧
    call_tail symbol.name n =
      (REGISTER_PARAMS.take (min n 6)).map (fun r => Instr.popq (.reg r)) ++
        [.call (.function symbol.name)] ++
        (if n > 6 then [.addq (.imm (((n - 6 : Nat) : Int) * 8)) (.reg .RSP)] else []) ∧
    (∀ (m : machine) (vs below : List Int), vs.length = min n 6 → m.stack = vs ++ below →
      ∃ m1, run m ((REGISTER_PARAMS.take (min n 6)).map (fun r => Instr.popq (.reg r))) =
          some m1 ∧
        m1.stack = below ∧
        ∀ p ∈ (REGISTER_PARAMS.take (min n 6)).zip vs, m1.regs p.1 = p.2) := by
  have hu := generate_function_call_unfold G cf st callee arguments_node tail d sy symbol entry
    n hs hf he hp hn
  refine ⟨?_, ?_, ?_, ?_⟩
  · intro codes hc
    rw [hu, generate_arguments_codes G cf hc st]
    simp [emit_all_emit_all]
  · intro st' h
    rw [hu] at h
    cases ha : generate_arguments G cf st arguments_node.children with
    | error e st1 => rw [ha] at h; cases h
    | ok st1 =>
      obtain ⟨codes, hc⟩ := generate_arguments_codes_exist G cf _ st st1 ha
      refine ⟨codes, hc, ?_⟩
      rw [generate_arguments_codes G cf hc st] at h
      simp only [gen_result.ok.injEq, emit_all_emit_all] at h
      exact h.symm
  · unfold call_tail
    rw [take_register_params]
    rfl
  · intro m vs below hl hs'
    obtain ⟨m1, r1, s1, z1, -⟩ := run_pops (REGISTER_PARAMS.take (min n 6)) vs m below
      (fun r hr => register_params_data r (List.mem_of_mem_take hr))
      (List.Nodup.sublist (List.take_sublist _ _) (by decide))
      (by rw [hl]; simp [REGISTER_PARAMS])
      hs'
    exact ⟨m1, r1, s1, z1⟩

/-- C21, at `f(1, 2, 3, 4, 5, 6, x)`: the push of `x` comes first, the six
pops follow the push of `1`, and `addq $8, %rsp` follows the call. -/
theorem generate_function_call_emits_witness :
    generate_function_call example_seven_tables.global_symbols example_seven_main
        example_gen_state example_seven_call =
      .ok (emit_all example_gen_state
        ([.movq (.frame (-8)) (.reg .RAX), .pushq (.reg .RAX),
          .movq (.imm 6) (.reg .RAX), .pushq (.reg .RAX),
          .movq (.imm 5) (.reg .RAX), .pushq (.reg .RAX),
          .movq (.imm 4) (.reg .RAX), .pushq (.reg .RAX),
          .movq (.imm 3) (.reg .RAX), .pushq (.reg .RAX),
          .movq (.imm 2) (.reg .RAX), .pushq (.reg .RAX),
          .movq (.imm 1) (.reg .RAX), .pushq (.reg .RAX)] ++
        [.popq (.reg .RDI), .popq (.reg .RSI), .popq (.reg .RDX), .popq (.reg .RCX),
          .popq (.reg .R8), .popq (.reg .R9), .call (.function "f"),
          .addq (.imm 8) (.reg .RSP)])) :=
  (generate_function_call_emits example_seven_tables.global_symbols example_seven_main
    example_gen_state example_seven_identifier example_seven_arguments [] (.str "call") none
    ⟨"f", .SYMBOL_FUNCTION, 0⟩ example_seven_callee 7 rfl rfl (by decide) (by decide)
    (by decide)).1 example_seven_codes
    (.cons (fun _ => rfl) (.cons (fun _ => rfl) (.cons (fun _ => rfl) (.cons (fun _ => rfl)
      (.cons (fun _ => rfl) (.cons (fun _ => rfl) (.cons (fun _ => rfl) .nil)))))))

/-! ## Errors of calls and accesses (C22) -/

/-- C22, as stated, fails: in `def f(a) begin return f(f) end` the callee of
the call `f(f)` is bound to a function, the function has one parameter and the
call has one argument, and yet the code generation of the call fails with an
error, having emitted no instruction: the argument `f` is a function used as a
variable. -/
theorem generate_call_fails_in_argument :
    function_bodies example_self_argument_tables.global_symbols =
      [node_init .BLOCK .null
        [node_init .STATEMENT_LIST .null
          [node_init .RETURN_STATEMENT .null [example_self_argument_call]]]] ∧
    example_function_identifier.symbol = some ⟨"f", .SYMBOL_FUNCTION, 0⟩ ∧
    (function_entry example_self_argument_tables.global_symbols
      ⟨"f", .SYMBOL_FUNCTION, 0⟩).bind FUNC_PARAM_COUNT = some 1 ∧
    (node_init .ARGUMENT_LIST .null [example_function_identifier]).children.length = 1 ∧
    generate_function_call example_self_argument_tables.global_symbols
        example_self_argument_entry example_gen_state example_self_argument_call =
      .error (.function_as_variable "f") example_gen_state := by
  decide

theorem generate_function_call_not_function (G : List global_symbol_t) (cf : global_symbol_t)
    (st : gen_state) (callee : Node) (rest : List Node) (d : Data) (sy : Option Symbol)
    (symbol : Symbol) (hs : callee.symbol = some symbol)
    (hf : symbol.type ≠ .SYMBOL_FUNCTION) :
    generate_function_call G cf st (.mk .EXPRESSION d (callee :: rest) sy) =
      .error (.not_a_function symbol.name) st := by
  unfold generate_function_call
  rw [Node.children_mk, generate_function_call_body]
  simp only [hs]
  rw [if_pos hf]

theorem generate_function_call_count (G : List global_symbol_t) (cf : global_symbol_t)
    (st : gen_state) (callee arguments_node : Node) (tail : List Node) (d : Data)
    (sy : Option Symbol) (symbol : Symbol) (entry : global_symbol_t) (n : Nat)
    (hs : callee.symbol = some symbol) (hf : symbol.type = .SYMBOL_FUNCTION)
    (he : function_entry G symbol = some entry) (hp : FUNC_PARAM_COUNT entry = some n)
    (hn : n ≠ arguments_node.children.length) :
    generate_function_call G cf st (.mk .EXPRESSION d (callee :: arguments_node :: tail) sy) =
      .error (.argument_count symbol.name n arguments_node.children.length) st := by
  obtain ⟨at_, ad, arguments, asy⟩ := arguments_node
  rw [Node.children_mk] at hn
  unfold generate_function_call
  rw [Node.children_mk, generate_function_call_body]
  simp only [hs, he, hp, Option.some_bind, Node.children_mk]
  rw [if_neg (by simp [hf]), if_pos hn]

/-- C22, amended: for a call whose callee is bound to `symbol` (and, if that is
a function, to an entry with `n` parameters): when the symbol is not a function
or `n` differs from the number of arguments, generation stops with the
corresponding error in the state it started in, so no instruction of the call
has been written; otherwise the call goes on to its arguments and fails exactly
when their generation fails; hence, when the arguments can be generated, the
call fails exactly in the two cases named.  An identifier bound to a function
or to a global array is refused as a variable, and indexing a symbol that is
not a global array is refused, each with its error: read in an expression,
before anything is written; as the destination of an assignment, after the
code of the assigned expression (and, for an indexed destination, the push of
`%rax`) has been written. -/
theorem generate_function_call_fails_iff (G : List global_symbol_t) (cf : global_symbol_t)
    (st : gen_state) (callee arguments_node : Node) (tail : List Node) (d : Data)
    (sy : Option Symbol) (symbol : Symbol) (entry : global_symbol_t) (n : Nat)
    (hs : callee.symbol = some symbol)
    (hw : symbol.type = .SYMBOL_FUNCTION →
      function_entry G symbol = some entry ∧ FUNC_PARAM_COUNT entry = some n) :
    (symbol.type ≠ .SYMBOL_FUNCTION →
      generate_function_call G cf st
          (.mk .EXPRESSION d (callee :: arguments_node :: tail) sy) =
        .error (.not_a_function symbol.name) st) ∧
    (symbol.type = .SYMBOL_FUNCTION → n ≠ arguments_node.children.length →
      generate_function_call G cf st
          (.mk .EXPRESSION d (callee :: arguments_node :: tail) sy) =
        .error (.argument_count symbol.name n arguments_node.children.length) st) ∧
    (symbol.type = .SYMBOL_FUNCTION → n = arguments_node.children.length →
      generate_function_call G cf st
          (.mk .EXPRESSION d (callee :: arguments_node :: tail) sy) =
        match generate_arguments G cf st arguments_node.children with
        | .ok st1 => .ok (emit_all st1 (call_tail symbol.name n))
        | .error e st1 => .error e st1) ∧
    ((∃ st1, generate_arguments G cf st arguments_node.children = .ok st1) →
      ((∃ e st', generate_function_call G cf st
          (.mk .EXPRESSION d (callee :: arguments_node :: tail) sy) = .error e st') ↔
        (symbol.type ≠ .SYMBOL_FUNCTION ∨ n ≠ arguments_node.children.length))) ∧
    (∀ d' cs name seq,
      generate_expression G cf st
          (.mk .IDENTIFIER_DATA d' cs (some ⟨name, .SYMBOL_FUNCTION, seq⟩)) =
        .error (.function_as_variable name) st ∧
      generate_expression G cf st
          (.mk .IDENTIFIER_DATA d' cs (some ⟨name, .SYMBOL_GLOBAL_ARRAY, seq⟩)) =
        .error (.array_as_variable name) st) ∧
    (∀ d' first rest sy' other, first.symbol = some other →
      other.type ≠ .SYMBOL_GLOBAL_ARRAY →
      generate_array_access G cf st (.mk .ARRAY_INDEXING d' (first :: rest) sy') =
        .error (.not_an_array other.name) st ∧
      generate_expression G cf st (.mk .ARRAY_INDEXING d' (first :: rest) sy') =
        .error (.not_an_array other.name) st) ∧
    (∀ d' d'' cs name seq expression rest sy',
      generate_assignment_statement G cf st
          (.mk .ASSIGNMENT_STATEMENT d'
            (.mk .IDENTIFIER_DATA d'' cs (some ⟨name, .SYMBOL_FUNCTION, seq⟩) ::
              expression :: rest) sy') =
        (match generate_expression G cf st expression with
        | .ok st1 => .error (.function_as_variable name) st1
        | .error e st1 => .error e st1) ∧
      generate_assignment_statement G cf st
          (.mk .ASSIGNMENT_STATEMENT d'
            (.mk .IDENTIFIER_DATA d'' cs (some ⟨name, .SYMBOL_GLOBAL_ARRAY, seq⟩) ::
              expression :: rest) sy') =
        (match generate_expression G cf st expression with
        | .ok st1 => .error (.array_as_variable name) st1
        | .error e st1 => .error e st1)) ∧
    (∀ d' d'' first tail sy'' other expression rest sy', first.symbol = some other →
      other.type ≠ .SYMBOL_GLOBAL_ARRAY →
      generate_assignment_statement G cf st
          (.mk .ASSIGNMENT_STATEMENT d'
            (.mk .ARRAY_INDEXING d'' (first :: tail) sy'' :: expression :: rest) sy') =
        (match generate_expression G cf st expression with
        | .ok st1 => .error (.not_an_array other.name) (emit st1 (.pushq (.reg .RAX)))
        | .error e st1 => .error e st1)) := by
  have h1 : symbol.type ≠ .SYMBOL_FUNCTION →
      generate_function_call G cf st
          (.mk .EXPRESSION d (callee :: arguments_node :: tail) sy) =
        .error (.not_a_function symbol.name) st :=
    fun hf => generate_function_call_not_function G cf st callee _ d sy symbol hs hf
  have h2 : symbol.type = .SYMBOL_FUNCTION → n ≠ arguments_node.children.length →
      generate_function_call G cf st
          (.mk .EXPRESSION d (callee :: arguments_node :: tail) sy) =
        .error (.argument_count symbol.name n arguments_node.children.length) st :=
    fun hf hn => generate_function_call_count G cf st callee arguments_node tail d sy symbol
      entry n hs hf (hw hf).1 (hw hf).2 hn
  have h3 : symbol.type = .SYMBOL_FUNCTION → n = arguments_node.children.length →
      generate_function_call G cf st
          (.mk .EXPRESSION d (callee :: arguments_node :: tail) sy) =
        match generate_arguments G cf st arguments_node.children with
        | .ok st1 => .ok (emit_all st1 (call_tail symbol.name n))
        | .error e st1 => .error e st1 :=
    fun hf hn => generate_function_call_unfold G cf st callee arguments_node tail d sy symbol
      entry n hs hf (hw hf).1 (hw hf).2 hn.symm
  have h6 : ∀ d' first rest sy' other, first.symbol = some other →
      other.type ≠ .SYMBOL_GLOBAL_ARRAY → ∀ s,
      generate_array_access G cf s (.mk .ARRAY_INDEXING d' (first :: rest) sy') =
        .error (.not_an_array other.name) s := by
    intro d' first rest sy' other ho hna s
    unfold generate_array_access
    rw [Node.type_mk, if_neg (by simp), Node.children_mk, generate_array_access_body]
    simp only [ho]
    rw [if_pos hna]
  refine ⟨h1, h2, h3, ?_, ?_, ?_, ?_, ?_⟩
  · rintro ⟨st1, ha⟩
    constructor
    · rintro ⟨e, st', hc⟩
      by_contra hcon
      simp only [not_or, not_not] at hcon
      rw [h3 hcon.1 hcon.2, ha] at hc
      cases hc
    · intro hor
      by_cases hf : symbol.type = .SYMBOL_FUNCTION
      · rcases hor with hnf | hn
        · exact absurd hf hnf
        · exact ⟨_, _, h2 hf hn⟩
      · exact ⟨_, _, h1 hf⟩
  · intro d' cs name seq
    constructor <;>
      (rw [generate_expression]; simp [generate_variable_access])
  · intro d' first rest sy' other ho hna
    refine ⟨h6 d' first rest sy' other ho hna st, ?_⟩
    rw [generate_expression, generate_array_access_body]
    simp only [ho]
    rw [if_pos hna]
  · intro d' d'' cs name seq expression rest sy'
    constructor <;>
      (unfold generate_assignment_statement
       simp only [Node.children_mk, Node.type_mk, if_true]
       cases generate_expression G cf st expression <;>
        simp [generate_variable_access])
  · intro d' d'' first tail sy'' other expression rest sy' ho hna
    unfold generate_assignment_statement
    simp only [Node.children_mk, Node.type_mk]
    cases generate_expression G cf st expression with
    | error e st1 => rfl
    | ok st1 =>
      simp only
      rw [if_neg (by simp), h6 d'' first tail sy'' other ho hna]

/-- C22, amended, at the call `x(1)` whose callee is bound to a parameter: the
error `not_a_function` and no output; and at the assignment `f := 1` to a
function `f`: the error comes after the code of `1`. -/
theorem generate_function_call_fails_iff_witness :
    generate_function_call [] example_scope_entry example_gen_state example_parameter_call =
      .error (.not_a_function "x") example_gen_state ∧
    generate_assignment_statement [] example_scope_entry example_gen_state
        (node_init .ASSIGNMENT_STATEMENT .null [example_function_identifier, number_node 1]) =
      .error (.function_as_variable "f")
        (emit example_gen_state (.movq (.imm 1) (.reg .RAX))) :=
  ⟨(generate_function_call_fails_iff [] example_scope_entry example_gen_state
    (.mk .IDENTIFIER_DATA (.str "x") [] (some ⟨"x", .SYMBOL_PARAMETER, 0⟩))
    (node_init .ARGUMENT_LIST .null [number_node 1]) [] (.str "call") none
    ⟨"x", .SYMBOL_PARAMETER, 0⟩ example_scope_entry 0 rfl (by decide)).1 (by decide),
    by decide⟩

/-! ## Arguments passed on the stack (C25) -/

theorem read_stack_index (stack : List Int) (k : Nat) :
    read_stack stack ((k : Int) * 8) = stack[k]? := by
  unfold read_stack
  have h1 : ((k : Int) * 8) % 8 = 0 := by omega
  have h2 : (0 : Int) ≤ (k : Int) * 8 := by omega
  have h3 : (((k : Int) * 8) / 8).toNat = k := by omega
  rw [if_pos ⟨h1, h2⟩, h3]

theorem read_frame_enter (stack : List Int) (return_address saved_rbp : Int) (k : Nat)
    (hk : k < stack.length) :
    read_frame (enter_function stack return_address saved_rbp).1
        (enter_function stack return_address saved_rbp).2 (16 + (k : Int) * 8) =
      stack[k]? := by
  unfold read_frame enter_function
  have h1 : (16 + (k : Int) * 8) % 8 = 0 := by omega
  have h2 : (0 : Int) ≤ ((stack.length + 2 : Nat) : Int) - 1 - (16 + (k : Int) * 8) / 8 := by
    push_cast; omega
  have h3 : (((stack.length + 2 : Nat) : Int) - 1 - (16 + (k : Int) * 8) / 8).toNat =
      stack.length - 1 - k := by
    push_cast; omega
  simp only
  rw [if_pos ⟨h1, h2⟩, h3]
  simp only [List.reverse_cons, List.append_assoc, List.singleton_append]
  rw [List.getElem?_append_left (by simp; omega), List.getElem?_reverse (by omega)]
  congr 1
  omega

theorem run_arguments_arith (arguments : List Arith)
    (hr : ∀ a ∈ arguments, a.leaves_int64) (ht : ∀ a ∈ arguments, a.no_trap) :
    ∀ m : machine, ∃ m1, run m (arguments_code (arguments.map Arith.code)) = some m1 ∧
      m1.stack = arguments.map Arith.value ++ m.stack := by
  induction arguments with
  | nil => intro m; exact ⟨m, rfl, rfl⟩
  | cons a rest ih =>
    intro m
    obtain ⟨m1, r1, s1⟩ := ih (fun x hx => hr x (List.mem_cons_of_mem _ hx))
      (fun x hx => ht x (List.mem_cons_of_mem _ hx)) m
    obtain ⟨m2, r2, a2, s2⟩ := run_arith a (hr a (by simp)) (ht a (by simp)) m1
    refine ⟨⟨m2.regs, m2.regs .RAX :: m2.stack, m2.compared⟩, ?_, ?_⟩
    · rw [List.map_cons, arguments_code_cons, List.append_assoc, run_append_some r1,
        run_append_some r2]
      simp [run, execute, machine.read, Reg.is_data]
    · simp [a2, s2, s1]

theorem zip_take_length {α β : Type} (l : List α) :
    ∀ vs : List β, l.zip vs = l.zip (vs.take l.length) := by
  induction l with
  | nil => intro vs; simp
  | cons a l ih =>
    intro vs
    cases vs with
    | nil => simp
    | cons v vs => simp only [List.zip_cons_cons, List.length_cons, List.take_succ_cons]; rw [← ih]

/-! ## The data section (C23) -/

theorem wrap64_of_int64 {x : Int} (h : int64 x) : wrap64 x = x := by
  unfold int64 at h
  unfold wrap64
  omega

theorem global_line_wrap_bytes {e : global_symbol_t} (h : array_length_fits e = true) :
    (global_line e).map Instr.wrap_bytes = global_line e := by
  unfold global_line
  unfold array_length_fits at h
  have h8 : wrap64 8 = 8 := by decide
  generalize e.symbol.type = t at h ⊢
  cases t <;> try (simp [Instr.wrap_bytes, h8]; done)
  generalize e.node.children = cs at h ⊢
  rcases cs with _ | ⟨a, _ | ⟨child, tail⟩⟩ <;> try (simp; done)
  simp only at h ⊢
  generalize child.data = d at h ⊢
  cases d <;> try (simp; done)
  simp only [decide_eq_true_eq] at h
  simp only [List.map_cons, List.map_nil, Instr.wrap_bytes]
  rw [wrap64_of_int64 (by unfold int64; omega)]

theorem flatten_global_lines_wrap_bytes (G : List global_symbol_t)
    (h : ∀ e ∈ G, array_length_fits e = true) :
    ((G.map global_line).flatten).map Instr.wrap_bytes = (G.map global_line).flatten := by
  induction G with
  | nil => rfl
  | cons e rest ih =>
    rw [List.map_cons, List.flatten_cons, List.map_append,
      global_line_wrap_bytes (h e (List.mem_cons_self _ _)),
      ih (fun x hx => h x (List.mem_cons_of_mem _ hx))]

theorem generate_global_entries_step (e : global_symbol_t) (rest : List global_symbol_t)
    (hw : array_entry_shaped e) (hk : array_length_known e = true) (st : gen_state) :
    generate_global_entries st (e :: rest) =
      generate_global_entries (emit_all st ((global_line e).map Instr.wrap_bytes)) rest := by
  rw [generate_global_entries]
  by_cases hv : e.symbol.type = .SYMBOL_GLOBAL_VAR
  · rw [if_pos hv]
    have h8 : wrap64 8 = 8 := by decide
    simp [global_line, hv, emit_eq_emit_all, Instr.wrap_bytes, h8]
  rw [if_neg hv]
  by_cases ha : e.symbol.type = .SYMBOL_GLOBAL_ARRAY
  · rw [if_pos ha]
    obtain ⟨identifier, child, hcs, hnum⟩ := hw ha
    simp only [array_length_known, ha, hcs, ne_eq, not_true_eq_false, decide_False,
      Bool.false_or, decide_eq_true_eq] at hk
    obtain ⟨length, hlen⟩ := hnum hk
    simp only [hcs, hk, ne_eq, not_true_eq_false, if_false, hlen]
    simp [global_line, ha, hcs, hlen, emit_eq_emit_all, Instr.wrap_bytes, mul_comm]
  · rw [if_neg ha]
    have : global_line e = [] := by
      unfold global_line
      cases ht : e.symbol.type <;> simp_all
    rw [this, List.map_nil, emit_all_nil]

theorem generate_global_entries_known (G : List global_symbol_t) :
    (∀ e ∈ G, array_entry_shaped e) → (∀ e ∈ G, array_length_known e = true) →
    ∀ st, generate_global_entries st G =
      .ok (emit_all st (((G.map global_line).flatten).map Instr.wrap_bytes)) := by
  induction G with
  | nil => intro _ _ st; rw [generate_global_entries]; simp [emit_all_nil]
  | cons e rest ih =>
    intro hw hk st
    rw [generate_global_entries_step e rest (hw e (List.mem_cons_self _ _))
      (hk e (List.mem_cons_self _ _)),
      ih (fun x hx => hw x (List.mem_cons_of_mem _ hx))
        (fun x hx => hk x (List.mem_cons_of_mem _ hx)),
      List.map_cons, List.flatten_cons, List.map_append, emit_all_emit_all]

theorem generate_global_entries_unknown (before after : List global_symbol_t)
    (e : global_symbol_t) (hw : ∀ x ∈ before, array_entry_shaped x)
    (hk : ∀ x ∈ before, array_length_known x = true) (hwe : array_entry_shaped e)
    (he : array_length_known e = false) (st : gen_state) :
    generate_global_entries st (before ++ e :: after) =
      .error (.array_length_unknown e.symbol.name)
        (emit_all st (((before.map global_line).flatten).map Instr.wrap_bytes)) := by
  induction before generalizing st with
  | nil =>
    simp only [List.nil_append, List.map_nil, List.flatten_nil, emit_all_nil]
    have ha : e.symbol.type = .SYMBOL_GLOBAL_ARRAY := by
      by_contra hn
      simp [array_length_known, hn] at he
    obtain ⟨identifier, child, hcs, -⟩ := hwe ha
    have hc : child.type ≠ .NUMBER_DATA := by
      simpa [array_length_known, ha, hcs] using he
    rw [generate_global_entries, if_neg (by rw [ha]; decide), if_pos ha]
    simp only [hcs]
    rw [if_pos hc]
  | cons b before ih =>
    rw [List.cons_append, generate_global_entries_step b _ (hw b (List.mem_cons_self _ _))
      (hk b (List.mem_cons_self _ _)),
      ih (fun x hx => hw x (List.mem_cons_of_mem _ hx))
        (fun x hx => hk x (List.mem_cons_of_mem _ hx)),
      List.map_cons, List.flatten_cons, List.map_append, emit_all_emit_all]

theorem exists_first_unknown (G : List global_symbol_t)
    (h : ∃ e ∈ G, array_length_known e = false) :
    ∃ before e after, G = before ++ e :: after ∧
      (∀ x ∈ before, array_length_known x = true) ∧ array_length_known e = false := by
  induction G with
  | nil => obtain ⟨e, he, -⟩ := h; cases he
  | cons g rest ih =>
    by_cases hg : array_length_known g = true
    · obtain ⟨e, he, hu⟩ := h
      have her : e ∈ rest := by
        rcases List.mem_cons.1 he with rfl | her
        · rw [hg] at hu; cases hu
        · exact her
      obtain ⟨before, e', after, e1, e2, e3⟩ := ih ⟨e, her, hu⟩
      refine ⟨g :: before, e', after, by rw [e1]; rfl, ?_, e3⟩
      intro x hx
      rcases List.mem_cons.1 hx with rfl | hx
      · exact hg
      · exact e2 x hx
    · exact ⟨[], g, rest, rfl, by simp, by simpa using hg⟩

/-- C23, as stated, fails: for `var a[1152921504606846976]` the length child is
the number `2^60`, and the line written for `a` is `.zero -9223372036854775808`,
the product `2^60 * 8` computed in 64 bits, not the `8 * length =
9223372036854775808` zero bytes of the claim. -/
theorem generate_global_variables_wraps_length :
    example_huge_array_globals =
      [⟨⟨"a", .SYMBOL_GLOBAL_ARRAY, 0⟩,
        node_init .ARRAY_DECLARATION .null
          [identifier_node "a", number_node 1152921504606846976], none⟩] ∧
    generate_global_variables example_huge_array_globals example_gen_state =
      .ok (emit_all example_gen_state
        [.bss_section, .directive ".align 8", .zero "a" (-9223372036854775808),
          .directive ""]) ∧
    (example_huge_array_globals.map global_line).flatten =
      [.zero "a" 9223372036854775808] := by
  decide

/-- C23, amended: for a global table whose array entries have their two
children, `generate_global_variables` writes the section directive and
`.align 8`, then, in table order, `.name: .zero 8` for each global variable and
`.name: .zero <bytes>` for each global array whose length child is the number
`length`, where `<bytes>` is the product `8 * length` in 64 bits, then an empty
line; when `-2^60 ≤ length < 2^60` for every array, `<bytes>` is `8 * length`.
It fails exactly when the length child of some global array is not a
`NUMBER_DATA`, and then with the error that names the first such array, after
the lines of the entries before it. -/
theorem generate_global_variables_spec (G : List global_symbol_t) (st : gen_state)
    (hw : ∀ e ∈ G, array_entry_shaped e) :
    ((∀ e ∈ G, array_length_known e = true) →
      generate_global_variables G st =
        .ok (emit_all st ([.bss_section, .directive ".align 8"] ++
          ((G.map global_line).flatten).map Instr.wrap_bytes ++ [.directive ""]))) ∧
    ((∀ e ∈ G, array_length_known e = true) → (∀ e ∈ G, array_length_fits e = true) →
      generate_global_variables G st =
        .ok (emit_all st ([.bss_section, .directive ".align 8"] ++
          (G.map global_line).flatten ++ [.directive ""]))) ∧
    ((∃ err st', generate_global_variables G st = .error err st') ↔
      ∃ e ∈ G, array_length_known e = false) ∧
    (∀ before e after, G = before ++ e :: after →
      (∀ x ∈ before, array_length_known x = true) → array_length_known e = false →
      generate_global_variables G st =
        .error (.array_length_unknown e.symbol.name)
          (emit_all st ([.bss_section, .directive ".align 8"] ++
            ((before.map global_line).flatten).map Instr.wrap_bytes))) := by
  have h1 : (∀ e ∈ G, array_length_known e = true) →
      generate_global_variables G st =
        .ok (emit_all st ([.bss_section, .directive ".align 8"] ++
          ((G.map global_line).flatten).map Instr.wrap_bytes ++ [.directive ""])) := by
    intro hk
    unfold generate_global_variables
    rw [generate_global_entries_known G hw hk]
    simp [emit_eq_emit_all, emit_all_emit_all]
  have h3 : ∀ before e after, G = before ++ e :: after →
      (∀ x ∈ before, array_length_known x = true) → array_length_known e = false →
      generate_global_variables G st =
        .error (.array_length_unknown e.symbol.name)
          (emit_all st ([.bss_section, .directive ".align 8"] ++
            ((before.map global_line).flatten).map Instr.wrap_bytes)) := by
    intro before e after hG hk he
    subst hG
    unfold generate_global_variables
    rw [generate_global_entries_unknown before after e
      (fun x hx => hw x (by simp [hx])) hk (hw e (by simp)) he]
    simp [emit_all_emit_all]
  refine ⟨h1, ?_, ?_, h3⟩
  · intro hk hf
    rw [h1 hk, flatten_global_lines_wrap_bytes G hf]
  constructor
  · rintro ⟨err, st', hf⟩
    by_contra hn
    have hk : ∀ e ∈ G, array_length_known e = true := by
      intro e he
      by_contra hne
      exact hn ⟨e, he, by simpa using hne⟩
    rw [h1 hk] at hf
    cases hf
  · intro hu
    obtain ⟨before, e, after, e1, e2, e3⟩ := exists_first_unknown G hu
    exact ⟨_, _, h3 before e after e1 e2 e3⟩

theorem example_array_globals_shaped : ∀ e ∈ example_array_globals, array_entry_shaped e := by
  have hG : example_array_globals =
      [⟨⟨"x", .SYMBOL_GLOBAL_VAR, 0⟩, identifier_node "x", none⟩,
       ⟨⟨"a", .SYMBOL_GLOBAL_ARRAY, 1⟩,
        node_init .ARRAY_DECLARATION .null [identifier_node "a", number_node 5], none⟩] := by
    decide
  intro e he
  rw [hG] at he
  simp only [List.mem_cons, List.mem_singleton, List.not_mem_nil, or_false] at he
  rcases he with rfl | rfl
  · intro h; cases h
  · intro _; exact ⟨_, _, rfl, fun _ => ⟨5, rfl⟩⟩

/-- C23, amended, at `var x  var a[2 + 3]`: after simplification the length of
`a` is the number 5, and the data section reserves 8 bytes for `x` and 40 for
`a`. -/
theorem generate_global_variables_spec_witness :
    generate_global_variables example_array_globals example_gen_state =
      .ok (emit_all example_gen_state
        [.bss_section, .directive ".align 8", .zero "x" 8, .zero "a" 40, .directive ""]) ∧
    (generate_global_variables example_array_globals example_gen_state =
      .ok (emit_all example_gen_state ([.bss_section, .directive ".align 8"] ++
        (example_array_globals.map global_line).flatten ++ [.directive ""]))) :=
  ⟨by decide,
    (generate_global_variables_spec example_array_globals example_gen_state
      example_array_globals_shaped).2.1 (by decide) (by decide)⟩

/-! ## Labels of loops (C30) -/

/-- C30 does not hold of the code: in
`begin while 1 < 2 begin break end  while 1 < 2 begin print 1 end end` the
first loop gets the number 0, its `break` sets the counter back to 0, and the
second loop gets the number 0 again: `while0` and `endwhile0` are each defined
twice.  In `while 1 < 2 begin if 1 < 2 then break  break end` the second
`break` jumps to `endwhile-1`, and no loop has the number -1. -/
theorem generate_while_reuses_label (G : List global_symbol_t) (cf : global_symbol_t) :
    generate_statement G cf example_gen_state example_loop_after_break =
      .ok ⟨[.label (.numbered "while" 0),
          .movq (.imm 1) (.reg .RAX), .pushq (.reg .RAX), .movq (.imm 2) (.reg .RAX),
          .popq (.reg .R10), .cmpq (.reg .RAX) (.reg .R10),
          .jge (.numbered "endwhile" 0),
          .jmp (.numbered "endwhile" 0),
          .jmp (.numbered "while" 0),
          .label (.numbered "endwhile" 0),
          .label (.numbered "while" 0),
          .movq (.imm 1) (.reg .RAX), .pushq (.reg .RAX), .movq (.imm 2) (.reg .RAX),
          .popq (.reg .R10), .cmpq (.reg .RAX) (.reg .R10),
          .jge (.numbered "endwhile" 0),
          .movq (.imm 1) (.reg .RAX), .movq (.reg .RAX) (.reg .RSI),
          .leaq_string .intout .RDI, .call (.plain "safe_printf"),
          .movq (.imm 10) (.reg .RDI), .call (.plain "putchar"),
          .jmp (.numbered "while" 0),
          .label (.numbered "endwhile" 0)], 1, 0⟩ ∧
    (generate_statement G cf example_gen_state example_loop_after_break).output.count
        (.label (.numbered "while" 0)) = 2 ∧
    (generate_statement G cf example_gen_state example_loop_after_break).output.count
        (.label (.numbered "endwhile" 0)) = 2 ∧
    Instr.jmp (.numbered "endwhile" (-1)) ∈
      (generate_statement G cf example_gen_state example_two_breaks).output ∧
    (generate_statement G cf example_gen_state example_two_breaks).output.count
        (.label (.numbered "endwhile" (-1))) = 0 := by
  have h1 : generate_statement G cf example_gen_state example_loop_after_break =
      .ok ⟨[.label (.numbered "while" 0),
          .movq (.imm 1) (.reg .RAX), .pushq (.reg .RAX), .movq (.imm 2) (.reg .RAX),
          .popq (.reg .R10), .cmpq (.reg .RAX) (.reg .R10),
          .jge (.numbered "endwhile" 0),
          .jmp (.numbered "endwhile" 0),
          .jmp (.numbered "while" 0),
          .label (.numbered "endwhile" 0),
          .label (.numbered "while" 0),
          .movq (.imm 1) (.reg .RAX), .pushq (.reg .RAX), .movq (.imm 2) (.reg .RAX),
          .popq (.reg .R10), .cmpq (.reg .RAX) (.reg .R10),
          .jge (.numbered "endwhile" 0),
          .movq (.imm 1) (.reg .RAX), .movq (.reg .RAX) (.reg .RSI),
          .leaq_string .intout .RDI, .call (.plain "safe_printf"),
          .movq (.imm 10) (.reg .RDI), .call (.plain "putchar"),
          .jmp (.numbered "while" 0),
          .label (.numbered "endwhile" 0)], 1, 0⟩ := rfl
  have h2 : generate_statement G cf example_gen_state example_two_breaks =
      .ok ⟨[.label (.numbered "while" 0),
          .movq (.imm 1) (.reg .RAX), .pushq (.reg .RAX), .movq (.imm 2) (.reg .RAX),
          .popq (.reg .R10), .cmpq (.reg .RAX) (.reg .R10),
          .jge (.numbered "endwhile" 0),
          .label (.numbered "if" 0),
          .movq (.imm 1) (.reg .RAX), .pushq (.reg .RAX), .movq (.imm 2) (.reg .RAX),
          .popq (.reg .R10), .cmpq (.reg .RAX) (.reg .R10),
          .jge (.numbered "else" 0),
          .jmp (.numbered "endwhile" 0),
          .jmp (.numbered "endif" 0),
          .label (.numbered "else" 0),
          .label (.numbered "endif" 0),
          .jmp (.numbered "endwhile" (-1)),
          .jmp (.numbered "while" 0),
          .label (.numbered "endwhile" 0)], -1, 1⟩ := rfl
  rw [h1, h2]
  refine ⟨rfl, ?_, ?_, ?_, ?_⟩ <;> decide

/-! ## Labels and string loads of statement code -/

theorem unmarked_append {a b : List Instr} (ha : unmarked a) (hb : unmarked b) :
    unmarked (a ++ b) := by
  intro i hi
  rcases List.mem_append.1 hi with h | h
  · exact ha i h
  · exact hb i h

theorem unmarked_count {c : List Instr} (h : unmarked c) (l : Label) :
    c.count (.label l) = 0 := by
  apply List.count_eq_zero.2
  intro hm
  have := h _ hm
  simp [Instr.is_marked] at this

theorem unmarked_loaded {c : List Instr} (h : unmarked c) : loaded_strings c = [] := by
  unfold loaded_strings
  rw [List.filterMap_eq_nil_iff]
  intro i hi
  have := h i hi
  cases i <;> simp [Instr.is_marked, Instr.loaded_string] at this ⊢
  rename_i symbol dst
  cases symbol <;> simp [Instr.is_marked, Instr.loaded_string] at this ⊢

theorem loaded_strings_append (a b : List Instr) :
    loaded_strings (a ++ b) = loaded_strings a ++ loaded_strings b := by
  simp [loaded_strings]

theorem call_tail_unmarked (name : String) (n : Nat) : unmarked (call_tail name n) := by
  intro i hi
  unfold call_tail at hi
  simp only [List.mem_append, List.mem_map, List.mem_singleton] at hi
  rcases hi with (⟨r, -, rfl⟩ | rfl) | hi
  · rfl
  · rfl
  · split_ifs at hi
    · simp only [List.mem_singleton] at hi
      subst hi; rfl
    · cases hi

theorem unmarked_of_forall {c : List Instr} (h : c.all (fun i => !Instr.is_marked i) = true) :
    unmarked c := by
  intro i hi
  have := List.all_eq_true.1 h i hi
  simpa using this

theorem code_unmarked {k : CodeKind} {c : List Instr} (h : Code k c) : unmarked c := by
  induction h with
  | load src => exact unmarked_of_forall (by simp [Instr.is_marked])
  | element name _ ih =>
    exact unmarked_append ih (unmarked_of_forall (by simp [Instr.is_marked]))
  | negate _ ih => exact unmarked_append ih (unmarked_of_forall (by simp [Instr.is_marked]))
  | binary op hop _ _ ih1 ih2 =>
    refine unmarked_append (unmarked_append (unmarked_append ih1
      (unmarked_of_forall (by simp [Instr.is_marked]))) ih2) ?_
    rcases hop with rfl | rfl | rfl <;>
      exact unmarked_of_forall (by simp [Instr.is_marked])
  | divide _ _ ih1 ih2 =>
    exact unmarked_append (unmarked_append (unmarked_append ih1
      (unmarked_of_forall (by simp [Instr.is_marked]))) ih2)
      (unmarked_of_forall (by simp [Instr.is_marked]))
  | no_argument => intro i hi; cases hi
  | argument _ _ ih1 ih2 =>
    exact unmarked_append (unmarked_append ih1 ih2)
      (unmarked_of_forall (by simp [Instr.is_marked]))
  | call name _ ih => exact unmarked_append ih (call_tail_unmarked name _)

theorem generate_expression_unmarked {G : List global_symbol_t} {cf : global_symbol_t}
    {st st' : gen_state} {e : Node} (h : generate_expression G cf st e = .ok st') :
    ∃ c, st' = emit_all st c ∧ unmarked c := by
  obtain ⟨c, hc, ec⟩ := generate_expression_code G cf e st st' h
  have := ec st
  rw [h] at this
  simp only [gen_result.ok.injEq] at this
  exact ⟨c, this, code_unmarked hc⟩

theorem generate_relation_unmarked {G : List global_symbol_t} {cf : global_symbol_t}
    {st st' : gen_state} {relation : Node} (h : generate_relation G cf st relation = .ok st') :
    ∃ c, st' = emit_all st c ∧ unmarked c := by
  obtain ⟨t, d, cs, sy⟩ := relation
  rcases cs with _ | ⟨left, _ | ⟨right, _ | ⟨x, tail⟩⟩⟩
  · simp [generate_relation] at h
  · simp [generate_relation] at h
  · obtain ⟨st1, st2, h1, h2, rfl⟩ := generate_relation_spec h
    obtain ⟨c1, rfl, u1⟩ := generate_expression_unmarked h1
    obtain ⟨c2, rfl, u2⟩ := generate_expression_unmarked h2
    refine ⟨c1 ++ [.pushq (.reg .RAX)] ++ c2 ++ [.popq (.reg .R10), .cmpq (.reg .RAX) (.reg .R10)],
      by simp [emit_eq_emit_all, emit_all_emit_all], ?_⟩
    exact unmarked_append (unmarked_append (unmarked_append u1
      (unmarked_of_forall (by simp [Instr.is_marked]))) u2)
      (unmarked_of_forall (by simp [Instr.is_marked]))
  · simp [generate_relation] at h

theorem inverse_jump_unmarked {st st' : gen_state} {data : Data} {target : Label}
    (h : inverse_jump st data target = .ok st') :
    ∃ j, st' = emit_all st [j] ∧ unmarked [j] := by
  obtain ⟨text, j, -, hj, rfl⟩ := inverse_jump_eq_ok h
  refine ⟨j, rfl, ?_⟩
  rcases hj with ⟨-, rfl⟩ | ⟨-, rfl⟩ | ⟨-, rfl⟩ | ⟨-, rfl⟩ <;>
    exact unmarked_of_forall (by simp [Instr.is_marked])

theorem generate_array_access_unmarked {G : List global_symbol_t} {cf : global_symbol_t}
    {st st' : gen_state} {node : Node} (h : generate_array_access G cf st node = .ok st') :
    ∃ c, st' = emit_all st c ∧ unmarked c := by
  unfold generate_array_access at h
  split_ifs at h
  obtain ⟨c, name, hc, ec⟩ := generate_array_access_body_code G cf node.children
    (fun a _ => generate_expression_code G cf a) st st' h
  have := ec st
  rw [h] at this
  simp only [gen_result.ok.injEq] at this
  exact ⟨_, this, unmarked_append (code_unmarked hc)
    (unmarked_of_forall (by simp [Instr.is_marked]))⟩

theorem generate_assignment_unmarked {G : List global_symbol_t} {cf : global_symbol_t}
    {st st' : gen_state} {statement : Node}
    (h : generate_assignment_statement G cf st statement = .ok st') :
    ∃ c, st' = emit_all st c ∧ unmarked c := by
  unfold generate_assignment_statement at h
  split at h
  · rename_i destination expression rest hcs
    cases h1 : generate_expression G cf st expression with
    | error e st1 => rw [h1] at h; cases h
    | ok st1 =>
      rw [h1] at h
      simp only at h
      obtain ⟨c1, rfl, u1⟩ := generate_expression_unmarked h1
      split_ifs at h with hd
      · cases hv : generate_variable_access cf destination with
        | error e => rw [hv] at h; cases h
        | ok operand =>
          rw [hv] at h
          simp only [gen_result.ok.injEq] at h
          subst h
          exact ⟨c1 ++ [.movq (.reg .RAX) operand],
            by simp [emit_eq_emit_all, emit_all_emit_all],
            unmarked_append u1 (unmarked_of_forall (by simp [Instr.is_marked]))⟩
      · cases h2 : generate_array_access G cf
            (emit (emit_all st c1) (.pushq (.reg .RAX))) destination with
        | error e st2 => rw [h2] at h; cases h
        | ok st2 =>
          rw [h2] at h
          simp only [gen_result.ok.injEq] at h
          subst h
          obtain ⟨c2, rfl, u2⟩ := generate_array_access_unmarked h2
          exact ⟨c1 ++ [.pushq (.reg .RAX)] ++ c2 ++
              [.popq (.reg .RAX), .movq (.reg .RAX) (.mem .R10)],
            by simp [emit_eq_emit_all, emit_all_emit_all],
            unmarked_append (unmarked_append (unmarked_append u1
              (unmarked_of_forall (by simp [Instr.is_marked]))) u2)
              (unmarked_of_forall (by simp [Instr.is_marked]))⟩
  · cases h

theorem generate_return_unmarked {G : List global_symbol_t} {cf : global_symbol_t}
    {st st' : gen_state} {statement : Node}
    (h : generate_return_statement G cf st statement = .ok st') :
    ∃ c, st' = emit_all st c ∧ unmarked c := by
  unfold generate_return_statement at h
  split at h
  · rename_i expression rest hcs
    cases h1 : generate_expression G cf st expression with
    | error e st1 => rw [h1] at h; cases h
    | ok st1 =>
      rw [h1] at h
      simp only [gen_result.ok.injEq] at h
      subst h
      obtain ⟨c1, rfl, u1⟩ := generate_expression_unmarked h1
      exact ⟨c1 ++ [.movq (.reg .RBP) (.reg .RSP), .popq (.reg .RBP), .ret],
        by simp [emit_all_emit_all],
        unmarked_append u1 (unmarked_of_forall (by simp [Instr.is_marked]))⟩
  · cases h

theorem visited_strings_list_mem {c : Node} {cs : List Node} (hc : c ∈ cs) {d : Data}
    (hd : d ∈ visited_strings c) : d ∈ visited_strings_list cs := by
  induction cs with
  | nil => cases hc
  | cons x xs ih =>
    rw [visited_strings_list]
    rcases List.mem_cons.1 hc with rfl | hx
    · exact List.mem_append_left _ hd
    · exact List.mem_append_right _ (ih hx)

theorem generate_print_items_post {G : List global_symbol_t} {cf : global_symbol_t}
    (items : List Node) :
    ∀ {st st' : gen_state}, generate_print_items G cf st items = .ok st' →
      ∃ c, st' = emit_all st c ∧ (∀ l, Instr.label l ∉ c) ∧
        ∀ k ∈ loaded_strings c, Data.num k ∈ visited_strings_list items := by
  induction items with
  | nil =>
    intro st st' h
    rw [generate_print_items] at h
    simp only [gen_result.ok.injEq] at h
    subst h
    exact ⟨[], by rw [emit_all_nil], by simp, by simp [loaded_strings]⟩
  | cons child rest ih =>
    intro st st' h
    rw [generate_print_items] at h
    by_cases ht : child.type = .STRING_DATA
    · rw [if_pos ht] at h
      cases hd : child.data with
      | null => rw [hd] at h; cases h
      | str s => rw [hd] at h; cases h
      | num index =>
        rw [hd] at h
        simp only at h
        obtain ⟨c, rfl, hl, hk⟩ := ih h
        refine ⟨[.leaq_string .strout .RDI, .leaq_string (.string index) .RSI,
          .call (.plain "safe_printf")] ++ c, by rw [emit_all_emit_all], ?_, ?_⟩
        · intro l hm
          simp only [List.cons_append, List.nil_append, List.mem_cons] at hm
          rcases hm with hm | hm | hm | hm
          · cases hm
          · cases hm
          · cases hm
          · exact hl l hm
        · intro k hk2
          rw [loaded_strings_append] at hk2
          rw [visited_strings_list]
          rcases List.mem_append.1 hk2 with h1 | h1
          · apply List.mem_append_left
            simp [loaded_strings, Instr.loaded_string] at h1
            subst h1
            obtain ⟨t, d, cs, sy⟩ := child
            simp only [Node.type_mk] at ht
            simp only [Node.data_mk] at hd
            subst ht hd
            simp [visited_strings]
          · exact List.mem_append_right _ (hk k h1)
    · rw [if_neg ht] at h
      cases h1 : generate_expression G cf st child with
      | error e st1 => rw [h1] at h; cases h
      | ok st1 =>
        rw [h1] at h
        simp only at h
        obtain ⟨c1, rfl, u1⟩ := generate_expression_unmarked h1
        obtain ⟨c, rfl, hl, hk⟩ := ih h
        have u2 : unmarked (c1 ++ [.movq (.reg .RAX) (.reg .RSI), .leaq_string .intout .RDI,
            .call (.plain "safe_printf")]) :=
          unmarked_append u1 (unmarked_of_forall (by simp [Instr.is_marked]))
        refine ⟨(c1 ++ [.movq (.reg .RAX) (.reg .RSI), .leaq_string .intout .RDI,
          .call (.plain "safe_printf")]) ++ c, by simp [emit_all_emit_all], ?_, ?_⟩
        · intro l hm
          rcases List.mem_append.1 hm with hm | hm
          · have := u2 _ hm
            simp [Instr.is_marked] at this
          · exact hl l hm
        · intro k hk2
          rw [loaded_strings_append, unmarked_loaded u2, List.nil_append] at hk2
          rw [visited_strings_list]
          exact List.mem_append_right _ (hk k hk2)

theorem if_numbers_free {c : List Instr}
    (hl : ∀ stem ∈ if_stems, ∀ k, Instr.label (.numbered stem k) ∉ c) :
    if_numbers c = int_range 0 0 := by
  unfold if_numbers int_range
  rw [List.range_zero, List.map_nil, List.filterMap_eq_nil_iff]
  intro i hi
  cases i <;> simp only [Instr.if_number]
  rename_i l
  cases l <;> simp only [Instr.if_number]
  rename_i stem k
  split_ifs with hs
  · subst hs
    exact absurd hi (hl "if" (by simp [if_stems]) k)
  · rfl

theorem if_numbers_append (a b : List Instr) :
    if_numbers (a ++ b) = if_numbers a ++ if_numbers b := by
  simp [if_numbers]

theorem if_numbers_unmarked {c : List Instr} (u : unmarked c) : if_numbers c = [] :=
  if_numbers_free (fun _ _ k hm => by have := u _ hm; simp [Instr.is_marked] at this)

theorem int_range_zero (a b : Int) : int_range a 0 = int_range b 0 := rfl

theorem int_range_append (a : Int) (m n : Nat) :
    int_range a m ++ int_range (a + m) n = int_range a (m + n) := by
  unfold int_range
  rw [List.range_add, List.map_append, List.map_map]
  congr 1
  apply List.map_congr_left
  intro i _
  simp only [Function.comp_apply, Int.ofNat_eq_coe]
  push_cast
  ring

theorem int_range_cons (a : Int) (m : Nat) : a :: int_range (a + 1) m = int_range a (1 + m) := by
  have := int_range_append a 1 m
  rw [← this]
  simp [int_range, List.range_succ]

theorem statement_post_of_free {st st' : gen_state} {c : List Instr} {A : Int → Prop}
    (ho : st'.output = st.output ++ c) (hc : st'.if_counter = st.if_counter)
    (hl : ∀ stem ∈ if_stems, ∀ k, Instr.label (.numbered stem k) ∉ c)
    (ha : ∀ k ∈ loaded_strings c, A k) : statement_post st st' A := by
  refine ⟨c, 0, ho, by simp [hc], ⟨fun stem hs k => ?_, ?_⟩, ha⟩
  · rw [List.count_eq_zero.2 (hl stem hs k)]
    split_ifs with h
    · exfalso; omega
    · rfl
  · exact if_numbers_free hl

theorem statement_post_unmarked (st : gen_state) {c : List Instr} (A : Int → Prop)
    (u : unmarked c) : statement_post st (emit_all st c) A :=
  statement_post_of_free rfl rfl
    (fun stem _ k hm => by have := u _ hm; simp [Instr.is_marked] at this)
    (by rw [unmarked_loaded u]; simp)

theorem statement_post_trans {st st1 st2 : gen_state} {A B C : Int → Prop}
    (h1 : statement_post st st1 A) (h2 : statement_post st1 st2 B)
    (hA : ∀ k, A k → C k) (hB : ∀ k, B k → C k) : statement_post st st2 C := by
  obtain ⟨c1, m1, o1, i1, n1, l1⟩ := h1
  obtain ⟨c2, m2, o2, i2, n2, l2⟩ := h2
  refine ⟨c1 ++ c2, m1 + m2, by rw [o2, o1, List.append_assoc],
    by rw [i2, i1]; push_cast; ring, ?_, ?_⟩
  · refine ⟨fun stem hs k => ?_, ?_⟩
    · rw [List.count_append, n1.1 stem hs k, n2.1 stem hs k, i1]
      push_cast
      split_ifs <;> omega
    · rw [if_numbers_append, n1.2, n2.2, i1, int_range_append]
  · intro k hk
    rw [loaded_strings_append] at hk
    rcases List.mem_append.1 hk with h | h
    · exact hA k (l1 k h)
    · exact hB k (l2 k h)

theorem statement_post_mono {st st' : gen_state} {A B : Int → Prop}
    (h : statement_post st st' A) (hAB : ∀ k, A k → B k) : statement_post st st' B := by
  obtain ⟨c, m, o, i, n, l⟩ := h
  exact ⟨c, m, o, i, n, fun k hk => hAB k (l k hk)⟩

theorem if_labels_numbered_if (N : Int) {cR cT cE : List Instr} {j : Instr} {mT mE : Nat}
    (uR : unmarked cR) (uj : unmarked [j]) (hT : if_labels_numbered cT (N + 1) mT)
    (hE : if_labels_numbered cE (N + 1 + mT) mE) :
    if_labels_numbered
      ([.label (.numbered "if" N)] ++ cR ++ [j] ++ cT ++
        [.jmp (.numbered "endif" N), .label (.numbered "else" N)] ++ cE ++
        [.label (.numbered "endif" N)]) N (1 + mT + mE) := by
  refine ⟨?_, ?_⟩
  case refine_2 =>
    have e1 : if_numbers [.label (.numbered "if" N)] = [N] := rfl
    have e2 : if_numbers [.jmp (.numbered "endif" N), .label (.numbered "else" N)] = [] := rfl
    have e3 : if_numbers [.label (.numbered "endif" N)] = [] := rfl
    rw [if_numbers_append, if_numbers_append, if_numbers_append, if_numbers_append,
      if_numbers_append, if_numbers_append, if_numbers_unmarked uR, if_numbers_unmarked uj,
      e1, e2, e3, hT.2, hE.2, List.append_nil, List.append_nil, List.append_nil,
      List.append_nil, List.append_assoc, int_range_append, List.singleton_append,
      int_range_cons, Nat.add_assoc]
  intro stem hs k
  have e1 := hT.1 stem hs k
  have e2 := hE.1 stem hs k
  simp only [List.count_append, unmarked_count uR, unmarked_count uj, e1, e2]
  simp only [if_stems, List.mem_cons, List.mem_singleton, List.not_mem_nil, or_false] at hs
  push_cast
  rcases hs with rfl | rfl | rfl
  · by_cases hk : k = N
    · subst hk
      simp
      split_ifs <;> omega
    · have : ¬ (N = k) := fun h => hk h.symm
      simp [List.count_cons, this]
      split_ifs <;> omega
  · by_cases hk : k = N
    · subst hk
      simp [List.count_cons]
      split_ifs <;> omega
    · have : ¬ (N = k) := fun h => hk h.symm
      simp [List.count_cons, this]
      split_ifs <;> omega
  · by_cases hk : k = N
    · subst hk
      simp [List.count_cons]
      split_ifs <;> omega
    · have : ¬ (N = k) := fun h => hk h.symm
      simp [List.count_cons, this]
      split_ifs <;> omega

theorem Node.induction3 {P : Node → Prop}
    (h : ∀ t d cs s,
      (∀ c ∈ cs, P c ∧ ∀ c2 ∈ c.children, P c2 ∧ ∀ c3 ∈ c2.children, P c3) →
      P (.mk t d cs s)) : ∀ n, P n := by
  have key : ∀ n, P n ∧ ∀ c2 ∈ n.children, P c2 ∧ ∀ c3 ∈ c2.children, P c3 := by
    intro n
    induction n using Node.induction with
    | h t d cs s ih =>
      refine ⟨h t d cs s ih, fun c2 hc2 => ⟨(ih c2 hc2).1, fun c3 hc3 => ?_⟩⟩
      exact ((ih c2 hc2).2 c3 hc3).1
  exact fun n => (key n).1

theorem if_labels_numbered_nil (first : Int) : if_labels_numbered [] first 0 := by
  refine ⟨fun stem _ k => ?_, rfl⟩
  simp only [List.count_nil]
  split_ifs with h
  · exfalso; omega
  · rfl

theorem generate_statement_other (G : List global_symbol_t) (cf : global_symbol_t)
    (st : gen_state) (t : NodeType) (d : Data) (cs : List Node) (sy : Option Symbol)
    (h1 : t ≠ .BLOCK) (h2 : t ≠ .ASSIGNMENT_STATEMENT) (h3 : t ≠ .PRINT_STATEMENT)
    (h4 : t ≠ .RETURN_STATEMENT) (h5 : t ≠ .IF_STATEMENT) (h6 : t ≠ .WHILE_STATEMENT)
    (h7 : t ≠ .BREAK_STATEMENT) :
    generate_statement G cf st (.mk t d cs sy) = .error .assertion st := by
  rw [generate_statement]
  all_goals simp_all

theorem generate_statement_list_post (G : List global_symbol_t) (cf : global_symbol_t)
    (statements : List Node) (ih : ∀ s ∈ statements, generates_post G cf s) :
    ∀ st st', generate_statement_list G cf st statements = .ok st' →
      statement_post st st'
        (fun k => Node.allList block_shaped statements = true →
          Data.num k ∈ visited_strings_list statements) := by
  induction statements with
  | nil =>
    intro st st' h
    rw [generate_statement_list] at h
    simp only [gen_result.ok.injEq] at h
    subst h
    have := statement_post_unmarked st
      (fun k => Node.allList block_shaped [] = true → Data.num k ∈ visited_strings_list [])
      (c := []) (fun i hi => by cases hi)
    rwa [emit_all_nil] at this
  | cons s rest ihr =>
    intro st st' h
    rw [generate_statement_list] at h
    cases h1 : generate_statement G cf st s with
    | error e st1 => rw [h1] at h; cases h
    | ok st1 =>
      rw [h1] at h
      simp only at h
      refine statement_post_trans (ih s (List.mem_cons_self _ _) st st1 h1)
        (ihr (fun x hx => ih x (List.mem_cons_of_mem _ hx)) st1 st' h) ?_ ?_
      · intro k hk hall
        rw [Node.allList, Bool.and_eq_true] at hall
        rw [visited_strings_list]
        exact List.mem_append_left _ (hk hall.1)
      · intro k hk hall
        rw [Node.allList, Bool.and_eq_true] at hall
        rw [visited_strings_list]
        exact List.mem_append_right _ (hk hall.2)

theorem generate_block_statement_last (G : List global_symbol_t) (cf : global_symbol_t)
    (cs : List Node) :
    ∀ st st', generate_block_statement G cf st cs = .ok st' →
      ∃ front lt ld statements lsy, cs = front ++ [Node.mk lt ld statements lsy] ∧
        generate_statement_list G cf st statements = .ok st' := by
  induction cs with
  | nil =>
    intro st st' h
    rw [generate_block_statement] at h
    cases h
  | cons c rest ih =>
    intro st st' h
    rcases rest with _ | ⟨c2, rest2⟩
    · obtain ⟨lt, ld, statements, lsy⟩ := c
      rw [generate_block_statement] at h
      exact ⟨[], lt, ld, statements, lsy, rfl, h⟩
    · rw [generate_block_statement] at h
      · obtain ⟨front, lt, ld, statements, lsy, e, hs⟩ := ih st st' h
        exact ⟨c :: front, lt, ld, statements, lsy, by rw [e]; rfl, hs⟩
      · intro t d ss sy e1 e2
        cases e2

theorem generate_block_statement_post (G : List global_symbol_t) (cf : global_symbol_t)
    (cs : List Node) (ih : ∀ c ∈ cs, ∀ s ∈ c.children, generates_post G cf s) :
    ∀ st st', generate_block_statement G cf st cs = .ok st' →
      statement_post st st'
        (fun k => ∀ d sy, Node.all block_shaped (.mk .BLOCK d cs sy) = true →
          Data.num k ∈ visited_strings (.mk .BLOCK d cs sy)) := by
  intro st st' h
  obtain ⟨front, lt, ld, statements, lsy, rfl, hs⟩ := generate_block_statement_last G cf cs st st' h
  refine statement_post_mono (generate_statement_list_post G cf statements
    (fun s hs => ih (Node.mk lt ld statements lsy) (by simp) s hs) st st' hs) ?_
  intro k hk d sy hall
  rw [Node.all_mk] at hall
  obtain ⟨hb, hch⟩ := hall
  have hlast := hch (Node.mk lt ld statements lsy) (by simp)
  rw [Node.all_mk] at hlast
  have hst : Node.allList block_shaped statements = true :=
    (Node.allList_iff _ _).2 hlast.2
  rcases front with _ | ⟨x, _ | ⟨y, rest⟩⟩
  · simp only [List.nil_append, block_shaped, Node.type_mk, decide_eq_true_eq] at hb
    subst hb
    rw [List.nil_append, visited_strings_block1 _ _ _ _ (by simp),
      visited_strings_other _ _ _ _ (by decide) (by decide) (by decide)]
    exact hk hst
  · simp only [List.cons_append, List.nil_append, block_shaped, Node.type_mk,
      decide_eq_true_eq] at hb
    subst hb
    rw [List.cons_append, List.nil_append, visited_strings,
      visited_strings_other _ _ _ _ (by decide) (by decide) (by decide)]
    exact hk hst
  · simp [block_shaped] at hb

theorem statement_post_line (st st' : gen_state) (i : Instr) (A : Int → Prop)
    (ho : st'.output = st.output ++ [i]) (hc : st'.if_counter = st.if_counter)
    (hi : ∀ stem ∈ if_stems, ∀ k, i ≠ .label (.numbered stem k))
    (hs : Instr.loaded_string i = none) : statement_post st st' A := by
  refine statement_post_of_free ho hc ?_ ?_
  · intro stem hs k hm
    simp only [List.mem_singleton] at hm
    exact hi stem hs k hm.symm
  · simp [loaded_strings, hs]

theorem generate_statement_post (G : List global_symbol_t) (cf : global_symbol_t) :
    ∀ n, generates_post G cf n := by
  intro n
  induction n using Node.induction3 with
  | h t d cs sy ih =>
    intro st st' h
    by_cases hB : t = .BLOCK
    · subst hB
      rw [generate_statement] at h
      exact statement_post_mono
        (generate_block_statement_post G cf cs (fun c hc s hs => ((ih c hc).2 s hs).1) st st' h)
        (fun k hk hall => hk d sy hall)
    by_cases hA : t = .ASSIGNMENT_STATEMENT
    · subst hA
      rw [generate_statement] at h
      obtain ⟨c, rfl, u⟩ := generate_assignment_unmarked h
      exact statement_post_unmarked st _ u
    by_cases hP : t = .PRINT_STATEMENT
    · subst hP
      rw [generate_statement] at h
      unfold generate_print_statement at h
      simp only [Node.children_mk] at h
      cases h1 : generate_print_items G cf st cs with
      | error e st1 => rw [h1] at h; cases h
      | ok st1 =>
        rw [h1] at h
        simp only [gen_result.ok.injEq] at h
        subst h
        obtain ⟨c, rfl, hl, hk⟩ := generate_print_items_post cs h1
        refine statement_post_of_free
          (c := c ++ [.movq (.imm 10) (.reg .RDI), .call (.plain "putchar")])
          (by simp [emit_all]) rfl ?_ ?_
        · intro stem _ k hm
          rcases List.mem_append.1 hm with hm | hm
          · exact hl _ hm
          · simp at hm
        · intro k hk2 _
          have e : loaded_strings [.movq (.imm 10) (.reg .RDI), .call (.plain "putchar")] = [] :=
            rfl
          rw [loaded_strings_append, e, List.append_nil] at hk2
          rw [visited_strings_other _ _ _ _ (by decide) (by decide) (by decide)]
          exact hk k hk2
    by_cases hR : t = .RETURN_STATEMENT
    · subst hR
      rw [generate_statement] at h
      obtain ⟨c, rfl, u⟩ := generate_return_unmarked h
      exact statement_post_unmarked st _ u
    by_cases hI : t = .IF_STATEMENT
    · subst hI
      rcases cs with _ | ⟨relation, _ | ⟨then_statement, rest⟩⟩
      · rw [generate_statement, generate_if_statement] at h
        · cases h
        · intro a b c e; cases e
      · rw [generate_statement, generate_if_statement] at h
        · cases h
        · intro a b c e; cases e
      · obtain ⟨st1, st2, st3, h1, h2, h3, h4⟩ := generate_if_statement_spec h
        obtain ⟨cR, rfl, uR⟩ := generate_relation_unmarked h1
        obtain ⟨j, rfl, uj⟩ := inverse_jump_unmarked h2
        obtain ⟨cT, mT, oT, iT, nT, lT⟩ := (ih then_statement (by simp)).1 _ _ h3
        have hvis : ∀ rest, visited_strings
            (.mk .IF_STATEMENT d (relation :: then_statement :: rest) sy) =
            visited_strings_list (relation :: then_statement :: rest) := fun rest =>
          visited_strings_other _ _ _ _ (by decide) (by decide) (by decide)
        rcases rest with _ | ⟨else_statement, tail⟩
        · rw [generate_else] at h4
          simp only [gen_result.ok.injEq] at h4
          subst h4
          refine ⟨[.label (.numbered "if" st.if_counter)] ++ cR ++ [j] ++ cT ++
              [.jmp (.numbered "endif" st.if_counter),
                .label (.numbered "else" st.if_counter)] ++ [] ++
              [.label (.numbered "endif" st.if_counter)], 1 + mT + 0, ?_, ?_,
            if_labels_numbered_if st.if_counter uR uj nT (if_labels_numbered_nil _), ?_⟩
          · simp [emit, emit_all, oT]
          · simp only [emit, emit_all, iT]
            push_cast
            ring
          · intro k hk hall
            have hk2 : k ∈ loaded_strings cT := by
              have e1 : loaded_strings [.label (.numbered "if" st.if_counter)] = [] := rfl
              have e2 : loaded_strings [.jmp (.numbered "endif" st.if_counter),
                .label (.numbered "else" st.if_counter)] = [] := rfl
              have e3 : loaded_strings [.label (.numbered "endif" st.if_counter)] = [] := rfl
              have e4 : loaded_strings [] = [] := rfl
              simpa only [loaded_strings_append, unmarked_loaded uR, unmarked_loaded uj,
                e1, e2, e3, e4, List.nil_append, List.append_nil] using hk
            rw [hvis]
            exact visited_strings_list_mem (c := then_statement) (by simp)
              (lT k hk2 (Node.all_children hall then_statement (by simp)))
        · rw [generate_else] at h4
          cases h5 : generate_statement G cf
              (emit (emit st3 (.jmp (.numbered "endif" st.if_counter)))
                (.label (.numbered "else" st.if_counter))) else_statement with
          | error e st5 => rw [h5] at h4; cases h4
          | ok st5 =>
            rw [h5] at h4
            simp only [gen_result.ok.injEq] at h4
            subst h4
            obtain ⟨cE, mE, oE, iE, nE, lE⟩ := (ih else_statement (by simp)).1 _ _ h5
            have nE2 : if_labels_numbered cE (st.if_counter + 1 + mT) mE := by
              have e : (emit (emit st3 (.jmp (.numbered "endif" st.if_counter)))
                  (.label (.numbered "else" st.if_counter))).if_counter =
                  st.if_counter + 1 + mT := by
                simp only [emit, iT, emit_all]
              rw [e] at nE
              exact nE
            refine ⟨[.label (.numbered "if" st.if_counter)] ++ cR ++ [j] ++ cT ++
                [.jmp (.numbered "endif" st.if_counter),
                  .label (.numbered "else" st.if_counter)] ++ cE ++
                [.label (.numbered "endif" st.if_counter)], 1 + mT + mE, ?_, ?_,
              if_labels_numbered_if st.if_counter uR uj nT nE2, ?_⟩
            · simp [emit, emit_all, oT, oE]
            · simp only [emit, emit_all, iT, iE]
              push_cast
              ring
            · intro k hk hall
              have hk2 : k ∈ loaded_strings cT ∨ k ∈ loaded_strings cE := by
                have e1 : loaded_strings [.label (.numbered "if" st.if_counter)] = [] := rfl
                have e2 : loaded_strings [.jmp (.numbered "endif" st.if_counter),
                  .label (.numbered "else" st.if_counter)] = [] := rfl
                have e3 : loaded_strings [.label (.numbered "endif" st.if_counter)] = [] := rfl
                simpa only [loaded_strings_append, unmarked_loaded uR, unmarked_loaded uj,
                  e1, e2, e3, List.nil_append, List.append_nil, List.mem_append] using hk
              rw [hvis]
              rcases hk2 with hk2 | hk2
              · exact visited_strings_list_mem (c := then_statement) (by simp)
                  (lT k hk2 (Node.all_children hall then_statement (by simp)))
              · exact visited_strings_list_mem (c := else_statement) (by simp)
                  (lE k hk2 (Node.all_children hall else_statement (by simp)))
    by_cases hW : t = .WHILE_STATEMENT
    · subst hW
      rcases cs with _ | ⟨relation, _ | ⟨block, _ | ⟨x, tail⟩⟩⟩
      · rw [generate_statement, generate_while_statement] at h
        · cases h
        · intro a b c e f g; cases g
      · rw [generate_statement, generate_while_statement] at h
        · cases h
        · intro a b c e f g; cases g
      · obtain ⟨st1, st2, st3, h1, h2, h3, rfl⟩ := generate_while_statement_spec h
        obtain ⟨cR, rfl, uR⟩ := generate_relation_unmarked h1
        obtain ⟨j, rfl, uj⟩ := inverse_jump_unmarked h2
        have hblock := generate_block_statement_post G cf block.children
          (fun c hc s hs => ((ih block (by simp)).2 c hc).2 s hs) _ _ h3
        have p0 : statement_post st
            (emit ⟨st.output, st.while_counter + 1, st.if_counter⟩
              (.label (.numbered "while" st.while_counter))) (fun _ => False) :=
          statement_post_line _ _ (.label (.numbered "while" st.while_counter)) _ rfl rfl
            (by
              intro stem hs k
              simp only [if_stems, List.mem_cons, List.mem_singleton, List.not_mem_nil,
                or_false] at hs
              rcases hs with rfl | rfl | rfl <;> simp) rfl
        have p1 := statement_post_unmarked
          (emit ⟨st.output, st.while_counter + 1, st.if_counter⟩
            (.label (.numbered "while" st.while_counter))) (fun _ => False) uR
        have p2 := statement_post_unmarked
          (emit_all (emit ⟨st.output, st.while_counter + 1, st.if_counter⟩
            (.label (.numbered "while" st.while_counter))) cR) (fun _ => False) uj
        have p3 : statement_post st3 (emit st3 (.jmp (.numbered "while" st.while_counter)))
            (fun _ => False) :=
          statement_post_line _ _ (.jmp (.numbered "while" st.while_counter)) _ rfl rfl
            (by intro stem hs k; simp) rfl
        have p4 : statement_post (emit st3 (.jmp (.numbered "while" st.while_counter)))
            (emit (emit st3 (.jmp (.numbered "while" st.while_counter)))
              (.label (.numbered "endwhile" st.while_counter))) (fun _ => False) :=
          statement_post_line _ _ (.label (.numbered "endwhile" st.while_counter)) _ rfl rfl
            (by
              intro stem hs k
              simp only [if_stems, List.mem_cons, List.mem_singleton, List.not_mem_nil,
                or_false] at hs
              rcases hs with rfl | rfl | rfl <;> simp) rfl
        have q : statement_post st
            (emit_all (emit_all (emit ⟨st.output, st.while_counter + 1, st.if_counter⟩
              (.label (.numbered "while" st.while_counter))) cR) [j]) (fun _ => False) :=
          statement_post_trans (statement_post_trans p0 p1 (fun _ x => x) (fun _ x => x)) p2
            (fun _ x => x) (fun _ x => x)
        refine statement_post_trans (statement_post_trans (statement_post_trans q hblock
          (fun _ x => x.elim) ?_) p3 (fun _ x => x) (fun _ x => x.elim)) p4 (fun _ x => x)
          (fun _ x => x.elim)
        intro k hk hall
        obtain ⟨bt, bd, bcs, bsy⟩ := block
        have hall2 := hall
        rw [Node.all_mk] at hall2
        have hb := hall2.1
        simp only [block_shaped, Node.type_mk, decide_eq_true_eq] at hb
        subst hb
        rw [visited_strings_other _ _ _ _ (by decide) (by decide) (by decide)]
        exact visited_strings_list_mem (c := Node.mk .BLOCK bd bcs bsy) (by simp)
          (hk bd bsy (hall2.2 _ (by simp)))
      · rw [generate_statement, generate_while_statement] at h
        · cases h
        · intro a b c e f g; cases g
    by_cases hK : t = .BREAK_STATEMENT
    · subst hK
      rw [generate_statement] at h
      unfold generate_break_statement at h
      simp only [gen_result.ok.injEq] at h
      subst h
      exact statement_post_line _ _ (.jmp (.numbered "endwhile" (st.while_counter - 1))) _
        rfl rfl (by intro stem hs k; simp) rfl
    · rw [generate_statement_other G cf st t d cs sy hB hA hP hR hI hW hK] at h
      cases h

/-! ## The code of a whole program -/

theorem generate_string_entries_ok (string_list : List Data) :
    ∀ st index st', generate_string_entries st index string_list = .ok st' →
      ∃ texts, string_list = texts.map Data.str ∧
        st' = emit_all st (string_lines index texts) := by
  induction string_list with
  | nil =>
    intro st index st' h
    rw [generate_string_entries] at h
    simp only [gen_result.ok.injEq] at h
    subst h
    exact ⟨[], rfl, by rw [string_lines, emit_all_nil]⟩
  | cons d rest ih =>
    intro st index st' h
    cases d with
    | null => simp [generate_string_entries] at h
    | num v => simp [generate_string_entries] at h
    | str text =>
      rw [generate_string_entries] at h
      obtain ⟨texts, rfl, rfl⟩ := ih _ _ _ h
      exact ⟨text :: texts, rfl, by
        rw [string_lines, emit_eq_emit_all, emit_all_emit_all]; rfl⟩

theorem generate_string_entries_map (texts : List String) :
    ∀ st index, generate_string_entries st index (texts.map Data.str) =
      .ok (emit_all st (string_lines index texts)) := by
  induction texts with
  | nil => intro st index; rw [List.map_nil, generate_string_entries, string_lines, emit_all_nil]
  | cons text rest ih =>
    intro st index
    rw [List.map_cons, generate_string_entries, ih, string_lines, emit_eq_emit_all,
      emit_all_emit_all]
    rfl

theorem generate_string_table_ok {string_list : List Data} {st st' : gen_state}
    (h : generate_string_table string_list st = .ok st') :
    ∃ texts, string_list = texts.map Data.str ∧
      st' = emit_all st (string_section_code texts) := by
  unfold generate_string_table at h
  cases h1 : generate_string_entries
      (emit_all st [.string_section, .asciz .intout "\"%ld \"", .asciz .strout "\"%s \"",
        .asciz .errout "\"Wrong number of arguments\""]) 0 string_list with
  | error e st1 => rw [h1] at h; cases h
  | ok st1 =>
    rw [h1] at h
    simp only [gen_result.ok.injEq] at h
    subst h
    obtain ⟨texts, rfl, rfl⟩ := generate_string_entries_ok _ _ _ _ h1
    exact ⟨texts, rfl, by
      simp [string_section_code, emit_eq_emit_all, emit_all_emit_all]⟩

theorem generate_string_table_map (texts : List String) (st : gen_state) :
    generate_string_table (texts.map Data.str) st =
      .ok (emit_all st (string_section_code texts)) := by
  unfold generate_string_table
  rw [generate_string_entries_map]
  simp [string_section_code, emit_eq_emit_all, emit_all_emit_all]

theorem string_lines_mem (texts : List String) :
    ∀ (index : Nat) (i : Instr), i ∈ string_lines index texts ↔
      ∃ n text, texts[n]? = some text ∧ i = .asciz (.string (Int.ofNat (index + n))) text := by
  induction texts with
  | nil => intro index i; simp [string_lines]
  | cons t rest ih =>
    intro index i
    rw [string_lines, List.mem_cons, ih]
    constructor
    · rintro (rfl | ⟨n, text, h1, rfl⟩)
      · exact ⟨0, t, by simp, rfl⟩
      · exact ⟨n + 1, text, by simpa using h1, by
          rw [Nat.add_assoc, Nat.add_comm 1 n]⟩
    · rintro ⟨n, text, h1, rfl⟩
      cases n with
      | zero =>
        simp only [List.getElem?_cons_zero, Option.some.injEq] at h1
        subst h1
        exact Or.inl rfl
      | succ n =>
        refine Or.inr ⟨n, text, by simpa using h1, ?_⟩
        rw [Nat.add_assoc, Nat.add_comm 1 n]

theorem string_lines_countP (texts : List String) (k : Int) :
    ∀ index : Nat, (string_lines index texts).countP (Instr.defines_string k) =
      if (index : Int) ≤ k ∧ k < index + texts.length then 1 else 0 := by
  induction texts with
  | nil =>
    intro index
    simp only [string_lines, List.countP_nil, List.length_nil]
    split_ifs with h
    · exfalso; push_cast at h; omega
    · rfl
  | cons t rest ih =>
    intro index
    rw [string_lines, List.countP_cons, ih]
    simp only [Instr.defines_string, List.length_cons]
    push_cast
    by_cases hk : (index : Int) = k
    · subst hk
      simp
    · simp only [hk, decide_False, Bool.false_eq_true, if_false, Nat.add_zero]
      split_ifs <;> first | rfl | (exfalso; omega)

theorem string_section_countP (texts : List String) (k : Int) :
    (string_section_code texts).countP (Instr.defines_string k) =
      if 0 ≤ k ∧ k < texts.length then 1 else 0 := by
  unfold string_section_code
  rw [List.countP_append, List.countP_append, string_lines_countP]
  simp [List.countP_cons, Instr.defines_string]

theorem string_lines_unmarked (texts : List String) :
    ∀ index, unmarked (string_lines index texts) := by
  induction texts with
  | nil => intro index i hi; simp [string_lines] at hi
  | cons t rest ih =>
    intro index i hi
    rw [string_lines, List.mem_cons] at hi
    rcases hi with rfl | hi
    · rfl
    · exact ih _ i hi

theorem string_section_unmarked (texts : List String) : unmarked (string_section_code texts) :=
  unmarked_append (unmarked_append (unmarked_of_forall (by simp [Instr.is_marked]))
    (string_lines_unmarked texts 0)) (unmarked_of_forall (by simp [Instr.is_marked]))

theorem generate_global_entries_unmarked (l : List global_symbol_t) :
    ∀ st st', generate_global_entries st l = .ok st' →
      ∃ c, st' = emit_all st c ∧ unmarked c := by
  induction l with
  | nil =>
    intro st st' h
    rw [generate_global_entries] at h
    simp only [gen_result.ok.injEq] at h
    subst h
    exact ⟨[], by rw [emit_all_nil], fun i hi => by cases hi⟩
  | cons e rest ih =>
    intro st st' h
    rw [generate_global_entries] at h
    split_ifs at h with h1 h2
    · obtain ⟨c, rfl, u⟩ := ih _ _ h
      exact ⟨[.zero e.symbol.name 8] ++ c, by rw [emit_eq_emit_all, emit_all_emit_all],
        unmarked_append (unmarked_of_forall (by simp [Instr.is_marked])) u⟩
    · split at h
      · split_ifs at h with h3
        split at h
        · rename_i length hd
          obtain ⟨c, rfl, u⟩ := ih _ _ h
          exact ⟨[.zero e.symbol.name (wrap64 (length * 8))] ++ c,
            by rw [emit_eq_emit_all, emit_all_emit_all],
            unmarked_append (unmarked_of_forall (by simp [Instr.is_marked])) u⟩
        · cases h
      · cases h
    · exact ih _ _ h

theorem generate_global_variables_unmarked {G : List global_symbol_t} {st st' : gen_state}
    (h : generate_global_variables G st = .ok st') :
    ∃ c, st' = emit_all st c ∧ unmarked c := by
  unfold generate_global_variables at h
  cases h1 : generate_global_entries
      (emit_all st [.bss_section, .directive ".align 8"]) G with
  | error e st1 => simp [h1] at h
  | ok st1 =>
    simp only [h1, gen_result.ok.injEq] at h
    subst h
    obtain ⟨c, rfl, u⟩ := generate_global_entries_unmarked G _ _ h1
    exact ⟨[.bss_section, .directive ".align 8"] ++ c ++ [.directive ""],
      by simp [emit_eq_emit_all, emit_all_emit_all],
      unmarked_append (unmarked_append (unmarked_of_forall (by simp [Instr.is_marked])) u)
        (unmarked_of_forall (by simp [Instr.is_marked]))⟩

theorem free_code_append {a b : List Instr} (ha : free_code a) (hb : free_code b) :
    free_code (a ++ b) := by
  intro i hi
  rcases List.mem_append.1 hi with h | h
  · exact ha i h
  · exact hb i h

theorem free_code_of_all {c : List Instr} (h : c.all Instr.is_free = true) : free_code c :=
  fun i hi => List.all_eq_true.1 h i hi

theorem free_code_map {α : Type} (l : List α) (f : α → Instr)
    (hf : ∀ x, Instr.is_free (f x) = true) : free_code (l.map f) := by
  intro i hi
  obtain ⟨x, -, rfl⟩ := List.mem_map.1 hi
  exact hf x

theorem free_code_spec {c : List Instr} (h : free_code c) :
    (∀ stem ∈ if_stems, ∀ k, Instr.label (.numbered stem k) ∉ c) ∧ loaded_strings c = [] := by
  constructor
  · intro stem _ k hm
    have := h _ hm
    simp [Instr.is_free] at this
  · unfold loaded_strings
    rw [List.filterMap_eq_nil_iff]
    intro i hi
    have := h i hi
    cases i <;> simp [Instr.is_free, Instr.loaded_string] at this ⊢
    rename_i symbol dst
    cases symbol <;> simp [Instr.is_free, Instr.loaded_string] at this ⊢

theorem statement_post_free (st : gen_state) {c : List Instr} (A : Int → Prop)
    (h : free_code c) : statement_post st (emit_all st c) A :=
  statement_post_of_free rfl rfl (free_code_spec h).1 (by rw [(free_code_spec h).2]; simp)

theorem function_prologue_free (name : String) (parameter_count : Nat) (table : symbol_table_t) :
    free_code (function_prologue name parameter_count table) :=
  free_code_append (free_code_append (free_code_of_all (by simp [Instr.is_free]))
    (free_code_map _ _ (fun _ => rfl))) (free_code_map _ _ (fun _ => rfl))

theorem main_code_free (name : String) (expected_args : Nat) :
    free_code (main_code name expected_args) := by
  unfold main_code
  split_ifs
  · exact free_code_append (free_code_append (free_code_append (free_code_append
      (free_code_of_all (by simp [Instr.is_free])) (free_code_of_all (by simp)))
      (free_code_of_all (by simp [Instr.is_free])))
      (free_code_of_all (by simp [Instr.is_free, safe_printf_code])))
      (free_code_of_all (by simp [Instr.is_free]))
  · exact free_code_append (free_code_append (free_code_append (free_code_append
      (free_code_of_all (by simp [Instr.is_free]))
      (free_code_append (free_code_of_all (by simp [Instr.is_free]))
        (free_code_map _ _ (fun _ => rfl))))
      (free_code_of_all (by simp [Instr.is_free])))
      (free_code_of_all (by simp [Instr.is_free, safe_printf_code])))
      (free_code_of_all (by simp [Instr.is_free]))

theorem generate_function_post {G : List global_symbol_t} {st st' : gen_state}
    {f : global_symbol_t} (h : generate_function G st f = .ok st') :
    statement_post st st'
      (fun k => ∀ a b body, f.node.children = [a, b, body] →
        Node.all block_shaped body = true → Data.num k ∈ visited_strings body) := by
  unfold generate_function at h
  split at h
  · rename_i parameter_count table hp ht
    split at h
    · rename_i x y function_body tail hch
      cases h1 : generate_statement G f
          (emit_all st (function_prologue f.symbol.name parameter_count table))
          function_body with
      | error e st1 => rw [h1] at h; cases h
      | ok st1 =>
        rw [h1] at h
        simp only [gen_result.ok.injEq] at h
        subst h
        have p0 : statement_post st
            (emit_all st (function_prologue f.symbol.name parameter_count table))
            (fun _ => False) :=
          statement_post_free st _ (function_prologue_free _ _ _)
        have p1 := generate_statement_post G f function_body _ _ h1
        have p2 := statement_post_unmarked st1 (fun _ => False)
          (c := [.movq (.imm 0) (.reg .RAX), .movq (.reg .RBP) (.reg .RSP),
            .popq (.reg .RBP), .ret, .directive ""])
          (unmarked_of_forall (by simp [Instr.is_marked]))
        refine statement_post_trans (statement_post_trans p0 p1 (fun _ x => x.elim) ?_) p2
          (fun _ x => x) (fun _ x => x.elim)
        intro k hk a b body hb hall
        rw [hch] at hb
        simp only [List.cons.injEq] at hb
        obtain ⟨-, -, rfl, -⟩ := hb
        exact hk hall
    · cases h
  · cases h

theorem generate_functions_post (G : List global_symbol_t) (l : List global_symbol_t) :
    ∀ st st', generate_functions G st l = .ok st' →
      statement_post st st'
        (fun k =>
          (∀ e ∈ l, e.symbol.type = .SYMBOL_FUNCTION → ∃ a b body, e.node.children = [a, b, body]) →
          (∀ body ∈ function_bodies l, Node.all block_shaped body = true) →
          Data.num k ∈ visited_strings_list (function_bodies l)) := by
  induction l with
  | nil =>
    intro st st' h
    rw [generate_functions] at h
    simp only [gen_result.ok.injEq] at h
    subst h
    exact statement_post_of_free (c := []) (by simp) rfl (by simp) (by simp [loaded_strings])
  | cons e rest ih =>
    intro st st' h
    rw [generate_functions] at h
    by_cases hf : e.symbol.type ≠ .SYMBOL_FUNCTION
    · rw [if_pos hf] at h
      refine statement_post_mono (ih st st' h) ?_
      intro k hk hn hs
      rw [function_bodies_cons_other hf] at hs ⊢
      exact hk (fun x hx => hn x (List.mem_cons_of_mem _ hx)) hs
    · rw [if_neg hf] at h
      have hf2 : e.symbol.type = .SYMBOL_FUNCTION := by
        by_contra hne; exact hf hne
      cases h1 : generate_function G st e with
      | error err st1 => rw [h1] at h; cases h
      | ok st1 =>
        rw [h1] at h
        simp only at h
        refine statement_post_trans (generate_function_post h1) (ih st1 st' h) ?_ ?_
        · intro k hk hn hs
          obtain ⟨a, b, body, hch⟩ := hn e (List.mem_cons_self _ _) hf2
          rw [function_bodies_cons_function e hf2 hch] at hs ⊢
          rw [visited_strings_list]
          exact List.mem_append_left _ (hk a b body hch (hs body (List.mem_cons_self _ _)))
        · intro k hk hn hs
          obtain ⟨a, b, body, hch⟩ := hn e (List.mem_cons_self _ _) hf2
          rw [function_bodies_cons_function e hf2 hch] at hs ⊢
          rw [visited_strings_list]
          exact List.mem_append_right _
            (hk (fun x hx => hn x (List.mem_cons_of_mem _ hx))
              (fun x hx => hs x (List.mem_cons_of_mem _ hx)))

theorem generate_program_ok {t : tables} {st' : gen_state}
    (h : generate_program t = .ok st') :
    ∃ texts cG st3 first p, t.string_list = texts.map Data.str ∧ unmarked cG ∧
      generate_global_variables t.global_symbols
        (emit_all ⟨[], 0, 0⟩ (string_section_code texts)) =
        .ok (emit_all (emit_all ⟨[], 0, 0⟩ (string_section_code texts)) cG) ∧
      generate_functions t.global_symbols
        (emit_all ⟨[], 0, 0⟩ (string_section_code texts ++ cG ++ [.directive ".text"]))
        t.global_symbols = .ok st3 ∧
      first_function t.global_symbols = some first ∧
      FUNC_PARAM_COUNT first = some p ∧
      st' = emit_all st3 (main_code first.symbol.name p) := by
  unfold generate_program at h
  cases h1 : generate_string_table t.string_list ⟨[], 0, 0⟩ with
  | error e st1 => rw [h1] at h; cases h
  | ok st1 =>
    rw [h1] at h
    simp only at h
    obtain ⟨texts, htexts, rfl⟩ := generate_string_table_ok h1
    cases h2 : generate_global_variables t.global_symbols
        (emit_all ⟨[], 0, 0⟩ (string_section_code texts)) with
    | error e st2 => rw [h2] at h; cases h
    | ok st2 =>
      rw [h2] at h
      simp only at h
      obtain ⟨cG, rfl, uG⟩ := generate_global_variables_unmarked h2
      unfold get_topmost_function at h
      cases h3 : generate_functions t.global_symbols
          (emit (emit_all (emit_all ⟨[], 0, 0⟩ (string_section_code texts)) cG)
            (.directive ".text")) t.global_symbols with
      | error e st3 => rw [h3] at h; cases h
      | ok st3 =>
        rw [h3] at h
        simp only at h
        cases h4 : first_function t.global_symbols with
        | none => rw [h4] at h; cases h
        | some first =>
          rw [h4] at h
          simp only at h
          unfold generate_main at h
          cases h5 : FUNC_PARAM_COUNT first with
          | none => rw [h5] at h; cases h
          | some p =>
            rw [h5] at h
            simp only [gen_result.ok.injEq] at h
            refine ⟨texts, cG, st3, first, p, htexts, uG, h2, ?_, rfl, h5, h.symm⟩
            rw [← h3]
            simp [emit_eq_emit_all, emit_all_emit_all]

theorem generate_program_post {t : tables} {st' : gen_state}
    (h : generate_program t = .ok st') :
    statement_post ⟨[], 0, 0⟩ st'
      (fun k =>
        (∀ e ∈ t.global_symbols, e.symbol.type = .SYMBOL_FUNCTION →
          ∃ a b body, e.node.children = [a, b, body]) →
        (∀ body ∈ function_bodies t.global_symbols, Node.all block_shaped body = true) →
        Data.num k ∈ visited_strings_list (function_bodies t.global_symbols)) := by
  obtain ⟨texts, cG, st3, first, p, -, uG, -, h3, -, -, rfl⟩ := generate_program_ok h
  have p0 := statement_post_unmarked ⟨[], 0, 0⟩ (fun _ => False)
    (unmarked_append (unmarked_append (string_section_unmarked texts) uG)
      (unmarked_of_forall (c := [.directive ".text"]) (by simp [Instr.is_marked])))
  have p1 := generate_functions_post t.global_symbols t.global_symbols _ _ h3
  have p2 : statement_post st3 (emit_all st3 (main_code first.symbol.name p))
      (fun _ => False) :=
    statement_post_free st3 _ (main_code_free _ _)
  exact statement_post_trans (statement_post_trans p0 p1 (fun _ x => x.elim) (fun _ x => x)) p2
    (fun _ x => x) (fun _ x => x.elim)

/-! ## Numbering of if statements (C28) -/

theorem generate_statement_appends {G : List global_symbol_t} {cf : global_symbol_t}
    {st st' : gen_state} {n : Node} (h : generate_statement G cf st n = .ok st') :
    ∃ code, st'.output = st.output ++ code := by
  obtain ⟨code, _, ho, -, -, -⟩ := generate_statement_post G cf n st st' h
  exact ⟨code, ho⟩

/-- C28: `generate_program`, when it succeeds, has defined each of `if<k>`,
`else<k>` and `endif<k>` exactly once for every `k` from 0 up to the final value
of the if-counter and for no other `k`, the labels `if<k>` standing in the
output in the order 0, 1, 2, ...; the same holds of the code of every statement,
counted from the counter value at its start.  An if statement entered with the
counter at `N` writes `if<N>`, the relation code, the inverse jump to `else<N>`,
the then-branch, `jmp endif<N>`, `else<N>`, the else-branch if there is one, and
`endif<N>`, and the then-branch starts with the counter at `N + 1`. -/
theorem generate_if_statement_numbering (t : tables) (final : gen_state)
    (h : generate_program t = .ok final) :
    (∃ count : Nat, final.if_counter = count ∧ if_labels_numbered final.output 0 count) ∧
    (∀ (G : List global_symbol_t) (cf : global_symbol_t) (n : Node) (st st' : gen_state),
      generate_statement G cf st n = .ok st' →
      ∃ (code : List Instr) (count : Nat), st'.output = st.output ++ code ∧
        st'.if_counter = st.if_counter + count ∧
        if_labels_numbered code st.if_counter count) ∧
    (∀ (G : List global_symbol_t) (cf : global_symbol_t) (st st' : gen_state) (d : Data)
      (relation then_statement : Node) (rest : List Node) (sy : Option Symbol),
      generate_statement G cf st
        (.mk .IF_STATEMENT d (relation :: then_statement :: rest) sy) = .ok st' →
      ∃ (cR cT cE : List Instr) (j : Instr) (text : String) (st2 st3 : gen_state),
        st'.output = st.output ++
          ([.label (.numbered "if" st.if_counter)] ++ cR ++ [j] ++ cT ++
            [.jmp (.numbered "endif" st.if_counter), .label (.numbered "else" st.if_counter)] ++
            cE ++ [.label (.numbered "endif" st.if_counter)]) ∧
        generate_relation G cf
          (emit ⟨st.output, st.while_counter, st.if_counter + 1⟩
            (.label (.numbered "if" st.if_counter))) relation =
          .ok (emit_all (emit ⟨st.output, st.while_counter, st.if_counter + 1⟩
            (.label (.numbered "if" st.if_counter))) cR) ∧
        relation.data = .str text ∧
        is_inverse_jump text (.numbered "else" st.if_counter) j ∧
        st2 = emit_all (emit ⟨st.output, st.while_counter, st.if_counter + 1⟩
          (.label (.numbered "if" st.if_counter))) (cR ++ [j]) ∧
        generate_statement G cf st2 then_statement = .ok st3 ∧
        st2.if_counter = st.if_counter + 1 ∧
        st3.output = st2.output ++ cT ∧
        (rest = [] → cE = [] ∧ st'.if_counter = st3.if_counter) ∧
        (∀ else_statement tail, rest = else_statement :: tail →
          ∃ st5, generate_statement G cf
              (emit_all st3 [.jmp (.numbered "endif" st.if_counter),
                .label (.numbered "else" st.if_counter)]) else_statement = .ok st5 ∧
            st5.output = st3.output ++ [.jmp (.numbered "endif" st.if_counter),
              .label (.numbered "else" st.if_counter)] ++ cE ∧
            st'.if_counter = st5.if_counter)) := by
  refine ⟨?_, ?_, ?_⟩
  · obtain ⟨code, count, ho, hc, hn, -⟩ := generate_program_post h
    refine ⟨count, by simpa using hc, ?_⟩
    simp only [List.nil_append] at ho
    rw [ho]
    exact hn
  · intro G cf n st st' hs
    obtain ⟨code, count, ho, hc, hn, -⟩ := generate_statement_post G cf n st st' hs
    exact ⟨code, count, ho, hc, hn⟩
  · intro G cf st st' d relation then_statement rest sy hs
    obtain ⟨st1, st2, st3, h1, h2, h3, h4⟩ := generate_if_statement_spec hs
    obtain ⟨cR, rfl, -⟩ := generate_relation_unmarked h1
    obtain ⟨text, j, hd, hj, rfl⟩ := inverse_jump_eq_ok h2
    obtain ⟨cT, oT⟩ := generate_statement_appends h3
    rcases rest with _ | ⟨else_statement, tail⟩
    · rw [generate_else] at h4
      simp only [gen_result.ok.injEq] at h4
      subst h4
      refine ⟨cR, cT, [], j, text, _, st3, ?_, h1, hd, hj, ?_, h3, rfl, oT,
        fun _ => ⟨rfl, rfl⟩, fun e tail he => (by cases he)⟩
      · simp [emit, emit_all, oT]
      · rw [emit_eq_emit_all, emit_all_emit_all]
    · rw [generate_else] at h4
      cases h5 : generate_statement G cf
          (emit (emit st3 (.jmp (.numbered "endif" st.if_counter)))
            (.label (.numbered "else" st.if_counter))) else_statement with
      | error e st5 => rw [h5] at h4; cases h4
      | ok st5 =>
        rw [h5] at h4
        simp only [gen_result.ok.injEq] at h4
        subst h4
        obtain ⟨cE, oE⟩ := generate_statement_appends h5
        refine ⟨cR, cT, cE, j, text, _, st3, ?_, h1, hd, hj, ?_, h3, rfl, oT,
          fun he => (by cases he), fun e tail he => ?_⟩
        · simp [emit, emit_all, oT, oE]
        · rw [emit_eq_emit_all, emit_all_emit_all]
        · simp only [List.cons.injEq] at he
          obtain ⟨rfl, rfl⟩ := he
          have e : emit_all st3 [.jmp (.numbered "endif" st.if_counter),
              .label (.numbered "else" st.if_counter)] =
              emit (emit st3 (.jmp (.numbered "endif" st.if_counter)))
                (.label (.numbered "else" st.if_counter)) := by
            simp [emit, emit_all]
          rw [e]
          refine ⟨st5, h5, ?_, rfl⟩
          rw [oE]
          simp [emit]

/-- C28, at `def f() begin if 1 < 2 then begin if 1 < 2 then print "a" else
print "b" end  if 1 < 2 then print "a" end`: three if statements, one nested;
the counter ends at 3 and the labels carry the numbers 0, 1, 2. -/
theorem generate_if_statement_numbering_witness :
    generate_program example_branches_tables = .ok example_branches_result ∧
    (∃ count : Nat, example_branches_result.if_counter = count ∧
      if_labels_numbered example_branches_result.output 0 count) ∧
    example_branches_result.if_counter = 3 ∧
    if_numbers example_branches_result.output = [0, 1, 2] :=
  ⟨rfl, (generate_if_statement_numbering example_branches_tables example_branches_result rfl).1,
    rfl, by decide⟩

/-! ## The string labels of a program (C27) -/

theorem create_tables_function_nodes {root : Node} {g : List global_symbol_t} {t : tables}
    (hg : find_globals root = some g) (ht : create_tables root = some t) :
    ∀ e ∈ t.global_symbols, e.symbol.type = .SYMBOL_FUNCTION →
      ∃ a b body, e.node.children = [a, b, body] := by
  intro e' he' hf
  obtain ⟨e, -, hb⟩ := forall₂_mem_right (create_tables_entries hg ht) he'
  have hty : e.symbol.type = .SYMBOL_FUNCTION := by rw [← entry_bound_type hb]; exact hf
  obtain ⟨t1, d, a, b, child, sy, table, sl, st', child', -, -, -, rfl⟩ := hb.1 hty
  exact ⟨a, b, child', rfl⟩

/-- C27: when `create_tables` and then `generate_program` succeed on a tree
whose blocks have the shape that simplification leaves, the output starts with
the string section (the section directive, `intout`, `strout`, `errout`, one
line per entry of the string list); every `string<k>` that the output loads has
`0 ≤ k < ` length of the string list, is defined by exactly one line of the
section, and the text of that line is the payload that the `k`-th
`STRING_DATA` node visited carried before `create_tables`, that node being the
one that carries the index `k` afterwards. -/
theorem generate_program_string_labels (root : Node) (g : List global_symbol_t) (t : tables)
    (final : gen_state) (hg : find_globals root = some g) (ht : create_tables root = some t)
    (hs : ∀ body ∈ function_bodies t.global_symbols, Node.all block_shaped body = true)
    (h : generate_program t = .ok final) :
    ∃ texts rest, t.string_list = texts.map Data.str ∧
      final.output = string_section_code texts ++ rest ∧
      ∀ k ∈ loaded_strings final.output,
        0 ≤ k ∧ k < texts.length ∧
        (string_section_code texts).countP (Instr.defines_string k) = 1 ∧
        ∃ text, Instr.asciz (.string k) text ∈ string_section_code texts ∧
          (visited_strings_list (function_bodies g))[k.toNat]? = some (.str text) ∧
          (visited_strings_list (function_bodies t.global_symbols))[k.toNat]? =
            some (.num k) := by
  obtain ⟨a1, a2, -⟩ := create_tables_post root g t hg ht
  obtain ⟨texts, cG, st3, first, p, htexts, -, -, h3, -, -, hfinal⟩ := generate_program_ok h
  obtain ⟨code3, ho3⟩ : ∃ code, st3.output = string_section_code texts ++ code := by
    obtain ⟨c, _, ho, -, -, -⟩ := generate_functions_post _ _ _ _ h3
    exact ⟨cG ++ [.directive ".text"] ++ c, by simp [ho, emit_all]⟩
  obtain ⟨code, count, ho, -, -, hl⟩ := generate_program_post h
  simp only [List.nil_append] at ho
  refine ⟨texts, code3 ++ main_code first.symbol.name p, htexts,
    by rw [hfinal]; simp [emit_all, ho3], ?_⟩
  intro k hk
  rw [ho] at hk
  have hv := hl k hk (create_tables_function_nodes hg ht) hs
  rw [a2, List.mem_map] at hv
  obtain ⟨n, hn, hnk⟩ := hv
  simp only [Data.num.injEq, Int.ofNat_eq_coe] at hnk
  subst hnk
  rw [List.mem_range, htexts, List.length_map] at hn
  have hlen : (t.string_list).length = texts.length := by rw [htexts, List.length_map]
  refine ⟨by omega, by exact_mod_cast hn, ?_, texts[n], ?_, ?_, ?_⟩
  · rw [string_section_countP, if_pos ⟨by omega, by exact_mod_cast hn⟩]
  · unfold string_section_code
    apply List.mem_append_left
    apply List.mem_append_right
    rw [string_lines_mem]
    exact ⟨n, texts[n], by simp [hn], by simp⟩
  · rw [← a1, htexts]
    simp [hn]
  · rw [a2]
    simp [hn, hlen]

/-- C27, at `def f() begin if 1 < 2 then begin if 1 < 2 then print "a" else
print "b" end  if 1 < 2 then print "a" end`: the string list is
`"a"`, `"b"`, `"a"` and the output loads `string0`, `string1`, `string2`. -/
theorem generate_program_string_labels_witness :
    find_globals example_branches_program = some example_branches_globals ∧
    create_tables example_branches_program = some example_branches_tables ∧
    (∀ body ∈ function_bodies example_branches_tables.global_symbols,
      Node.all block_shaped body = true) ∧
    generate_program example_branches_tables = .ok example_branches_result ∧
    example_branches_tables.string_list = [.str "\"a\"", .str "\"b\"", .str "\"a\""] ∧
    loaded_strings example_branches_result.output = [0, 1, 2] ∧
    ∃ texts rest, example_branches_tables.string_list = texts.map Data.str ∧
      example_branches_result.output = string_section_code texts ++ rest ∧
      ∀ k ∈ loaded_strings example_branches_result.output,
        0 ≤ k ∧ k < texts.length ∧
        (string_section_code texts).countP (Instr.defines_string k) = 1 ∧
        ∃ text, Instr.asciz (.string k) text ∈ string_section_code texts ∧
          (visited_strings_list (function_bodies example_branches_globals))[k.toNat]? =
            some (.str text) ∧
          (visited_strings_list
            (function_bodies example_branches_tables.global_symbols))[k.toNat]? =
            some (.num k) :=
  ⟨by decide, by decide, by decide, rfl, by decide, rfl,
    generate_program_string_labels example_branches_program example_branches_globals
      example_branches_tables example_branches_result (by decide) (by decide) (by decide) rfl⟩

/-! ## The error `program contained no functions` -/

theorem not_no_functions_bind {r : gen_result} {k : gen_state → gen_result}
    (hr : r.is_no_functions = false) (hk : ∀ s, (k s).is_no_functions = false) :
    (match r with
      | .ok s => k s
      | .error e s => .error e s).is_no_functions = false := by
  cases r with
  | ok s => exact hk s
  | error e s => exact hr

theorem generate_variable_access_not_no_functions (cf : global_symbol_t) (node : Node) :
    generate_variable_access cf node ≠ .error .no_functions := by
  unfold generate_variable_access
  repeat' split
  all_goals simp

theorem generate_arguments_not_no_functions (G : List global_symbol_t) (cf : global_symbol_t)
    (arguments : List Node)
    (ih : ∀ a ∈ arguments, ∀ st, (generate_expression G cf st a).is_no_functions = false) :
    ∀ st, (generate_arguments G cf st arguments).is_no_functions = false := by
  induction arguments with
  | nil => intro st; rw [generate_arguments]; rfl
  | cons a rest ihr =>
    intro st
    rw [generate_arguments]
    refine not_no_functions_bind (ihr (fun x hx => ih x (List.mem_cons_of_mem _ hx)) st)
      (fun s => ?_)
    exact not_no_functions_bind (ih a (List.mem_cons_self _ _) s) (fun _ => rfl)

theorem generate_function_call_body_not_no_functions (G : List global_symbol_t)
    (cf : global_symbol_t) (cs : List Node)
    (ih : ∀ c ∈ cs, ∀ a ∈ c.children, ∀ st,
      (generate_expression G cf st a).is_no_functions = false) :
    ∀ st, (generate_function_call_body G cf st cs).is_no_functions = false := by
  intro st
  rcases cs with _ | ⟨callee, _ | ⟨⟨at_, ad, arguments, asy⟩, tail⟩⟩
  · rw [generate_function_call_body]; rfl
  · rw [generate_function_call_body]
    split
    · rfl
    · split_ifs <;> rfl
  · rw [generate_function_call_body]
    split
    · rfl
    · split_ifs
      · rfl
      · dsimp only
        split
        · rfl
        · split_ifs <;> first
            | rfl
            | exact not_no_functions_bind
                (generate_arguments_not_no_functions G cf arguments
                  (fun a ha => ih (Node.mk at_ ad arguments asy) (by simp) a ha) st)
                (fun _ => rfl)

theorem generate_array_access_body_not_no_functions (G : List global_symbol_t)
    (cf : global_symbol_t) (cs : List Node)
    (ih : ∀ a ∈ cs, ∀ st, (generate_expression G cf st a).is_no_functions = false) :
    ∀ st, (generate_array_access_body G cf st cs).is_no_functions = false := by
  intro st
  rcases cs with _ | ⟨array, _ | ⟨index, tail⟩⟩
  · rw [generate_array_access_body]; rfl
  · rw [generate_array_access_body]
    split
    · rfl
    · split_ifs <;> rfl
  · rw [generate_array_access_body]
    split
    · rfl
    · split_ifs
      · rfl
      · exact not_no_functions_bind (ih index (by simp) st) (fun _ => rfl)

theorem generate_binary_not_no_functions {G : List global_symbol_t} {cf : global_symbol_t}
    {a b : Node} {st : gen_state} (k : gen_state → gen_result)
    (hk : ∀ s, (k s).is_no_functions = false)
    (ha : ∀ st, (generate_expression G cf st a).is_no_functions = false)
    (hb : ∀ st, (generate_expression G cf st b).is_no_functions = false) :
    (match generate_expression G cf st a with
      | .ok st1 =>
        match generate_expression G cf (emit st1 (.pushq (.reg .RAX))) b with
        | .ok st2 => k st2
        | .error e st2 => .error e st2
      | .error e st1 => .error e st1).is_no_functions = false :=
  not_no_functions_bind (ha _) (fun _ => not_no_functions_bind (hb _) hk)

theorem generate_expression_not_no_functions (G : List global_symbol_t) (cf : global_symbol_t) :
    ∀ e st, (generate_expression G cf st e).is_no_functions = false := by
  intro e
  induction e using Node.induction3 with
  | h t d cs sy ih =>
    intro st
    by_cases h1 : t = .NUMBER_DATA
    · subst h1
      cases d <;> simp [generate_expression, gen_result.is_no_functions]
    by_cases h2 : t = .IDENTIFIER_DATA
    · subst h2
      rw [generate_expression]
      have := generate_variable_access_not_no_functions cf (.mk .IDENTIFIER_DATA d cs sy)
      split
      · rfl
      · rename_i e he
        rw [he] at this
        cases e <;> first | rfl | exact absurd rfl this
    by_cases h3 : t = .ARRAY_INDEXING
    · subst h3
      rw [generate_expression]
      exact not_no_functions_bind
        (generate_array_access_body_not_no_functions G cf cs (fun a ha => (ih a ha).1) st)
        (fun _ => rfl)
    by_cases h4 : t = .EXPRESSION
    · subst h4
      cases d with
      | null => simp [generate_expression, gen_result.is_no_functions]
      | num v => simp [generate_expression, gen_result.is_no_functions]
      | str data =>
        by_cases c1 : data = "call"
        · subst c1
          have hcall : generate_expression G cf st (.mk .EXPRESSION (.str "call") cs sy) =
              generate_function_call_body G cf st cs := by
            rcases cs with _ | ⟨l, _ | ⟨r, tail⟩⟩ <;> simp [generate_expression]
          rw [hcall]
          exact generate_function_call_body_not_no_functions G cf cs
            (fun c hc a ha => ((ih c hc).2 a ha).1) st
        rcases cs with _ | ⟨l, _ | ⟨r, tail⟩⟩
        · simp only [generate_expression, c1, if_false]
          split_ifs <;> rfl
        · rw [generate_expression, if_neg c1]
          split_ifs
          · exact not_no_functions_bind ((ih l (by simp)).1 st) (fun _ => rfl)
          · exact not_no_functions_bind ((ih l (by simp)).1 st) (fun _ => rfl)
          · exact not_no_functions_bind ((ih l (by simp)).1 st) (fun _ => rfl)
          · rfl
          · rfl
        · have hl := (ih l (by simp)).1
          have hr := (ih r (by simp)).1
          rw [generate_expression, if_neg c1]
          split_ifs
          · exact generate_binary_not_no_functions _ (fun _ => rfl) hl hr
          · exact generate_binary_not_no_functions _ (fun _ => rfl) hr hl
          · exact generate_binary_not_no_functions _ (fun _ => rfl) hl hr
          · exact generate_binary_not_no_functions _ (fun _ => rfl) hr hl
          · rfl
    · rw [generate_expression_other G cf st t d cs sy h1 h2 h3 h4]
      rfl

theorem generate_array_access_not_no_functions (G : List global_symbol_t) (cf : global_symbol_t)
    (st : gen_state) (node : Node) :
    (generate_array_access G cf st node).is_no_functions = false := by
  unfold generate_array_access
  split_ifs
  · rfl
  · exact generate_array_access_body_not_no_functions G cf _
      (fun a _ => generate_expression_not_no_functions G cf a) st

theorem generate_assignment_not_no_functions (G : List global_symbol_t) (cf : global_symbol_t)
    (st : gen_state) (statement : Node) :
    (generate_assignment_statement G cf st statement).is_no_functions = false := by
  unfold generate_assignment_statement
  split
  · rename_i destination expression rest hcs
    refine not_no_functions_bind (generate_expression_not_no_functions G cf _ _) (fun s => ?_)
    split_ifs
    · have := generate_variable_access_not_no_functions cf destination
      split
      · rfl
      · rename_i e he
        rw [he] at this
        cases e <;> first | rfl | exact absurd rfl this
    · exact not_no_functions_bind (generate_array_access_not_no_functions G cf _ _)
        (fun _ => rfl)
  · rfl

theorem generate_print_items_not_no_functions (G : List global_symbol_t) (cf : global_symbol_t)
    (items : List Node) :
    ∀ st, (generate_print_items G cf st items).is_no_functions = false := by
  induction items with
  | nil => intro st; rw [generate_print_items]; rfl
  | cons child rest ih =>
    intro st
    rw [generate_print_items]
    split_ifs
    · split
      · exact ih _
      · rfl
    · exact not_no_functions_bind (generate_expression_not_no_functions G cf _ _)
        (fun s => ih _)

theorem generate_print_not_no_functions (G : List global_symbol_t) (cf : global_symbol_t)
    (st : gen_state) (statement : Node) :
    (generate_print_statement G cf st statement).is_no_functions = false := by
  unfold generate_print_statement
  exact not_no_functions_bind (generate_print_items_not_no_functions G cf _ st) (fun _ => rfl)

theorem generate_return_not_no_functions (G : List global_symbol_t) (cf : global_symbol_t)
    (st : gen_state) (statement : Node) :
    (generate_return_statement G cf st statement).is_no_functions = false := by
  unfold generate_return_statement
  split
  · exact not_no_functions_bind (generate_expression_not_no_functions G cf _ _) (fun _ => rfl)
  · rfl

theorem generate_relation_not_no_functions (G : List global_symbol_t) (cf : global_symbol_t)
    (st : gen_state) (relation : Node) :
    (generate_relation G cf st relation).is_no_functions = false := by
  unfold generate_relation
  split
  · exact generate_binary_not_no_functions _ (fun _ => rfl)
      (fun _ => generate_expression_not_no_functions G cf _ _)
      (fun _ => generate_expression_not_no_functions G cf _ _)
  · rfl

theorem inverse_jump_not_no_functions (st : gen_state) (data : Data) (target : Label) :
    (inverse_jump st data target).is_no_functions = false := by
  unfold inverse_jump
  split
  · split_ifs <;> rfl
  · rfl

theorem generate_statement_list_not_no_functions (G : List global_symbol_t)
    (cf : global_symbol_t) (statements : List Node)
    (ih : ∀ s ∈ statements, ∀ st, (generate_statement G cf st s).is_no_functions = false) :
    ∀ st, (generate_statement_list G cf st statements).is_no_functions = false := by
  induction statements with
  | nil => intro st; rw [generate_statement_list]; rfl
  | cons s rest ihr =>
    intro st
    rw [generate_statement_list]
    exact not_no_functions_bind (ih s (List.mem_cons_self _ _) st)
      (fun s1 => ihr (fun x hx => ih x (List.mem_cons_of_mem _ hx)) s1)

theorem generate_block_statement_not_no_functions (G : List global_symbol_t)
    (cf : global_symbol_t) (cs : List Node)
    (ih : ∀ c ∈ cs, ∀ s ∈ c.children, ∀ st,
      (generate_statement G cf st s).is_no_functions = false) :
    ∀ st, (generate_block_statement G cf st cs).is_no_functions = false := by
  induction cs with
  | nil => intro st; rw [generate_block_statement]; rfl
  | cons c rest ihr =>
    intro st
    rcases rest with _ | ⟨c2, rest2⟩
    · obtain ⟨lt, ld, statements, lsy⟩ := c
      rw [generate_block_statement]
      exact generate_statement_list_not_no_functions G cf statements
        (fun s hs => ih (Node.mk lt ld statements lsy) (by simp) s hs) st
    · rw [generate_block_statement]
      · exact ihr (fun x hx => ih x (List.mem_cons_of_mem _ hx)) st
      · intro t d ss sy e1 e2
        cases e2

theorem generate_statement_not_no_functions (G : List global_symbol_t) (cf : global_symbol_t) :
    ∀ n st, (generate_statement G cf st n).is_no_functions = false := by
  intro n
  induction n using Node.induction3 with
  | h t d cs sy ih =>
    intro st
    by_cases hB : t = .BLOCK
    · subst hB
      rw [generate_statement]
      exact generate_block_statement_not_no_functions G cf cs
        (fun c hc s hs => ((ih c hc).2 s hs).1) st
    by_cases hA : t = .ASSIGNMENT_STATEMENT
    · subst hA
      rw [generate_statement]
      exact generate_assignment_not_no_functions G cf st _
    by_cases hP : t = .PRINT_STATEMENT
    · subst hP
      rw [generate_statement]
      exact generate_print_not_no_functions G cf st _
    by_cases hR : t = .RETURN_STATEMENT
    · subst hR
      rw [generate_statement]
      exact generate_return_not_no_functions G cf st _
    by_cases hI : t = .IF_STATEMENT
    · subst hI
      rcases cs with _ | ⟨relation, _ | ⟨then_statement, rest⟩⟩
      · rw [generate_statement, generate_if_statement]
        · rfl
        · intro a b c e; cases e
      · rw [generate_statement, generate_if_statement]
        · rfl
        · intro a b c e; cases e
      · rw [generate_statement, generate_if_statement]
        split_ifs
        · rfl
        · refine not_no_functions_bind (generate_relation_not_no_functions G cf _ _)
            (fun s1 => ?_)
          refine not_no_functions_bind (inverse_jump_not_no_functions _ _ _) (fun s2 => ?_)
          refine not_no_functions_bind ((ih then_statement (by simp)).1 s2) (fun s3 => ?_)
          rcases rest with _ | ⟨else_statement, tail⟩
          · rw [generate_else]; rfl
          · rw [generate_else]
            exact not_no_functions_bind ((ih else_statement (by simp)).1 _) (fun _ => rfl)
    by_cases hW : t = .WHILE_STATEMENT
    · subst hW
      rcases cs with _ | ⟨relation, _ | ⟨⟨bt, bd, bcs, bsy⟩, _ | ⟨x, tail⟩⟩⟩
      · rw [generate_statement, generate_while_statement]
        · rfl
        · intro a b c e f g; cases g
      · rw [generate_statement, generate_while_statement]
        · rfl
        · intro a b c e f g; cases g
      · rw [generate_statement, generate_while_statement]
        refine not_no_functions_bind (generate_relation_not_no_functions G cf _ _)
          (fun s1 => ?_)
        refine not_no_functions_bind (inverse_jump_not_no_functions _ _ _) (fun s2 => ?_)
        refine not_no_functions_bind
          (generate_block_statement_not_no_functions G cf bcs
            (fun c hc s hs => (((ih (Node.mk bt bd bcs bsy) (by simp)).2 c hc).2 s hs)) s2)
          (fun _ => rfl)
      · rw [generate_statement, generate_while_statement]
        · rfl
        · intro a b c e f g; cases g
    by_cases hK : t = .BREAK_STATEMENT
    · subst hK
      rw [generate_statement]
      rfl
    · rw [generate_statement_other G cf st t d cs sy hB hA hP hR hI hW hK]
      rfl

theorem generate_function_not_no_functions (G : List global_symbol_t) (st : gen_state)
    (f : global_symbol_t) : (generate_function G st f).is_no_functions = false := by
  unfold generate_function
  split
  · split
    · exact not_no_functions_bind (generate_statement_not_no_functions G f _ _) (fun _ => rfl)
    · rfl
  · rfl

theorem generate_each_not_no_functions (G : List global_symbol_t) (l : List global_symbol_t) :
    ∀ st, (generate_each G st l).is_no_functions = false := by
  induction l with
  | nil => intro st; rfl
  | cons f rest ih =>
    intro st
    rw [generate_each]
    exact not_no_functions_bind (generate_function_not_no_functions G st f) (fun s => ih s)

theorem generate_functions_eq_each (G : List global_symbol_t) (l : List global_symbol_t) :
    ∀ st, generate_functions G st l = generate_each G st (function_symbols l) := by
  induction l with
  | nil => intro st; rfl
  | cons e rest ih =>
    intro st
    rw [generate_functions]
    by_cases hf : e.symbol.type = .SYMBOL_FUNCTION
    · have : function_symbols (e :: rest) = e :: function_symbols rest := by
        simp [function_symbols, hf]
      rw [this, generate_each, if_neg (by simpa using hf)]
      cases generate_function G st e with
      | ok st1 => exact ih st1
      | error err st1 => rfl
    · have : function_symbols (e :: rest) = function_symbols rest := by
        simp [function_symbols, hf]
      rw [this, if_pos hf]
      exact ih st

/-! ## The first function of a program (C24) -/

theorem function_symbols_append (a b : List global_symbol_t) :
    function_symbols (a ++ b) = function_symbols a ++ function_symbols b := by
  simp [function_symbols]

theorem first_function_eq_head (G : List global_symbol_t) :
    first_function G = (function_symbols G).head? := by
  unfold first_function function_symbols
  induction G with
  | nil => rfl
  | cons e rest ih =>
    rw [List.find?_cons, List.filter_cons]
    by_cases hf : e.symbol.type = .SYMBOL_FUNCTION
    · have : decide (e.symbol.type = .SYMBOL_FUNCTION) = true := decide_eq_true hf
      rw [this]
      rfl
    · have : decide (e.symbol.type = .SYMBOL_FUNCTION) = false := decide_eq_false hf
      rw [this]
      exact ih

theorem insert_global_variables_functions (cs : List Node) :
    ∀ g0 g, insert_global_variables g0 cs = some g → function_symbols g = function_symbols g0 := by
  induction cs with
  | nil =>
    intro g0 g h
    rw [insert_global_variables] at h
    simp only [Option.some.injEq] at h
    rw [h]
  | cons c cs ih =>
    intro g0 g h
    rw [insert_global_variables] at h
    simp only [Option.bind_eq_bind, Option.bind_eq_some] at h
    obtain ⟨name, -, g1, h1, h2⟩ := h
    rw [ih g1 g h2]
    obtain ⟨-, rfl⟩ := (global_symbols_insert_iff _ _ _).1 h1
    rw [function_symbols_append]
    simp [function_symbols]

theorem find_globals_loop_functions (nodes : List Node) :
    ∀ g0 g, find_globals_loop g0 nodes = some g →
      (function_symbols g).map (fun e => (e.symbol.name, e.node)) =
        (function_symbols g0).map (fun e => (e.symbol.name, e.node)) ++
          (nodes.filter (fun n => n.type = .FUNCTION)).map (fun n => (definition_name n, n)) := by
  induction nodes with
  | nil =>
    intro g0 g h
    rw [find_globals_loop] at h
    simp only [Option.some.injEq] at h
    subst h
    simp
  | cons node nodes ih =>
    intro g0 g h
    rw [find_globals_loop] at h
    by_cases hd : node.type = .DECLARATION
    · simp only [hd, Option.bind_eq_bind, Option.bind_eq_some] at h
      obtain ⟨g1, h1, h2⟩ := h
      rw [ih g1 g h2]
      unfold find_global_declaration at h1
      split_ifs at h1
      rw [insert_global_variables_functions _ _ _ h1]
      simp [hd]
    by_cases ha : node.type = .ARRAY_DECLARATION
    · simp only [ha, Option.bind_eq_bind, Option.bind_eq_some] at h
      obtain ⟨g1, h1, h2⟩ := h
      rw [ih g1 g h2]
      unfold find_global_array_declaration at h1
      split_ifs at h1
      split at h1
      · simp only [Option.bind_eq_bind, Option.bind_eq_some] at h1
        obtain ⟨name, -, h3⟩ := h1
        obtain ⟨-, rfl⟩ := (global_symbols_insert_iff _ _ _).1 h3
        rw [function_symbols_append]
        simp [function_symbols, ha]
      · cases h1
    by_cases hf : node.type = .FUNCTION
    · simp only [hf, Option.bind_eq_bind, Option.bind_eq_some] at h
      obtain ⟨g1, h1, h2⟩ := h
      rw [ih g1 g h2]
      unfold find_global_function at h1
      split_ifs at h1
      split at h1
      · rename_i identifier parameter_list body hcs
        simp only [Option.bind_eq_bind, Option.bind_eq_some] at h1
        obtain ⟨tbl, -, name, hname, h3⟩ := h1
        have hn : node_name identifier = name :=
          node_name_of_data (data_as_name_eq_some.1 hname)
        obtain ⟨-, rfl⟩ := (global_symbols_insert_iff _ _ _).1 h3
        rw [function_symbols_append]
        simp [function_symbols, hf, definition_name, hcs, hn]
      · cases h1
    · have h2 : find_globals_loop g0 nodes = some g := by
        split at h <;> simp_all
      rw [ih g0 g h2]
      simp [hf]

theorem find_globals_functions {root : Node} {g : List global_symbol_t}
    (h : find_globals root = some g) :
    (function_symbols g).map (fun e => (e.symbol.name, e.node)) =
      (function_definitions root).map (fun n => (definition_name n, n)) := by
  have := find_globals_loop_functions _ _ _ h
  simpa [function_symbols, function_definitions] using this

theorem entries_bound_functions {G : List Symbol} {g g' : List global_symbol_t}
    (h : List.Forall₂ (entry_bound G) g g') :
    List.Forall₂ (entry_bound G) (function_symbols g) (function_symbols g') := by
  induction h with
  | nil => exact List.Forall₂.nil
  | @cons e e' l l' h1 _ ih =>
    have hs := entry_bound_type h1
    by_cases hf : e.symbol.type = .SYMBOL_FUNCTION
    · have hf' : e'.symbol.type = .SYMBOL_FUNCTION := by rw [hs]; exact hf
      have a1 : function_symbols (e :: l) = e :: function_symbols l := by
        simp [function_symbols, hf]
      have a2 : function_symbols (e' :: l') = e' :: function_symbols l' := by
        simp [function_symbols, hf']
      rw [a1, a2]
      exact List.Forall₂.cons h1 ih
    · have hf' : ¬ e'.symbol.type = .SYMBOL_FUNCTION := by rw [hs]; exact hf
      have a1 : function_symbols (e :: l) = function_symbols l := by
        simp [function_symbols, hf]
      have a2 : function_symbols (e' :: l') = function_symbols l' := by
        simp [function_symbols, hf']
      rw [a1, a2]
      exact ih

theorem first_function_definition {root : Node} {g : List global_symbol_t} {t : tables}
    (hg : find_globals root = some g) (ht : create_tables root = some t)
    {first : global_symbol_t} {rest : List global_symbol_t}
    (hf : function_symbols t.global_symbols = first :: rest) :
    ∃ definition identifier parameter_list body later,
      function_definitions root = definition :: later ∧
      definition.children = [identifier, parameter_list, body] ∧
      first.symbol.name = node_name identifier ∧
      FUNC_PARAM_COUNT first = some parameter_list.children.length := by
  have hb := entries_bound_functions (create_tables_entries hg ht)
  rw [hf] at hb
  cases hg0 : function_symbols g with
  | nil => rw [hg0] at hb; cases hb
  | cons first0 rest0 =>
    rw [hg0] at hb
    cases hb with
    | cons h1 _ =>
      have hty : first0.symbol.type = .SYMBOL_FUNCTION := by
        have : first0 ∈ function_symbols g := by rw [hg0]; exact List.mem_cons_self _ _
        simpa [function_symbols] using (List.mem_filter.1 this).2
      obtain ⟨t1, d, a, b, child, sy, table, sl, st', child', hnode, -, -, rfl⟩ := h1.1 hty
      have hd := find_globals_functions hg
      rw [hg0] at hd
      cases hdefs : function_definitions root with
      | nil => rw [hdefs] at hd; simp at hd
      | cons definition later =>
        rw [hdefs] at hd
        simp only [List.map_cons, List.cons.injEq, Prod.mk.injEq] at hd
        obtain ⟨⟨hname, hn⟩, -⟩ := hd
        refine ⟨definition, a, b, child, later, rfl, ?_, ?_, ?_⟩
        · rw [← hn, hnode]; rfl
        · simp only
          rw [hname, ← hn, hnode]
          rfl
        · rfl

theorem generate_program_unfold {t : tables} {st1 st2 : gen_state}
    (h1 : generate_string_table t.string_list ⟨[], 0, 0⟩ = .ok st1)
    (h2 : generate_global_variables t.global_symbols st1 = .ok st2) :
    generate_program t =
      match generate_each t.global_symbols (emit st2 (.directive ".text"))
          (function_symbols t.global_symbols) with
      | .ok st3 =>
        match first_function t.global_symbols with
        | some first => generate_main first st3
        | none => .error .no_functions st3
      | .error e st3 => .error e st3 := by
  unfold generate_program get_topmost_function
  rw [h1]
  simp only
  rw [h2]
  simp only
  rw [generate_functions_eq_each]
  cases generate_each t.global_symbols (emit st2 (.directive ".text"))
      (function_symbols t.global_symbols) with
  | error e st3 => rfl
  | ok st3 =>
    cases first_function t.global_symbols with
    | none => rfl
    | some first => rfl

/-- C24, as stated, fails: the table of `var x  var a[2 + 3]  var b[n]` holds
no `SYMBOL_FUNCTION`, and `generate_program` stops in
`generate_global_variables` with the error about the length of `b`, not with
`program contained no functions`. -/
theorem generate_program_fails_before_functions :
    (simplify_tree example_arrays_parse).bind create_tables = some example_arrays_tables ∧
    function_symbols example_arrays_tables.global_symbols = [] ∧
    generate_program example_arrays_tables =
      .error (.array_length_unknown "b")
        ⟨[.string_section, .asciz .intout "\"%ld \"", .asciz .strout "\"%s \"",
          .asciz .errout "\"Wrong number of arguments\"", .directive "", .bss_section,
          .directive ".align 8", .zero "x" 8, .zero "a" 40], 0, 0⟩ ∧
    (generate_program example_arrays_tables).is_no_functions = false := by
  refine ⟨by decide, by decide, ?_, ?_⟩ <;> rfl

/-- C24, amended: when the string table and the global variables are written
without error, `generate_program` fails with `program contained no functions`
exactly when the global table holds no `SYMBOL_FUNCTION`; if it holds one, the
code of each `SYMBOL_FUNCTION` is generated once, in the order of the table,
and, when none of them fails, the entry wrapper follows, which compares
`argc - 1` with the number of parameters of the textually first function
definition of the program and calls that function. -/
theorem generate_program_functions (root : Node) (g : List global_symbol_t) (t : tables)
    (st1 st2 : gen_state) (hg : find_globals root = some g)
    (ht : create_tables root = some t)
    (h1 : generate_string_table t.string_list ⟨[], 0, 0⟩ = .ok st1)
    (h2 : generate_global_variables t.global_symbols st1 = .ok st2) :
    ((∃ st', generate_program t = .error .no_functions st') ↔
      function_symbols t.global_symbols = []) ∧
    (function_symbols t.global_symbols = [] →
      generate_program t = .error .no_functions (emit st2 (.directive ".text"))) ∧
    (∀ first rest, function_symbols t.global_symbols = first :: rest →
      ∃ definition identifier parameter_list body later,
        function_definitions root = definition :: later ∧
        definition.children = [identifier, parameter_list, body] ∧
        first.symbol.name = node_name identifier ∧
        generate_program t =
          (match generate_each t.global_symbols (emit st2 (.directive ".text"))
              (first :: rest) with
          | .ok st3 =>
            .ok (emit_all st3
              (main_code (node_name identifier) parameter_list.children.length))
          | .error e st3 => .error e st3)) ∧
    (∀ (name : String) (expected_args : Nat),
      [.label (.plain "main"), .pushq (.reg .RBP), .movq (.reg .RSP) (.reg .RBP),
        .subq (.imm 1) (.reg .RDI), .cmpq (.imm expected_args) (.reg .RDI),
        .jne (.plain "ABORT")] <+: main_code name expected_args ∧
      Instr.call (.function name) ∈ main_code name expected_args) := by
  have hu := generate_program_unfold h1 h2
  have part3 : ∀ first rest, function_symbols t.global_symbols = first :: rest →
      ∃ definition identifier parameter_list body later,
        function_definitions root = definition :: later ∧
        definition.children = [identifier, parameter_list, body] ∧
        first.symbol.name = node_name identifier ∧
        generate_program t =
          (match generate_each t.global_symbols (emit st2 (.directive ".text"))
              (first :: rest) with
          | .ok st3 =>
            .ok (emit_all st3
              (main_code (node_name identifier) parameter_list.children.length))
          | .error e st3 => .error e st3) := by
    intro first rest hf
    obtain ⟨definition, identifier, parameter_list, body, later, a1, a2, a3, a4⟩ :=
      first_function_definition hg ht hf
    refine ⟨definition, identifier, parameter_list, body, later, a1, a2, a3, ?_⟩
    rw [hu, first_function_eq_head, hf]
    cases generate_each t.global_symbols (emit st2 (.directive ".text")) (first :: rest) with
    | error e st3 => rfl
    | ok st3 =>
      simp only [List.head?_cons]
      unfold generate_main
      rw [a4, a3]
  have part2 : function_symbols t.global_symbols = [] →
      generate_program t = .error .no_functions (emit st2 (.directive ".text")) := by
    intro hf
    rw [hu, first_function_eq_head, hf]
    rfl
  refine ⟨⟨?_, fun hf => ⟨_, part2 hf⟩⟩, part2, part3, ?_⟩
  · rintro ⟨st', he⟩
    cases hf : function_symbols t.global_symbols with
    | nil => rfl
    | cons first rest =>
      exfalso
      obtain ⟨definition, identifier, parameter_list, body, later, -, -, -, a4⟩ :=
        part3 first rest hf
      have hn : (generate_program t).is_no_functions = false := by
        rw [a4]
        exact not_no_functions_bind (generate_each_not_no_functions _ _ _) (fun _ => rfl)
      rw [he] at hn
      cases hn
  · intro name expected_args
    constructor
    · unfold main_code
      simp only [List.append_assoc]
      exact List.prefix_append _ _
    · unfold main_code
      simp

/-- C24 amended, at
`def f(a, b, c, d, e, f, g) begin return g end
 def main(x) begin print f(1, 2, 3, 4, 5, 6, x) end`: the table holds the
functions `f` and `main`; the wrapper is written for `f`, the textually first
definition, with its 7 parameters. -/
theorem generate_program_functions_witness :
    find_globals example_seven_program = some ((find_globals example_seven_program).getD []) ∧
    create_tables example_seven_program = some example_seven_tables ∧
    generate_string_table example_seven_tables.string_list ⟨[], 0, 0⟩ =
      .ok (emit_all ⟨[], 0, 0⟩ (string_section_code [])) ∧
    generate_global_variables example_seven_tables.global_symbols
        (emit_all ⟨[], 0, 0⟩ (string_section_code [])) =
      .ok (emit_all ⟨[], 0, 0⟩
        (string_section_code [] ++ [.bss_section, .directive ".align 8", .directive ""])) ∧
    (function_symbols example_seven_tables.global_symbols).map (fun e => e.symbol.name) =
      ["f", "main"] ∧
    (function_definitions example_seven_program).map definition_name = ["f", "main"] ∧
    ((∃ st', generate_program example_seven_tables = .error .no_functions st') ↔
      function_symbols example_seven_tables.global_symbols = []) :=
  ⟨by decide, by decide, by decide, by decide, by decide, by decide,
    (generate_program_functions example_seven_program
      ((find_globals example_seven_program).getD []) example_seven_tables
      (emit_all ⟨[], 0, 0⟩ (string_section_code []))
      (emit_all ⟨[], 0, 0⟩
        (string_section_code [] ++ [.bss_section, .directive ".align 8", .directive ""]))
      (by decide) (by decide) (by decide) (by decide)).1⟩

/-! ## Non-constant expressions are not folded (C33) -/

/-- C33: an `EXPRESSION` that has an operator (a payload that is not null, `call`
included) and at most two children, whose children simplify to `ss`, not all of
them `NUMBER_DATA`, is returned by `simplify_tree` as an `EXPRESSION` with the
same payload and the same symbol link whose children are `ss`: as many as the
node had, the `i`-th being the result of simplifying the `i`-th child. -/
theorem simplify_tree_keeps_non_constant (d : Data) (cs ss : List Node) (sy : Option Symbol)
    (hd : d ≠ .null) (hlen : cs.length ≤ 2) (hs : simplify_children cs = some ss)
    (hn : ∃ s ∈ ss, s.type ≠ .NUMBER_DATA) :
    simplify_tree (.mk .EXPRESSION d cs sy) = some (.mk .EXPRESSION d ss sy) ∧
    ss.length = cs.length ∧
    List.Forall₂ (fun x s => simplify_tree x = some s) cs ss := by
  have hf := (simplify_children_eq_some cs ss).1 hs
  have hl : ss.length = cs.length := hf.length_eq.symm
  refine ⟨?_, hl, hf⟩
  rw [simplify_tree_mk, hs]
  show simplify_node (.mk .EXPRESSION d ss sy) = _
  have hnum : all_children_are_numbers (.mk .EXPRESSION d ss sy) = false := by
    obtain ⟨s, hs1, hs2⟩ := hn
    unfold all_children_are_numbers
    rw [Node.children_mk, List.all_eq_false]
    exact ⟨s, hs1, by simpa using hs2⟩
  show constant_fold_expression (.mk .EXPRESSION d ss sy) = _
  unfold constant_fold_expression
  simp only [Node.type_mk, Node.children_mk, Node.data_mk, ne_eq, not_true_eq_false, if_false]
  rw [if_neg (by omega)]
  simp [hd, hnum]

/-- C33, at `x + (1 + 2)`: the inner sum is folded to 3, the outer sum stays a
sum of `x` and 3. -/
theorem simplify_tree_keeps_non_constant_witness :
    simplify_children
        [identifier_node "x", node_init .EXPRESSION (.str "+") [number_node 1, number_node 2]] =
      some [identifier_node "x", number_node 3] ∧
    simplify_tree example_sum_with_variable =
      some (.mk .EXPRESSION (.str "+") [identifier_node "x", number_node 3] none) ∧
    [identifier_node "x", number_node 3].length = 2 ∧
    List.Forall₂ (fun x s => simplify_tree x = some s)
      [identifier_node "x", node_init .EXPRESSION (.str "+") [number_node 1, number_node 2]]
      [identifier_node "x", number_node 3] :=
  ⟨by decide,
    simplify_tree_keeps_non_constant (.str "+")
      [identifier_node "x", node_init .EXPRESSION (.str "+") [number_node 1, number_node 2]]
      [identifier_node "x", number_node 3] none (by decide) (by decide) (by decide)
      ⟨identifier_node "x", by simp, by decide⟩⟩

/-! ## Expressions with one child (C31) -/

/-- The `EXPRESSION` case of `generate_expression` is its two loads followed by
the code that uses the loaded values. -/
theorem generate_expression_eq_operation (G : List global_symbol_t) (cf : global_symbol_t)
    (st : gen_state) (data : String) (cs : List Node) (sy : Option Symbol)
    (hc : data ≠ "call") :
    generate_expression G cf st (.mk .EXPRESSION (.str data) cs sy) =
      generate_operation G cf st data cs.length cs[0]? cs[1]? := by
  rcases cs with _ | ⟨l, _ | ⟨r, tail⟩⟩
  · rw [generate_expression, if_neg hc]
    unfold generate_operation
    simp only [List.length_nil, List.getElem?_nil, generate_operand]
    split_ifs <;> rfl
  · rw [generate_expression, if_neg hc]
    unfold generate_operation
    simp only [List.length_singleton, List.getElem?_cons_zero, generate_operand]
    split_ifs <;> rfl
  · rw [generate_expression, if_neg hc]
    unfold generate_operation
    simp only [List.length_cons, List.getElem?_cons_zero, List.getElem?_cons_succ,
      generate_operand]
    split_ifs <;> first | rfl | omega

/-- C31 does not hold of the code: the `EXPRESSION` case loads
`left = expression->children[0]` and `right = expression->children[1]` before
it looks at the operator, and its result is that of the code that follows,
run on the two loaded values.  For a node with a single child the second load
reads an entry that the node does not have, whatever the operator.  For `-`
the value loaded is not used and the child is negated.  For `+` and `*` the
code of the child and `pushq %rax` are written and then the missing child is
used as a node; for `/` it is used at once.  No `+`, `*` or `/` with one child
is lowered.  Simplification leaves such nodes in the tree when the child is not
a number (`-x` and `+x` for a variable `x`).  With two children both loads are
in bounds and the four operators are lowered whenever the code of the two
children is generated. -/
theorem generate_expression_loads_missing_child (G : List global_symbol_t)
    (cf : global_symbol_t) (st : gen_state) (d : Data) (child left right : Node)
    (sy : Option Symbol) :
    (∀ data cs, data ≠ "call" →
      generate_expression G cf st (.mk .EXPRESSION (.str data) cs sy) =
        generate_operation G cf st data cs.length
          ((expression_operand_loads (.mk .EXPRESSION (.str data) cs sy)).head?.join)
          ((expression_operand_loads (.mk .EXPRESSION (.str data) cs sy)).getLast?.join)) ∧
    expression_operand_loads (.mk .EXPRESSION d [child] sy) = [some child, none] ∧
    (∀ operator ∈ ["+", "*"],
      generate_expression G cf st (.mk .EXPRESSION (.str operator) [child] sy) =
        match generate_expression G cf st child with
        | .ok st1 => .error .invalid_read (emit st1 (.pushq (.reg .RAX)))
        | .error e st1 => .error e st1) ∧
    generate_expression G cf st (.mk .EXPRESSION (.str "/") [child] sy) =
      .error .invalid_read st ∧
    (∀ operator ∈ ["+", "*", "/"], ∀ st',
      generate_expression G cf st (.mk .EXPRESSION (.str operator) [child] sy) ≠ .ok st') ∧
    generate_expression G cf st (.mk .EXPRESSION (.str "-") [child] sy) =
      (match generate_expression G cf st child with
      | .ok st1 => .ok (emit st1 (.negq (.reg .RAX)))
      | .error e st1 => .error e st1) ∧
    expression_operand_loads example_negated_parameter = [some example_bound_parameter, none] ∧
    generate_expression G cf st example_negated_parameter =
      .ok (emit_all st [.movq (.frame (-8)) (.reg .RAX), .negq (.reg .RAX)]) ∧
    generate_expression G cf st example_unary_plus =
      .error .invalid_read
        (emit_all st [.movq (.frame (-8)) (.reg .RAX), .pushq (.reg .RAX)]) ∧
    simplify_tree (node_init .EXPRESSION (.str "-") [identifier_node "x"]) =
      some (node_init .EXPRESSION (.str "-") [identifier_node "x"]) ∧
    simplify_tree (node_init .EXPRESSION (.str "+") [identifier_node "x"]) =
      some (node_init .EXPRESSION (.str "+") [identifier_node "x"]) ∧
    expression_operand_loads (.mk .EXPRESSION d [left, right] sy) = [some left, some right] ∧
    (∀ operator ∈ ["+", "-", "*", "/"],
      (∀ s, ∃ s', generate_expression G cf s left = .ok s') →
      (∀ s, ∃ s', generate_expression G cf s right = .ok s') →
      ∃ st', generate_expression G cf st (.mk .EXPRESSION (.str operator) [left, right] sy) =
        .ok st') := by
  have hplus : ∀ operator ∈ ["+", "*"],
      generate_expression G cf st (.mk .EXPRESSION (.str operator) [child] sy) =
        match generate_expression G cf st child with
        | .ok st1 => .error .invalid_read (emit st1 (.pushq (.reg .RAX)))
        | .error e st1 => .error e st1 := by
    intro operator ho
    simp only [List.mem_cons, List.mem_singleton, List.not_mem_nil, or_false] at ho
    rcases ho with rfl | rfl <;> simp [generate_expression]
  have hdiv : generate_expression G cf st (.mk .EXPRESSION (.str "/") [child] sy) =
      .error .invalid_read st := by
    simp [generate_expression]
  refine ⟨?_, rfl, hplus, hdiv, ?_, ?_, rfl, ?_, ?_, by decide, by decide, rfl, ?_⟩
  · intro data cs hc
    rw [generate_expression_eq_operation G cf st data cs sy hc]
    rcases cs with _ | ⟨l, _ | ⟨r, tail⟩⟩ <;> rfl
  · intro operator ho st' h
    simp only [List.mem_cons, List.mem_singleton, List.not_mem_nil, or_false] at ho
    rcases ho with rfl | rfl | rfl
    · rw [hplus "+" (by simp)] at h
      cases hl : generate_expression G cf st child <;> rw [hl] at h <;> cases h
    · rw [hplus "*" (by simp)] at h
      cases hl : generate_expression G cf st child <;> rw [hl] at h <;> cases h
    · rw [hdiv] at h
      cases h
  · rw [generate_expression]
    rfl
  · simp [example_negated_parameter, example_bound_parameter, node_init, generate_expression,
      generate_variable_access, emit, emit_all, NUM_REGISTER_PARAMS]
  · simp [example_unary_plus, example_bound_parameter, node_init, generate_expression,
      generate_variable_access, emit, emit_all, NUM_REGISTER_PARAMS]
  · intro operator ho hl hr
    simp only [List.mem_cons, List.mem_singleton, List.not_mem_nil, or_false] at ho
    rcases ho with rfl | rfl | rfl | rfl
    · obtain ⟨s1, h1⟩ := hl st
      obtain ⟨s2, h2⟩ := hr (emit s1 (.pushq (.reg .RAX)))
      exact ⟨emit (emit s2 (.popq (.reg .R10))) (.addq (.reg .R10) (.reg .RAX)),
        by simp [generate_expression, h1, h2]⟩
    · obtain ⟨s1, h1⟩ := hr st
      obtain ⟨s2, h2⟩ := hl (emit s1 (.pushq (.reg .RAX)))
      exact ⟨emit (emit s2 (.popq (.reg .R10))) (.subq (.reg .R10) (.reg .RAX)),
        by simp [generate_expression, h1, h2]⟩
    · obtain ⟨s1, h1⟩ := hl st
      obtain ⟨s2, h2⟩ := hr (emit s1 (.pushq (.reg .RAX)))
      exact ⟨emit (emit s2 (.popq (.reg .R10))) (.imulq (.reg .R10) (.reg .RAX)),
        by simp [generate_expression, h1, h2]⟩
    · obtain ⟨s1, h1⟩ := hr st
      obtain ⟨s2, h2⟩ := hl (emit s1 (.pushq (.reg .RAX)))
      exact ⟨emit (emit (emit s2 .cqo) (.popq (.reg .R10))) (.idivq (.reg .R10)),
        by simp [generate_expression, h1, h2]⟩

/-- C31, at `+x` for the first parameter `x`, generated in the empty state:
the load of `right` finds no child; the code of `x` and the push are written,
then the missing child is used. -/
theorem generate_expression_loads_missing_child_witness :
    "+" ∈ ["+", "*"] ∧
    generate_expression [] example_seven_callee example_gen_state
        (.mk .EXPRESSION (.str "+") [example_bound_parameter] none) =
      .error .invalid_read
        (emit_all example_gen_state [.movq (.frame (-8)) (.reg .RAX), .pushq (.reg .RAX)]) :=
  ⟨by decide,
    ((generate_expression_loads_missing_child [] example_seven_callee example_gen_state .null
      example_bound_parameter example_bound_parameter example_bound_parameter none).2.2.1
      "+" (by decide)).trans (by decide)⟩

/-! ## The dump of string nodes (C34) -/

theorem digits_foldr (k : Nat) :
    ∀ x : Nat, x < 256 ^ k →
      ((List.range k).map (fun j => x / 256 ^ j % 256)).foldr (fun b acc => b + 256 * acc) 0 =
        x := by
  induction k with
  | zero =>
    intro x hx
    simp at hx
    simp [hx]
  | succ k ih =>
    intro x hx
    rw [List.range_succ_eq_map, List.map_cons, List.map_map, List.foldr_cons]
    have e : (fun j => x / 256 ^ j % 256) ∘ Nat.succ = fun j => x / 256 / 256 ^ j % 256 := by
      funext j
      simp only [Function.comp_apply, Nat.succ_eq_add_one]
      rw [Nat.pow_succ, Nat.mul_comm, Nat.div_div_eq_div_mul]
    rw [e, ih (x / 256) (by
      rw [Nat.pow_succ] at hx
      exact Nat.div_lt_of_lt_mul (by rw [Nat.mul_comm]; exact hx))]
    simp only [pow_zero, Nat.div_one]
    exact Nat.mod_add_div x 256

theorem int64_bytes_length (v : Int) : (int64_bytes v).length = 8 := by
  simp [int64_bytes]

theorem read_int64_bytes (v : Int) (h0 : -(2 ^ 63) ≤ v) (h1 : v < 2 ^ 63) :
    read_int64 (int64_bytes v) = some v := by
  unfold read_int64
  rw [if_neg (by rw [int64_bytes_length]; omega),
    List.take_of_length_le (by rw [int64_bytes_length])]
  unfold int64_bytes
  rw [digits_foldr 8 _ (by
    have : (0 : Int) ≤ v % 2 ^ 64 := Int.emod_nonneg _ (by norm_num)
    have h2 : v % 2 ^ 64 < 2 ^ 64 := Int.emod_lt_of_pos _ (by norm_num)
    have h3 : ((v % 2 ^ 64).toNat : Int) < ((256 ^ 8 : Nat) : Int) := by
      rw [Int.toNat_of_nonneg this]
      norm_num at h2 ⊢
      exact h2
    exact_mod_cast h3)]
  rw [Option.some.injEq, Int.ofNat_eq_coe,
    Int.toNat_of_nonneg (Int.emod_nonneg _ (by norm_num))]
  unfold wrap64
  norm_num at h0 h1 ⊢
  omega

theorem int64_bytes_head (v : Int) :
    (int64_bytes v).head? = some ((v % 256).toNat) := by
  have e : List.range 8 = [0, 1, 2, 3, 4, 5, 6, 7] := by decide
  unfold int64_bytes
  rw [e]
  simp only [List.map_cons, List.head?_cons, pow_zero, Nat.div_one, Option.some.injEq]
  norm_num
  omega

theorem read_c_string_lexeme (s : String) (h : ∀ c ∈ s.toList, c.toNat ≠ 0) :
    read_c_string (s.toList.map Char.toNat ++ [0]) = some s := by
  unfold read_c_string
  rw [if_pos (by simp)]
  have e : (s.toList.map Char.toNat ++ [0]).takeWhile (fun b => decide (b ≠ 0)) =
      s.toList.map Char.toNat := by
    generalize s.toList = l at h
    induction l with
    | nil => simp
    | cons c cs ih =>
      have hc := h c (List.mem_cons_self _ _)
      simp only [List.map_cons, List.cons_append]
      rw [List.takeWhile_cons_of_pos (by simpa using hc),
        ih (fun x hx => h x (List.mem_cons_of_mem _ hx))]
  rw [e, List.map_map]
  have e2 : s.toList.map (Char.ofNat ∘ Char.toNat) = s.toList := by
    conv_rhs => rw [← List.map_id s.toList]
    apply List.map_congr_left
    intro c _
    simp
  rw [e2]
  rfl

theorem node_print_payload_index (i : Int) :
    node_print_payload .STRING_DATA (.num i) =
      if i % 256 = 34 then (read_c_string (int64_bytes i)).map (fun s => "(" ++ s ++ ")")
      else (read_int64 (int64_bytes i)).map (fun v => "(#" ++ toString v ++ ")") := by
  have hb := int64_bytes_head i
  by_cases h : i % 256 = 34
  · rw [if_pos h]
    rw [h] at hb
    simp [node_print_payload, payload_bytes, hb]
  · rw [if_neg h]
    have hne : (i % 256).toNat ≠ 34 := by omega
    simp [node_print_payload, payload_bytes, hb, hne]

/-- C34 does not hold of the code: `node_print` tells an interned index from a
lexeme by the first byte that `node->data` points to, and the first byte of a
stored index `i` is `i % 256`.  For `0 ≤ i < 2^63` the payload printed is
`(#i)` exactly when `i % 256 ≠ 34`; when `i % 256 = 34` the bytes of the index
are printed as a string, which starts with the double quote and so is not
`(#i)`: for the index 34 the line shows `(")`.  A lexeme that starts with the
double quote (and holds no 0 character) is printed as it is, in parentheses.
The index 34 is that of the 35th string of a program. -/
theorem node_print_string_payload (i : Int) (h0 : 0 ≤ i) (h1 : i < 2 ^ 63) :
    (i % 256 ≠ 34 →
      node_print_payload .STRING_DATA (.num i) = some ("(#" ++ toString i ++ ")")) ∧
    (i % 256 = 34 →
      node_print_payload .STRING_DATA (.num i) =
        (read_c_string (int64_bytes i)).map (fun s => "(" ++ s ++ ")") ∧
      node_print_payload .STRING_DATA (.num i) ≠ some ("(#" ++ toString i ++ ")")) ∧
    node_print_payload .STRING_DATA (.num 34) = some "(\")" ∧
    (∀ (node_strings : NodeType → String) (nesting : Nat),
      node_print node_strings nesting (.mk .STRING_DATA (.num 34) [] none) =
        some (String.mk (List.replicate nesting ' ') ++ node_strings .STRING_DATA ++ "(\")" ++
          "" ++ "\n" ++ "")) ∧
    (∀ text : String, (∀ c ∈ text.toList, c.toNat ≠ 0) →
      node_print_payload .STRING_DATA (.str ("\"" ++ text)) =
        some ("(" ++ ("\"" ++ text) ++ ")")) ∧
    (create_tables example_many_strings_program).map
        (fun t => (visited_strings_list (function_bodies t.global_symbols))[34]?) =
      some (some (.num 34)) := by
  refine ⟨?_, ?_, by decide, ?_, ?_, by decide⟩
  · intro h
    rw [node_print_payload_index, if_neg h, read_int64_bytes i (by omega) h1]
    rfl
  · intro h
    have hp := node_print_payload_index i
    rw [if_pos h] at hp
    refine ⟨hp, ?_⟩
    rw [hp]
    have hb := int64_bytes_head i
    rw [h] at hb
    obtain ⟨tail, ht⟩ : ∃ tail, int64_bytes i = 34 :: tail := by
      cases hl : int64_bytes i with
      | nil => rw [hl] at hb; cases hb
      | cons b tail =>
        rw [hl] at hb
        simp only [List.head?_cons, Option.some.injEq] at hb
        exact ⟨tail, by rw [hb]; rfl⟩
    rw [ht]
    unfold read_c_string
    split_ifs with hz
    · simp only [Option.map_some', ne_eq, Option.some.injEq]
      intro heq
      have hd := congrArg String.data heq
      rw [List.takeWhile_cons_of_pos (by decide)] at hd
      simp [String.data_append] at hd
    · simp
  · intro node_strings nesting
    rw [node_print, node_print_children]
    have e : node_print_payload .STRING_DATA (.num 34) = some "(\")" := by decide
    rw [e]
    rfl
  · intro text ht
    have hl : ("\"" ++ text).toList = '"' :: text.toList := by
      simp [String.toList, String.data_append]
    have hs := read_c_string_lexeme ("\"" ++ text) (by
      intro c hc
      rw [hl] at hc
      rcases List.mem_cons.1 hc with rfl | hc
      · decide
      · exact ht c hc)
    have hh : (("\"" ++ text).toList.map Char.toNat ++ [0]).head? = some 34 := by
      rw [hl]; rfl
    simp only [node_print_payload, payload_bytes, hh, hs]
    simp

/-- C34, at the index 290 (`290 % 256 = 34`): the payload printed is not
`(#290)`. -/
theorem node_print_string_payload_witness :
    (0 : Int) ≤ 290 ∧ (290 : Int) < 2 ^ 63 ∧ (290 : Int) % 256 = 34 ∧
    node_print_payload .STRING_DATA (.num 290) =
      (read_c_string (int64_bytes 290)).map (fun s => "(" ++ s ++ ")") ∧
    node_print_payload .STRING_DATA (.num 290) ≠ some ("(#" ++ toString (290 : Int) ++ ")") :=
  ⟨by decide, by norm_num, by decide,
    (node_print_string_payload 290 (by decide) (by norm_num)).2.1 (by decide)⟩

/-! ## Resolution and the order of the definitions (C32) -/

theorem insert_global_variables_kinds (cs : List Node) :
    ∀ g0 g, insert_global_variables g0 cs = some g →
      g.map (fun e => (e.symbol.name, e.symbol.type)) =
        g0.map (fun e => (e.symbol.name, e.symbol.type)) ++
          cs.map (fun c => (node_name c, SymbolType.SYMBOL_GLOBAL_VAR)) ∧
      ∀ c ∈ cs, (data_as_name c.data).isSome = true := by
  induction cs with
  | nil =>
    intro g0 g h
    rw [insert_global_variables] at h
    simp only [Option.some.injEq] at h
    subst h
    simp
  | cons c cs ih =>
    intro g0 g h
    rw [insert_global_variables] at h
    simp only [Option.bind_eq_bind, Option.bind_eq_some] at h
    obtain ⟨name, hname, g1, h1, h2⟩ := h
    have hn : node_name c = name := node_name_of_data (data_as_name_eq_some.1 hname)
    obtain ⟨a1, a2⟩ := ih g1 g h2
    obtain ⟨-, rfl⟩ := (global_symbols_insert_iff _ _ _).1 h1
    refine ⟨by rw [a1]; simp [hn], ?_⟩
    intro x hx
    rcases List.mem_cons.1 hx with rfl | hx
    · rw [hname]; rfl
    · exact a2 x hx

theorem find_global_declaration_kinds {g0 g1 : List global_symbol_t} {node : Node}
    (hd : node.type = .DECLARATION) (h : find_global_declaration g0 node = some g1) :
    g1.map (fun e => (e.symbol.name, e.symbol.type)) =
      g0.map (fun e => (e.symbol.name, e.symbol.type)) ++ global_kinds_of node ∧
    global_well_formed node = true := by
  unfold find_global_declaration at h
  split_ifs at h with h0
  obtain ⟨a1, a2⟩ := insert_global_variables_kinds _ _ _ h
  refine ⟨by rw [a1]; simp [global_kinds_of, hd], ?_⟩
  simp only [global_well_formed, hd, Bool.and_eq_true, Bool.not_eq_true', List.all_eq_true]
  refine ⟨?_, a2⟩
  cases hc : node.children with
  | nil => rw [hc] at h0; simp at h0
  | cons c cs => rfl

theorem find_global_array_declaration_kinds {g0 g1 : List global_symbol_t} {node : Node}
    (ha : node.type = .ARRAY_DECLARATION)
    (h : find_global_array_declaration g0 node = some g1) :
    g1.map (fun e => (e.symbol.name, e.symbol.type)) =
      g0.map (fun e => (e.symbol.name, e.symbol.type)) ++ global_kinds_of node ∧
    global_well_formed node = true := by
  unfold find_global_array_declaration at h
  split_ifs at h
  split at h
  · rename_i identifier x hcs
    simp only [Option.bind_eq_bind, Option.bind_eq_some] at h
    obtain ⟨name, hname, h3⟩ := h
    have hn : node_name identifier = name :=
      node_name_of_data (data_as_name_eq_some.1 hname)
    obtain ⟨-, rfl⟩ := (global_symbols_insert_iff _ _ _).1 h3
    exact ⟨by simp [global_kinds_of, ha, hcs, hn],
      by simp [global_well_formed, ha, hcs, hname]⟩
  · cases h

theorem find_global_function_kinds {g0 g1 : List global_symbol_t} {node : Node}
    (hf : node.type = .FUNCTION) (h : find_global_function g0 node = some g1) :
    g1.map (fun e => (e.symbol.name, e.symbol.type)) =
      g0.map (fun e => (e.symbol.name, e.symbol.type)) ++ global_kinds_of node ∧
    global_well_formed node = true := by
  unfold find_global_function at h
  split_ifs at h
  split at h
  · rename_i identifier parameter_list body hcs
    simp only [Option.bind_eq_bind, Option.bind_eq_some] at h
    obtain ⟨tbl, htbl, name, hname, h3⟩ := h
    have hn : node_name identifier = name :=
      node_name_of_data (data_as_name_eq_some.1 hname)
    obtain ⟨-, rfl⟩ := (global_symbols_insert_iff _ _ _).1 h3
    exact ⟨by simp [global_kinds_of, hf, hcs, hn],
      by simp [global_well_formed, hf, hcs, hname, htbl]⟩
  · cases h

theorem global_kinds_of_other {node : Node} (hd : node.type ≠ .DECLARATION)
    (ha : node.type ≠ .ARRAY_DECLARATION) (hf : node.type ≠ .FUNCTION) :
    global_kinds_of node = [] ∧ global_well_formed node = true := by
  constructor
  · unfold global_kinds_of
    split <;> simp_all
  · unfold global_well_formed
    split <;> simp_all

theorem find_globals_loop_kinds (nodes : List Node) :
    ∀ g0 g, find_globals_loop g0 nodes = some g →
      g.map (fun e => (e.symbol.name, e.symbol.type)) =
        g0.map (fun e => (e.symbol.name, e.symbol.type)) ++
          (nodes.map global_kinds_of).flatten ∧
      ∀ n ∈ nodes, global_well_formed n = true := by
  induction nodes with
  | nil =>
    intro g0 g h
    rw [find_globals_loop] at h
    simp only [Option.some.injEq] at h
    subst h
    simp
  | cons node nodes ih =>
    intro g0 g h
    rw [find_globals_loop] at h
    have key : ∃ g1, (g1.map (fun e => (e.symbol.name, e.symbol.type)) =
        g0.map (fun e => (e.symbol.name, e.symbol.type)) ++ global_kinds_of node ∧
        global_well_formed node = true) ∧ find_globals_loop g1 nodes = some g := by
      by_cases hd : node.type = .DECLARATION
      · simp only [hd, Option.bind_eq_bind, Option.bind_eq_some] at h
        obtain ⟨g1, h1, h2⟩ := h
        exact ⟨g1, find_global_declaration_kinds hd h1, h2⟩
      by_cases ha : node.type = .ARRAY_DECLARATION
      · simp only [ha, Option.bind_eq_bind, Option.bind_eq_some] at h
        obtain ⟨g1, h1, h2⟩ := h
        exact ⟨g1, find_global_array_declaration_kinds ha h1, h2⟩
      by_cases hf : node.type = .FUNCTION
      · simp only [hf, Option.bind_eq_bind, Option.bind_eq_some] at h
        obtain ⟨g1, h1, h2⟩ := h
        exact ⟨g1, find_global_function_kinds hf h1, h2⟩
      · have h2 : find_globals_loop g0 nodes = some g := by
          split at h <;> simp_all
        obtain ⟨e1, e2⟩ := global_kinds_of_other hd ha hf
        exact ⟨g0, ⟨by rw [e1, List.append_nil], e2⟩, h2⟩
    obtain ⟨g1, ⟨a1, a2⟩, h2⟩ := key
    obtain ⟨b1, b2⟩ := ih g1 g h2
    refine ⟨by rw [b1, a1]; simp, ?_⟩
    intro n hn
    rcases List.mem_cons.1 hn with rfl | hn
    · exact a2
    · exact b2 n hn

theorem insert_global_variables_succeeds (cs : List Node) :
    ∀ g0 : List global_symbol_t, (∀ c ∈ cs, (data_as_name c.data).isSome = true) →
      (g0.map (fun e => e.symbol.name) ++ cs.map node_name).Nodup →
      ∃ g, insert_global_variables g0 cs = some g := by
  induction cs with
  | nil => intro g0 _ _; exact ⟨g0, by rw [insert_global_variables]⟩
  | cons c cs ih =>
    intro g0 hn hd
    obtain ⟨name, hname⟩ := Option.isSome_iff_exists.1 (hn c (List.mem_cons_self _ _))
    have hc : node_name c = name := node_name_of_data (data_as_name_eq_some.1 hname)
    rw [List.map_cons, hc] at hd
    have hnew : name ∉ g0.map (fun e => e.symbol.name) := by
      intro hm
      have := (List.nodup_append.1 hd).2.2
      exact this hm (List.mem_cons_self _ _)
    have h1 := (global_symbols_insert_iff g0 _
      (⟨⟨name, .SYMBOL_GLOBAL_VAR, 0⟩, c, none⟩ : global_symbol_t)).2 ⟨hnew, rfl⟩
    obtain ⟨g, hg⟩ := ih (g0 ++ [⟨⟨name, .SYMBOL_GLOBAL_VAR, g0.length⟩, c, none⟩])
      (fun x hx => hn x (List.mem_cons_of_mem _ hx)) (by
      simpa [List.append_assoc] using hd)
    exact ⟨g, by rw [insert_global_variables, hname]; simp only [Option.bind_eq_bind,
      Option.some_bind, h1]; exact hg⟩

theorem find_globals_step_succeeds {g0 : List global_symbol_t} {node : Node}
    (hw : global_well_formed node = true)
    (hd : (g0.map (fun e => e.symbol.name) ++ (global_kinds_of node).map Prod.fst).Nodup) :
    (node.type = .DECLARATION → ∃ g1, find_global_declaration g0 node = some g1) ∧
    (node.type = .ARRAY_DECLARATION → ∃ g1, find_global_array_declaration g0 node = some g1) ∧
    (node.type = .FUNCTION → ∃ g1, find_global_function g0 node = some g1) := by
  refine ⟨?_, ?_, ?_⟩
  · intro ht
    simp only [global_well_formed, ht, Bool.and_eq_true, Bool.not_eq_true',
      List.all_eq_true] at hw
    simp only [global_kinds_of, ht, List.map_map] at hd
    unfold find_global_declaration
    have h0 : ¬ node.children.length = 0 := by
      intro h
      have := List.length_eq_zero.1 h
      rw [this] at hw
      simp at hw
    rw [if_neg h0, if_neg (by simp [ht])]
    exact insert_global_variables_succeeds _ g0 hw.2 (by simpa [Function.comp_def] using hd)
  · intro ht
    simp only [global_well_formed, ht] at hw
    simp only [global_kinds_of, ht] at hd
    unfold find_global_array_declaration
    rw [if_neg (by simp [ht])]
    split at hw
    · rename_i identifier x hcs
      obtain ⟨name, hname⟩ := Option.isSome_iff_exists.1 hw
      have hc : node_name identifier = name :=
        node_name_of_data (data_as_name_eq_some.1 hname)
      simp only [hcs, List.map_cons, List.map_nil, hc] at hd
      have hnew : name ∉ g0.map (fun e => e.symbol.name) := by
        intro hm
        exact (List.nodup_append.1 hd).2.2 hm (List.mem_cons_self _ _)
      have h1 := (global_symbols_insert_iff g0 _
        (⟨⟨name, .SYMBOL_GLOBAL_ARRAY, 0⟩, node, none⟩ : global_symbol_t)).2 ⟨hnew, rfl⟩
      exact ⟨_, by simp only [hcs, hname, Option.bind_eq_bind, Option.some_bind]; exact h1⟩
    · cases hw
  · intro ht
    simp only [global_well_formed, ht] at hw
    simp only [global_kinds_of, ht] at hd
    unfold find_global_function
    rw [if_neg (by simp [ht])]
    split at hw
    · rename_i identifier parameter_list body hcs
      rw [Bool.and_eq_true] at hw
      obtain ⟨tbl, htbl⟩ := Option.isSome_iff_exists.1 hw.1
      obtain ⟨name, hname⟩ := Option.isSome_iff_exists.1 hw.2
      have hc : node_name identifier = name :=
        node_name_of_data (data_as_name_eq_some.1 hname)
      simp only [hcs, List.map_cons, List.map_nil, hc] at hd
      have hnew : name ∉ g0.map (fun e => e.symbol.name) := by
        intro hm
        exact (List.nodup_append.1 hd).2.2 hm (List.mem_cons_self _ _)
      have h1 := (global_symbols_insert_iff g0 _
        (⟨⟨name, .SYMBOL_FUNCTION, 0⟩, node, some tbl⟩ : global_symbol_t)).2 ⟨hnew, rfl⟩
      exact ⟨_, by
        simp only [hcs, hname, htbl, Option.bind_eq_bind, Option.some_bind]; exact h1⟩
    · cases hw

theorem map_names_of_kinds {g : List global_symbol_t} {l : List (String × SymbolType)}
    {g0 : List global_symbol_t}
    (h : g.map (fun e => (e.symbol.name, e.symbol.type)) =
      g0.map (fun e => (e.symbol.name, e.symbol.type)) ++ l) :
    g.map (fun e => e.symbol.name) = g0.map (fun e => e.symbol.name) ++ l.map Prod.fst := by
  have := congrArg (List.map Prod.fst) h
  simpa [List.map_map, Function.comp_def] using this

theorem find_globals_loop_succeeds (nodes : List Node) :
    ∀ g0 : List global_symbol_t, (∀ n ∈ nodes, global_well_formed n = true) →
      (g0.map (fun e => e.symbol.name) ++
        ((nodes.map global_kinds_of).flatten).map Prod.fst).Nodup →
      ∃ g, find_globals_loop g0 nodes = some g := by
  induction nodes with
  | nil => intro g0 _ _; exact ⟨g0, by rw [find_globals_loop]⟩
  | cons node nodes ih =>
    intro g0 hw hd
    rw [List.map_cons, List.flatten_cons, List.map_append, ← List.append_assoc] at hd
    have hd1 := (List.nodup_append.1 hd).1
    obtain ⟨s1, s2, s3⟩ := find_globals_step_succeeds (hw node (List.mem_cons_self _ _)) hd1
    have hw' : ∀ n ∈ nodes, global_well_formed n = true :=
      fun n hn => hw n (List.mem_cons_of_mem _ hn)
    rw [find_globals_loop]
    by_cases ht : node.type = .DECLARATION
    · obtain ⟨g1, h1⟩ := s1 ht
      have hk := map_names_of_kinds (find_global_declaration_kinds ht h1).1
      obtain ⟨g, hg⟩ := ih g1 hw' (by rw [hk]; exact hd)
      exact ⟨g, by simp only [ht, h1, Option.bind_eq_bind, Option.some_bind]; exact hg⟩
    by_cases ha : node.type = .ARRAY_DECLARATION
    · obtain ⟨g1, h1⟩ := s2 ha
      have hk := map_names_of_kinds (find_global_array_declaration_kinds ha h1).1
      obtain ⟨g, hg⟩ := ih g1 hw' (by rw [hk]; exact hd)
      exact ⟨g, by simp only [ha, h1, Option.bind_eq_bind, Option.some_bind]; exact hg⟩
    by_cases hf : node.type = .FUNCTION
    · obtain ⟨g1, h1⟩ := s3 hf
      have hk := map_names_of_kinds (find_global_function_kinds hf h1).1
      obtain ⟨g, hg⟩ := ih g1 hw' (by rw [hk]; exact hd)
      exact ⟨g, by simp only [hf, h1, Option.bind_eq_bind, Option.some_bind]; exact hg⟩
    · obtain ⟨e1, -⟩ := global_kinds_of_other ht ha hf
      rw [e1, List.map_nil, List.append_nil] at hd
      obtain ⟨g, hg⟩ := ih g0 hw' hd
      refine ⟨g, ?_⟩
      split <;> simp_all


theorem same_binding_refl (G G' : List Symbol) (o : Option Symbol) : same_binding G G' o o :=
  Or.inl rfl

theorem same_binding_scoped {G G' : List Symbol}
    (hl : ∀ x, same_binding G G' (layer_lookup G x) (layer_lookup G' x))
    (blocks : List (List Symbol)) (P : List Symbol) (x : String) :
    same_binding G G' (scoped_symbol blocks P G x) (scoped_symbol blocks P G' x) := by
  unfold scoped_symbol
  cases blocks.find? (fun scope => (layer_lookup scope x).isSome) with
  | some scope => exact Or.inl rfl
  | none =>
    cases layer_lookup P x with
    | some s => exact Or.inl rfl
    | none => exact hl x

theorem forall₂_same_binding_append {G G' : List Symbol} {a a' b b' : List (Option Symbol)}
    (h1 : List.Forall₂ (same_binding G G') a a') (h2 : List.Forall₂ (same_binding G G') b b') :
    List.Forall₂ (same_binding G G') (a ++ b) (a' ++ b') := by
  induction h1 with
  | nil => exact h2
  | cons h _ ih => exact List.Forall₂.cons h ih

theorem expected_links_list_same_binding {G G' : List Symbol} (P : List Symbol)
    (cs : List Node)
    (ih : ∀ c ∈ cs, ∀ blocks next, List.Forall₂ (same_binding G G')
      (expected_links G P blocks next c) (expected_links G' P blocks next c)) :
    ∀ blocks next, List.Forall₂ (same_binding G G')
      (expected_links_list G P blocks next cs) (expected_links_list G' P blocks next cs) := by
  induction cs with
  | nil =>
    intro blocks next
    rw [expected_links_list, expected_links_list]
    exact List.Forall₂.nil
  | cons c cs ihl =>
    intro blocks next
    rw [expected_links_list, expected_links_list]
    exact forall₂_same_binding_append (ih c (List.mem_cons_self _ _) blocks next)
      (ihl (fun x hx => ih x (List.mem_cons_of_mem _ hx)) blocks _)

/-- The links that the scoping rule gives to the identifier occurrences of a
tree are the same bindings for two global tables whose lookups are the same
bindings. -/
theorem expected_links_same_binding {G G' : List Symbol}
    (hl : ∀ x, same_binding G G' (layer_lookup G x) (layer_lookup G' x))
    (P : List Symbol) (n : Node) :
    ∀ blocks next, List.Forall₂ (same_binding G G')
      (expected_links G P blocks next n) (expected_links G' P blocks next n) := by
  induction n using Node.induction with
  | h t d cs sy ih =>
    intro blocks next
    rcases walk_cases t cs with rfl | rfl | ⟨rfl, dl, body, rfl⟩ | ⟨rfl, rfl⟩ |
      ⟨rfl, first, rest, rfl, hrest⟩ | ⟨h1, h2, h3⟩
    · cases d with
      | str x =>
        rw [expected_links, expected_links]
        exact List.Forall₂.cons (same_binding_scoped hl blocks P x) List.Forall₂.nil
      | null =>
        rw [expected_links, expected_links]
        · exact List.Forall₂.cons (Or.inl rfl) List.Forall₂.nil
        all_goals intro _ h; cases h
      | num v =>
        rw [expected_links, expected_links]
        · exact List.Forall₂.cons (Or.inl rfl) List.Forall₂.nil
        all_goals intro _ h; cases h
    · rw [expected_links, expected_links]
      exact List.Forall₂.nil
    · rw [expected_links, expected_links]
      exact ih body (by simp) _ _
    · rw [expected_links, expected_links]
      exact List.Forall₂.nil
    · rw [expected_links_block1 _ _ _ _ _ _ _ _ hrest, expected_links_block1 _ _ _ _ _ _ _ _ hrest]
      exact ih first (by simp) _ _
    · rw [expected_links_other _ _ _ _ _ _ _ _ h1 h2 h3,
        expected_links_other _ _ _ _ _ _ _ _ h1 h2 h3]
      exact expected_links_list_same_binding P cs ih _ _

theorem same_binding_ne_none {G G' : List Symbol} {l l' : List (Option Symbol)}
    (h : List.Forall₂ (same_binding G G') l l') (hn : ∀ o ∈ l, o ≠ none) :
    ∀ o ∈ l', o ≠ none := by
  induction h with
  | nil => intro o ho; cases ho
  | @cons a b l l' hab _ ih =>
    intro o ho
    rcases List.mem_cons.1 ho with rfl | ho
    · rcases hab with rfl | ⟨s, s', -, rfl, -⟩
      · exact hn _ (List.mem_cons_self _ _)
      · simp
    · exact ih (fun x hx => hn x (List.mem_cons_of_mem _ hx)) o ho

/-- Lookups in two global tables that hold the same names with the same kinds
(in any order, each name once) are the same bindings. -/
theorem layer_lookup_same_binding {G G' : List Symbol}
    (hp : (G.map (fun s => (s.name, s.type))).Perm (G'.map (fun s => (s.name, s.type))))
    (hn' : (G'.map (fun s => s.name)).Nodup) (x : String) :
    same_binding G G' (layer_lookup G x) (layer_lookup G' x) := by
  have hnames : (G.map (fun s => s.name)).Perm (G'.map (fun s => s.name)) := by
    have := hp.map Prod.fst
    simpa [List.map_map, Function.comp_def] using this
  cases h : layer_lookup G x with
  | none =>
    have : layer_lookup G' x = none := by
      rw [layer_lookup_eq_none] at h ⊢
      intro hx
      exact h (hnames.mem_iff.2 hx)
    rw [this]
    exact Or.inl rfl
  | some s =>
    have hs := layer_lookup_mem h
    have hx := layer_lookup_name h
    have hm : (s.name, s.type) ∈ G'.map (fun s => (s.name, s.type)) :=
      hp.mem_iff.1 (List.mem_map.2 ⟨s, hs, rfl⟩)
    obtain ⟨s', hs', he⟩ := List.mem_map.1 hm
    simp only [Prod.mk.injEq] at he
    have h' := layer_lookup_of_mem hs' hn'
    rw [he.1, hx] at h'
    rw [h']
    exact Or.inr ⟨s, s', rfl, rfl, hs, hs', he.1.symm, he.2.symm⟩


theorem mem_function_bodies {g : List global_symbol_t} {e : global_symbol_t} {a b body : Node}
    (he : e ∈ g) (hf : e.symbol.type = .SYMBOL_FUNCTION) (hc : e.node.children = [a, b, body]) :
    body ∈ function_bodies g := by
  induction g with
  | nil => cases he
  | cons entry rest ih =>
    rcases List.mem_cons.1 he with rfl | hm
    · rw [function_bodies_cons_function e hf hc]
      exact List.mem_cons_self _ _
    · rw [function_bodies]
      split_ifs
      · split
        · exact List.mem_cons_of_mem _ (ih hm)
        · exact ih hm
      · exact ih hm

/-- The global table exists for every order of the top-level definitions for
which it exists for one, and holds the same names with the same kinds. -/
theorem find_globals_perm {root root' : Node} {g : List global_symbol_t}
    (hp : root.children.Perm root'.children) (hg : find_globals root = some g) :
    ∃ g', find_globals root' = some g' ∧
      (g.map (fun e => (e.symbol.name, e.symbol.type))).Perm
        (g'.map (fun e => (e.symbol.name, e.symbol.type))) := by
  obtain ⟨hk, hw⟩ := find_globals_loop_kinds root.children [] g hg
  have hnd := (find_globals_spec hg).2.1
  have hkn := map_names_of_kinds hk
  have hperm : ((root.children.map global_kinds_of).flatten).Perm
      ((root'.children.map global_kinds_of).flatten) := (hp.map _).flatten
  rw [hkn] at hnd
  have hnd' : (([] : List global_symbol_t).map (fun e => e.symbol.name) ++
      ((root'.children.map global_kinds_of).flatten).map Prod.fst).Nodup :=
    ((List.Perm.append_left _ (hperm.map Prod.fst)).nodup_iff).1 hnd
  obtain ⟨g', hg'⟩ := find_globals_loop_succeeds root'.children []
    (fun n hn => hw n (hp.mem_iff.2 hn)) hnd'
  refine ⟨g', hg', ?_⟩
  obtain ⟨hk', -⟩ := find_globals_loop_kinds root'.children [] g' hg'
  rw [hk, hk']
  exact List.Perm.append_left _ hperm

/-- The entry of a function is found, with the same defining node, in the
global table of every order of the top-level definitions. -/
theorem find_globals_perm_function {root root' : Node} {g g' : List global_symbol_t}
    (hp : root.children.Perm root'.children) (hg : find_globals root = some g)
    (hg' : find_globals root' = some g') {e : global_symbol_t} (he : e ∈ g)
    (hf : e.symbol.type = .SYMBOL_FUNCTION) :
    ∃ e' ∈ g', e'.symbol.name = e.symbol.name ∧ e'.symbol.type = .SYMBOL_FUNCTION ∧
      e'.node = e.node := by
  have h1 : (e.symbol.name, e.node) ∈
      (function_symbols g).map (fun e => (e.symbol.name, e.node)) :=
    List.mem_map.2 ⟨e, List.mem_filter.2 ⟨he, by simpa using hf⟩, rfl⟩
  rw [find_globals_functions hg] at h1
  have hpf : (function_definitions root).Perm (function_definitions root') := hp.filter _
  have h2 := ((hpf.map (fun n => (definition_name n, n))).mem_iff).1 h1
  rw [← find_globals_functions hg'] at h2
  obtain ⟨e', he', heq⟩ := List.mem_map.1 h2
  simp only [Prod.mk.injEq] at heq
  obtain ⟨hm, ht⟩ := List.mem_filter.1 he'
  exact ⟨e', hm, heq.1, by simpa using ht, heq.2⟩

theorem function_links_same_binding {G G' : List Symbol}
    (hl : ∀ x, same_binding G G' (layer_lookup G x) (layer_lookup G' x))
    {e e' : global_symbol_t} (hf : e.symbol.type = .SYMBOL_FUNCTION)
    (hf' : e'.symbol.type = .SYMBOL_FUNCTION) (hn : e'.node = e.node) :
    List.Forall₂ (same_binding G G') (function_links G e) (function_links G' e') := by
  unfold function_links
  rw [if_pos hf, if_pos hf', hn]
  split
  · exact expected_links_same_binding hl _ _ _ _
  · exact List.Forall₂.nil

theorem function_links_of_other (G : List Symbol) {e : global_symbol_t}
    (hf : e.symbol.type ≠ .SYMBOL_FUNCTION) : function_links G e = [] := by
  unfold function_links
  rw [if_neg hf]

/-- Resolution succeeds for every order of the top-level definitions for which
it succeeds for one. -/
theorem create_tables_perm_succeeds {root root' : Node} {g g' : List global_symbol_t}
    {st : tables} (hp : root.children.Perm root'.children)
    (hg : find_globals root = some g) (hg' : find_globals root' = some g')
    (hl : ∀ x, same_binding (g.map (fun e => e.symbol)) (g'.map (fun e => e.symbol))
      (layer_lookup (g.map (fun e => e.symbol)) x)
      (layer_lookup (g'.map (fun e => e.symbol)) x))
    (h : create_tables root = some st) : ∃ st', create_tables root' = some st' := by
  refine (create_tables_eq_some_iff hg').2
    (bind_loop_succeeds _ g' (find_globals_spec hg').2.2 ?_ ?_ [])
  · intro body hb
    obtain ⟨e', he', hf', a, b, hc⟩ := function_bodies_mem hb
    obtain ⟨e, he, -, hf, hn⟩ := find_globals_perm_function hp.symm hg' hg he' hf'
    exact create_tables_bodies_valid hg h body (mem_function_bodies he hf (by rw [hn]; exact hc))
  · intro e' he'
    by_cases hf' : e'.symbol.type = .SYMBOL_FUNCTION
    · obtain ⟨e, he, -, hf, hn⟩ := find_globals_perm_function hp.symm hg' hg he' hf'
      exact same_binding_ne_none (function_links_same_binding hl hf hf' hn.symm)
        (create_tables_links_present hg h e he)
    · rw [function_links_of_other _ hf']
      intro o ho
      cases ho

/-- C32: resolution in function bodies does not depend on the textual order of
the top-level definitions.  When `create_tables` succeeds on a program, every
global symbol is found under its name in the complete global table, wherever
its definition stands, so an identifier of a body whose name no enclosing block
and no parameter declares is given that symbol; and for every reordering of the
top-level definitions `create_tables` succeeds too, the global table holds the
same names with the same kinds, and the identifier occurrences of the bound
body of every function carry, in walk order, the same bindings (the symbol of a
block or of a parameter is the same symbol, a global symbol has the same name
and the same kind; its sequence number is its position in the table). -/
theorem create_tables_order_independent (root root' : Node) (g : List global_symbol_t)
    (st : tables) (hp : root.children.Perm root'.children)
    (hg : find_globals root = some g) (h : create_tables root = some st) :
    (∀ e ∈ g, ∀ (blocks : List (List Symbol)) (P : List Symbol),
      (∀ scope ∈ blocks, layer_lookup scope e.symbol.name = none) →
      layer_lookup P e.symbol.name = none →
      scoped_symbol blocks P (g.map (fun e => e.symbol)) e.symbol.name = some e.symbol) ∧
    ∃ g' st', find_globals root' = some g' ∧ create_tables root' = some st' ∧
      (g.map (fun e => (e.symbol.name, e.symbol.type))).Perm
        (g'.map (fun e => (e.symbol.name, e.symbol.type))) ∧
      ∀ b ∈ st.global_symbols, b.symbol.type = .SYMBOL_FUNCTION →
        ∃ b' ∈ st'.global_symbols, b'.symbol.name = b.symbol.name ∧
          b'.symbol.type = .SYMBOL_FUNCTION ∧
          ∃ t d identifier parameter_list body body' sy,
            b.node = .mk t d [identifier, parameter_list, body] sy ∧
            b'.node = .mk t d [identifier, parameter_list, body'] sy ∧
            List.Forall₂
              (same_binding (g.map (fun e => e.symbol)) (g'.map (fun e => e.symbol)))
              ((visited_identifiers body).map Node.symbol)
              ((visited_identifiers body').map Node.symbol) := by
  have hnd : ((g.map (fun e => e.symbol)).map (fun s => s.name)).Nodup := by
    simpa [List.map_map, Function.comp_def] using (find_globals_spec hg).2.1
  refine ⟨?_, ?_⟩
  · intro e he blocks P hb hP
    unfold scoped_symbol
    have hnone : blocks.find? (fun scope => (layer_lookup scope e.symbol.name).isSome) = none :=
      List.find?_eq_none.2 (fun scope hs => by rw [hb scope hs]; simp)
    rw [hnone, hP]
    exact layer_lookup_of_mem (List.mem_map.2 ⟨e, he, rfl⟩) hnd
  · obtain ⟨g', hg', hperm⟩ := find_globals_perm hp hg
    have hnd' : ((g'.map (fun e => e.symbol)).map (fun s => s.name)).Nodup := by
      simpa [List.map_map, Function.comp_def] using (find_globals_spec hg').2.1
    have hl : ∀ x, same_binding (g.map (fun e => e.symbol)) (g'.map (fun e => e.symbol))
        (layer_lookup (g.map (fun e => e.symbol)) x)
        (layer_lookup (g'.map (fun e => e.symbol)) x) := by
      intro x
      refine layer_lookup_same_binding ?_ hnd' x
      simpa [List.map_map, Function.comp_def] using hperm
    obtain ⟨st', h'⟩ := create_tables_perm_succeeds hp hg hg' hl h
    refine ⟨g', st', hg', h', hperm, ?_⟩
    intro b hb hfb
    obtain ⟨e, he, hbe⟩ := forall₂_mem_right (create_tables_entries hg h) hb
    have hf : e.symbol.type = .SYMBOL_FUNCTION := by
      by_contra hne
      rw [hbe.2 hne] at hfb
      exact hne hfb
    obtain ⟨t, d, identifier, parameter_list, body0, body, sy, table, hnode, rfl, -, -, -, -, -,
      hlinks, -⟩ := entry_bound_function ((find_globals_spec hg).2.2 e he) hbe hf
    obtain ⟨e', he', hname, hf', hn⟩ := find_globals_perm_function hp hg hg' he hf
    obtain ⟨b', hb', hbe'⟩ := forall₂_mem_left (create_tables_entries hg' h') he'
    obtain ⟨t', d', identifier', parameter_list', body0', body', sy', table', hnode', rfl, -, -,
      -, -, -, hlinks', -⟩ := entry_bound_function ((find_globals_spec hg').2.2 e' he') hbe' hf'
    rw [hn, hnode] at hnode'
    simp only [Node.mk.injEq, List.cons.injEq, and_true] at hnode'
    obtain ⟨rfl, rfl, ⟨rfl, rfl, rfl⟩, rfl⟩ := hnode'
    refine ⟨_, hb', hname, hf', t, d, identifier, parameter_list, body, body', sy, rfl, rfl, ?_⟩
    rw [hlinks, hlinks']
    exact function_links_same_binding hl hf hf' hn

/-- Witness for C32: `f`, whose body is `v := h(p) + a[0]`, stands before the
definitions of `v`, `a` and `h` in one program and after them in the other; in
both the occurrences of the body are bound to the global variable `v`, the
function `h`, the parameter `p` (twice) and the global array `a`. -/
theorem create_tables_order_independent_witness :
    find_globals example_use_before_definition = some example_use_before_globals ∧
    create_tables example_use_before_definition = some example_use_before_tables ∧
    bound_links example_use_before_tables =
      [[some ⟨"v", .SYMBOL_GLOBAL_VAR, 1⟩, some ⟨"h", .SYMBOL_FUNCTION, 3⟩,
        some ⟨"p", .SYMBOL_PARAMETER, 0⟩, some ⟨"a", .SYMBOL_GLOBAL_ARRAY, 2⟩],
       [some ⟨"q", .SYMBOL_PARAMETER, 0⟩]] ∧
    ((create_tables example_use_after_definition).map bound_links) =
      some [[some ⟨"q", .SYMBOL_PARAMETER, 0⟩],
       [some ⟨"v", .SYMBOL_GLOBAL_VAR, 0⟩, some ⟨"h", .SYMBOL_FUNCTION, 2⟩,
        some ⟨"p", .SYMBOL_PARAMETER, 0⟩, some ⟨"a", .SYMBOL_GLOBAL_ARRAY, 1⟩]] ∧
    ((∀ e ∈ example_use_before_globals, ∀ (blocks : List (List Symbol)) (P : List Symbol),
      (∀ scope ∈ blocks, layer_lookup scope e.symbol.name = none) →
      layer_lookup P e.symbol.name = none →
      scoped_symbol blocks P (example_use_before_globals.map (fun e => e.symbol))
        e.symbol.name = some e.symbol) ∧
    ∃ g' st', find_globals example_use_after_definition = some g' ∧
      create_tables example_use_after_definition = some st' ∧
      (example_use_before_globals.map (fun e => (e.symbol.name, e.symbol.type))).Perm
        (g'.map (fun e => (e.symbol.name, e.symbol.type))) ∧
      ∀ b ∈ example_use_before_tables.global_symbols, b.symbol.type = .SYMBOL_FUNCTION →
        ∃ b' ∈ st'.global_symbols, b'.symbol.name = b.symbol.name ∧
          b'.symbol.type = .SYMBOL_FUNCTION ∧
          ∃ t d identifier parameter_list body body' sy,
            b.node = .mk t d [identifier, parameter_list, body] sy ∧
            b'.node = .mk t d [identifier, parameter_list, body'] sy ∧
            List.Forall₂
              (same_binding (example_use_before_globals.map (fun e => e.symbol))
                (g'.map (fun e => e.symbol)))
              ((visited_identifiers body).map Node.symbol)
              ((visited_identifiers body').map Node.symbol)) :=
  ⟨by decide, by decide, by decide, by decide,
    create_tables_order_independent example_use_before_definition
      example_use_after_definition example_use_before_globals example_use_before_tables
      (List.perm_append_comm :
        ([example_order_function] ++ example_order_definitions).Perm
          (example_order_definitions ++ [example_order_function])) (by decide) (by decide)⟩


/-! ## The inverse jump in the output (C19) -/

theorem generate_relation_output {G : List global_symbol_t} {cf : global_symbol_t}
    {st st' : gen_state} {relation : Node} (h : generate_relation G cf st relation = .ok st') :
    ∃ left right cL cR, relation.children = [left, right] ∧
      generate_expression G cf st left = .ok (emit_all st cL) ∧
      generate_expression G cf (emit (emit_all st cL) (.pushq (.reg .RAX))) right =
        .ok (emit_all (emit (emit_all st cL) (.pushq (.reg .RAX))) cR) ∧
      st' = emit_all st (cL ++ [.pushq (.reg .RAX)] ++ cR ++
        [.popq (.reg .R10), .cmpq (.reg .RAX) (.reg .R10)]) := by
  obtain ⟨t, d, cs, sy⟩ := relation
  rcases cs with _ | ⟨l, _ | ⟨r, _ | ⟨x, tail⟩⟩⟩
  · simp [generate_relation] at h
  · simp [generate_relation] at h
  · obtain ⟨st1, st2, h1, h2, rfl⟩ := generate_relation_spec h
    obtain ⟨cL, rfl, -⟩ := generate_expression_unmarked h1
    obtain ⟨cR, rfl, -⟩ := generate_expression_unmarked h2
    refine ⟨l, r, cL, cR, rfl, h1, h2, ?_⟩
    simp [emit, emit_all]
  · simp [generate_relation] at h

theorem generate_block_statement_appends {G : List global_symbol_t} {cf : global_symbol_t}
    {st st' : gen_state} {cs : List Node}
    (h : generate_block_statement G cf st cs = .ok st') :
    ∃ code, st'.output = st.output ++ code := by
  obtain ⟨code, _, ho, -⟩ := generate_block_statement_post G cf cs
    (fun c _ s _ => generate_statement_post G cf s) st st' h
  exact ⟨code, ho⟩

theorem generate_else_appends {G : List global_symbol_t} {cf : global_symbol_t}
    {st st' : gen_state} {k : Int} {rest : List Node}
    (h : generate_else G cf st k rest = .ok st') :
    ∃ cE, st'.output = st.output ++ cE ++ [.label (.numbered "endif" k)] := by
  rcases rest with _ | ⟨else_statement, tail⟩
  · rw [generate_else] at h
    simp only [gen_result.ok.injEq] at h
    subst h
    exact ⟨[], by simp [emit]⟩
  · rw [generate_else] at h
    cases h5 : generate_statement G cf st else_statement with
    | error e st5 => rw [h5] at h; cases h
    | ok st5 =>
      rw [h5] at h
      simp only [gen_result.ok.injEq] at h
      subst h
      obtain ⟨cE, oE⟩ := generate_statement_appends h5
      exact ⟨cE, by simp [emit, oE]⟩

/-- C19: an `if` statement entered with the if-counter `N` (a `while` statement
entered with the while-counter `N`) that is generated successfully has written
`if<N>` (`while<N>`), the code of the left operand of its relation, `pushq
%rax`, the code of the right operand, `popq %r10`, `cmpq %rax, %r10` and then
one jump `j` to `else<N>` (`endwhile<N>`), followed by the code of the
then-branch (the block); the jump `j` that stands at that place of the output
is the one of the inverse mapping for the operator of the relation (`=`
jump-not-equal, `!=` jump-equal, `<` jump-greater-or-equal, `>`
jump-less-or-equal).  After that compare, with the left value in `%r10` and the
right one in `%rax`, the jump of the mapping is taken exactly when `left op
right` is false under signed comparison; and for constant operands the whole
relation code, run from any machine state, leaves the stack as it was and makes
the jump taken exactly when the relation of the two values is false. -/
theorem relation_jump_written_and_taken_iff_false :
    (∀ G cf st st' d relation then_statement rest sy,
      generate_statement G cf st
          (.mk .IF_STATEMENT d (relation :: then_statement :: rest) sy) = .ok st' →
      ∃ left right text j cL cR cT cE st3,
        relation.children = [left, right] ∧ relation.data = .str text ∧
        is_inverse_jump text (.numbered "else" st.if_counter) j ∧
        st'.output = st.output ++
          ([.label (.numbered "if" st.if_counter)] ++ cL ++ [.pushq (.reg .RAX)] ++ cR ++
            [.popq (.reg .R10), .cmpq (.reg .RAX) (.reg .R10), j] ++ cT ++
            [.jmp (.numbered "endif" st.if_counter),
              .label (.numbered "else" st.if_counter)] ++
            cE ++ [.label (.numbered "endif" st.if_counter)]) ∧
        generate_expression G cf
            (emit ⟨st.output, st.while_counter, st.if_counter + 1⟩
              (.label (.numbered "if" st.if_counter))) left =
          .ok (emit_all (emit ⟨st.output, st.while_counter, st.if_counter + 1⟩
            (.label (.numbered "if" st.if_counter))) cL) ∧
        generate_expression G cf
            (emit (emit_all (emit ⟨st.output, st.while_counter, st.if_counter + 1⟩
              (.label (.numbered "if" st.if_counter))) cL) (.pushq (.reg .RAX))) right =
          .ok (emit_all (emit (emit_all (emit ⟨st.output, st.while_counter, st.if_counter + 1⟩
            (.label (.numbered "if" st.if_counter))) cL) (.pushq (.reg .RAX))) cR) ∧
        generate_statement G cf
            (emit (emit_all (emit ⟨st.output, st.while_counter, st.if_counter + 1⟩
              (.label (.numbered "if" st.if_counter)))
              (cL ++ [.pushq (.reg .RAX)] ++ cR ++
                [.popq (.reg .R10), .cmpq (.reg .RAX) (.reg .R10)])) j) then_statement =
          .ok st3 ∧
        st3.output = st.output ++
          ([.label (.numbered "if" st.if_counter)] ++ cL ++ [.pushq (.reg .RAX)] ++ cR ++
            [.popq (.reg .R10), .cmpq (.reg .RAX) (.reg .R10), j] ++ cT)) ∧
    (∀ G cf st st' d relation block sy,
      generate_statement G cf st (.mk .WHILE_STATEMENT d [relation, block] sy) = .ok st' →
      ∃ left right text j cL cR cB st3,
        relation.children = [left, right] ∧ relation.data = .str text ∧
        is_inverse_jump text (.numbered "endwhile" st.while_counter) j ∧
        st'.output = st.output ++
          ([.label (.numbered "while" st.while_counter)] ++ cL ++ [.pushq (.reg .RAX)] ++
            cR ++ [.popq (.reg .R10), .cmpq (.reg .RAX) (.reg .R10), j] ++ cB ++
            [.jmp (.numbered "while" st.while_counter),
              .label (.numbered "endwhile" st.while_counter)]) ∧
        generate_expression G cf
            (emit ⟨st.output, st.while_counter + 1, st.if_counter⟩
              (.label (.numbered "while" st.while_counter))) left =
          .ok (emit_all (emit ⟨st.output, st.while_counter + 1, st.if_counter⟩
            (.label (.numbered "while" st.while_counter))) cL) ∧
        generate_expression G cf
            (emit (emit_all (emit ⟨st.output, st.while_counter + 1, st.if_counter⟩
              (.label (.numbered "while" st.while_counter))) cL) (.pushq (.reg .RAX))) right =
          .ok (emit_all (emit (emit_all (emit ⟨st.output, st.while_counter + 1, st.if_counter⟩
            (.label (.numbered "while" st.while_counter))) cL) (.pushq (.reg .RAX))) cR) ∧
        generate_block_statement G cf
            (emit (emit_all (emit ⟨st.output, st.while_counter + 1, st.if_counter⟩
              (.label (.numbered "while" st.while_counter)))
              (cL ++ [.pushq (.reg .RAX)] ++ cR ++
                [.popq (.reg .R10), .cmpq (.reg .RAX) (.reg .R10)])) j) block.children =
          .ok st3 ∧
        st3.output = st.output ++
          ([.label (.numbered "while" st.while_counter)] ++ cL ++ [.pushq (.reg .RAX)] ++
            cR ++ [.popq (.reg .R10), .cmpq (.reg .RAX) (.reg .R10), j] ++ cB)) ∧
    (∀ G cf st st' t d left right sy,
      generate_relation G cf st (.mk t d [left, right] sy) = .ok st' →
      ∃ st1 st2, generate_expression G cf st left = .ok st1 ∧
        generate_expression G cf (emit st1 (.pushq (.reg .RAX))) right = .ok st2 ∧
        st' = emit (emit st2 (.popq (.reg .R10))) (.cmpq (.reg .RAX) (.reg .R10))) ∧
    (∀ text target j, is_inverse_jump text target j → ∀ m : machine,
      (execute m (.cmpq (.reg .RAX) (.reg .R10))).bind (fun m1 => jump_taken m1 j) =
        (relation_holds text (m.regs .R10) (m.regs .RAX)).map (fun holds => !holds) ∧
      (relation_holds text (m.regs .R10) (m.regs .RAX)).isSome = true) ∧
    (∀ text target j (l r : Arith), is_inverse_jump text target j →
      l.operators_only → l.leaves_int64 → l.no_trap →
      r.operators_only → r.leaves_int64 → r.no_trap →
      (∀ G cf st,
        generate_relation G cf st (node_init .RELATION (.str text) [l.toNode, r.toNode]) =
          .ok (emit_all st (relation_code l r))) ∧
      ∀ m : machine, ∃ m1, run m (relation_code l r) = some m1 ∧ m1.stack = m.stack ∧
        jump_taken m1 j = (relation_holds text l.value r.value).map (fun holds => !holds) ∧
        (relation_holds text l.value r.value).isSome = true) := by
  refine ⟨?_, ?_, ?_, ?_, ?_⟩
  · intro G cf st st' d relation then_statement rest sy h
    obtain ⟨st1, st2, st3, h1, h2, h3, h4⟩ := generate_if_statement_spec h
    obtain ⟨left, right, cL, cR, hcs, hl, hr, rfl⟩ := generate_relation_output h1
    obtain ⟨text, j, hd, hj, rfl⟩ := inverse_jump_eq_ok h2
    obtain ⟨cT, oT⟩ := generate_statement_appends h3
    obtain ⟨cE, oE⟩ := generate_else_appends h4
    refine ⟨left, right, text, j, cL, cR, cT, cE, st3, hcs, hd, hj, ?_, hl, hr, h3, ?_⟩
    · rw [oE]
      simp [emit, emit_all, oT]
    · rw [oT]
      simp [emit, emit_all]
  · intro G cf st st' d relation block sy h
    obtain ⟨st1, st2, st3, h1, h2, h3, rfl⟩ := generate_while_statement_spec h
    obtain ⟨left, right, cL, cR, hcs, hl, hr, rfl⟩ := generate_relation_output h1
    obtain ⟨text, j, hd, hj, rfl⟩ := inverse_jump_eq_ok h2
    obtain ⟨cB, oB⟩ := generate_block_statement_appends h3
    refine ⟨left, right, text, j, cL, cR, cB, st3, hcs, hd, hj, ?_, hl, hr, h3, ?_⟩
    · simp [emit, emit_all, oB]
    · rw [oB]
      simp [emit, emit_all]
  · intro G cf st st' t d left right sy h
    exact generate_relation_spec h
  · intro text target j hj m
    have hc : execute m (.cmpq (.reg .RAX) (.reg .R10)) =
        some ⟨m.regs, m.stack, some (m.regs .R10, m.regs .RAX)⟩ := by
      simp [execute, Reg.is_data, machine.read]
    rw [hc]
    exact is_inverse_jump_taken hj _ _ _ rfl
  · intro text target j l r hj hol hrl htl hor hrr htr
    refine ⟨fun G cf st => generate_relation_arith G cf st text l r hol hor, fun m => ?_⟩
    obtain ⟨m1, r1, a10, aax, s1⟩ := run_relation_code l r hrl htl hrr htr m
    refine ⟨⟨m1.regs, m1.stack, some (l.value, r.value)⟩, ?_, s1, ?_⟩
    · have e : relation_code l r =
          (l.code ++ [.pushq (.reg .RAX)] ++ r.code ++ [.popq (.reg .R10)]) ++
            [.cmpq (.reg .RAX) (.reg .R10)] := by
        simp [relation_code]
      rw [e, run_append_some r1]
      simp [run, execute, Reg.is_data, machine.read, a10, aax]
    · exact is_inverse_jump_taken hj _ _ _ rfl

/-- C19, at `if 1 < 2 then print 1`: the jump written after the compare is
`jge else0`; after the relation code of `1 < 2` it is not taken, the relation
being true; at `2 < 1` it is taken. -/
theorem relation_jump_written_and_taken_iff_false_witness :
    generate_statement [] example_seven_callee example_gen_state example_if_statement =
      .ok ⟨[.label (.numbered "if" 0),
          .movq (.imm 1) (.reg .RAX), .pushq (.reg .RAX), .movq (.imm 2) (.reg .RAX),
          .popq (.reg .R10), .cmpq (.reg .RAX) (.reg .R10),
          .jge (.numbered "else" 0),
          .movq (.imm 1) (.reg .RAX), .movq (.reg .RAX) (.reg .RSI),
          .leaq_string .intout .RDI, .call (.plain "safe_printf"),
          .movq (.imm 10) (.reg .RDI), .call (.plain "putchar"),
          .jmp (.numbered "endif" 0), .label (.numbered "else" 0),
          .label (.numbered "endif" 0)], 0, 1⟩ ∧
    (∀ m : machine, ∃ m1, run m (relation_code (.num 1) (.num 2)) = some m1 ∧
      m1.stack = m.stack ∧
      jump_taken m1 (.jge (.numbered "else" 0)) =
        (relation_holds "<" (Arith.num 1).value (Arith.num 2).value).map
          (fun holds => !holds) ∧
      (relation_holds "<" (Arith.num 1).value (Arith.num 2).value).isSome = true) ∧
    (relation_holds "<" (Arith.num 1).value (Arith.num 2).value).map (fun holds => !holds) =
      some false ∧
    (relation_holds "<" (Arith.num 2).value (Arith.num 1).value).map (fun holds => !holds) =
      some true :=
  ⟨by decide,
    (relation_jump_written_and_taken_iff_false.2.2.2.2 "<" (.numbered "else" 0)
      (.jge (.numbered "else" 0)) (.num 1) (.num 2)
      (Or.inr (Or.inr (Or.inl ⟨rfl, rfl⟩))) trivial (by unfold Arith.leaves_int64 int64; decide)
      trivial trivial (by unfold Arith.leaves_int64 int64; decide) trivial).2,
    by decide, by decide⟩


/-! ## Stack arguments from the call to the callee (C25) -/

theorem call_step_of_execute {c c1 : machine} {i : Instr} (f : Nat) (ra : Int)
    (h : execute c i = some c1) : call_step ra ⟨c, f⟩ i = some ⟨c1, f⟩ := by
  unfold call_step
  split <;> simp_all [execute, machine.read, Reg.is_data]

theorem call_run_of_run (ra : Int) (f : Nat) (code : List Instr) :
    ∀ c c1 : machine, run c code = some c1 → call_run ra ⟨c, f⟩ code = some ⟨c1, f⟩ := by
  induction code with
  | nil =>
    intro c c1 h
    rw [run] at h
    simp only [Option.some.injEq] at h
    subst h
    rfl
  | cons i rest ih =>
    intro c c1 h
    rw [run] at h
    cases he : execute c i with
    | none => rw [he] at h; cases h
    | some c2 =>
      rw [he] at h
      rw [call_run, call_step_of_execute f ra he]
      exact ih c2 c1 h

theorem call_run_append (ra : Int) (a b : List Instr) :
    ∀ m : call_machine, call_run ra m (a ++ b) = (call_run ra m a).bind (fun m1 => call_run ra m1 b) := by
  induction a with
  | nil => intro m; rfl
  | cons i rest ih =>
    intro m
    rw [List.cons_append, call_run, call_run]
    cases call_step ra m i with
    | none => rfl
    | some m1 => exact ih m1

theorem call_run_append_some {ra : Int} {a b : List Instr} {m m1 : call_machine}
    (h : call_run ra m a = some m1) : call_run ra m (a ++ b) = call_run ra m1 b := by
  rw [call_run_append, h]
  rfl

/-- Pushes of data registers and of constants leave the frame pointer and what
lies on the stack as they are. -/
theorem call_run_pushes (ra : Int) (code : List Instr)
    (h : ∀ i ∈ code, (∃ r, i = .pushq (.reg r) ∧ r.is_data = true) ∨ ∃ v, i = .pushq (.imm v)) :
    ∀ m : call_machine, ∃ m1 extra, call_run ra m code = some m1 ∧ m1.frame = m.frame ∧
      m1.core.stack = extra ++ m.core.stack := by
  induction code with
  | nil => intro m; exact ⟨m, [], rfl, rfl, rfl⟩
  | cons i rest ih =>
    intro m
    have hstep : ∃ v, call_step ra m i =
        some ⟨⟨m.core.regs, v :: m.core.stack, m.core.compared⟩, m.frame⟩ := by
      rcases h i (List.mem_cons_self _ _) with ⟨r, rfl, hr⟩ | ⟨v, rfl⟩
      · refine ⟨m.core.regs r, ?_⟩
        cases r <;> simp_all [call_step, execute, machine.read, Reg.is_data]
      · exact ⟨v, by simp [call_step, execute, machine.read]⟩
    obtain ⟨v, hv⟩ := hstep
    obtain ⟨m1, extra, h1, h2, h3⟩ := ih (fun x hx => h x (List.mem_cons_of_mem _ hx))
      ⟨⟨m.core.regs, v :: m.core.stack, m.core.compared⟩, m.frame⟩
    refine ⟨m1, extra ++ [v], ?_, h2, ?_⟩
    · rw [call_run, hv]
      exact h1
    · rw [h3]
      simp

theorem read_frame_above (extra stack : List Int) (return_address saved_rbp : Int) (k : Nat)
    (hk : k < stack.length) :
    read_frame (extra ++ saved_rbp :: return_address :: stack) (stack.length + 2)
        (16 + (k : Int) * 8) = stack[k]? := by
  unfold read_frame
  have h1 : (16 + (k : Int) * 8) % 8 = 0 := by omega
  have h2 : (0 : Int) ≤ ((stack.length + 2 : Nat) : Int) - 1 - (16 + (k : Int) * 8) / 8 := by
    push_cast; omega
  have h3 : (((stack.length + 2 : Nat) : Int) - 1 - (16 + (k : Int) * 8) / 8).toNat =
      stack.length - 1 - k := by
    push_cast; omega
  rw [if_pos ⟨h1, h2⟩, h3]
  simp only [List.reverse_append, List.reverse_cons, List.append_assoc, List.singleton_append]
  rw [List.getElem?_append_left (by simp; omega), List.getElem?_reverse (by omega)]
  congr 1
  omega

/-- The call and the prologue of the callee: the return address and the saved
frame pointer are pushed on what lay on the stack at the call, the frame
pointer is set to the latter, and the pushes of the register parameters and of
the local variables go on top. -/
theorem call_run_prologue (ra : Int) (name : String) (n : Nat) (table : symbol_table_t)
    (m : call_machine) :
    ∃ m2 extra, call_run ra m (.call (.function name) :: function_prologue name n table) =
        some m2 ∧
      m2.frame = m.core.stack.length + 2 ∧
      m2.core.stack = extra ++ (m.frame : Int) :: ra :: m.core.stack := by
  have hp : ∀ i ∈ (REGISTER_PARAMS.take n).map (fun r => Instr.pushq (.reg r)) ++
      (table.symbols.filter (fun symbol => symbol.type = .SYMBOL_LOCAL_VAR)).map
        (fun _ => Instr.pushq (.imm 0)),
      (∃ r, i = .pushq (.reg r) ∧ r.is_data = true) ∨ ∃ v, i = .pushq (.imm v) := by
    intro i hi
    rcases List.mem_append.1 hi with hi | hi
    · obtain ⟨r, hr, rfl⟩ := List.mem_map.1 hi
      exact Or.inl ⟨r, rfl, register_params_data r (List.mem_of_mem_take hr)⟩
    · obtain ⟨_, -, rfl⟩ := List.mem_map.1 hi
      exact Or.inr ⟨0, rfl⟩
  obtain ⟨m2, extra, h1, h2, h3⟩ := call_run_pushes ra _ hp
    ⟨⟨m.core.regs, (m.frame : Int) :: ra :: m.core.stack, m.core.compared⟩,
      m.core.stack.length + 2⟩
  refine ⟨m2, extra, ?_, h2, h3⟩
  unfold function_prologue
  simp only [List.cons_append, List.nil_append, List.append_assoc, call_run, call_step,
    List.length_cons]
  exact h1


theorem generate_function_prologue {G : List global_symbol_t} {s s' : gen_state}
    {entry : global_symbol_t} {n : Nat} {table : symbol_table_t}
    (hp : FUNC_PARAM_COUNT entry = some n) (ht : entry.function_symtable = some table)
    (h : generate_function G s entry = .ok s') :
    ∃ rest, s'.output = s.output ++ function_prologue entry.symbol.name n table ++ rest := by
  unfold generate_function at h
  simp only [hp, ht] at h
  split at h
  · rename_i a b body tail hc
    cases hb : generate_statement G entry
        (emit_all s (function_prologue entry.symbol.name n table)) body with
    | error e st1 => rw [hb] at h; cases h
    | ok st1 =>
      rw [hb] at h
      simp only [gen_result.ok.injEq] at h
      subst h
      obtain ⟨code, ho⟩ := generate_statement_appends hb
      exact ⟨code ++ [.movq (.imm 0) (.reg .RAX), .movq (.reg .RBP) (.reg .RSP),
        .popq (.reg .RBP), .ret, .directive ""], by simp [emit_all, ho]⟩
  · cases h

/-- C25: a call with `n > 6` arguments whose callee is bound to the function
`entry`.  `generate_function_call` writes the code of the arguments, six pops
into the parameter registers, `call .name` and the release of the `n - 6`
stack arguments; `generate_function` starts the code of the callee with the
label `.name` and its prologue.  If the code of the arguments leaves their
values `vs` on the stack, first argument on top, then at the `call` argument
`i` (`6 ≤ i < n`) lies `(i-6)*8` bytes above the stack pointer; and after the
`call` and the prologue, the load that `generate_expression` writes in the
callee for the parameter with sequence number `i`, `movq 16+(i-6)*8(%rbp),
%rax`, reads argument `i`, whatever the body has pushed since.  For constant
arguments the code written for them does leave their values in that order. -/
theorem stack_argument_read_by_callee (G : List global_symbol_t) (cf : global_symbol_t)
    (st : gen_state) (callee arguments_node : Node) (tail : List Node) (d : Data)
    (sy : Option Symbol) (symbol : Symbol) (entry : global_symbol_t) (table : symbol_table_t)
    (n : Nat) (acode : List Instr) (vs : List Int) (m : call_machine) (return_address : Int)
    (hs : callee.symbol = some symbol) (hf : symbol.type = .SYMBOL_FUNCTION)
    (he : function_entry G symbol = some entry) (hname : entry.symbol.name = symbol.name)
    (hp : FUNC_PARAM_COUNT entry = some n) (ht : entry.function_symtable = some table)
    (hn : 6 < n) (hlen : arguments_node.children.length = n)
    (hg : generate_arguments G cf st arguments_node.children = .ok (emit_all st acode))
    (hr : (call_run return_address m acode).map (fun m0 => m0.core.stack) =
      some (vs ++ m.core.stack))
    (hv : vs.length = n) :
    (generate_function_call G cf st (.mk .EXPRESSION d (callee :: arguments_node :: tail) sy) =
      .ok (emit_all st (acode ++ REGISTER_PARAMS.map (fun r => Instr.popq (.reg r)) ++
        [.call (.function symbol.name),
          .addq (.imm (((n - 6 : Nat) : Int) * 8)) (.reg .RSP)]))) ∧
    (∀ s s', generate_function G s entry = .ok s' →
      ∃ rest, s'.output = s.output ++ function_prologue symbol.name n table ++ rest) ∧
    (function_prologue symbol.name n table).head? = some (.label (.function symbol.name)) ∧
    (∃ m1 m2,
      call_run return_address m (acode ++ REGISTER_PARAMS.map (fun r => Instr.popq (.reg r))) =
        some m1 ∧
      m1.core.stack = vs.drop 6 ++ m.core.stack ∧
      (∀ p ∈ REGISTER_PARAMS.zip vs, m1.core.regs p.1 = p.2) ∧
      (∀ i, 6 ≤ i → i < n →
        read_stack m1.core.stack (((i - 6 : Nat) : Int) * 8) = vs[i]?) ∧
      call_run return_address m1
          (.call (.function symbol.name) :: function_prologue symbol.name n table) = some m2 ∧
      ∀ i, 6 ≤ i → i < n → ∀ d' cs name,
        (∀ s, generate_expression G entry s
            (.mk .IDENTIFIER_DATA d' cs (some ⟨name, .SYMBOL_PARAMETER, i⟩)) =
          .ok (emit s (.movq (.frame (16 + ((i - 6 : Nat) : Int) * 8)) (.reg .RAX)))) ∧
        ∀ regs above compared,
          (call_step return_address ⟨⟨regs, above ++ m2.core.stack, compared⟩, m2.frame⟩
            (.movq (.frame (16 + ((i - 6 : Nat) : Int) * 8)) (.reg .RAX))).map
              (fun m3 => m3.core.regs .RAX) = vs[i]?) ∧
    (∀ (arguments : List Arith) (s : gen_state),
      (∀ a ∈ arguments, a.operators_only ∧ a.leaves_int64 ∧ a.no_trap) →
      generate_arguments G cf s (arguments.map Arith.toNode) =
          .ok (emit_all s (arguments_code (arguments.map Arith.code))) ∧
        ∀ m0 : call_machine,
          (call_run return_address m0 (arguments_code (arguments.map Arith.code))).map
            (fun m1 => m1.core.stack) = some (arguments.map Arith.value ++ m0.core.stack)) := by
  have htake : REGISTER_PARAMS.take n = REGISTER_PARAMS :=
    List.take_of_length_le (by simp [REGISTER_PARAMS]; omega)
  refine ⟨?_, ?_, rfl, ?_, ?_⟩
  · rw [generate_function_call_unfold G cf st callee arguments_node tail d sy symbol entry n
      hs hf he hp hlen, hg]
    simp only [emit_all_emit_all, call_tail, htake, NUM_REGISTER_PARAMS]
    rw [if_pos hn]
    simp
  · intro s s' h
    rw [← hname]
    exact generate_function_prologue hp ht h
  · obtain ⟨m0, hm0, hs0⟩ := Option.map_eq_some'.1 hr
    obtain ⟨c0, f0⟩ := m0
    simp only at hs0
    have hsplit : vs ++ m.core.stack = vs.take 6 ++ (vs.drop 6 ++ m.core.stack) := by
      rw [← List.append_assoc, List.take_append_drop]
    obtain ⟨c1, r1, s1, z1, -⟩ := run_pops REGISTER_PARAMS (vs.take 6) c0
      (vs.drop 6 ++ m.core.stack) register_params_data (by decide)
      (by simp [REGISTER_PARAMS]; omega) (by rw [hs0, hsplit])
    have hrun1 : call_run return_address m
        (acode ++ REGISTER_PARAMS.map (fun r => Instr.popq (.reg r))) = some ⟨c1, f0⟩ := by
      rw [call_run_append_some hm0]
      exact call_run_of_run return_address f0 _ c0 c1 r1
    obtain ⟨m2, extra, p1, p2, p3⟩ := call_run_prologue return_address symbol.name n table
      ⟨c1, f0⟩
    have hget : ∀ i, 6 ≤ i → i < n → (vs.drop 6 ++ m.core.stack)[i - 6]? = vs[i]? := by
      intro i hi1 hi2
      rw [List.getElem?_append_left (by simp only [List.length_drop]; omega),
        List.getElem?_drop]
      congr 1
      omega
    refine ⟨⟨c1, f0⟩, m2, hrun1, s1, ?_, ?_, p1, ?_⟩
    · intro p hp'
      apply z1
      have : REGISTER_PARAMS.zip vs = REGISTER_PARAMS.zip (vs.take 6) :=
        zip_take_length REGISTER_PARAMS vs
      rwa [← this]
    · intro i hi1 hi2
      simp only
      rw [s1, read_stack_index, hget i hi1 hi2]
    · intro i hi1 hi2 d' cs name
      constructor
      · intro s
        rw [generate_expression, generate_variable_access_parameter, if_neg (by omega)]
        simp only
        congr 4
        push_cast [Nat.cast_sub hi1]
        ring
      · intro regs above compared
        have hk : i - 6 < (vs.drop 6 ++ m.core.stack).length := by
          simp only [List.length_append, List.length_drop]; omega
        simp only at p2 p3
        rw [call_step]
        simp only [Reg.is_data, if_true, p2, p3, s1, ← List.append_assoc]
        rw [read_frame_above _ _ _ _ _ hk, hget i hi1 hi2]
        cases vs[i]? <;> simp [machine.set]
  · intro arguments s ha
    have hcodes : List.Forall₂
        (fun a c => ∀ s, generate_expression G cf s a = .ok (emit_all s c))
        (arguments.map Arith.toNode) (arguments.map Arith.code) := by
      rw [List.forall₂_map_left_iff, List.forall₂_map_right_iff]
      exact List.forall₂_same.2 (fun a h => generate_arith G cf a (ha a h).1)
    refine ⟨generate_arguments_codes G cf hcodes s, fun m0 => ?_⟩
    obtain ⟨c1, r1, s1⟩ := run_arguments_arith arguments (fun a h => (ha a h).2.1)
      (fun a h => (ha a h).2.2) m0.core
    obtain ⟨c0, f0⟩ := m0
    rw [call_run_of_run return_address f0 _ c0 c1 r1]
    simp [s1]


/-- C25, at `f(1, 2, 3, 4, 5, 6, 99)` for `def f(a, b, c, d, e, f, g)`: the
code written for the arguments leaves `1 ... 6, 99` on the stack, and after
the pops, the call and the prologue of `f` the load written for `g`,
`movq 16(%rbp), %rax`, reads 99. -/
theorem stack_argument_read_by_callee_witness :
    generate_arguments example_seven_tables.global_symbols example_seven_main
        example_gen_state example_seven_constants.children =
      .ok (emit_all example_gen_state example_seven_pushes) ∧
    (call_run 1234 example_empty_machine example_seven_pushes).map
        (fun m0 => m0.core.stack) = some ([1, 2, 3, 4, 5, 6, 99] ++ []) ∧
    (call_run 1234 example_empty_machine
        (example_seven_pushes ++ REGISTER_PARAMS.map (fun r => Instr.popq (.reg r)) ++
          .call (.function "f") :: function_prologue "f" 7 example_seven_table ++
          [.movq (.frame 16) (.reg .RAX)])).map (fun m3 => m3.core.regs .RAX) = some 99 ∧
    ∃ m1 m2,
      call_run 1234 example_empty_machine
          (example_seven_pushes ++ REGISTER_PARAMS.map (fun r => Instr.popq (.reg r))) =
        some m1 ∧
      m1.core.stack = [1, 2, 3, 4, 5, 6, 99].drop 6 ++ example_empty_machine.core.stack ∧
      (∀ p ∈ REGISTER_PARAMS.zip [1, 2, 3, 4, 5, 6, 99], m1.core.regs p.1 = p.2) ∧
      (∀ i, 6 ≤ i → i < 7 →
        read_stack m1.core.stack (((i - 6 : Nat) : Int) * 8) = [1, 2, 3, 4, 5, 6, 99][i]?) ∧
      call_run 1234 m1
          (.call (.function "f") :: function_prologue "f" 7 example_seven_table) = some m2 ∧
      ∀ i, 6 ≤ i → i < 7 → ∀ d' cs name,
        (∀ s, generate_expression example_seven_tables.global_symbols example_seven_callee s
            (.mk .IDENTIFIER_DATA d' cs (some ⟨name, .SYMBOL_PARAMETER, i⟩)) =
          .ok (emit s (.movq (.frame (16 + ((i - 6 : Nat) : Int) * 8)) (.reg .RAX)))) ∧
        ∀ regs above compared,
          (call_step 1234 ⟨⟨regs, above ++ m2.core.stack, compared⟩, m2.frame⟩
            (.movq (.frame (16 + ((i - 6 : Nat) : Int) * 8)) (.reg .RAX))).map
              (fun m3 => m3.core.regs .RAX) = [1, 2, 3, 4, 5, 6, 99][i]? :=
  ⟨by decide, by decide, by decide,
    (stack_argument_read_by_callee example_seven_tables.global_symbols example_seven_main
      example_gen_state example_seven_identifier example_seven_constants [] (.str "call") none
      ⟨"f", .SYMBOL_FUNCTION, 0⟩ example_seven_callee example_seven_table 7
      example_seven_pushes [1, 2, 3, 4, 5, 6, 99] example_empty_machine 1234
      rfl rfl (by decide) (by decide) (by decide) (by decide) (by decide) (by decide)
      (by decide) (by decide) rfl).2.2.2.1⟩

end Vslc
